import Mathlib

/-! Vector-Database: a verification development.

A shallow embedding of the index algorithms of the repository (Annoy tree and
forest, HNSW graph, Vamana graph, inverted file index, binary tree, k-means
model and product quantizer), of its request framing, of the index catalog and
of its command handlers, followed by theorems about them.

Modelling conventions.

* `float` is modelled by the exact rationals (`Flt`): there is no rounding, no
  infinity and no NaN in the model.  Where the source compares a sum with
  `FLT_MAX`, a sum above `FLT_MAX` counts as the infinity it is in the source.
* An index past the end of a `std::vector` is undefined in the source.  Where
  the model gives such a read a value, the statements assume lengths that keep
  every read inside its vector.
* `std::shared_ptr<Node>` identity is an index into an arena of nodes.
* Every pseudo-random draw (`std::random_device`, `std::mt19937`, `std::rand`,
  `std::shuffle`) is read from an arbitrary stream `Gen`; a statement that
  quantifies over the stream holds for every outcome of the draws.
* `int` values are unbounded integers; a conversion to `size_t` is written
  `toSizeT`, a conversion of a `size_t` to `int` is written `castInt`.
* The library readers `std::stof` and `std::stoi` are parameters of the
  handlers that call them.
-/

namespace VectorDB

/-! ## Scalars, vectors, records -/

/-- The scalar type standing for `float`. -/
abbrev Flt := ℚ

/-- A `std::vector<float>`. -/
abbrev Vec := List Flt

/-- A `std::pair<T, std::vector<float>>`. -/
abbrev Record (K : Type) := K × Vec

/-- Conversion of an `int` to the 64-bit `size_t`. -/
def toSizeT (x : Int) : Nat := (x % 2 ^ 64).toNat

/-- The accumulation loop shared by `defaultDistance` (Distances.hpp) and
`AnnoyTree::calculateSquaredDistance`: `i` runs over the indices of `vec1` and
reads `vec2[i]`.  When `vec2` is at least as long as `vec1` this is the loop of
the source.  Reading `vec2` past its end is undefined in the source; the model
reads `0` there, and a statement about a call that measures a vector supplied
by the caller assumes lengths that keep every read inside `vec2`. -/
def sqDistLoop : Vec → Vec → Flt → Flt
  | [], _, acc => acc
  | x :: xs, ys, acc =>
      sqDistLoop xs ys.tail (acc + (x - ys.headD 0) * (x - ys.headD 0))

/-- Squared Euclidean distance, `defaultDistance` of Distances.hpp. -/
def defaultDistance (vec1 vec2 : Vec) : Flt := sqDistLoop vec1 vec2 0

/-! ## Pseudo-random draws -/

/-- A stream of raw draws together with the number of draws consumed. -/
structure Gen where
  draws : Nat → Nat
  pos : Nat

/-- One draw of `std::uniform_int_distribution<>(lo, hi)`. -/
def Gen.uniform (g : Gen) (lo hi : Nat) : Nat × Gen :=
  (lo + g.draws g.pos % (hi - lo + 1), { g with pos := g.pos + 1 })

/-- One raw draw, unconstrained. -/
def Gen.raw (g : Gen) : Nat × Gen :=
  (g.draws g.pos, { g with pos := g.pos + 1 })

/-! ## Annoy tree (Algorithms/AnnoyTree.hpp) -/

/-- A `std::shared_ptr<TreeNode<AnnoyTreeNodeData<T>>>`: either `nullptr` or a
node carrying `vec1`, `vec2`, `pairList` and two child pointers. -/
inductive TreeNode (K : Type) where
  | null : TreeNode K
  | node (vec1 vec2 : Vec) (pairList : List (Record K))
      (left right : TreeNode K) : TreeNode K
deriving Repr, DecidableEq

/-- The value a default-constructed `AnnoyTreeNodeData` gives to `vec1` and
`vec2`: `std::vector<float>(1, 0.0f)`. -/
def defaultPivot : Vec := [0]

/-- How many times `selectRandomVectors` redraws the second index. -/
def NUM_RANDOM_VECTORS_TO_TRY : Nat := 5

/-- The redraw loop of `selectRandomVectors`:
`for (i = 0; i < NUM_RANDOM_VECTORS_TO_TRY && idx1 == idx2; ++i) idx2 = dis(gen)`.
The first argument is the number of iterations left. -/
def redrawLoop : Nat → Nat → Nat → Nat → Gen → Nat × Gen
  | 0, _, _, idx2, g => (idx2, g)
  | k + 1, n, idx1, idx2, g =>
      if idx1 = idx2 then
        let (j, g1) := g.uniform 0 (n - 1)
        redrawLoop k n idx1 j g1
      else (idx2, g)

/-- The function `AnnoyTree::selectRandomVectors`. -/
def selectRandomVectors {K : Type} (data : List (Record K)) (g : Gen) :
    (Vec × Vec) × Gen :=
  let (idx1, g1) := g.uniform 0 (data.length - 1)
  let (idx2, g2) := g1.uniform 0 (data.length - 1)
  let (idx2', g3) := redrawLoop NUM_RANDOM_VECTORS_TO_TRY data.length idx1 idx2 g2
  (((data.map Prod.snd).getD idx1 [], (data.map Prod.snd).getD idx2' []), g3)

/-- The random branch of `splitData`: one draw of `dis(0, 1)` per item, `0`
sends the item left. -/
def splitRandom {K : Type} :
    List (Record K) → Gen → (List (Record K) × List (Record K)) × Gen
  | [], g => (([], []), g)
  | item :: rest, g =>
      let (bit, g1) := g.uniform 0 1
      let ((l, r), g2) := splitRandom rest g1
      if bit = 0 then ((item :: l, r), g2) else ((l, item :: r), g2)

/-- The distance branch of `splitData`: an item goes left when it is strictly
nearer the first vector. -/
def splitByDistance {K : Type} (v1 v2 : Vec) :
    List (Record K) → List (Record K) × List (Record K)
  | [] => ([], [])
  | item :: rest =>
      let (l, r) := splitByDistance v1 v2 rest
      if defaultDistance item.2 v1 < defaultDistance item.2 v2 then (item :: l, r)
      else (l, item :: r)

/-- The function `AnnoyTree::splitData`. -/
def splitData {K : Type} (data : List (Record K)) (vectors : Vec × Vec) (g : Gen) :
    (List (Record K) × List (Record K)) × Gen :=
  if vectors.1 = vectors.2 then splitRandom data g
  else (splitByDistance vectors.1 vectors.2 data, g)

/-- A freshly made node whose `pairList` has been assigned. -/
def TreeNode.leaf {K : Type} (data : List (Record K)) : TreeNode K :=
  .node defaultPivot defaultPivot data .null .null

/-- One task of `AnnoyTree::from_data` together with all the tasks it spawns.
The source keeps an explicit stack and pushes the left task before the right
one, so the right subtree is completed (and consumes its draws) first.  A node
that is split keeps its default `vec1`, `vec2` and an empty `pairList`; a child
pointer stays `nullptr` when its side is empty.  The first argument bounds the
recursion; `from_data` supplies `max_depth + 2`, which is never exhausted. -/
def buildNode {K : Type} (bucket : Int) (max_depth : Int) :
    Nat → List (Record K) → Int → Gen → TreeNode K × Gen
  | 0, data, _, g => (TreeNode.leaf data, g)
  | fuel + 1, data, depth, g =>
      if data.length ≤ toSizeT bucket ∨ depth > max_depth then
        (TreeNode.leaf data, g)
      else
        let (selectedVectors, g1) := selectRandomVectors data g
        let ((leftData, rightData), g2) := splitData data selectedVectors g1
        let (right, g3) :=
          if rightData.isEmpty then (TreeNode.null, g2)
          else buildNode bucket max_depth fuel rightData (depth + 1) g2
        let (left, g4) :=
          if leftData.isEmpty then (TreeNode.null, g3)
          else buildNode bucket max_depth fuel leftData (depth + 1) g3
        (.node defaultPivot defaultPivot [] left right, g4)

/-- The class `AnnoyTree`.  The `float` member `threshold` may hold `+infinity`,
written `⊤`. -/
structure AnnoyTree (K : Type) where
  root : TreeNode K
  threshold : WithTop Flt
  sufficient_bucket_threshold : Int
  max_depth : Int

/-- The function `AnnoyTree::from_data`, started at the root with depth `0`. -/
def from_data {K : Type} (bucket max_depth : Int) (data : List (Record K)) (g : Gen) :
    TreeNode K × Gen :=
  buildNode bucket max_depth ((max_depth + 2).toNat) data 0 g

/-- The constructor of `AnnoyTree`: the tree is built only from non-empty data,
otherwise the root stays `nullptr`. -/
def AnnoyTree.build {K : Type} (data : List (Record K)) (threshold : WithTop Flt)
    (bucket max_depth : Int) (g : Gen) : AnnoyTree K × Gen :=
  if data.isEmpty then (⟨.null, threshold, bucket, max_depth⟩, g)
  else
    let (root, g1) := from_data bucket max_depth data g
    (⟨root, threshold, bucket, max_depth⟩, g1)

/-- The function `AnnoyTree::reconstructDataHelper`. -/
def reconstructDataHelper {K : Type} : TreeNode K → List (Record K)
  | .null => []
  | .node _ _ pairList .null .null => pairList
  | .node _ _ _ left right => reconstructDataHelper left ++ reconstructDataHelper right

/-- The function `AnnoyTree::reconstructData`. -/
def AnnoyTree.reconstructData {K : Type} (t : AnnoyTree K) : List (Record K) :=
  reconstructDataHelper t.root

/-! ## Beam search shared by HNSW and Vamana -/

/-- What a call can end in besides a result: a C++ exception
(`std::out_of_range`, `std::invalid_argument`, `std::length_error`), an
operation that is undefined in the source (indexing an empty vector, reading
through a null pointer, writing past the end of a vector), the exhaustion
of the iteration bound that the model gives to a `while` loop, the call of
`abort` by a failed `assert`, or the end of the process by `std::exit`. -/
inductive Fault where
  | out_of_range
  | invalid_argument
  | length_error
  | undefined
  | no_fuel
  | abort
  | exit
deriving DecidableEq, Repr

/-- The comparator of the `nearest_neighbors` heap: `a.first < b.first`. -/
def maxCompare (a b : Flt × Nat) : Bool := decide (a.1 < b.1)

/-- The comparator of the `candidates` heap: `a.first > b.first`. -/
def minCompare (a b : Flt × Nat) : Bool := decide (a.1 > b.1)

/-- The operation `std::priority_queue::push`.  The queue is kept as a list
whose head is `top()`; `pop()` is `List.tail`.  The pushed element is placed in
front of the first element that compares less than it, hence behind every
element of equal priority (the standard leaves the order among elements of
equal priority open; the model fixes this one). -/
def pqPush {α : Type} (comp : α → α → Bool) (x : α) : List α → List α
  | [] => [x]
  | y :: ys => if comp y x then x :: y :: ys else y :: pqPush comp x ys

/-- The local state of the beam search. -/
structure BeamState where
  visited_nodes : List Nat
  candidates : List (Flt × Nat)
  nearest_neighbors : List (Flt × Nat)
deriving Repr

/-- The test `distance < nearest_neighbors.top().first` (`top()` of an empty
queue is undefined in the source; the model answers `false`). -/
def belowTop (distance : Flt) (nearest : List (Flt × Nat)) : Bool :=
  match nearest with
  | [] => false
  | t :: _ => decide (distance < t.1)

/-- The test `current.first > nearest_neighbors.top().first`. -/
def aboveTop (current : Flt) (nearest : List (Flt × Nat)) : Bool :=
  match nearest with
  | [] => false
  | t :: _ => decide (current > t.1)

/-- The body of `for (auto neighbor : ...)` in the beam search. -/
def visitNeighbor (dist : Nat → Flt) (ef : Nat) (s : BeamState) (neighbor : Nat) :
    BeamState :=
  if neighbor ∈ s.visited_nodes then s
  else
    let visited := neighbor :: s.visited_nodes
    let distance := dist neighbor
    if belowTop distance s.nearest_neighbors || decide (s.nearest_neighbors.length < ef) then
      let candidates := pqPush minCompare (distance, neighbor) s.candidates
      let nearest := pqPush maxCompare (distance, neighbor) s.nearest_neighbors
      { visited_nodes := visited
        candidates := candidates
        nearest_neighbors := if nearest.length > ef then nearest.tail else nearest }
    else { s with visited_nodes := visited }

/-- The loop `while (!candidates.empty())` of the beam search.  `adj` gives the
adjacency list that is followed, `dist` the distance of a node to the query,
`full` the size test of the early exit.  The first argument bounds the number
of iterations; `none` reports that the bound was reached. -/
def beamLoop (adj : Nat → List Nat) (dist : Nat → Flt) (ef : Nat) (full : Nat → Bool) :
    Nat → BeamState → Option BeamState
  | 0, s => if s.candidates.isEmpty then some s else none
  | fuel + 1, s =>
      match s.candidates with
      | [] => some s
      | current :: rest =>
          let s1 := { s with candidates := rest }
          if full s1.nearest_neighbors.length && aboveTop current.1 s1.nearest_neighbors then
            some s1
          else
            beamLoop adj dist ef full fuel ((adj current.2).foldl (visitNeighbor dist ef) s1)

/-- The final loop of the beam search: `result.insert(result.begin(), top)`
then `pop()`, until the heap is empty. -/
def drainNearest : List (Flt × Nat) → List Nat → List Nat
  | [], result => result
  | t :: rest, result => drainNearest rest (t.2 :: result)

/-- The beam search from `startNode`: initial state, loop, transfer. -/
def beamSearch (adj : Nat → List Nat) (dist : Nat → Flt) (ef : Nat) (full : Nat → Bool)
    (fuel : Nat) (startNode : Nat) : Option (List Nat) :=
  let initialDistance := dist startNode
  let s0 : BeamState :=
    { visited_nodes := [startNode]
      candidates := [(initialDistance, startNode)]
      nearest_neighbors := [(initialDistance, startNode)] }
  match beamLoop adj dist ef full fuel s0 with
  | none => none
  | some s => some (drainNearest s.nearest_neighbors [])

/-! ## HNSW graph (Algorithms/HNSW_graph.hpp, Algorithms/GraphNode.hpp) -/

/-- The class `GraphNode<std::pair<T, std::vector<float>>>`.  The map
`adjacentsByGraph` is a function that is `[]` at a key never written. -/
structure GraphNode (K : Type) where
  value : Record K
  adjacentsByGraph : Nat → List Nat

/-- The class `HNSW_graph<T>`.  `nodes` is the arena of all nodes made by
`std::make_shared`; a node pointer is an index into it. -/
structure HNSW_graph (K : Type) where
  mL : Flt
  vector_len : Int
  num_layers : Nat
  efc : Int
  distanceFunction : Vec → Vec → Flt
  layers : List (List Nat)
  nodes : List (GraphNode K)

namespace HNSW_graph

variable {K : Type}

/-- The adjacency list `node->adjacentsByGraph[layerIndex]`. -/
def adjacents (g : HNSW_graph K) (layerIndex : Nat) (node : Nat) : List Nat :=
  match g.nodes[node]? with
  | some x => x.adjacentsByGraph layerIndex
  | none => []

/-- The vector `node->value.second`. -/
def vecOf (g : HNSW_graph K) (node : Nat) : Vec :=
  match g.nodes[node]? with
  | some x => x.value.2
  | none => []

/-- The graph right after the member initialisers of the constructor:
`num_layers` empty layers, no node. -/
def empty (mL : Flt) (vector_len : Int) (num_layers : Nat) (efc : Int)
    (distanceFunction : Vec → Vec → Flt) : HNSW_graph K :=
  { mL := mL, vector_len := vector_len, num_layers := num_layers, efc := efc
    distanceFunction := distanceFunction
    layers := List.replicate num_layers []
    nodes := [] }

/-- The function `GraphNode::addEdge` applied to the node at index `node`. -/
def addEdge (g : HNSW_graph K) (node graphId other : Nat) : HNSW_graph K :=
  match g.nodes[node]? with
  | some x =>
      let x1 : GraphNode K :=
        { x with adjacentsByGraph :=
            Function.update x.adjacentsByGraph graphId (x.adjacentsByGraph graphId ++ [other]) }
      { g with nodes := g.nodes.set node x1 }
  | none => g

/-- The function `HNSW_graph::connectNodesInLayer`. -/
def connectNodesInLayer (g : HNSW_graph K) (node1 node2 layerIndex : Nat) :
    Except Fault (HNSW_graph K) :=
  if layerIndex ≥ g.num_layers then .error .invalid_argument
  else .ok ((g.addEdge node1 layerIndex node2).addEdge node2 layerIndex node1)

/-- The function `HNSW_graph::search_layer`.  The loop is given
`nodes.size() + 1` iterations. -/
def search_layer (g : HNSW_graph K) (layerIndex : Nat) (startNode : Nat) (queryVec : Vec)
    (ef : Nat) : Except Fault (List Nat) :=
  if layerIndex ≥ g.num_layers then .error .out_of_range
  else
    match beamSearch (g.adjacents layerIndex)
        (fun n => g.distanceFunction (g.vecOf n) queryVec) ef (fun size => decide (size > 0))
        (g.nodes.length + 1) startNode with
    | none => .error .no_fuel
    | some result => .ok result

/-- The entry `layers[0][0]`. -/
def entry (g : HNSW_graph K) : Nat := (g.layers.headD []).headD 0

/-- An assignment through the reference `auto& curr_node = layers[0][0]`. -/
def setEntry (g : HNSW_graph K) (node : Nat) : HNSW_graph K :=
  { g with layers := g.layers.modifyHead (fun layer0 => layer0.modifyHead (fun _ => node)) }

/-- The function `HNSW_graph::calculate_insertion_layer`.  The value
`-static_cast<int>(std::log(rand() / RAND_MAX) * mL)` is one raw draw `l`; the
result `std::min(l, num_layers - 1)` is only ever compared with layer indices
`i ≥ 0` by `i < insertion_layer`, so a negative `l` acts like `0`. -/
def calculate_insertion_layer (g : HNSW_graph K) (gen : Gen) : Int × Gen :=
  let (l, gen1) := gen.raw
  (min (l : Int) ((g.num_layers : Int) - 1), gen1)

/-- The loop `for (auto& neighbor : nearest_neighbors) connectNodesInLayer(neighbor, new_node, i)`. -/
def connectAll (new_node i : Nat) : List Nat → HNSW_graph K → Except Fault (HNSW_graph K)
  | [], g => .ok g
  | neighbor :: rest, g =>
      match g.connectNodesInLayer neighbor new_node i with
      | .error e => .error e
      | .ok g1 => connectAll new_node i rest g1

/-- The loop `for (int i = 0; i < num_layers; i++)` of `insert`; the first
argument is `num_layers - i`.  `curr_node` is a reference to `layers[0][0]`:
it is read from there and an assignment to it writes there. -/
def insertLoop (value : Record K) (new_node : Nat) (insertion_layer : Int) :
    Nat → Nat → HNSW_graph K → Except Fault (HNSW_graph K)
  | 0, _, g => .ok g
  | k + 1, i, g =>
      if (i : Int) < insertion_layer then
        match g.search_layer i g.entry value.2 1 with
        | .error e => .error e
        | .ok [] => .error .undefined
        | .ok (best :: _) => insertLoop value new_node insertion_layer k (i + 1) (g.setEntry best)
      else
        match g.search_layer i g.entry value.2 (toSizeT g.efc) with
        | .error e => .error e
        | .ok nearest_neighbors =>
            match connectAll new_node i nearest_neighbors g with
            | .error e => .error e
            | .ok g1 =>
                match nearest_neighbors with
                | [] => .error .undefined
                | best :: _ =>
                    insertLoop value new_node insertion_layer k (i + 1) (g1.setEntry best)

/-- The allocation `std::make_shared<Node>(value)`: a node without edges is
added to the arena; its pointer is the former size of the arena. -/
def pushNode (g : HNSW_graph K) (value : Record K) : HNSW_graph K :=
  { g with nodes := g.nodes ++ [⟨value, fun _ => []⟩] }

/-- The first branch of `insert`: the new node is appended to every layer. -/
def pushToAllLayers (g : HNSW_graph K) (new_node : Nat) : HNSW_graph K :=
  { g with layers := g.layers.map (fun layer => layer ++ [new_node]) }

/-- The function `HNSW_graph::insert`. -/
def insert (g : HNSW_graph K) (value : Record K) (gen : Gen) :
    Except Fault (HNSW_graph K × Gen) :=
  let new_node := g.nodes.length
  let g1 := g.pushNode value
  match g1.layers with
  | [] => .error .undefined
  | layer0 :: _ =>
      if layer0.isEmpty then .ok (g1.pushToAllLayers new_node, gen)
      else
        let (insertion_layer, gen1) := g1.calculate_insertion_layer gen
        match insertLoop value new_node insertion_layer g1.num_layers 0 g1 with
        | .error e => .error e
        | .ok g2 => .ok (g2, gen1)

/-- The loop of `search` that descends with `ef = 1`:
`for (int i = 0; i < num_layers; ++i) bestNode = search_layer(i, bestNode, queryVec)[0]`;
the first argument is `num_layers - i`. -/
def descend (g : HNSW_graph K) (queryVec : Vec) : Nat → Nat → Nat → Except Fault Nat
  | 0, _, bestNode => .ok bestNode
  | k + 1, i, bestNode =>
      match g.search_layer i bestNode queryVec 1 with
      | .error e => .error e
      | .ok [] => .error .undefined
      | .ok (best :: _) => descend g queryVec k (i + 1) best

/-- The function `HNSW_graph::search`. -/
def search (g : HNSW_graph K) (queryVec : Vec) (ef : Nat) : Except Fault (List Nat) :=
  match g.layers with
  | [] => .ok []
  | layer0 :: _ =>
      match layer0 with
      | [] => .ok []
      | bestNode :: _ =>
          match descend g queryVec g.num_layers 0 bestNode with
          | .error e => .error e
          | .ok best => g.search_layer (g.num_layers - 1) best queryVec ef

/-- The function `HNSW_graph::searchClosest`: the records of the nodes found. -/
def searchClosest (g : HNSW_graph K) (target : Vec) (ef : Int) :
    Except Fault (List (Record K)) :=
  match g.search target (toSizeT ef) with
  | .error e => .error e
  | .ok nodes => .ok (nodes.filterMap (fun n => (g.nodes[n]?).map (fun x => x.value)))

/-- The insert calls of a run, one after the other. -/
def insertAll : List (Record K) → HNSW_graph K → Gen → Except Fault (HNSW_graph K × Gen)
  | [], g, gen => .ok (g, gen)
  | value :: rest, g, gen =>
      match g.insert value gen with
      | .error e => .error e
      | .ok (g1, gen1) => insertAll rest g1 gen1

end HNSW_graph

/-! ## Vamana graph (Algorithms/Vamana.hpp, Algorithms/DirectedGraphNode.hpp) -/

/-- The class `DirectedGraphNode<std::pair<T, std::vector<float>>>`. -/
structure DirectedGraphNode (K : Type) where
  value : Record K
  outgoingAdjList : List Nat
  incomingAdjList : List Nat

/-- The class `Vamana<T>`.  `arena` holds the nodes made by `std::make_shared`
in the order of their creation, a node pointer is an index into it, and a
comparison of two pointers is the comparison of their indices; `nodes` is the
vector of node pointers, `startNode` is `none` for `nullptr`. -/
structure Vamana (K : Type) where
  nodes : List Nat
  alpha : Flt
  vector_len : Int
  R : Int
  nq : Int
  startNode : Option Nat
  arena : List (DirectedGraphNode K)

/-- The constant `std::numeric_limits<float>::max()`, `(2 - 2^-23) * 2^127`. -/
def FLT_MAX : Flt := 340282346638528859811704183484516925440

/-- The algorithm `std::set_union` on two ranges of node pointers compared by
`<`; the first argument bounds the recursion and is given the sum of the two
lengths. -/
def setUnionAux : Nat → List Nat → List Nat → List Nat
  | 0, l1, l2 => l1 ++ l2
  | _ + 1, [], l2 => l2
  | _ + 1, l1, [] => l1
  | fuel + 1, a :: as, b :: bs =>
      if a < b then a :: setUnionAux fuel as (b :: bs)
      else if b < a then b :: setUnionAux fuel (a :: as) bs
      else a :: setUnionAux fuel as bs

/-- The algorithm `std::set_union`. -/
def setUnion (l1 l2 : List Nat) : List Nat := setUnionAux (l1.length + l2.length) l1 l2

/-- The operation `insert` of a `std::set` whose comparator is
`key a > key b`: the set is a list in descending order of `key`, and an
element whose key is already present is not inserted. -/
def setInsert (key : Nat → Flt) (x : Nat) : List Nat → List Nat
  | [] => [x]
  | y :: ys =>
      if key y > key x then y :: setInsert key x ys
      else if key x > key y then x :: y :: ys
      else y :: ys

/-- The operation `erase(elem)` of that set: the element equivalent to `elem`
is removed. -/
def setErase (key : Nat → Flt) (elem : Nat) (heap : List Nat) : List Nat :=
  heap.filter (fun y => decide (key y ≠ key elem))

/-- The exchange of the entries at positions `i` and `j`. -/
def swapAt (l : List Nat) (i j : Nat) : List Nat :=
  (l.set i (l.getD j 0)).set j (l.getD i 0)

/-- The loop of `std::shuffle`: for `i` from `k` down to `1`, exchange the
entries at `i` and at a position drawn from `0 .. i`. -/
def shuffleLoop : Nat → List Nat → Gen → List Nat × Gen
  | 0, l, g => (l, g)
  | k + 1, l, g =>
      let (j, g1) := g.uniform 0 (k + 1)
      shuffleLoop k (swapAt l (k + 1) j) g1

/-- The algorithm `std::shuffle` over the whole vector. -/
def shuffle (l : List Nat) (g : Gen) : List Nat × Gen := shuffleLoop (l.length - 1) l g

namespace Vamana

variable {K : Type}

/-- The vector `node->value.second`. -/
def vecOf (v : Vamana K) (node : Nat) : Vec :=
  match v.arena[node]? with
  | some x => x.value.2
  | none => []

/-- The list `node->outgoingAdjList`. -/
def outgoing (v : Vamana K) (node : Nat) : List Nat :=
  match v.arena[node]? with
  | some x => x.outgoingAdjList
  | none => []

/-- The list `node->incomingAdjList`. -/
def incoming (v : Vamana K) (node : Nat) : List Nat :=
  match v.arena[node]? with
  | some x => x.incomingAdjList
  | none => []

/-- The object right after the member initialisers of the constructor. -/
def empty (alpha : Flt) (vector_len R nq : Int) : Vamana K :=
  { nodes := [], alpha := alpha, vector_len := vector_len, R := R, nq := nq
    startNode := none, arena := [] }

/-- The function `Vamana::addNode`. -/
def addNode (v : Vamana K) (value : Record K) : Vamana K :=
  { v with nodes := v.nodes ++ [v.arena.length], arena := v.arena ++ [⟨value, [], []⟩] }

/-- The function `DirectedGraphNode::addOutgoingEdge` on the node `node`. -/
def addOutgoingEdge (v : Vamana K) (node other : Nat) : Vamana K :=
  match v.arena[node]? with
  | some x =>
      { v with arena := v.arena.set node ⟨x.value, x.outgoingAdjList ++ [other], x.incomingAdjList⟩ }
  | none => v

/-- The function `DirectedGraphNode::addIncomingEdge` on the node `node`. -/
def addIncomingEdge (v : Vamana K) (node other : Nat) : Vamana K :=
  match v.arena[node]? with
  | some x =>
      { v with arena := v.arena.set node ⟨x.value, x.outgoingAdjList, x.incomingAdjList ++ [other]⟩ }
  | none => v

/-- The assignment of a new `outgoingAdjList` to the node `node`. -/
def setOutgoing (v : Vamana K) (node : Nat) (out : List Nat) : Vamana K :=
  match v.arena[node]? with
  | some x => { v with arena := v.arena.set node ⟨x.value, out, x.incomingAdjList⟩ }
  | none => v

/-- The function `Vamana::connectNodes`. -/
def connectNodes (v : Vamana K) (node1 node2 : Nat) : Vamana K :=
  (v.addOutgoingEdge node1 node2).addIncomingEdge node2 node1

/-- The accumulation `averageVector[i] += node->value.second[i]` for every
index `i` of the node's vector (which the caller has checked to fit). -/
def accumulate : Vec → Vec → Vec
  | [], _ => []
  | a :: as, [] => a :: as
  | a :: as, x :: xs => (a + x) :: accumulate as xs

/-- The second loop of `find_start_node`: the first node whose distance is
strictly below every distance seen before, starting from `FLT_MAX`. -/
def closestLoop (dist : Nat → Flt) : List Nat → Flt → Option Nat → Option Nat
  | [], _, closestNode => closestNode
  | node :: rest, minDistance, closestNode =>
      if dist node < minDistance then closestLoop dist rest (dist node) (some node)
      else closestLoop dist rest minDistance closestNode

/-- The vector `averageVector` that `find_start_node` computes: the running
sum of the node vectors, divided by the number of nodes.  The model sums and
divides in the exact rationals, while the source rounds after every addition
and after the division; in the instances evaluated below every sum and every
quotient is a `float`, so that both give the same vector. -/
def averageVector (v : Vamana K) : Vec :=
  (v.nodes.foldl (fun avg node => accumulate avg (v.vecOf node))
      (List.replicate v.vector_len.toNat 0)).map (fun x => x / (v.nodes.length : Flt))

/-- The function `Vamana::find_start_node`.  A negative `vector_len` makes the
constructor of `averageVector` throw; a node vector longer than `vector_len`
makes the accumulation write past the end of `averageVector`. -/
def find_start_node (v : Vamana K) : Except Fault (Vamana K) :=
  if v.nodes.isEmpty then .ok v
  else if v.vector_len < 0 then .error .length_error
  else if v.nodes.any (fun node => decide ((v.vecOf node).length > v.vector_len.toNat)) then
    .error .undefined
  else
    let averageVector := v.averageVector
    let closestNode :=
      closestLoop (fun node => defaultDistance (v.vecOf node) averageVector) v.nodes FLT_MAX none
    .ok { v with startNode := closestNode }

/-- The value `ef - 1` computed in `size_t`. -/
def efMinusOne (ef : Nat) : Nat := if ef = 0 then 2 ^ 64 - 1 else ef - 1

/-- The function `Vamana::search`.  The loop is given `arena.size() + 1`
iterations; a null `startNode` is dereferenced by the source. -/
def search (v : Vamana K) (queryVec : Vec) (ef : Nat) : Except Fault (List Nat) :=
  match v.startNode with
  | none => .error .undefined
  | some startNode =>
      match beamSearch v.outgoing (fun n => defaultDistance (v.vecOf n) queryVec) ef
          (fun size => decide (size > efMinusOne ef)) (v.arena.length + 1) startNode with
      | none => .error .no_fuel
      | some result => .ok result

/-- The function `Vamana::searchClosest`. -/
def searchClosest (v : Vamana K) (target : Vec) (ef : Int) :
    Except Fault (List (Record K)) :=
  match v.search target (toSizeT ef) with
  | .error e => .error e
  | .ok nodes => .ok (nodes.filterMap (fun n => (v.arena[n]?).map (fun x => x.value)))

/-- The inner loop of the random wiring:
`for (it = start; it != end && count < R; ++it) if (*it != node) { connectNodes(node, *it); ++count; }`. -/
def wireNode (node : Nat) : List Nat → Int → Vamana K → Vamana K
  | [], _, v => v
  | it :: rest, count, v =>
      if count < v.R then
        if it ≠ node then wireNode node rest (count + 1) (v.connectNodes node it)
        else wireNode node rest count v
      else v

/-- The outer loop of the random wiring, `for (auto& node : nodes)`: position
`i` runs over the vector; the vector is shuffled first, and `node`, a reference
to the entry at position `i`, then names whatever the shuffle has put there.
The first argument is `nodes.size() - i`. -/
def wireLoop : Nat → Nat → Vamana K → Gen → Vamana K × Gen
  | 0, _, v, g => (v, g)
  | k + 1, i, v, g =>
      let (shuffled, g1) := shuffle v.nodes g
      let v1 := { v with nodes := shuffled }
      let node := shuffled.getD i 0
      wireLoop k (i + 1) (wireNode node shuffled 0 v1) g1

/-- The inner loop of `robust_prune` over `copyHeap`:
`if (alpha * d(elem) <= d(topNode)) minHeap.erase(elem)`. -/
def pruneDominated (alpha : Flt) (key : Nat → Flt) (topNode : Nat) :
    List Nat → List Nat → List Nat
  | [], minHeap => minHeap
  | elem :: rest, minHeap =>
      if alpha * key elem ≤ key topNode then
        pruneDominated alpha key topNode rest (setErase key elem minHeap)
      else pruneDominated alpha key topNode rest minHeap

/-- The loop `while (!minHeap.empty())` of `robust_prune`, on the outgoing list
of the node.  The first argument bounds the iterations; each one removes the
first element of the heap, and the bound given is the size of the heap. -/
def pruneLoop (alpha : Flt) (R : Int) (key : Nat → Flt) :
    Nat → List Nat → List Nat → List Nat
  | 0, _, out => out
  | _ + 1, [], out => out
  | fuel + 1, topNode :: minHeap, out =>
      let out1 := out ++ [topNode]
      if out1.length = toSizeT R then out1
      else pruneLoop alpha R key fuel (pruneDominated alpha key topNode minHeap minHeap) out1

/-- The function `Vamana::robust_prune`. -/
def robust_prune (v : Vamana K) (node : Nat) (V : List Nat) : Vamana K :=
  let combinedList := (setUnion V (v.outgoing node)).filter (fun n => decide (n ≠ node))
  let out := (v.outgoing node).filter (fun n => decide (n ≠ node))
  let key := fun n => defaultDistance (v.vecOf n) (v.vecOf node)
  let minHeap := combinedList.foldl (fun heap n => setInsert key n heap) []
  v.setOutgoing node (pruneLoop v.alpha v.R key minHeap.length minHeap out)

/-- The loop `for (auto& inbound_node : node->incomingAdjList)` of the
refinement pass. -/
def refineInbound (node : Nat) : List Nat → Vamana K → Vamana K
  | [], v => v
  | inbound_node :: rest, v =>
      if (v.incoming inbound_node).length > toSizeT v.R then
        refineInbound node rest (v.robust_prune inbound_node (v.incoming inbound_node ++ [node]))
      else refineInbound node rest (v.addIncomingEdge inbound_node node)

/-- The refinement pass `for (auto& node : nodes)`: search, prune, then the
loop over the incoming list of the node. -/
def refineLoop : List Nat → Vamana K → Except Fault (Vamana K)
  | [], v => .ok v
  | node :: rest, v =>
      match v.search (v.vecOf node) 1 with
      | .error e => .error e
      | .ok V =>
          let v1 := v.robust_prune node V
          refineLoop rest (refineInbound node (v1.incoming node) v1)

/-- The function `Vamana::build_rng`. -/
def build_rng (v : Vamana K) (nodeValues : List (Record K)) (g : Gen) :
    Except Fault (Vamana K × Gen) :=
  let v1 := nodeValues.foldl addNode v
  match v1.find_start_node with
  | .error e => .error e
  | .ok v2 =>
      let (v3, g1) := wireLoop v2.nodes.length 0 v2 g
      match refineLoop v3.nodes v3 with
      | .error e => .error e
      | .ok v4 => .ok (v4, g1)

/-- The constructor of `Vamana`. -/
def build (nodeValues : List (Record K)) (alpha : Flt) (vector_len R nq : Int) (g : Gen) :
    Except Fault (Vamana K × Gen) :=
  (empty alpha vector_len R nq).build_rng nodeValues g

end Vamana

/-! ## Request framing (Client.cpp `send_req`, VectorSearchEngine.hpp `parse_req`) -/

/-- One byte (`char` / `uint8_t`). -/
abbrev Byte := Fin 256

/-- The constant `k_max_msg`. -/
def k_max_msg : Nat := 4096

/-- The constant `k_max_args`. -/
def k_max_args : Nat := 1024

/-- The byte of value `n mod 256`. -/
def byteOf (n : Nat) : Byte := ⟨n % 256, Nat.mod_lt n (by decide)⟩

/-- The four bytes that `memcpy(&wbuf[..], &x, 4)` writes for a `uint32_t x`
(little-endian host). -/
def u32le (x : Nat) : List Byte :=
  [byteOf x, byteOf (x / 256), byteOf (x / 65536), byteOf (x / 16777216)]

/-- The `uint32_t` that `memcpy(&x, &data[pos], 4)` reads. -/
def readU32 (data : List Byte) (pos : Nat) : Nat :=
  (data.getD pos 0).val + 256 * (data.getD (pos + 1) 0).val
    + 65536 * (data.getD (pos + 2) 0).val + 16777216 * (data.getD (pos + 3) 0).val

/-- The first loop of `send_req`: `len += 4 + s.size()` in `uint32_t`. -/
def sendLen : List (List Byte) → Nat → Nat
  | [], len => len
  | s :: rest, len => sendLen rest ((len + (4 + s.length)) % 2 ^ 32)

/-- The second loop of `send_req`: the length of each argument as a `uint32_t`
followed by its bytes. -/
def sendArgs : List (List Byte) → List Byte
  | [] => []
  | s :: rest => u32le (s.length % 2 ^ 32) ++ s ++ sendArgs rest

/-- The function `send_req`: the bytes handed to `write_all`, or `none` when it
returns `-1` with "Message too long".  (When the sum of the lengths wraps
around in `uint32_t` the source writes past `wbuf`; the model then cuts the
frame at `len + 4` bytes.) -/
def send_req (cmd : List (List Byte)) : Option (List Byte) :=
  let len := sendLen cmd 4
  if len > k_max_msg then none
  else some ((u32le len ++ u32le (cmd.length % 2 ^ 32) ++ sendArgs cmd).take (len + 4))

/-- The loop `while (n--)` of `parse_req`; `len` is `data.length`. -/
def parseLoop (data : List Byte) : Nat → Nat → List (List Byte) → Option (List (List Byte))
  | 0, pos, out => if pos ≠ data.length then none else some out
  | n + 1, pos, out =>
      if pos + 4 > data.length then none
      else
        let sz := readU32 data pos
        if pos + 4 + sz > data.length then none
        else parseLoop data n (pos + 4 + sz) (out ++ [(data.drop (pos + 4)).take sz])

/-- The function `parse_req` called with an empty `out`: the arguments, or
`none` when it returns `-1`. -/
def parse_req (data : List Byte) : Option (List (List Byte)) :=
  if data.length < 4 then none
  else
    let n := readU32 data 0
    if n > k_max_args then none
    else parseLoop data n 4 []

/-- The request body that `try_one_request` hands to `do_request`: the
`len` bytes after the length field of the frame. -/
def frameBody (frame : List Byte) : List Byte :=
  (frame.drop 4).take (readU32 frame 0)

/-- The number of bytes of the body of the frame for `cmd`:
`4 + Σ (4 + |arg|)`. -/
def bodyLength : List (List Byte) → Nat
  | [] => 4
  | s :: rest => 4 + s.length + bodyLength rest

/-! ## The index catalog (VectorSearchEngine.hpp) -/

/-- A `std::map<std::string, V>`, kept as a list of bindings with distinct
keys. -/
abbrev StdMap (V : Type) := List (String × V)

namespace StdMap

variable {V : Type}

/-- The lookup `m.find(k)`: the bound value, or `none` for `m.end()`. -/
def find (m : StdMap V) (k : String) : Option V := List.lookup k m

/-- The operation `m.emplace(k, v)`: nothing happens when `k` is bound. -/
def emplace (m : StdMap V) (k : String) (v : V) : StdMap V :=
  match m.find k with
  | some _ => m
  | none => m ++ [(k, v)]

/-- The assignment `m[k] = v`. -/
def assign (m : StdMap V) (k : String) (v : V) : StdMap V :=
  match m.find k with
  | some _ => m.map (fun b => if b.1 = k then (k, v) else b)
  | none => m ++ [(k, v)]

/-- The operation `m.erase(it)` for the binding of `k`. -/
def erase (m : StdMap V) (k : String) : StdMap V := m.filter (fun b => b.1 ≠ k)

end StdMap

/-- The abstract class `VectorSearchAlgorithm<T>`: an object is given by what
its virtual `searchClosest` answers. -/
structure VectorSearchAlgorithm (K : Type) where
  searchClosest : Vec → Int → Except Fault (List (Record K))

/-- The struct `VectorSearchEngine::Collection`. -/
structure Collection (K : Type) where
  data : List (Record K)
  hnswGraph : HNSW_graph K

/-- The class `VectorSearchEngine<T>` (catalog part). -/
structure VectorSearchEngine (K : Type) where
  collections : StdMap (Collection K)
  algorithms : StdMap (VectorSearchAlgorithm K)

namespace VectorSearchEngine

variable {K : Type}

/-- The engine right after construction. -/
def init : VectorSearchEngine K := { collections := [], algorithms := [] }

/-- The graph that `createCollection` builds over the still empty data:
`HNSW_graph(data, 0.9f, 128, 5, 6)`. -/
def newCollectionGraph : HNSW_graph K :=
  HNSW_graph.empty (9 / 10) 128 5 6 defaultDistance

/-- The function `createCollection`. -/
def createCollection (e : VectorSearchEngine K) (collectionName : String) :
    VectorSearchEngine K :=
  match e.collections.find collectionName with
  | none =>
      { e with collections :=
          e.collections.assign collectionName ⟨[], newCollectionGraph⟩ }
  | some _ => e

/-- The function `deleteCollection`. -/
def deleteCollection (e : VectorSearchEngine K) (collectionName : String) :
    Bool × VectorSearchEngine K :=
  match e.collections.find collectionName with
  | some _ => (true, { e with collections := e.collections.erase collectionName })
  | none => (false, e)

/-- The found branch of `addToCollection`: the record is appended to `data`
and inserted into the graph of the collection. -/
def addToExisting (e : VectorSearchEngine K) (collectionName : String) (c : Collection K)
    (key : K) (values : Vec) (gen : Gen) : Except Fault (Bool × VectorSearchEngine K × Gen) :=
  match c.hnswGraph.insert (key, values) gen with
  | .error err => .error err
  | .ok (graph, gen1) =>
      .ok (true,
        { e with collections :=
            e.collections.assign collectionName ⟨c.data ++ [(key, values)], graph⟩ },
        gen1)

/-- The function `addToCollection`: a missing collection is created and the
call is retried.  (The retry finds the collection just created; the model
reports `no_fuel` for the unbounded recursion that would arise otherwise.) -/
def addToCollection (e : VectorSearchEngine K) (collectionName : String) (key : K)
    (values : Vec) (gen : Gen) : Except Fault (Bool × VectorSearchEngine K × Gen) :=
  match e.collections.find collectionName with
  | some c => addToExisting e collectionName c key values gen
  | none =>
      let e1 := e.createCollection collectionName
      match e1.collections.find collectionName with
      | some c => addToExisting e1 collectionName c key values gen
      | none => .error .no_fuel

/-- The erasure of the first record whose key is `key`
(`std::find_if` then `erase`); `none` when there is no such record. -/
def eraseFirstKey [DecidableEq K] (key : K) : List (Record K) → Option (List (Record K))
  | [] => none
  | item :: rest =>
      if item.1 = key then some rest
      else (eraseFirstKey key rest).map (fun rest1 => item :: rest1)

/-- The function `deleteFromCollection`. -/
def deleteFromCollection [DecidableEq K] (e : VectorSearchEngine K) (collectionName : String)
    (key : K) : Bool × VectorSearchEngine K :=
  match e.collections.find collectionName with
  | none => (false, e)
  | some c =>
      match eraseFirstKey key c.data with
      | none => (false, e)
      | some data1 =>
          (true, { e with collections :=
            e.collections.assign collectionName ⟨data1, c.hnswGraph⟩ })

/-- The function `queryCollection`.  A C++ exception thrown by `searchClosest`
is caught and answered with the empty list. -/
def queryCollection (e : VectorSearchEngine K) (collectionName : String) (queryVector : Vec)
    (ef : Int) : Except Fault (List (Record K)) :=
  match e.collections.find collectionName with
  | none => .ok []
  | some c =>
      match c.hnswGraph.searchClosest queryVector ef with
      | .ok results => .ok results
      | .error .out_of_range => .ok []
      | .error .invalid_argument => .ok []
      | .error .length_error => .ok []
      | .error err => .error err

/-- The loop of `addAlgorithm` that looks for a free name:
`while (algorithms.find(uniqueName) != algorithms.end())`
`{ uniqueName = name + "_" + std::to_string(counter); ++counter; }`.
The first argument bounds the number of iterations. -/
def uniqueNameLoop (algorithms : StdMap (VectorSearchAlgorithm K)) (name : String) :
    Nat → String → Nat → Option String
  | 0, uniqueName, _ =>
      match algorithms.find uniqueName with
      | none => some uniqueName
      | some _ => none
  | fuel + 1, uniqueName, counter =>
      match algorithms.find uniqueName with
      | none => some uniqueName
      | some _ => uniqueNameLoop algorithms name fuel (name ++ "_" ++ toString counter) (counter + 1)

/-- The function `addAlgorithm<Alg>(algName, name, args...)`.  `mk` stands
for the constructor `Alg(data, args...)` with the outcome of its random draws.
The result is the returned string and the engine afterwards. -/
def addAlgorithm (e : VectorSearchEngine K) (algName name : String)
    (mk : List (Record K) → Except Fault (VectorSearchAlgorithm K)) :
    Except Fault (String × VectorSearchEngine K) :=
  match e.collections.find name with
  | none => .ok ("", e)
  | some c =>
      match mk c.data with
      | .error err => .error err
      | .ok algorithm =>
          match uniqueNameLoop e.algorithms name (e.algorithms.length + 1) name 1 with
          | none => .error .no_fuel
          | some uniqueName =>
              .ok (uniqueName, { e with algorithms := e.algorithms.emplace algName algorithm })

/-- The function `queryAlgorithm`. -/
def queryAlgorithm (e : VectorSearchEngine K) (algName : String) (queryVector : Vec)
    (ef : Int) : Except Fault (List (Record K)) :=
  match e.algorithms.find algName with
  | some algorithm => algorithm.searchClosest queryVector ef
  | none => .ok []

end VectorSearchEngine

/-! ## Predicates used in the statements -/

/-- Every node mentioned by a beam state satisfies `P`. -/
def BeamState.All (P : Nat → Prop) (s : BeamState) : Prop :=
  (∀ x ∈ s.visited_nodes, P x) ∧ (∀ p ∈ s.candidates, P p.2) ∧
    (∀ p ∈ s.nearest_neighbors, P p.2)

namespace HNSW_graph

variable {K : Type}

/-- Well-formedness of a graph: one layer list per layer, at least one layer,
every stored node pointer refers to a node of the arena, and layer 0 lists a
node as soon as the arena holds one. -/
def Valid (g : HNSW_graph K) : Prop :=
  g.layers.length = g.num_layers ∧ 0 < g.num_layers ∧
  (∀ L n x, x ∈ g.adjacents L n → x < g.nodes.length) ∧
  (∀ x ∈ g.layers.headD [], x < g.nodes.length) ∧
  (g.layers.headD [] = [] → g.nodes = [])

/-- Edges are symmetric within every layer. -/
def EdgeSymmetric (g : HNSW_graph K) : Prop :=
  ∀ L a b, b ∈ g.adjacents L a ↔ a ∈ g.adjacents L b

/-- The parameters and the stored records of two graphs agree. -/
def SameData (g g' : HNSW_graph K) : Prop :=
  g'.mL = g.mL ∧ g'.vector_len = g.vector_len ∧ g'.num_layers = g.num_layers ∧
  g'.efc = g.efc ∧ g'.distanceFunction = g.distanceFunction ∧
  g'.nodes.map (fun x => x.value) = g.nodes.map (fun x => x.value)

/-- Every node of the arena can be reached from node `0` along edges of the
top layer `num_layers - 1`. -/
def TopConnected (g : HNSW_graph K) : Prop :=
  ∀ x, x < g.nodes.length →
    Relation.ReflTransGen (fun a b => b ∈ g.adjacents (g.num_layers - 1) a) 0 x

/-- A node that is linked by an edge at a layer is linked by an edge at every
layer above it. -/
def UpClosed (g : HNSW_graph K) : Prop :=
  ∀ n L L', g.adjacents L n ≠ [] → L ≤ L' → L' < g.num_layers → g.adjacents L' n ≠ []

/-- What every state of the loop of `insert` satisfies: the graph is well
formed, the new node is in the arena, layer 0 lists a node, and the records
and parameters are those the loop started with. -/
def LoopBase (g0 : HNSW_graph K) (new_node : Nat) (g : HNSW_graph K) : Prop :=
  g.Valid ∧ new_node < g.nodes.length ∧ g.layers.headD [] ≠ [] ∧ SameData g0 g

end HNSW_graph

/-- The invariant of the beam search when the beam is at least as wide as the
graph: nothing is ever dropped from `nearest_neighbors`, which holds exactly
the visited nodes in descending order of distance; every visited node is still
a candidate, or is exempted by `E`, or has all its neighbours visited. -/
def BeamComplete (adj : Nat → List Nat) (dist : Nat → Flt) (N startNode : Nat)
    (E : Nat → Prop) (s : BeamState) : Prop :=
  s.visited_nodes.Nodup ∧ (∀ x ∈ s.visited_nodes, x < N) ∧
  List.Perm (s.nearest_neighbors.map Prod.snd) s.visited_nodes ∧
  (∀ p ∈ s.candidates, p ∈ s.nearest_neighbors) ∧
  s.nearest_neighbors.Pairwise (fun a b => b.1 ≤ a.1) ∧
  (∀ p ∈ s.nearest_neighbors, p.1 = dist p.2) ∧
  (∀ v ∈ s.visited_nodes,
    (∃ p ∈ s.candidates, p.2 = v) ∨ E v ∨ ∀ x ∈ adj v, x ∈ s.visited_nodes) ∧
  startNode ∈ s.visited_nodes ∧
  (∀ x ∈ s.visited_nodes, Relation.ReflTransGen (fun a b => b ∈ adj a) startNode x)

/-- The graph of a collection mirrors its record list: it is well formed, its
edges are symmetric, its top layer is connected, its nodes are the records in
insertion order, and it measures with `defaultDistance`. -/
def Collection.Synced {K : Type} (c : Collection K) : Prop :=
  c.hnswGraph.Valid ∧ c.hnswGraph.EdgeSymmetric ∧ c.hnswGraph.TopConnected ∧
  c.hnswGraph.nodes.map (fun x => x.value) = c.data ∧
  c.hnswGraph.distanceFunction = defaultDistance

/-- The catalog states that the public operations can produce from the state
after construction. -/
inductive VectorSearchEngine.Reachable {K : Type} [DecidableEq K] :
    VectorSearchEngine K → Prop where
  | init : Reachable VectorSearchEngine.init
  | createCollection (e : VectorSearchEngine K) (name : String) :
      Reachable e → Reachable (e.createCollection name)
  | deleteCollection (e : VectorSearchEngine K) (name : String) :
      Reachable e → Reachable (e.deleteCollection name).2
  | addToCollection (e e' : VectorSearchEngine K) (name : String) (key : K) (values : Vec)
      (gen gen' : Gen) (b : Bool) :
      Reachable e → e.addToCollection name key values gen = .ok (b, e', gen') → Reachable e'
  | deleteFromCollection (e : VectorSearchEngine K) (name : String) (key : K) :
      Reachable e → Reachable (e.deleteFromCollection name key).2
  | addAlgorithm (e e' : VectorSearchEngine K) (algName name returned : String)
      (mk : List (Record K) → Except Fault (VectorSearchAlgorithm K)) :
      Reachable e → e.addAlgorithm algName name mk = .ok (returned, e') → Reachable e'

/-- Every outgoing edge of a Vamana graph points to a node of the arena. -/
def Vamana.Valid {K : Type} (v : Vamana K) : Prop :=
  ∀ n x, x ∈ v.outgoing n → x < v.arena.length

/-- The arena of a Vamana graph has `N` nodes, and every outgoing edge, every
incoming edge and every entry of the node vector is a pointer to one of them. -/
def Vamana.Bounded {K : Type} (v : Vamana K) (N : Nat) : Prop :=
  v.arena.length = N ∧
  (∀ d ∈ v.arena, (∀ x ∈ d.outgoingAdjList, x < N) ∧ (∀ x ∈ d.incomingAdjList, x < N)) ∧
  ∀ x ∈ v.nodes, x < N

/-- The start node, the records, the parameters and the size of the node
vector of two Vamana objects agree: only adjacency lists and the order of the
node vector may differ. -/
def Vamana.SameCore {K : Type} (v v' : Vamana K) : Prop :=
  v'.startNode = v.startNode ∧
  v'.arena.map (fun x => x.value) = v.arena.map (fun x => x.value) ∧
  v'.alpha = v.alpha ∧ v'.R = v.R ∧ v'.vector_len = v.vector_len ∧
  v'.nodes.length = v.nodes.length

/-- The reads that a search of the graph for `q` makes in `q` stay inside it:
`distanceFunction(node, q)` reads `q[i]` for every index `i` of the vector of
the node, and no vector stored in the graph is longer than `q`. -/
def HNSW_graph.QueryFits {K : Type} (g : HNSW_graph K) (q : Vec) : Prop :=
  ∀ x ∈ g.nodes, x.value.2.length ≤ q.length

/-- The reads that a search of the graph for `q` makes in `q` stay inside it:
`defaultDistance(node, q)` reads `q[i]` for every index `i` of the vector of
the node, and no vector stored in the graph is longer than `q`. -/
def Vamana.QueryFits {K : Type} (v : Vamana K) (q : Vec) : Prop :=
  ∀ x ∈ v.arena, x.value.2.length ≤ q.length

/-! ## Annoy tree and forest: queries (Algorithms/AnnoyTree.hpp, Algorithms/AnnoyTreeForest.hpp) -/

/-- The fault a call ends in, if any. -/
def faultOf {α : Type} : Except Fault α → Option Fault
  | .ok _ => none
  | .error e => some e

/-- Equality of two outcomes of a call can be decided. -/
instance instDecidableEqExcept {ε α : Type} [DecidableEq ε] [DecidableEq α] :
    DecidableEq (Except ε α) := fun a b =>
  match a, b with
  | .ok x, .ok y => if h : x = y then isTrue (by rw [h]) else isFalse (fun h1 => h (by cases h1; rfl))
  | .error x, .error y =>
      if h : x = y then isTrue (by rw [h]) else isFalse (fun h1 => h (by cases h1; rfl))
  | .ok _, .error _ => isFalse (fun h => by cases h)
  | .error _, .ok _ => isFalse (fun h => by cases h)

/-- The function `AnnoyTree::calculateSquaredDistance`: the loop of
`defaultDistance`, over the indices of its first argument. -/
def calculateSquaredDistance (vec1 vec2 : Vec) : Flt := sqDistLoop vec1 vec2 0

/-- The number of pointers in a tree, null pointers included. -/
def TreeNode.size {K : Type} : TreeNode K → Nat
  | .null => 1
  | .node _ _ _ left right => 1 + left.size + right.size

/-- The loop `while (!unprocessed_nodes.empty())` of `findContainingList`.
The queue is a list whose head is the front.  `node` is a reference to the
front taken before `pop()`; the model reads it as the pointer that was popped.
A null pointer that has been pushed is dereferenced when it is popped.  The
first argument bounds the number of iterations. -/
def findLoop {K : Type} (vec : Vec) (threshold : WithTop Flt) :
    Nat → List (TreeNode K) → List (Record K) → Except Fault (List (Record K))
  | 0, [], results => .ok results
  | 0, _ :: _, _ => .error .no_fuel
  | _ + 1, [], results => .ok results
  | _ + 1, .null :: _, _ => .error .undefined
  | fuel + 1, .node _ _ pairList .null .null :: queue, results =>
      findLoop vec threshold fuel queue (results ++ pairList)
  | fuel + 1, .node vec1 vec2 _ left right :: queue, results =>
      let distanceToVec1 := calculateSquaredDistance vec vec1
      let distanceToVec2 := calculateSquaredDistance vec vec2
      if ((|distanceToVec1 - distanceToVec2| : Flt) : WithTop Flt) < threshold then
        findLoop vec threshold fuel (queue ++ [left, right]) results
      else if distanceToVec1 < distanceToVec2 then
        findLoop vec threshold fuel (queue ++ [left]) results
      else
        findLoop vec threshold fuel (queue ++ [right]) results

/-- The function `AnnoyTree::findContainingList`.  The loop is given as many
iterations as the tree has pointers. -/
def AnnoyTree.findContainingList {K : Type} (t : AnnoyTree K) (vec : Vec) :
    Except Fault (List (Record K)) :=
  findLoop vec t.threshold t.root.size [t.root] []

/-- The reads that `findContainingList` makes in the pivots of the tree for a
query of `n` coordinates stay inside them: `calculateSquaredDistance(vec, pivot)`
reads `pivot[i]` for every index `i` of `vec`, and at every node with a child
`vec1` and `vec2` hold at least `n` coordinates. -/
def TreeNode.PivotsCover {K : Type} (n : Nat) : TreeNode K → Prop
  | .null => True
  | .node vec1 vec2 _ left right =>
      (¬ (left = .null ∧ right = .null) → n ≤ vec1.length ∧ n ≤ vec2.length) ∧
      TreeNode.PivotsCover n left ∧ TreeNode.PivotsCover n right

/-- The class `AnnoyTreeForest`. -/
structure AnnoyTreeForest (K : Type) where
  trees : List (AnnoyTree K)
  threshold : WithTop Flt
  sufficient_bucket_threshold : Int
  max_depth : Int
  n_trees : Int
  build_parallel : Bool
  vector_len : Int

/-- The loop of the constructor of `AnnoyTreeForest` that builds the trees;
the first argument is the number of trees still to build. -/
def buildTrees {K : Type} (data : List (Record K)) (threshold : WithTop Flt)
    (bucket max_depth : Int) : Nat → Gen → List (AnnoyTree K) × Gen
  | 0, g => ([], g)
  | n + 1, g =>
      let (tree, g1) := AnnoyTree.build data threshold bucket max_depth g
      let (rest, g2) := buildTrees data threshold bucket max_depth n g1
      (tree :: rest, g2)

/-- Conversion `static_cast<int>` of a `size_t`. -/
def castInt (n : Nat) : Int := ((n + 2 ^ 31) % 2 ^ 32 : Nat) - 2 ^ 31

namespace AnnoyTreeForest

variable {K : Type}

/-- The constructor of `AnnoyTreeForest`.  `trees.reserve(n_trees)` throws for
a negative `n_trees`.  With `build_parallel` the source builds the trees in
concurrent tasks; the model builds them one after the other in both cases. -/
def build (data : List (Record K)) (vector_len : Int) (threshold : WithTop Flt)
    (sufficient_bucket_threshold max_depth n_trees : Int) (build_parallel : Bool) (g : Gen) :
    Except Fault (AnnoyTreeForest K × Gen) :=
  if n_trees < 0 then .error .length_error
  else
    let (trees, g1) :=
      buildTrees data threshold sufficient_bucket_threshold max_depth n_trees.toNat g
    .ok (⟨trees, threshold, sufficient_bucket_threshold, max_depth, n_trees, build_parallel,
      vector_len⟩, g1)

/-- The task that `query` runs for one tree: the candidates of the tree, each
with its squared distance to `vec`. -/
def treeTask (vec : Vec) (tree : AnnoyTree K) : Except Fault (List (K × Flt × Vec)) :=
  match tree.findContainingList vec with
  | .error e => .error e
  | .ok list =>
      .ok (list.map (fun item => (item.1, calculateSquaredDistance vec item.2, item.2)))

/-- The vector `tempResults` of `query`: the results of the tasks, in the
order of the trees. -/
def collect (vec : Vec) : List (AnnoyTree K) → Except Fault (List (K × Flt × Vec))
  | [] => .ok []
  | tree :: rest =>
      match treeTask vec tree with
      | .error e => .error e
      | .ok results =>
          match collect vec rest with
          | .error e => .error e
          | .ok tempResults => .ok (results ++ tempResults)

/-- The function `AnnoyTreeForest::query`.  `std::partial_sort` leaves the
`min(k, size)` nearest tuples in ascending order of distance at the front; the
order it gives to tuples at equal distance is unspecified, and the model takes
the one of a stable sort.  A negative `k` moves the middle iterator before
`begin()`. -/
def query (f : AnnoyTreeForest K) (vec : Vec) (k : Int) :
    Except Fault (List (K × Flt × Vec)) :=
  match collect vec f.trees with
  | .error e => .error e
  | .ok tempResults =>
      if k < 0 then .error .undefined
      else
        let sorted := tempResults.insertionSort (fun a b => a.2.1 ≤ b.2.1)
        .ok (sorted.take (min k (castInt tempResults.length)).toNat)

/-- The function `AnnoyTreeForest::searchClosest`. -/
def searchClosest (f : AnnoyTreeForest K) (target : Vec) (ef : Int) :
    Except Fault (List (Record K)) :=
  match f.query target ef with
  | .error e => .error e
  | .ok nodes => .ok (nodes.map (fun node => (node.1, node.2.2)))

end AnnoyTreeForest

/-! ## Inverted file index (Algorithms/InvertedFileIndex.hpp) -/

/-- The constant `convergenceThreshold = 0.001f`: the `float` nearest to
`0.001`. -/
def convergenceThreshold : Flt := 8589935 / 8589934592

/-- The class `InvertedFileIndex<T>`. -/
structure InvertedFileIndex (K : Type) where
  vector_len : Int
  num_centroids : Int
  retrain_threshold : Int
  data : List (Record K)
  centroids : List Vec
  clusters : List (List (Record K))
  nodesAddedSinceLastRetrain : Int

/-- The sum that `InvertedFileIndex::euclideanDistance` accumulates over the
indices `0 .. vector_len - 1` of both vectors, before its final `std::sqrt`.
The source only ever compares the square root with another square root or
with a non-negative constant, and the model compares the squares (see
`rootSq` for a sum above `FLT_MAX`).  When both vectors hold at least
`vector_len` coordinates this is the sum of the source.  A read past the end
of a vector is undefined in the source; the model reads `0` there, and the
statements about `retrain` assume vectors of at least `vector_len`
coordinates. -/
def euclideanDistanceSq (vector_len : Int) (vec1 vec2 : Vec) : Flt :=
  ((List.range vector_len.toNat).map
    (fun i => (vec1.getD i 0 - vec2.getD i 0) * (vec1.getD i 0 - vec2.getD i 0))).sum

/-- The square of the `float` that `euclideanDistance` returns, for the sum it
has accumulated.  A sum above `FLT_MAX` is `+infinity` in the source and so is
its square root, which is below no `float`; the model gives it the square of
`FLT_MAX`, which is the square of the value that `findNearestCentroid` starts
from and is above every sum that is a `float`. -/
def rootSq (sum : Flt) : Flt := if sum ≤ FLT_MAX then sum else FLT_MAX * FLT_MAX

/-- The loop of `findNearestCentroid` over the centroid indices: the first
index whose distance is strictly below every distance seen before. -/
def nearestLoop (dist : Nat → Flt) : List Nat → Flt → Int → Int
  | [], _, nearestIndex => nearestIndex
  | i :: rest, minDistance, nearestIndex =>
      if dist i < minDistance then nearestLoop dist rest (dist i) i
      else nearestLoop dist rest minDistance nearestIndex

/-- The function `findNearestCentroid` in terms of the centroid vector: it
starts from `FLT_MAX` and the index `-1`, and it returns `-1` when every sum
is above `FLT_MAX`.  `centroids` holds `num_centroids` vectors in every object
the constructor makes. -/
def nearestCentroid (vector_len : Int) (num_centroids : Nat) (centroids : List Vec)
    (vec : Vec) : Int :=
  nearestLoop (fun i => rootSq (euclideanDistanceSq vector_len vec (centroids.getD i [])))
    (List.range num_centroids) (FLT_MAX * FLT_MAX) (-1)

/-- The first loop of `assignToNearestCentroids`:
`newClusters[findNearestCentroid(item.second)].push_back(item)` for every item.
An index of `-1` makes the source write before the start of `newClusters`. -/
def assignLoop {K : Type} (nearest : Vec → Int) :
    List (Record K) → List (List (Record K)) → Except Fault (List (List (Record K)))
  | [], newClusters => .ok newClusters
  | item :: rest, newClusters =>
      let nearestCentroidIndex := nearest item.2
      if 0 ≤ nearestCentroidIndex ∧ nearestCentroidIndex.toNat < newClusters.length then
        assignLoop nearest rest
          (newClusters.modify (fun cluster => cluster ++ [item]) nearestCentroidIndex.toNat)
      else .error .undefined

/-- The second loop of `assignToNearestCentroids`: whether the size of some
cluster differs between `newClusters` and `clusters`. -/
def sizesDiffer {K : Type} (newClusters clusters : List (List (Record K))) (n : Nat) : Bool :=
  (List.range n).any
    (fun i => decide ((newClusters.getD i []).length ≠ (clusters.getD i []).length))

/-- The vector `newCentroids[i]` of `updateCentroids` for one cluster: the zero
vector for an empty cluster, otherwise the sum of the records of the cluster
divided by their number, coordinate by coordinate.  A record with fewer than
`vector_len` coordinates is read past its end by the source; the model reads
`0` there, and the statements about `retrain` assume records of at least
`vector_len` coordinates. -/
def meanVector {K : Type} (vector_len : Int) (cluster : List (Record K)) : Vec :=
  if cluster.isEmpty then List.replicate vector_len.toNat 0
  else
    (List.range vector_len.toNat).map
      (fun j => (cluster.map (fun pair => pair.2.getD j 0)).sum / (cluster.length : Flt))

/-- One iteration of the loop of `updateCentroids`, on the flag
`anyCentroidMoved` and the centroid vector.  (A sum above `FLT_MAX`, whose
square root is `+infinity` in the source, passes the test in the source as it
does in the model.) -/
def updateStep {K : Type} (vector_len : Int) (clusters : List (List (Record K)))
    (st : Bool × List Vec) (i : Nat) : Bool × List Vec :=
  if euclideanDistanceSq vector_len (st.2.getD i []) (meanVector vector_len (clusters.getD i []))
      ≥ convergenceThreshold * convergenceThreshold then
    (true, st.2.set i (meanVector vector_len (clusters.getD i [])))
  else st

namespace InvertedFileIndex

variable {K : Type}

/-- The function `findNearestCentroid`. -/
def findNearestCentroid (s : InvertedFileIndex K) (vec : Vec) : Int :=
  nearestCentroid s.vector_len s.num_centroids.toNat s.centroids vec

/-- The function `assignToNearestCentroids`; the result is the returned flag
and the object afterwards.  The constructor of `newClusters` throws for a
negative `num_centroids`. -/
def assignToNearestCentroids (s : InvertedFileIndex K) :
    Except Fault (Bool × InvertedFileIndex K) :=
  if s.num_centroids < 0 then .error .length_error
  else
    match assignLoop s.findNearestCentroid s.data
        (List.replicate s.num_centroids.toNat []) with
    | .error e => .error e
    | .ok newClusters =>
        .ok (sizesDiffer newClusters s.clusters s.num_centroids.toNat,
          { s with clusters := newClusters })

/-- The function `updateCentroids`; the result is the returned flag and the
object afterwards.  The constructor of `newCentroids` throws for a negative
`num_centroids` or `vector_len`. -/
def updateCentroids (s : InvertedFileIndex K) : Except Fault (Bool × InvertedFileIndex K) :=
  if s.num_centroids < 0 ∨ s.vector_len < 0 then .error .length_error
  else
    let r := (List.range s.num_centroids.toNat).foldl
      (updateStep s.vector_len s.clusters) (false, s.centroids)
    .ok (r.1, { s with centroids := r.2 })

/-- The loop `do { ... } while (centroidsChanged)` of `retrain`; the first
argument bounds the number of passes. -/
def retrainLoop : Nat → InvertedFileIndex K → Except Fault (InvertedFileIndex K)
  | 0, _ => .error .no_fuel
  | fuel + 1, s =>
      match s.assignToNearestCentroids with
      | .error e => .error e
      | .ok (changed1, s1) =>
          match s1.updateCentroids with
          | .error e => .error e
          | .ok (changed2, s2) =>
              if changed2 || changed1 then retrainLoop fuel s2 else .ok s2

/-- The sum over the records of the squared distance to the nearest
centroid. -/
def cost (s : InvertedFileIndex K) : Flt :=
  (s.data.map (fun item => euclideanDistanceSq s.vector_len item.2
    (s.centroids.getD (s.findNearestCentroid item.2).toNat []))).sum

/-- The number of passes given to the loop of `retrain`: each pass that moves
the centroid of a non-empty cluster lowers `cost` by the square of
`convergenceThreshold` at least, and between two such passes there are at most
`num_centroids + 1` others. -/
def retrainFuel (s : InvertedFileIndex K) : Nat :=
  2 * (Nat.floor (s.cost / (convergenceThreshold * convergenceThreshold))
    * (s.num_centroids.toNat + 1) + s.num_centroids.toNat) + 2

/-- The function `retrain`. -/
def retrain (s : InvertedFileIndex K) : Except Fault (InvertedFileIndex K) :=
  retrainLoop s.retrainFuel s

/-- The function `initializeCentroids`: the records at the first
`num_centroids` positions of a shuffle of `0 .. data.size() - 1`. -/
def initializeCentroids (s : InvertedFileIndex K) (g : Gen) : InvertedFileIndex K × Gen :=
  let (indices, g1) := shuffle (List.range s.data.length) g
  let chosen : List Vec := (List.range s.num_centroids.toNat).map
    (fun i => ((s.data.map Prod.snd).getD (indices.getD i 0) []))
  ({ s with centroids := chosen }, g1)

/-- The constructor of `InvertedFileIndex`.  The member initialiser
`clusters(num_centroids)` throws for a negative `num_centroids`. -/
def build (inputData : List (Record K)) (vector_len num_centroids retrain_threshold : Int)
    (g : Gen) : Except Fault (InvertedFileIndex K × Gen) :=
  if num_centroids < 0 then .error .length_error
  else if inputData.length < toSizeT num_centroids then .error .invalid_argument
  else
    let s0 : InvertedFileIndex K :=
      ⟨vector_len, num_centroids, retrain_threshold, inputData, [],
        List.replicate num_centroids.toNat [], 0⟩
    let (s1, g1) := s0.initializeCentroids g
    match s1.retrain with
    | .error e => .error e
    | .ok s2 => .ok (s2, g1)

/-- The order `operator<` of `std::pair<float, T>`, as `≤`: by distance, then
by key. -/
def pairLE [LinearOrder K] (a b : Flt × K) : Prop := a.1 < b.1 ∨ (a.1 = b.1 ∧ a.2 ≤ b.2)

instance pairLE_decidable [LinearOrder K] : DecidableRel (pairLE : Flt × K → Flt × K → Prop) :=
  fun a b => by unfold pairLE; exact inferInstance

/-- The function `findClosest`.  `std::nth_element` leaves the `num_results`
least pairs in the first `num_results` places, in an unspecified order, and the
model takes them in ascending order; `num_results` outside `0 .. data.size()`
moves the iterator `nth` out of the range.  Each pair kept is then looked up
in `data` by its key alone, with `std::find_if`.  The pairs are ordered by the
square of the distance, which orders them as the distance does. -/
def findClosest [LinearOrder K] (s : InvertedFileIndex K) (vec : Vec) (num_results : Int) :
    Except Fault (List (Record K)) :=
  let distances :=
    s.data.map (fun item => (rootSq (euclideanDistanceSq s.vector_len item.2 vec), item.1))
  if num_results < 0 ∨ distances.length < num_results.toNat then .error .undefined
  else
    let kept := (distances.insertionSort pairLE).take num_results.toNat
    .ok (kept.filterMap (fun dist => s.data.find? (fun item => decide (item.1 = dist.2))))

/-- The function `searchClosest`. -/
def searchClosest [LinearOrder K] (s : InvertedFileIndex K) (vec : Vec) (num_results : Int) :
    Except Fault (List (Record K)) :=
  s.findClosest vec num_results

end InvertedFileIndex

/-! ## Command handlers (VectorSearchEngine.hpp) -/

/-- The response code `RES_OK`. -/
def RES_OK : Nat := 0

/-- The response code `RES_ERR`. -/
def RES_ERR : Nat := 1

/-- The response code `RES_NX`. -/
def RES_NX : Nat := 2

/-- What a command handler leaves behind: the response code it returns, the
payload `res[0 .. *reslen)` (the caller sets `*reslen = 0` before the call),
the catalog and the random source. -/
structure Reply where
  rescode : Nat
  payload : String
  engine : VectorSearchEngine String
  gen : Gen

/-- The items that the loop `while (std::getline(ss, item, ','))` reads from
the characters left in the stream; the second argument is the item being
read.  At the end of the stream an item is produced only if a character has
been read for it. -/
def getlineItems : List Char → List Char → List String
  | [], item => if item.isEmpty then [] else [String.mk item]
  | ch :: rest, item =>
      if ch = ',' then String.mk item :: getlineItems rest []
      else getlineItems rest (item ++ [ch])

/-- The loop `floats.push_back(std::stof(item))` over the items.  `stof`
stands for `std::stof`, with `none` when it throws; the result is `none` when
some call throws, which the handlers catch. -/
def parseFloats (stof : String → Option Flt) : List String → Option Vec
  | [] => some []
  | item :: rest =>
      match stof item with
      | none => none
      | some x =>
          match parseFloats stof rest with
          | none => none
          | some floats => some (x :: floats)

/-- The string `val` that the query handlers build from the keys of the
results. -/
def joinKeys (searchResults : List (Record String)) : String :=
  searchResults.foldl
    (fun val result => (if val.isEmpty then val else val ++ "\n") ++ result.1) ""

/-- The index object as the catalog stores it, behind the interface
`VectorSearchAlgorithm`. -/
def InvertedFileIndex.toAlgorithm {K : Type} [LinearOrder K] (s : InvertedFileIndex K) :
    VectorSearchAlgorithm K :=
  ⟨fun vec num_results => s.searchClosest vec num_results⟩

namespace VectorSearchEngine

/-- The handler `add_to_collection`. -/
def add_to_collection (stof : String → Option Flt) (e : VectorSearchEngine String)
    (cmd : List String) (gen : Gen) : Except Fault Reply :=
  if cmd.length < 4 then .ok ⟨2, "", e, gen⟩
  else
    match e.collections.find (cmd.getD 1 "") with
    | none => .ok ⟨1, "", e, gen⟩
    | some _ =>
        match parseFloats stof (getlineItems (cmd.getD 3 "").toList []) with
        | none => .ok ⟨3, "", e, gen⟩
        | some floats =>
            match e.addToCollection (cmd.getD 1 "") (cmd.getD 2 "") floats gen with
            | .error err => .error err
            | .ok (_, e1, gen1) => .ok ⟨RES_OK, "", e1, gen1⟩

/-- The end shared by `query_collection` and `queryAlg`: the keys are joined,
`assert(val.size() <= k_max_msg)` is checked and the string is copied to
`res`. -/
def replyKeys (e : VectorSearchEngine String) (gen : Gen)
    (searchResults : List (Record String)) : Except Fault Reply :=
  if (joinKeys searchResults).utf8ByteSize ≤ k_max_msg then
    .ok ⟨RES_OK, joinKeys searchResults, e, gen⟩
  else .error .abort

/-- The handler `query_collection`.  `stoi` stands for `std::stoi`, whose
exceptions nothing catches.  The handler checks for three arguments and reads
the fourth. -/
def query_collection (stof : String → Option Flt) (stoi : String → Except Fault Int)
    (e : VectorSearchEngine String) (cmd : List String) (gen : Gen) : Except Fault Reply :=
  if cmd.length < 3 then .ok ⟨1, "", e, gen⟩
  else
    match parseFloats stof (getlineItems (cmd.getD 2 "").toList []) with
    | none => .ok ⟨3, "", e, gen⟩
    | some queryVec =>
        match cmd[3]? with
        | none => .error .undefined
        | some arg =>
            match stoi arg with
            | .error err => .error err
            | .ok ef =>
                match e.queryCollection (cmd.getD 1 "") queryVec ef with
                | .error err => .error err
                | .ok searchResults => replyKeys e gen searchResults

/-- The handler `queryAlg`. -/
def queryAlg (stof : String → Option Flt) (stoi : String → Except Fault Int)
    (e : VectorSearchEngine String) (cmd : List String) (gen : Gen) : Except Fault Reply :=
  if cmd.length < 3 then .ok ⟨1, "", e, gen⟩
  else
    match parseFloats stof (getlineItems (cmd.getD 2 "").toList []) with
    | none => .ok ⟨3, "", e, gen⟩
    | some queryVec =>
        match cmd[3]? with
        | none => .error .undefined
        | some arg =>
            match stoi arg with
            | .error err => .error err
            | .ok ef =>
                match e.queryAlgorithm (cmd.getD 1 "") queryVec ef with
                | .error err => .error err
                | .ok searchResults => replyKeys e gen searchResults

/-- The handler `addIFI`.  It checks for five arguments and reads the sixth.
An exception of the constructor of the index leaves `addAlgorithm` and the
handler uncaught. -/
def addIFI (stoi : String → Except Fault Int) (e : VectorSearchEngine String)
    (cmd : List String) (gen : Gen) : Except Fault Reply :=
  if cmd.length < 5 then .ok ⟨1, "", e, gen⟩
  else
    match stoi (cmd.getD 3 "") with
    | .error err => .error err
    | .ok vector_length =>
        match stoi (cmd.getD 4 "") with
        | .error err => .error err
        | .ok num_centroids =>
            match cmd[5]? with
            | none => .error .undefined
            | some arg =>
                match stoi arg with
                | .error err => .error err
                | .ok retrain_threshold =>
                    match e.addAlgorithm (cmd.getD 2 "") (cmd.getD 1 "")
                        (fun data =>
                          match InvertedFileIndex.build data vector_length num_centroids
                              retrain_threshold gen with
                          | .error err => .error err
                          | .ok (index, _) => .ok index.toAlgorithm) with
                    | .error err => .error err
                    | .ok (_, e1) => .ok ⟨RES_OK, "", e1, gen⟩

end VectorSearchEngine

/-- A reader that agrees with `std::stoi` on the strings `"1"` and `"2"`, used
in instances. -/
def exampleStoi (s : String) : Except Fault Int :=
  if s = "1" then .ok 1 else if s = "2" then .ok 2 else .error .invalid_argument

/-- A reader that agrees with `std::stof` on the strings `"0"` and `"1"`, used
in instances. -/
def exampleStof (s : String) : Option Flt :=
  if s = "0" then some 0 else if s = "1" then some 1 else none

/-! ## Inverted file index: notions used in the statements -/

/-- The clusters that the assignment pass builds from the centroids `c`:
cluster `i` holds, in the order of the data, the records whose nearest centroid
is `i`. -/
def clustersOf {K : Type} (vector_len : Int) (k : Nat) (c : List Vec)
    (data : List (Record K)) : List (List (Record K)) :=
  (List.range k).map (fun (i : Nat) =>
    data.filter (fun item => decide (nearestCentroid vector_len k c item.2 = (i : Int))))

/-- The sum over the records of the squared distance to the nearest of the
centroids `c`. -/
def costOf {K : Type} (vector_len : Int) (k : Nat) (c : List Vec)
    (data : List (Record K)) : Flt :=
  (data.map (fun item => euclideanDistanceSq vector_len item.2
    (c.getD (nearestCentroid vector_len k c item.2).toNat []))).sum

/-- The number of centroids among the first `k` that are not the zero vector. -/
def nonZeroCount (vector_len : Int) (k : Nat) (c : List Vec) : Nat :=
  ((List.range k).filter
    (fun i => decide (c.getD i [] ≠ List.replicate vector_len.toNat 0))).length

/-- Every coordinate of `v` below `vector_len` is at most `B` in absolute
value. -/
def VecBounded (vector_len : Int) (B : Flt) (v : Vec) : Prop :=
  ∀ j, j < vector_len.toNat → |v.getD j 0| ≤ B

/-- The test of `updateCentroids` for centroid `i`: its distance to the mean of
cluster `i` is `convergenceThreshold` or more. -/
def centroidMoves {K : Type} (vector_len : Int) (clusters : List (List (Record K)))
    (c : List Vec) (i : Nat) : Prop :=
  euclideanDistanceSq vector_len (c.getD i []) (meanVector vector_len (clusters.getD i []))
    ≥ convergenceThreshold * convergenceThreshold

instance centroidMoves_decidable {K : Type} (vector_len : Int)
    (clusters : List (List (Record K))) (c : List Vec) (i : Nat) :
    Decidable (centroidMoves vector_len clusters c i) := by
  unfold centroidMoves; exact inferInstance

/-- What the statements about `retrain` ask of an object: a non-negative
`vector_len`, at least one centroid, as many centroid vectors as
`num_centroids`, a bound `B` on the absolute value of every coordinate of the
records and of the centroids that keeps every sum of squares and every sum of
coordinates that the code forms within `FLT_MAX`, and at least `vector_len`
coordinates in every record and in every centroid, so that every read stays
inside its vector. -/
def RetrainReady {K : Type} (s : InvertedFileIndex K) (B : Flt) : Prop :=
  0 ≤ s.vector_len ∧ 1 ≤ s.num_centroids ∧ s.centroids.length = s.num_centroids.toNat ∧
  0 ≤ B ∧ (∀ x ∈ s.data, VecBounded s.vector_len B x.2) ∧
  (∀ v ∈ s.centroids, VecBounded s.vector_len B v) ∧
  (s.vector_len.toNat : Flt) * ((2 * B) * (2 * B)) ≤ FLT_MAX ∧
  (s.data.length : Flt) * B ≤ FLT_MAX ∧
  (∀ x ∈ s.data, s.vector_len.toNat ≤ x.2.length) ∧
  (∀ v ∈ s.centroids, s.vector_len.toNat ≤ v.length)

/-- A pass of the loop of `retrain` that leads from `t` to `s` and is the last
one: `assignToNearestCentroids` and `updateCentroids` both return `false`. -/
def FinalPass {K : Type} (t s : InvertedFileIndex K) : Prop :=
  ∃ t1, t.assignToNearestCentroids = .ok (false, t1) ∧ t1.updateCentroids = .ok (false, s)

/-- The quantity that every pass of `retrain` which moves a centroid lowers:
the cost in units of the square of `convergenceThreshold`, weighted, plus the
number of centroids that are not the zero vector. -/
def passMeasure {K : Type} (vector_len : Int) (k : Nat) (c : List Vec)
    (data : List (Record K)) : Nat :=
  Nat.floor (costOf vector_len k c data / (convergenceThreshold * convergenceThreshold))
    * (k + 1) + nonZeroCount vector_len k c

/-- The function `cmd_is`: `0 == strcasecmp(word.c_str(), cmd)`.  The string
`word.c_str()` ends at the first NUL of `word`, and letters are compared
without regard to case. -/
def cmd_is (word cmd : String) : Bool :=
  decide ((word.toList.takeWhile (fun ch => decide (ch ≠ Char.ofNat 0))).map Char.toLower
    = cmd.toList.map Char.toLower)

/-- The comparison `a < b` of two `std::string`, the order of the keys of a
`std::map<std::string, V>`. -/
def stringLess : List Char → List Char → Bool
  | _, [] => false
  | [], _ :: _ => true
  | a :: as, b :: bs =>
      if a.toNat < b.toNat then true
      else if b.toNat < a.toNat then false
      else stringLess as bs

/-- The keys of a `std::map<std::string, V>` in the order of an iteration over
the map. -/
def StdMap.keys {V : Type} (m : StdMap V) : List String :=
  (m.map Prod.fst).insertionSort (fun a b => stringLess b.toList a.toList = false)

/-- The copy `shuffledValues` of the constructor of `HNSW_graph` after
`std::shuffle`: the positions are shuffled, and each stands for the record at
that position of `nodeValues`. -/
def shuffleValues {K : Type} (nodeValues : List (Record K)) (g : Gen) : List (Record K) × Gen :=
  ((shuffle (List.range nodeValues.length) g).1.filterMap (fun i => nodeValues[i]?),
    (shuffle (List.range nodeValues.length) g).2)

/-- The constructor `HNSW_graph(nodeValues, mL, vector_len, num_layers, efc)`:
`layers(num_layers)` throws for a negative `num_layers`; the shuffled records
are inserted one after the other. -/
def HNSW_graph.build {K : Type} (nodeValues : List (Record K)) (mL : Flt)
    (vector_len num_layers efc : Int) (g : Gen) : Except Fault (HNSW_graph K × Gen) :=
  if num_layers < 0 then .error .length_error
  else
    HNSW_graph.insertAll (shuffleValues nodeValues g).1
      (HNSW_graph.empty mL vector_len num_layers.toNat efc defaultDistance)
      (shuffleValues nodeValues g).2

/-- The index object as the catalog stores it, behind the interface
`VectorSearchAlgorithm`. -/
def HNSW_graph.toAlgorithm {K : Type} (g : HNSW_graph K) : VectorSearchAlgorithm K :=
  ⟨fun target ef => g.searchClosest target ef⟩

/-- The index object as the catalog stores it, behind the interface
`VectorSearchAlgorithm`. -/
def Vamana.toAlgorithm {K : Type} (v : Vamana K) : VectorSearchAlgorithm K :=
  ⟨fun target ef => v.searchClosest target ef⟩

/-- The index object as the catalog stores it, behind the interface
`VectorSearchAlgorithm`. -/
def AnnoyTreeForest.toAlgorithm {K : Type} (f : AnnoyTreeForest K) : VectorSearchAlgorithm K :=
  ⟨fun target ef => f.searchClosest target ef⟩

/-- The string `val` that `listCollections` and `listAlgorithms` build from the
names. -/
def joinNames (searchResults : List String) : String :=
  searchResults.foldl (fun val result => (if val.isEmpty then val else val ++ "\n") ++ result) ""

namespace VectorSearchEngine

/-- The function `listAlgorithmNames`. -/
def listAlgorithmNames {K : Type} (e : VectorSearchEngine K) : List String :=
  e.algorithms.keys

/-- The function `listCollectionNames`. -/
def listCollectionNames {K : Type} (e : VectorSearchEngine K) : List String :=
  e.collections.keys

/-- The handler `create_collection`.  When the collection exists the source
reaches the end of the function without a `return` statement. -/
def create_collection (e : VectorSearchEngine String) (cmd : List String) (gen : Gen) :
    Except Fault Reply :=
  match cmd[1]? with
  | none => .error .undefined
  | some name =>
      match e.collections.find name with
      | none => .ok ⟨RES_OK, "", e.createCollection name, gen⟩
      | some _ => .error .undefined

/-- The end shared by `listCollections` and `listAlgorithms`: the names are
joined, `assert(val.size() <= k_max_msg)` is checked and the string is copied
to `res`. -/
def replyNames (e : VectorSearchEngine String) (gen : Gen) (searchResults : List String) :
    Except Fault Reply :=
  if (joinNames searchResults).utf8ByteSize ≤ k_max_msg then
    .ok ⟨RES_OK, joinNames searchResults, e, gen⟩
  else .error .abort

/-- The handler `listCollections`. -/
def listCollections (e : VectorSearchEngine String) (gen : Gen) : Except Fault Reply :=
  replyNames e gen e.listCollectionNames

/-- The handler `listAlgorithms`. -/
def listAlgorithms (e : VectorSearchEngine String) (gen : Gen) : Except Fault Reply :=
  replyNames e gen e.listAlgorithmNames

/-- A call of `std::stof` outside a `try` block: its exception leaves the
handler. -/
def stofUncaught (stof : String → Option Flt) (s : String) : Except Fault Flt :=
  match stof s with
  | none => .error .invalid_argument
  | some x => .ok x

/-- The handler `addHNSW`.  It checks for six arguments and reads the seventh.
An exception of the constructor of the index leaves `addAlgorithm` and the
handler uncaught. -/
def addHNSW (stof : String → Option Flt) (stoi : String → Except Fault Int)
    (e : VectorSearchEngine String) (cmd : List String) (gen : Gen) : Except Fault Reply :=
  if cmd.length < 6 then .ok ⟨1, "", e, gen⟩
  else
    match stofUncaught stof (cmd.getD 3 "") with
    | .error err => .error err
    | .ok mL =>
        match stoi (cmd.getD 4 "") with
        | .error err => .error err
        | .ok vector_len =>
            match stoi (cmd.getD 5 "") with
            | .error err => .error err
            | .ok num_layers =>
                match cmd[6]? with
                | none => .error .undefined
                | some arg =>
                    match stoi arg with
                    | .error err => .error err
                    | .ok efc =>
                        match e.addAlgorithm (cmd.getD 2 "") (cmd.getD 1 "")
                            (fun data =>
                              match HNSW_graph.build data mL vector_len num_layers efc gen with
                              | .error err => .error err
                              | .ok (index, _) => .ok index.toAlgorithm) with
                        | .error err => .error err
                        | .ok (_, e1) => .ok ⟨RES_OK, "", e1, gen⟩

/-- The handler `addANNOY`.  The bucket threshold read by `std::stoi` passes
through a `float` variable on its way to the `int` parameter of the
constructor, which keeps every value up to `2^24` in absolute value; the model
hands the integer over as it is. -/
def addANNOY (stof : String → Option Flt) (stoi : String → Except Fault Int)
    (e : VectorSearchEngine String) (cmd : List String) (gen : Gen) : Except Fault Reply :=
  if cmd.length < 8 then .ok ⟨1, "", e, gen⟩
  else
    match stoi (cmd.getD 3 "") with
    | .error err => .error err
    | .ok vector_len =>
        match stoi (cmd.getD 5 "") with
        | .error err => .error err
        | .ok sufficient_bucket_threshold =>
            match stoi (cmd.getD 6 "") with
            | .error err => .error err
            | .ok max_depth =>
                match stoi (cmd.getD 7 "") with
                | .error err => .error err
                | .ok n_trees =>
                    match stofUncaught stof (cmd.getD 4 "") with
                    | .error err => .error err
                    | .ok threshold =>
                        match e.addAlgorithm (cmd.getD 2 "") (cmd.getD 1 "")
                            (fun data =>
                              match AnnoyTreeForest.build data vector_len (threshold : WithTop Flt)
                                  sufficient_bucket_threshold max_depth n_trees true gen with
                              | .error err => .error err
                              | .ok (index, _) => .ok index.toAlgorithm) with
                        | .error err => .error err
                        | .ok (_, e1) => .ok ⟨RES_OK, "", e1, gen⟩

/-- The handler `addVamana`.  It checks for five arguments and reads the
sixth. -/
def addVamana (stof : String → Option Flt) (stoi : String → Except Fault Int)
    (e : VectorSearchEngine String) (cmd : List String) (gen : Gen) : Except Fault Reply :=
  if cmd.length < 5 then .ok ⟨1, "", e, gen⟩
  else
    match stoi (cmd.getD 3 "") with
    | .error err => .error err
    | .ok vector_length =>
        match stoi (cmd.getD 4 "") with
        | .error err => .error err
        | .ok num_edges =>
            match cmd[5]? with
            | none => .error .undefined
            | some arg =>
                match stofUncaught stof arg with
                | .error err => .error err
                | .ok alpha =>
                    match e.addAlgorithm (cmd.getD 2 "") (cmd.getD 1 "")
                        (fun data =>
                          match Vamana.build data alpha vector_length num_edges 1 gen with
                          | .error err => .error err
                          | .ok (index, _) => .ok index.toAlgorithm) with
                    | .error err => .error err
                    | .ok (_, e1) => .ok ⟨RES_OK, "", e1, gen⟩

/-- The function `do_request` from the point where `parse_req` has filled
`cmd`.  The tests of the chain are taken in the order of the source; the test
for `Collections` is the first that reads `cmd[0]` without a test of
`cmd.size()`.  The result is what the call leaves in `*rescode` and in
`res[0 .. *reslen)`. -/
def do_request (stof : String → Option Flt) (stoi : String → Except Fault Int)
    (e : VectorSearchEngine String) (cmd : List String) (gen : Gen) : Except Fault Reply :=
  if cmd.length ≥ 3 && cmd_is (cmd.getD 0 "") "query" then
    e.query_collection stof stoi cmd gen
  else if cmd.length = 2 && cmd_is (cmd.getD 0 "") "create_collection" then
    e.create_collection cmd gen
  else if cmd.length ≥ 4 && cmd_is (cmd.getD 0 "") "add_to_collection" then
    e.add_to_collection stof cmd gen
  else if cmd.length ≥ 4 && cmd_is (cmd.getD 0 "") "Vamana" then
    e.addVamana stof stoi cmd gen
  else if cmd.length ≥ 4 && cmd_is (cmd.getD 0 "") "HNSW" then
    e.addHNSW stof stoi cmd gen
  else if cmd.length ≥ 4 && cmd_is (cmd.getD 0 "") "IFI" then
    e.addIFI stoi cmd gen
  else if cmd.length ≥ 4 && cmd_is (cmd.getD 0 "") "ANNOY" then
    e.addANNOY stof stoi cmd gen
  else if cmd.length ≥ 4 && cmd_is (cmd.getD 0 "") "queryAlg" then
    e.queryAlg stof stoi cmd gen
  else
    match cmd[0]? with
    | none => .error .undefined
    | some word =>
        if cmd_is word "Collections" then e.listCollections gen
        else if cmd_is word "Algorithms" then e.listAlgorithms gen
        else if cmd_is word "exit" then .error .exit
        else .ok ⟨RES_ERR, "Unknown cmd.", e, gen⟩

/-- The number of bytes of `Conn::wbuf`, `4 + k_max_msg`. -/
def wbufSize : Nat := 4 + k_max_msg

/-- The part of `try_one_request` that answers a request whose arguments are
`cmd`: `do_request` writes the payload to `wbuf + 8`, then `wlen += 4`, the
four bytes of `wlen` and the four bytes of `rescode` are written to the start
of `wbuf`, and `wbuf_size = 4 + wlen`.  A payload of more than
`sizeof(wbuf) - 8` bytes has been written past the end of `wbuf`.  The result
is `wlen`, `wbuf_size` and the catalog afterwards. -/
def try_one_request (stof : String → Option Flt) (stoi : String → Except Fault Int)
    (e : VectorSearchEngine String) (cmd : List String) (gen : Gen) :
    Except Fault (Nat × Nat × VectorSearchEngine String × Gen) :=
  match do_request stof stoi e cmd gen with
  | .error err => .error err
  | .ok rep =>
      if 8 + rep.payload.utf8ByteSize > wbufSize then .error .undefined
      else
        let wlen := (rep.payload.utf8ByteSize + 4) % 2 ^ 32
        .ok (wlen, 4 + wlen, rep.engine, rep.gen)

end VectorSearchEngine

/-! ## Reference definitions, worded as the specification words them -/

/-- The descent of the top-level HNSW search as the specification words it,
with the number of layers as a parameter: starting from `start`, one
`search_layer` with `ef = 1` in each of the layers `0 .. count - 1`, each
started at the first node that the previous one returned. -/
def specDescent {K : Type} (g : HNSW_graph K) (queryVec : Vec) : Nat → Nat → Except Fault Nat
  | 0, start => .ok start
  | count + 1, start =>
      match specDescent g queryVec count start with
      | .error e => .error e
      | .ok bestNode =>
          match g.search_layer count bestNode queryVec 1 with
          | .error e => .error e
          | .ok [] => .error .undefined
          | .ok (best :: _) => .ok best

/-- The top-level HNSW search as the specification words it: descend greedily
from the entry node through the layers `0 .. count - 1`, then run
`search_layer(num_layers - 1, ·, q, ef)` and return its list.  The
specification takes `count = num_layers - 1`. -/
def specSearch {K : Type} (g : HNSW_graph K) (queryVec : Vec) (ef : Nat) (count : Nat) :
    Except Fault (List Nat) :=
  match g.layers with
  | [] => .ok []
  | layer0 :: _ =>
      match layer0 with
      | [] => .ok []
      | entry :: _ =>
          match specDescent g queryVec count entry with
          | .error e => .error e
          | .ok best => g.search_layer (g.num_layers - 1) best queryVec ef

/-- The beam search with the stop condition of the specification: the loop
stops when `nearest` holds at least `ef` entries and the popped candidate is
farther than the worst entry of `nearest`. -/
def specBeamSearch (adj : Nat → List Nat) (dist : Nat → Flt) (ef : Nat) (fuel : Nat)
    (startNode : Nat) : Option (List Nat) :=
  beamSearch adj dist ef (fun size => decide (size ≥ ef)) fuel startNode

/-- The canonical encoding of an argument list: the number of arguments as a
`u32`, then for each argument its length as a `u32` followed by its bytes. -/
def canonicalEncoding (args : List (List Byte)) : List Byte :=
  u32le args.length ++ (args.map (fun arg => u32le arg.length ++ arg)).flatten

/-- The shape of an Annoy tree below a pointer at depth `depth`, for the bucket
threshold `b` and the depth bound `m`: a node lies at depth at most `m + 1`; a
leaf (a node without children) holds at least one record, and at most `b`
records when its depth is at most `m`; an internal node has a child and an
empty record list; both subtrees have the shape at depth `depth + 1`. -/
def TreeNode.WellShaped {K : Type} (b : Int) (m : Int) : Int → TreeNode K → Prop
  | _, .null => True
  | depth, .node _ _ pairList left right =>
      depth ≤ m + 1 ∧
      ((left = .null ∧ right = .null) → pairList ≠ [] ∧ (depth ≤ m → (pairList.length : Int) ≤ b)) ∧
      (¬ (left = .null ∧ right = .null) → pairList = []) ∧
      TreeNode.WellShaped b m (depth + 1) left ∧ TreeNode.WellShaped b m (depth + 1) right

/-- What every state of the beam search with a beam width `ef ≥ 1` satisfies:
`nearest_neighbors` is in descending order of distance, holds each node with
its distance to the query and at most once, holds only visited nodes and at
most `ef` entries, and while it holds fewer than `ef` entries nothing has been
dropped from it, so every candidate is still one of its entries. -/
def BeamSound (dist : Nat → Flt) (ef : Nat) (s : BeamState) : Prop :=
  s.nearest_neighbors.Pairwise (fun a b => b.1 ≤ a.1) ∧
  (∀ p ∈ s.nearest_neighbors, p.1 = dist p.2) ∧
  (s.nearest_neighbors.map Prod.snd).Nodup ∧
  (∀ p ∈ s.nearest_neighbors, p.2 ∈ s.visited_nodes) ∧
  s.nearest_neighbors.length ≤ ef ∧
  (s.nearest_neighbors.length < ef → ∀ p ∈ s.candidates, p ∈ s.nearest_neighbors)

/-! ## Binary tree (Algorithms/BinaryTree.hpp, Algorithms/BinaryTree.cpp) -/

/-- A `std::shared_ptr<TreeNode<T>>` of a `BinaryTree<T>`: `nullptr`, or a node
with its data and its two child pointers. -/
inductive BinaryTreeNode (T : Type) where
  | null : BinaryTreeNode T
  | node (data : T) (left right : BinaryTreeNode T) : BinaryTreeNode T
deriving Repr, DecidableEq

/-- Modelled from the spec: the constructor `TreeNode<T>(data)`, which
`insertHelper` calls through `std::make_shared` and which TreeNode.hpp does not
declare, makes a node that holds `data` and has two null children (the
traversal test in `main` presumes just that). -/
def BinaryTreeNode.ofData {T : Type} (data : T) : BinaryTreeNode T :=
  .node data .null .null

/-- The function `BinaryTree::insertHelper`; the result is the pointer that the
reference `node` holds afterwards. -/
def insertHelper {T : Type} (comparator : T → T → Bool) (data : T) :
    BinaryTreeNode T → BinaryTreeNode T
  | .null => BinaryTreeNode.ofData data
  | .node d left right =>
      if comparator data d then .node d (insertHelper comparator data left) right
      else .node d left (insertHelper comparator data right)

/-- The struct `BinaryTree<T>`. -/
structure BinaryTree (T : Type) where
  root : BinaryTreeNode T

namespace BinaryTree

variable {T : Type}

/-- The constructor `BinaryTree()`. -/
def empty : BinaryTree T := ⟨.null⟩

/-- The function `BinaryTree::insert`. -/
def insert (t : BinaryTree T) (data : T) (comparator : T → T → Bool) : BinaryTree T :=
  ⟨insertHelper comparator data t.root⟩

/-- A run of `insert` calls with one comparator. -/
def insertAll (comparator : T → T → Bool) (values : List T) (t : BinaryTree T) : BinaryTree T :=
  values.foldl (fun tree data => tree.insert data comparator) t

end BinaryTree

/-- The function `defaultSquaredDistance` of KNN.hpp: `i` runs over the indices
of `a` and reads `b[i]`, the loop of `defaultDistance`. -/
def defaultSquaredDistance (a b : Vec) : Flt := sqDistLoop a b 0

/-- The class `KNN<vector_len, num_centroids>`; the template arguments are
fields. -/
structure KNN where
  vector_len : Int
  num_centroids : Int
  centroids : List Vec
  clusters : List (List Vec)
  distanceFunction : Vec → Vec → Flt

namespace KNN

/-- The constructor `KNN(distFunc)`: `clusters(num_centroids)`, then
`centroids.resize(num_centroids, Vector(vector_len, 0.0f))`; a negative size
makes the constructor of the vector throw. -/
def init (vector_len num_centroids : Int) (distFunc : Vec → Vec → Flt) : Except Fault KNN :=
  if num_centroids < 0 ∨ vector_len < 0 then .error .length_error
  else
    .ok
      { vector_len := vector_len
        num_centroids := num_centroids
        centroids := List.replicate num_centroids.toNat (List.replicate vector_len.toNat 0)
        clusters := List.replicate num_centroids.toNat []
        distanceFunction := distFunc }

/-- The function `KNN::predict`: it starts from the index `0` and the bound
`FLT_MAX` and keeps the first index whose distance is strictly below every
distance seen before.  `centroids` holds `num_centroids` vectors in every
object the constructor makes. -/
def predict (k : KNN) (vec : Vec) : Int :=
  nearestLoop (fun i => k.distanceFunction vec (k.centroids.getD i []))
    (List.range k.num_centroids.toNat) FLT_MAX 0

/-- The function `KNN::initializeCentroids`: the indices of the data are
shuffled and `centroids[i] = data[indices[i] % data.size()]` for every
`i < num_centroids`; with more centroids than data the source reads
`indices` past its end. -/
def initializeCentroids (k : KNN) (data : List Vec) (g : Gen) : Except Fault (KNN × Gen) :=
  if k.num_centroids.toNat > data.length then .error .undefined
  else
    .ok (⟨k.vector_len, k.num_centroids,
        (List.range k.num_centroids.toNat).foldl
          (fun centroids i =>
            centroids.set i
              (data.getD ((shuffle (List.range data.length) g).1.getD i 0 % data.length) []))
          k.centroids,
        k.clusters, k.distanceFunction⟩,
      (shuffle (List.range data.length) g).2)

/-- The first loop of `assignToNearestCentroids`:
`newClusters[predict(vec)].push_back(vec)` for every vector. -/
def assignLoop (k : KNN) : List Vec → List (List Vec) → Except Fault (List (List Vec))
  | [], newClusters => .ok newClusters
  | vec :: rest, newClusters =>
      if 0 ≤ k.predict vec ∧ (k.predict vec).toNat < newClusters.length then
        assignLoop k rest (newClusters.modify (fun cluster => cluster ++ [vec]) (k.predict vec).toNat)
      else .error .undefined

/-- The function `KNN::assignToNearestCentroids`. -/
def assignToNearestCentroids (k : KNN) (data : List Vec) : Except Fault (Bool × KNN) :=
  match assignLoop k data (List.replicate k.num_centroids.toNat []) with
  | .error e => .error e
  | .ok newClusters =>
      .ok ((List.range k.num_centroids.toNat).any
          (fun i => decide ((newClusters.getD i []).length ≠ (k.clusters.getD i []).length)),
        { k with clusters := newClusters })

/-- The vector `newCentroid` of `updateCentroids` for a non-empty cluster: the
sum of the vectors of the cluster divided by their number, coordinate by
coordinate.  A vector shorter than `vector_len` is read past its end by the
source; the model reads `0` there, and the statements are about objects that
`train` has made from vectors of `vector_len` coordinates. -/
def newCentroid (vector_len : Int) (cluster : List Vec) : Vec :=
  (List.range vector_len.toNat).map
    (fun j => (cluster.map (fun vec => vec.getD j 0)).sum / (cluster.length : Flt))

/-- One iteration of the loop of `updateCentroids`, on the flag
`anyCentroidMoved` and the centroid vector.  The test
`euclideanDistance(...) >= convergenceThreshold` compares a square root with a
positive constant; the model compares the squares. -/
def updateStep (k : KNN) (st : Bool × List Vec) (i : Nat) : Bool × List Vec :=
  if (k.clusters.getD i []).isEmpty then st
  else if euclideanDistanceSq k.vector_len (st.2.getD i [])
      (newCentroid k.vector_len (k.clusters.getD i []))
      ≥ convergenceThreshold * convergenceThreshold then
    (true, st.2.set i (newCentroid k.vector_len (k.clusters.getD i [])))
  else st

/-- The function `KNN::updateCentroids`. -/
def updateCentroids (k : KNN) : Bool × KNN :=
  (((List.range k.num_centroids.toNat).foldl (updateStep k) (false, k.centroids)).1,
    ⟨k.vector_len, k.num_centroids,
      ((List.range k.num_centroids.toNat).foldl (updateStep k) (false, k.centroids)).2,
      k.clusters, k.distanceFunction⟩)

/-- The loop `do { ... } while (centroidsChanged)` of `train`; the first
argument bounds the number of iterations. -/
def trainLoop : Nat → KNN → List Vec → Except Fault KNN
  | 0, _, _ => .error .no_fuel
  | fuel + 1, k, data =>
      match k.assignToNearestCentroids data with
      | .error e => .error e
      | .ok (changed, k1) =>
          if k1.updateCentroids.1 || changed then trainLoop fuel k1.updateCentroids.2 data
          else .ok k1.updateCentroids.2

/-- The function `KNN::train`, with a bound on the iterations of its loop. -/
def train (k : KNN) (data : List Vec) (fuel : Nat) (g : Gen) : Except Fault (KNN × Gen) :=
  match k.initializeCentroids data g with
  | .error e => .error e
  | .ok (k1, g1) =>
      match trainLoop fuel k1 data with
      | .error e => .error e
      | .ok k2 => .ok (k2, g1)

end KNN

/-- The class `ProductQuantizer<vector_len, num_centroids, num_subspaces>`; the
template arguments are fields. -/
structure ProductQuantizer where
  vector_len : Int
  num_centroids : Int
  num_subspaces : Int
  projections : List (Vec → Vec)
  knnModels : List KNN

namespace ProductQuantizer

/-- The elements that `knnModels.resize(num_subspaces)` constructs, each a
`KNN<vector_len / num_subspaces, num_centroids>` with the default distance. -/
def makeModels (vector_len num_centroids num_subspaces : Int) : Nat → Except Fault (List KNN)
  | 0 => .ok []
  | n + 1 =>
      match KNN.init (Int.tdiv vector_len num_subspaces) num_centroids defaultSquaredDistance with
      | .error e => .error e
      | .ok knn =>
          match makeModels vector_len num_centroids num_subspaces n with
          | .error e => .error e
          | .ok rest => .ok (knn :: rest)

/-- The constructor of `ProductQuantizer`: it throws unless there are
`num_subspaces` projections; `knnModels.resize(num_subspaces)` throws for a
negative `num_subspaces`, which is a size beyond `max_size()`.  (With
`num_subspaces = 0` the type `KNN<vector_len / num_subspaces, num_centroids>`
does not exist; the model reports that as undefined.) -/
def create (vector_len num_centroids num_subspaces : Int) (projections : List (Vec → Vec)) :
    Except Fault ProductQuantizer :=
  if num_subspaces = 0 then .error .undefined
  else if projections.length ≠ toSizeT num_subspaces then .error .invalid_argument
  else if num_subspaces < 0 then .error .length_error
  else
    match makeModels vector_len num_centroids num_subspaces (toSizeT num_subspaces) with
    | .error e => .error e
    | .ok knnModels => .ok ⟨vector_len, num_centroids, num_subspaces, projections, knnModels⟩

/-- The loop of `ProductQuantizer::train` over the projections; the first
argument is `projections.size() - i`. -/
def trainModels (projections : List (Vec → Vec)) (data : List Vec) (fuel : Nat) :
    Nat → Nat → List KNN → Gen → Except Fault (List KNN × Gen)
  | 0, _, knnModels, g => .ok (knnModels, g)
  | n + 1, i, knnModels, g =>
      match projections[i]?, knnModels[i]? with
      | some projection, some knn =>
          match knn.train (data.map projection) fuel g with
          | .error e => .error e
          | .ok (knn1, g1) => trainModels projections data fuel n (i + 1) (knnModels.set i knn1) g1
      | _, _ => .error .undefined

/-- The function `ProductQuantizer::train`, with a bound on the iterations of
each k-means loop. -/
def train (pq : ProductQuantizer) (data : List Vec) (fuel : Nat) (g : Gen) :
    Except Fault (ProductQuantizer × Gen) :=
  match trainModels pq.projections data fuel pq.projections.length 0 pq.knnModels g with
  | .error e => .error e
  | .ok (knnModels, g1) => .ok ({ pq with knnModels := knnModels }, g1)

/-- The loop of `quantize` over the projections:
`indices[i] = knnModels[i].predict(projections[i](vec))`; the first argument is
`projections.size() - i`. -/
def quantizeLoop (pq : ProductQuantizer) (vec : Vec) : Nat → Nat → List Int → Except Fault (List Int)
  | 0, _, indices => .ok indices
  | n + 1, i, indices =>
      match pq.projections[i]?, pq.knnModels[i]? with
      | some projection, some knn =>
          if i < indices.length then
            quantizeLoop pq vec n (i + 1) (indices.set i (knn.predict (projection vec)))
          else .error .undefined
      | _, _ => .error .undefined

/-- The function `ProductQuantizer::quantize`; `indices(num_subspaces)` throws
for a negative `num_subspaces`. -/
def quantize (pq : ProductQuantizer) (vec : Vec) : Except Fault (List Int) :=
  if pq.num_subspaces < 0 then .error .length_error
  else quantizeLoop pq vec pq.projections.length 0 (List.replicate (toSizeT pq.num_subspaces) 0)

/-- What the constructor establishes and `train` keeps: there are
`num_subspaces` projections and as many models, and every model holds
`num_centroids` centroids. -/
def WellFormed (pq : ProductQuantizer) : Prop :=
  0 < pq.num_subspaces ∧ pq.projections.length = toSizeT pq.num_subspaces ∧
  pq.knnModels.length = toSizeT pq.num_subspaces ∧
  ∀ knn ∈ pq.knnModels, knn.num_centroids = pq.num_centroids ∧
    knn.centroids.length = pq.num_centroids.toNat

/-- The projections of the vectors of `data` have the number of coordinates of
their model: `train` then reads every vector inside its bounds. -/
def TrainFits (pq : ProductQuantizer) (data : List Vec) : Prop :=
  ∀ (i : Nat) (projection : Vec → Vec) (knn : KNN), pq.projections[i]? = some projection →
    pq.knnModels[i]? = some knn → ∀ vec ∈ data, ((projection vec).length : Int) = knn.vector_len

/-- The objects that the constructor and calls of `train` produce, `train`
being called on data that it reads inside the bounds of every vector. -/
inductive Reachable : ProductQuantizer → Prop where
  | create (vector_len num_centroids num_subspaces : Int) (projections : List (Vec → Vec))
      (pq : ProductQuantizer) :
      create vector_len num_centroids num_subspaces projections = .ok pq → Reachable pq
  | train (pq pq' : ProductQuantizer) (data : List Vec) (fuel : Nat) (g g' : Gen) :
      Reachable pq → pq.TrainFits data → pq.train data fuel g = .ok (pq', g') → Reachable pq'

end ProductQuantizer

/-- The function `projectFirstHalf` of ProductQuantizer.cpp. -/
def projectFirstHalf (vec : Vec) : Vec := vec.take (vec.length / 2)

/-- The function `projectSecondHalf` of ProductQuantizer.cpp. -/
def projectSecondHalf (vec : Vec) : Vec := vec.drop (vec.length / 2)

/-- The object that the constructor makes for `vector_len = 2`,
`num_centroids = 2`, `num_subspaces = 2` and the two projections of
ProductQuantizer.cpp, used as an instance. -/
def examplePQ : ProductQuantizer :=
  { vector_len := 2
    num_centroids := 2
    num_subspaces := 2
    projections := [projectFirstHalf, projectSecondHalf]
    knnModels :=
      [⟨1, 2, [[0], [0]], [[], []], defaultSquaredDistance⟩,
        ⟨1, 2, [[0], [0]], [[], []], defaultSquaredDistance⟩] }

/-! ## Objects used as instances -/

instance HNSW_graph.queryFits_decidable {K : Type} (g : HNSW_graph K) (q : Vec) :
    Decidable (g.QueryFits q) := by
  unfold HNSW_graph.QueryFits; exact inferInstance

instance Vamana.queryFits_decidable {K : Type} (v : Vamana K) (q : Vec) :
    Decidable (v.QueryFits q) := by
  unfold Vamana.QueryFits; exact inferInstance

/-- The graph that a run of `insert` calls leaves (the graph it started from,
had the run ended in a fault). -/
def HNSW_graph.afterInserts {K : Type} (values : List (Record K)) (g : HNSW_graph K)
    (gen : Gen) : HNSW_graph K :=
  match HNSW_graph.insertAll values g gen with
  | .ok (g', _) => g'
  | .error _ => g

/-- An HNSW graph with one layer and `efc = 1` over the records `[0]`, `[1]`,
`[22]`, `[15]`, `[9]`, inserted in this order.  Its edges form the chain
`0 - 1 - 2 - 3 - 4`. -/
def exampleLayerGraph : HNSW_graph Nat :=
  HNSW_graph.afterInserts [(0, [0]), (1, [1]), (2, [22]), (3, [15]), (4, [9])]
    (HNSW_graph.empty (9 / 10) 1 1 1 defaultDistance) ⟨fun _ => 0, 0⟩

/-- The Vamana graph built over the records `[9]`, `[1]`, `[0]`, `[4]` with
`R = 1`, `alpha = 1` and shuffles that leave the order of the node vector
unchanged.  Its start node is the node `3`, with an edge to the node `0`, which
has edges to the nodes `1` and `2`. -/
def exampleVamanaGraph : Vamana Nat :=
  match Vamana.build [(0, [9]), (1, [1]), (2, [0]), (3, ([4] : Vec))] 1 1 1 1
      ⟨fun _ => 11, 0⟩ with
  | .ok (v, _) => v
  | .error _ => Vamana.empty 1 1 1 1

/-- The Vamana graph built over the records `[8]`, `[0]`, `[20]`, `[5]`, `[7]`
with `R = 2`, `alpha = 1` and shuffles that leave the order of the node vector
unchanged.  Its start node is the node `0`, with edges to the nodes `1` and
`2`, whose edges lead to the nodes `0`, `1` and `2` only. -/
def exampleVamanaWide : Vamana Nat :=
  match Vamana.build [(0, [8]), (1, [0]), (2, [20]), (3, [5]), (4, ([7] : Vec))] 1 1 2 1
      ⟨fun _ => 59, 0⟩ with
  | .ok (v, _) => v
  | .error _ => Vamana.empty 1 1 2 1

namespace VectorSearchEngine

variable {K : Type}

/-- The catalog and the stream of draws after a call of `addToCollection` (as
they were, had the call ended in a fault). -/
def added (e : VectorSearchEngine K) (collectionName : String) (key : K) (values : Vec)
    (gen : Gen) : VectorSearchEngine K × Gen :=
  match e.addToCollection collectionName key values gen with
  | .ok (_, e1, gen1) => (e1, gen1)
  | .error _ => (e, gen)

/-- The catalog after a call of `addAlgorithm` (as it was, had the call ended
in a fault). -/
def registered (e : VectorSearchEngine K) (algName name : String)
    (mk : List (Record K) → Except Fault (VectorSearchAlgorithm K)) : VectorSearchEngine K :=
  match e.addAlgorithm algName name mk with
  | .ok (_, e1) => e1
  | .error _ => e

end VectorSearchEngine

/-- The constructor call that the handler `addHNSW` passes to `addAlgorithm`,
for `mL = 0.9`, `vector_len = 2`, `num_layers = 1` and `efc = 2`. -/
def exampleMk (gen : Gen) (data : List (Record String)) :
    Except Fault (VectorSearchAlgorithm String) :=
  match HNSW_graph.build data (9 / 10) 2 1 2 gen with
  | .error err => .error err
  | .ok (index, _) => .ok index.toAlgorithm

/-- A catalog with two collections and no index: `"C"` holds the records
`("a", [1, 0])` and `("b", [0, 0])`, `"D"` holds the record `("x", [5, 5])`.
The second component is the stream of draws after the three calls of
`addToCollection`. -/
def exampleCollections : VectorSearchEngine String × Gen :=
  (((VectorSearchEngine.init.added "C" "a" [1, 0] ⟨fun _ => 0, 0⟩).1.added "C" "b" [0, 0]
      (VectorSearchEngine.init.added "C" "a" [1, 0] ⟨fun _ => 0, 0⟩).2).1.added "D" "x" [5, 5]
    ((VectorSearchEngine.init.added "C" "a" [1, 0] ⟨fun _ => 0, 0⟩).1.added "C" "b" [0, 0]
      (VectorSearchEngine.init.added "C" "a" [1, 0] ⟨fun _ => 0, 0⟩).2).2)

/-- The catalog `exampleCollections` with the HNSW index `"idx"` built over
the collection `"C"`. -/
def exampleCatalog : VectorSearchEngine String :=
  exampleCollections.1.registered "idx" "C" (exampleMk exampleCollections.2)

/-- The quantizer `examplePQ` after `train` on the vectors `[0, 10]`,
`[4, 20]`, `[6, 20]`: the centroids of the first half are `[2]` and `[6]`,
those of the second half `[10]` and `[20]`. -/
def trainedPQ : ProductQuantizer :=
  match examplePQ.train [[0, 10], [4, 20], [6, 20]] 5 ⟨fun _ => 0, 0⟩ with
  | .ok (pq, _) => pq
  | .error _ => examplePQ

/-! # Theorems -/

/-! ## Annoy tree: record preservation -/

theorem splitRandom_perm {K : Type} (data : List (Record K)) (g : Gen) :
    List.Perm ((splitRandom data g).1.1 ++ (splitRandom data g).1.2) data := by
  induction data generalizing g with
  | nil => simp [splitRandom]
  | cons item rest ih =>
    simp only [splitRandom]
    split
    · simpa using ih _
    · simp only
      exact (List.perm_middle).trans (List.Perm.cons _ (ih _))

theorem splitByDistance_perm {K : Type} (v1 v2 : Vec) (data : List (Record K)) :
    List.Perm ((splitByDistance v1 v2 data).1 ++ (splitByDistance v1 v2 data).2) data := by
  induction data with
  | nil => simp [splitByDistance]
  | cons item rest ih =>
    simp only [splitByDistance]
    split
    · simpa using ih
    · simp only
      exact (List.perm_middle).trans (List.Perm.cons _ ih)

theorem splitData_perm {K : Type} (data : List (Record K)) (vectors : Vec × Vec) (g : Gen) :
    List.Perm ((splitData data vectors g).1.1 ++ (splitData data vectors g).1.2) data := by
  unfold splitData
  split
  · exact splitRandom_perm data g
  · exact splitByDistance_perm _ _ data

theorem reconstructDataHelper_leaf {K : Type} (data : List (Record K)) :
    reconstructDataHelper (TreeNode.leaf data) = data := by
  simp [TreeNode.leaf, reconstructDataHelper]

theorem reconstructDataHelper_inner {K : Type} (v1 v2 : Vec) (l r : TreeNode K) :
    reconstructDataHelper (.node v1 v2 [] l r)
      = reconstructDataHelper l ++ reconstructDataHelper r := by
  cases l <;> cases r <;> simp [reconstructDataHelper]

theorem buildNode_perm {K : Type} (bucket max_depth : Int) (fuel : Nat) :
    ∀ (data : List (Record K)) (depth : Int) (g : Gen),
      List.Perm (reconstructDataHelper (buildNode bucket max_depth fuel data depth g).1) data := by
  induction fuel with
  | zero => intro data depth g; simp [buildNode, reconstructDataHelper_leaf]
  | succ fuel ih =>
    intro data depth g
    simp only [buildNode]
    split
    · simp [reconstructDataHelper_leaf]
    · simp only [reconstructDataHelper_inner]
      have hs := splitData_perm data (selectRandomVectors data g).1 (selectRandomVectors data g).2
      refine List.Perm.trans ?_ hs
      apply List.Perm.append
      · split
        · rename_i h; simp [List.isEmpty_iff.mp h, reconstructDataHelper]
        · exact ih _ _ _
      · split
        · rename_i h; simp [List.isEmpty_iff.mp h, reconstructDataHelper]
        · exact ih _ _ _

/-- C1. Record preservation: for every record list, every bucket threshold,
every maximal depth and every outcome of the random draws, `reconstructData`
on the tree built from the list is a permutation of the list. -/
theorem annoy_reconstructData_perm {K : Type} (S : List (Record K)) (threshold : WithTop Flt)
    (bucket max_depth : Int) (g : Gen) :
    List.Perm (AnnoyTree.build S threshold bucket max_depth g).1.reconstructData S := by
  unfold AnnoyTree.build
  split
  · rename_i h; simp [List.isEmpty_iff.mp h, AnnoyTree.reconstructData, reconstructDataHelper]
  · simp only [AnnoyTree.reconstructData, from_data]
    exact buildNode_perm _ _ _ _ _ _

/-! ## Priority queues and the beam search: basic facts -/

theorem pqPush_perm {α : Type} (comp : α → α → Bool) (x : α) (l : List α) :
    List.Perm (pqPush comp x l) (x :: l) := by
  induction l with
  | nil => simp [pqPush]
  | cons y ys ih =>
    simp only [pqPush]
    split
    · exact List.Perm.refl _
    · exact (List.Perm.cons y ih).trans (List.Perm.swap x y ys)

theorem mem_pqPush {α : Type} (comp : α → α → Bool) (x y : α) (l : List α) :
    y ∈ pqPush comp x l ↔ y = x ∨ y ∈ l := by
  rw [(pqPush_perm comp x l).mem_iff]; simp

theorem length_pqPush {α : Type} (comp : α → α → Bool) (x : α) (l : List α) :
    (pqPush comp x l).length = l.length + 1 := by
  rw [(pqPush_perm comp x l).length_eq]; simp

theorem pqPush_ne_nil {α : Type} (comp : α → α → Bool) (x : α) (l : List α) :
    pqPush comp x l ≠ [] := by
  intro h
  have := length_pqPush comp x l
  rw [h] at this
  simp at this

theorem drainNearest_eq (l : List (Flt × Nat)) (acc : List Nat) :
    drainNearest l acc = (l.map Prod.snd).reverse ++ acc := by
  induction l generalizing acc with
  | nil => simp [drainNearest]
  | cons t rest ih => simp [drainNearest, ih]

/-- Pushing into the `nearest_neighbors` heap keeps the list in descending
order of distance, so that its head is a maximum. -/
theorem pqPush_max_sorted (x : Flt × Nat) (l : List (Flt × Nat))
    (h : l.Pairwise (fun a b => b.1 ≤ a.1)) :
    (pqPush maxCompare x l).Pairwise (fun a b => b.1 ≤ a.1) := by
  induction l with
  | nil => simp [pqPush]
  | cons y ys ih =>
    rw [List.pairwise_cons] at h
    simp only [pqPush]
    split
    · rename_i hc
      simp only [maxCompare, decide_eq_true_eq] at hc
      rw [List.pairwise_cons]
      refine ⟨?_, List.pairwise_cons.mpr h⟩
      intro b hb
      rcases List.mem_cons.mp hb with rfl | hb
      · exact le_of_lt hc
      · exact le_trans (h.1 b hb) (le_of_lt hc)
    · rename_i hc
      simp only [maxCompare, decide_eq_true_eq, not_lt] at hc
      rw [List.pairwise_cons]
      refine ⟨?_, ih h.2⟩
      intro b hb
      rcases (mem_pqPush _ _ _ _).mp hb with rfl | hb
      · exact hc
      · exact h.1 b hb

/-- A general induction principle for the beam loop: a property kept by the
`pop()` of a candidate and by the visit of its neighbours holds at the end. -/
theorem beamLoop_invariant (adj : Nat → List Nat) (dist : Nat → Flt) (ef : Nat)
    (full : Nat → Bool) (I : BeamState → Prop)
    (hpop : ∀ s current rest, I s → s.candidates = current :: rest →
      I { s with candidates := rest })
    (hfold : ∀ s current rest, I s → s.candidates = current :: rest →
      I ((adj current.2).foldl (visitNeighbor dist ef) { s with candidates := rest })) :
    ∀ fuel s s', I s → beamLoop adj dist ef full fuel s = some s' → I s' := by
  intro fuel
  induction fuel with
  | zero =>
    intro s s' hI h
    simp only [beamLoop] at h
    split at h
    · cases h; exact hI
    · cases h
  | succ fuel ih =>
    intro s s' hI h
    simp only [beamLoop] at h
    split at h
    · cases h; exact hI
    · rename_i current rest hc
      split at h
      · cases h; exact hpop s current rest hI hc
      · exact ih _ _ (hfold s current rest hI hc) h

/-- The loop never stops early and ends with no candidate left when the early
exit test fails in every state that satisfies the invariant. -/
theorem beamLoop_exhaustive (adj : Nat → List Nat) (dist : Nat → Flt) (ef : Nat)
    (full : Nat → Bool) (I : BeamState → Prop)
    (hstep : ∀ s current rest, I s → s.candidates = current :: rest →
      (full s.nearest_neighbors.length && aboveTop current.1 s.nearest_neighbors) = false ∧
      I ((adj current.2).foldl (visitNeighbor dist ef) { s with candidates := rest })) :
    ∀ fuel s s', I s → beamLoop adj dist ef full fuel s = some s' →
      I s' ∧ s'.candidates = [] := by
  intro fuel
  induction fuel with
  | zero =>
    intro s s' hI h
    simp only [beamLoop] at h
    split at h
    · rename_i he; cases h; exact ⟨hI, List.isEmpty_iff.mp he⟩
    · cases h
  | succ fuel ih =>
    intro s s' hI h
    simp only [beamLoop] at h
    split at h
    · rename_i he; cases h; exact ⟨hI, he⟩
    · rename_i current rest hc
      have hs := hstep s current rest hI hc
      rw [hs.1] at h
      simp only [Bool.false_eq_true, if_false] at h
      exact ih _ _ hs.2 h

/-! ## The beam search: closure, termination -/

theorem foldl_visit_induct (dist : Nat → Flt) (ef : Nat) (I : BeamState → Prop)
    (l : List Nat)
    (h : ∀ s n, n ∈ l → I s → I (visitNeighbor dist ef s n)) :
    ∀ s, I s → I (l.foldl (visitNeighbor dist ef) s) := by
  induction l with
  | nil => intro s hs; exact hs
  | cons n rest ih =>
    intro s hs
    simp only [List.foldl_cons]
    exact ih (fun s m hm hI => h s m (List.mem_cons_of_mem _ hm) hI) _
      (h s n (List.mem_cons_self _ _) hs)

/-- The three outcomes of the visit of one neighbour. -/
theorem visitNeighbor_cases (dist : Nat → Flt) (ef : Nat) (s : BeamState) (n : Nat) :
    (n ∈ s.visited_nodes ∧ visitNeighbor dist ef s n = s) ∨
    (n ∉ s.visited_nodes ∧
      (belowTop (dist n) s.nearest_neighbors || decide (s.nearest_neighbors.length < ef)) = true ∧
      visitNeighbor dist ef s n =
        { visited_nodes := n :: s.visited_nodes
          candidates := pqPush minCompare (dist n, n) s.candidates
          nearest_neighbors :=
            if (pqPush maxCompare (dist n, n) s.nearest_neighbors).length > ef then
              (pqPush maxCompare (dist n, n) s.nearest_neighbors).tail
            else pqPush maxCompare (dist n, n) s.nearest_neighbors }) ∨
    (n ∉ s.visited_nodes ∧
      (belowTop (dist n) s.nearest_neighbors || decide (s.nearest_neighbors.length < ef)) = false ∧
      visitNeighbor dist ef s n = { s with visited_nodes := n :: s.visited_nodes }) := by
  by_cases h : n ∈ s.visited_nodes
  · left; exact ⟨h, by simp [visitNeighbor, h]⟩
  · right
    cases hc : (belowTop (dist n) s.nearest_neighbors || decide (s.nearest_neighbors.length < ef))
    · right; refine ⟨h, rfl, ?_⟩
      simp only [visitNeighbor, h, if_false, hc, Bool.false_eq_true]
    · left; refine ⟨h, rfl, ?_⟩
      simp only [visitNeighbor, h, if_false, hc, if_true]

theorem visitNeighbor_all (dist : Nat → Flt) (ef : Nat) (P : Nat → Prop)
    (s : BeamState) (n : Nat) (hs : s.All P) (hn : P n) :
    (visitNeighbor dist ef s n).All P := by
  obtain ⟨hv, hc, hnn⟩ := hs
  have hv' : ∀ x ∈ n :: s.visited_nodes, P x := by
    intro x hx
    rcases List.mem_cons.mp hx with rfl | hx
    · exact hn
    · exact hv x hx
  rcases visitNeighbor_cases dist ef s n with ⟨_, h⟩ | ⟨_, _, h⟩ | ⟨_, _, h⟩
  · rw [h]; exact ⟨hv, hc, hnn⟩
  · rw [h]
    refine ⟨hv', ?_, ?_⟩
    · intro p hp
      rcases (mem_pqPush _ _ _ _).mp hp with rfl | hp
      · exact hn
      · exact hc p hp
    · intro p hp
      have hp' : p ∈ pqPush maxCompare (dist n, n) s.nearest_neighbors := by
        simp only at hp
        split at hp
        · exact List.mem_of_mem_tail hp
        · exact hp
      rcases (mem_pqPush _ _ _ _).mp hp' with rfl | hp'
      · exact hn
      · exact hnn p hp'
  · rw [h]; exact ⟨hv', hc, hnn⟩

/-- Every node the beam search touches satisfies a property that holds at the
start node and passes along the edges. -/
theorem beamLoop_all (adj : Nat → List Nat) (dist : Nat → Flt) (ef : Nat)
    (full : Nat → Bool) (P : Nat → Prop)
    (hadj : ∀ c, P c → ∀ x ∈ adj c, P x) (fuel : Nat) (s s' : BeamState)
    (hs : s.All P) (h : beamLoop adj dist ef full fuel s = some s') : s'.All P := by
  refine beamLoop_invariant adj dist ef full (BeamState.All P) ?_ ?_ fuel s s' hs h
  · intro s current rest hI hc
    exact ⟨hI.1, fun p hp => hI.2.1 p (by rw [hc]; exact List.mem_cons_of_mem _ hp), hI.2.2⟩
  · intro s current rest hI hc
    have hcur : P current.2 := hI.2.1 current (by rw [hc]; exact List.mem_cons_self _ _)
    apply foldl_visit_induct
    · intro t n hn ht
      exact visitNeighbor_all dist ef P t n ht (hadj _ hcur n hn)
    · exact ⟨hI.1, fun p hp => hI.2.1 p (by rw [hc]; exact List.mem_cons_of_mem _ hp), hI.2.2⟩

theorem visitNeighbor_nearest_ne_nil (dist : Nat → Flt) (ef : Nat)
    (s : BeamState) (n : Nat) (hs : s.nearest_neighbors ≠ []) :
    (visitNeighbor dist ef s n).nearest_neighbors ≠ [] := by
  rcases visitNeighbor_cases dist ef s n with ⟨_, h⟩ | ⟨_, _, h⟩ | ⟨_, _, h⟩
  · rw [h]; exact hs
  · rw [h]
    simp only
    split
    · intro h0
      have h1 := length_pqPush maxCompare (dist n, n) s.nearest_neighbors
      have h2 : (pqPush maxCompare (dist n, n) s.nearest_neighbors).tail.length = 0 := by
        rw [h0]; rfl
      rw [List.length_tail, h1] at h2
      have : s.nearest_neighbors.length ≠ 0 := by
        intro h0; exact hs (List.length_eq_zero.mp h0)
      omega
    · exact pqPush_ne_nil _ _ _
  · rw [h]; exact hs

theorem beamLoop_nearest_ne_nil (adj : Nat → List Nat) (dist : Nat → Flt) (ef : Nat)
    (full : Nat → Bool) (fuel : Nat) (s s' : BeamState)
    (hs : s.nearest_neighbors ≠ []) (h : beamLoop adj dist ef full fuel s = some s') :
    s'.nearest_neighbors ≠ [] := by
  refine beamLoop_invariant adj dist ef full (fun s => s.nearest_neighbors ≠ []) ?_ ?_
    fuel s s' hs h
  · intro s current rest hI _; exact hI
  · intro s current rest hI _
    exact foldl_visit_induct dist ef (fun t => t.nearest_neighbors ≠ []) _
      (fun t n _ ht => visitNeighbor_nearest_ne_nil dist ef t n ht) _ hI

/-- A duplicate-free list of numbers below `N` has at most `N` entries. -/
theorem nodup_bounded_length (l : List Nat) (N : Nat) (hn : l.Nodup)
    (hb : ∀ x ∈ l, x < N) : l.length ≤ N := by
  have hsub : l ⊆ List.range N := fun x hx => List.mem_range.mpr (hb x hx)
  have := (List.subperm_of_subset hn hsub).length_le
  simpa using this

theorem visitNeighbor_measure (dist : Nat → Flt) (ef : Nat) (N fuel : Nat)
    (s : BeamState) (n : Nat) (hn : n < N)
    (hs : s.visited_nodes.Nodup ∧ (∀ x ∈ s.visited_nodes, x < N) ∧
      s.candidates.length + N ≤ fuel + s.visited_nodes.length) :
    (visitNeighbor dist ef s n).visited_nodes.Nodup ∧
      (∀ x ∈ (visitNeighbor dist ef s n).visited_nodes, x < N) ∧
      (visitNeighbor dist ef s n).candidates.length + N
        ≤ fuel + (visitNeighbor dist ef s n).visited_nodes.length := by
  obtain ⟨hnd, hb, hm⟩ := hs
  rcases visitNeighbor_cases dist ef s n with ⟨_, h⟩ | ⟨hmem, _, h⟩ | ⟨hmem, _, h⟩
  · rw [h]; exact ⟨hnd, hb, hm⟩
  · rw [h]
    refine ⟨List.nodup_cons.mpr ⟨hmem, hnd⟩, ?_, ?_⟩
    · intro x hx
      rcases List.mem_cons.mp hx with rfl | hx
      · exact hn
      · exact hb x hx
    · simp only [length_pqPush, List.length_cons]
      omega
  · rw [h]
    refine ⟨List.nodup_cons.mpr ⟨hmem, hnd⟩, ?_, ?_⟩
    · intro x hx
      rcases List.mem_cons.mp hx with rfl | hx
      · exact hn
      · exact hb x hx
    · simp only [List.length_cons]
      omega

/-- Termination of the beam loop: when every node index is below `N`, the
loop ends within the iterations it is given. -/
theorem beamLoop_terminates (adj : Nat → List Nat) (dist : Nat → Flt) (ef : Nat)
    (full : Nat → Bool) (N : Nat) (hadj : ∀ c x, x ∈ adj c → x < N) :
    ∀ fuel s, s.visited_nodes.Nodup → (∀ x ∈ s.visited_nodes, x < N) →
      s.candidates.length + N ≤ fuel + s.visited_nodes.length →
      ∃ s', beamLoop adj dist ef full fuel s = some s' := by
  intro fuel
  induction fuel with
  | zero =>
    intro s hnd hb hm
    have hl := nodup_bounded_length _ N hnd hb
    have h0 : s.candidates.length = 0 := by omega
    have : s.candidates = [] := List.length_eq_zero.mp h0
    exact ⟨s, by simp [beamLoop, this]⟩
  | succ fuel ih =>
    intro s hnd hb hm
    simp only [beamLoop]
    split
    · exact ⟨s, rfl⟩
    · rename_i current rest hc
      split
      · exact ⟨_, rfl⟩
      · have key := foldl_visit_induct dist ef
          (fun t => t.visited_nodes.Nodup ∧ (∀ x ∈ t.visited_nodes, x < N) ∧
            t.candidates.length + N ≤ fuel + t.visited_nodes.length)
          (adj current.2)
          (fun t n hn ht => visitNeighbor_measure dist ef N fuel t n (hadj _ _ hn) ht)
          { s with candidates := rest }
          ⟨hnd, hb, by
            simp only
            rw [hc] at hm
            simp only [List.length_cons] at hm
            omega⟩
        exact ih _ key.1 key.2.1 key.2.2

/-! ## HNSW: the effect of the elementary updates -/

namespace HNSW_graph

variable {K : Type}

theorem SameData.refl (g : HNSW_graph K) : SameData g g :=
  ⟨rfl, rfl, rfl, rfl, rfl, rfl⟩

theorem SameData.trans {g1 g2 g3 : HNSW_graph K} (h12 : SameData g1 g2)
    (h23 : SameData g2 g3) : SameData g1 g3 := by
  obtain ⟨a1, a2, a3, a4, a5, a6⟩ := h12
  obtain ⟨b1, b2, b3, b4, b5, b6⟩ := h23
  exact ⟨b1.trans a1, b2.trans a2, b3.trans a3, b4.trans a4, b5.trans a5, b6.trans a6⟩

theorem SameData.length {g g' : HNSW_graph K} (h : SameData g g') :
    g'.nodes.length = g.nodes.length := by
  have := congrArg List.length h.2.2.2.2.2
  simpa using this

theorem SameData.vecOf {g g' : HNSW_graph K} (h : SameData g g') (n : Nat) :
    g'.vecOf n = g.vecOf n := by
  have h6 := h.2.2.2.2.2
  have : (g'.nodes.map (fun x => x.value))[n]? = (g.nodes.map (fun x => x.value))[n]? := by
    rw [h6]
  simp only [List.getElem?_map] at this
  unfold HNSW_graph.vecOf
  cases h1 : g'.nodes[n]? <;> cases h2 : g.nodes[n]? <;> simp_all

theorem addEdge_layers (g : HNSW_graph K) (n L o : Nat) :
    (g.addEdge n L o).layers = g.layers := by
  unfold addEdge; split <;> rfl

theorem addEdge_sameData (g : HNSW_graph K) (n L o : Nat) :
    SameData g (g.addEdge n L o) := by
  unfold addEdge
  split
  · rename_i x hx
    refine ⟨rfl, rfl, rfl, rfl, rfl, ?_⟩
    simp only [List.map_set]
    have hlt := (List.getElem?_eq_some_iff.mp hx)
    obtain ⟨hlt, hget⟩ := hlt
    apply List.ext_getElem?
    intro i
    rw [List.getElem?_set]
    split
    · rename_i hi
      subst hi
      simp [hlt, hx, hget]
    · rfl
  · exact SameData.refl g

theorem adjacents_addEdge (g : HNSW_graph K) (n L o L' m : Nat) :
    (g.addEdge n L o).adjacents L' m =
      if m = n ∧ L' = L ∧ n < g.nodes.length then g.adjacents L m ++ [o]
      else g.adjacents L' m := by
  unfold addEdge
  cases hx : g.nodes[n]? with
  | none =>
    have : ¬ n < g.nodes.length := by
      rw [List.getElem?_eq_none_iff] at hx; omega
    simp [this]
  | some x =>
    obtain ⟨hlt, hget⟩ := List.getElem?_eq_some_iff.mp hx
    simp only [adjacents]
    rw [List.getElem?_set]
    by_cases hm : n = m
    · subst hm
      simp only [hlt, if_true, true_and, and_true, hx]
      by_cases hL : L' = L
      · subst hL; simp
      · simp [hL, Function.update_noteq hL]
    · have hm' : ¬ m = n := fun h => hm h.symm
      simp [hm, hm']

theorem mem_adjacents_connect (g : HNSW_graph K) (a b L L' m x : Nat)
    (ha : a < g.nodes.length) (hb : b < g.nodes.length) :
    x ∈ ((g.addEdge a L b).addEdge b L a).adjacents L' m ↔
      x ∈ g.adjacents L' m ∨ (L' = L ∧ ((m = a ∧ x = b) ∨ (m = b ∧ x = a))) := by
  have hlen : (g.addEdge a L b).nodes.length = g.nodes.length :=
    (addEdge_sameData g a L b).length
  rw [adjacents_addEdge, hlen]
  by_cases h1 : m = b ∧ L' = L
  · obtain ⟨rfl, rfl⟩ := h1
    simp only [true_and, hb, if_true, List.mem_append, List.mem_singleton, and_self]
    rw [adjacents_addEdge]
    by_cases h2 : m = a
    · subst h2; simp [ha]
    · simp [h2]
  · have h1' : ¬ (m = b ∧ L' = L ∧ b < g.nodes.length) := fun h => h1 ⟨h.1, h.2.1⟩
    rw [if_neg h1', adjacents_addEdge]
    by_cases h2 : m = a ∧ L' = L
    · obtain ⟨rfl, rfl⟩ := h2
      simp [ha]
      constructor
      · rintro (h | h)
        · exact Or.inl h
        · exact Or.inr (Or.inl h)
      · rintro (h | h | h)
        · exact Or.inl h
        · exact Or.inr h
        · exact absurd ⟨h.1, rfl⟩ h1
    · have h2' : ¬ (m = a ∧ L' = L ∧ a < g.nodes.length) := fun h => h2 ⟨h.1, h.2.1⟩
      rw [if_neg h2']
      constructor
      · exact Or.inl
      · rintro (h | ⟨hL, (h | h)⟩)
        · exact h
        · exact absurd ⟨h.1, hL⟩ h2
        · exact absurd ⟨h.1, hL⟩ h1

end HNSW_graph

/-! ## HNSW: `search_layer` returns, and what it returns -/

theorem beamSearch_terminates (adj : Nat → List Nat) (dist : Nat → Flt) (ef : Nat)
    (full : Nat → Bool) (N fuel startNode : Nat) (hadj : ∀ c x, x ∈ adj c → x < N)
    (hs : startNode < N) (hf : N ≤ fuel) :
    ∃ r, beamSearch adj dist ef full fuel startNode = some r := by
  obtain ⟨s', hs'⟩ := beamLoop_terminates adj dist ef full N hadj fuel
    { visited_nodes := [startNode]
      candidates := [(dist startNode, startNode)]
      nearest_neighbors := [(dist startNode, startNode)] }
    (by simp) (by simpa using hs) (by simp; omega)
  exact ⟨drainNearest s'.nearest_neighbors [], by simp only [beamSearch, hs']⟩

theorem beamSearch_all (adj : Nat → List Nat) (dist : Nat → Flt) (ef : Nat)
    (full : Nat → Bool) (fuel startNode : Nat) (P : Nat → Prop)
    (hadj : ∀ c, P c → ∀ x ∈ adj c, P x) (hs : P startNode) (r : List Nat)
    (h : beamSearch adj dist ef full fuel startNode = some r) : ∀ x ∈ r, P x := by
  simp only [beamSearch] at h
  split at h
  · cases h
  · rename_i s' hs'
    cases h
    have hall := beamLoop_all adj dist ef full P hadj fuel _ s'
      (by
        refine ⟨?_, ?_, ?_⟩ <;> simp [hs]) hs'
    intro x hx
    rw [drainNearest_eq] at hx
    simp only [List.append_nil, List.mem_reverse, List.mem_map] at hx
    obtain ⟨p, hp, rfl⟩ := hx
    exact hall.2.2 p hp

theorem beamSearch_ne_nil (adj : Nat → List Nat) (dist : Nat → Flt) (ef : Nat)
    (full : Nat → Bool) (fuel startNode : Nat) (r : List Nat)
    (h : beamSearch adj dist ef full fuel startNode = some r) : r ≠ [] := by
  simp only [beamSearch] at h
  split at h
  · cases h
  · rename_i s' hs'
    cases h
    have hne := beamLoop_nearest_ne_nil adj dist ef full fuel _ s' (by simp) hs'
    rw [drainNearest_eq]
    simpa using hne

/-- From a node without neighbours the beam search returns that node alone. -/
theorem beamSearch_isolated (adj : Nat → List Nat) (dist : Nat → Flt) (ef : Nat)
    (fuel startNode : Nat) (h : adj startNode = []) (hf : 0 < fuel) :
    beamSearch adj dist ef (fun size => decide (size > 0)) fuel startNode = some [startNode] := by
  obtain ⟨f, rfl⟩ : ∃ f, fuel = f + 1 := ⟨fuel - 1, by omega⟩
  cases f with
  | zero => simp [beamSearch, beamLoop, aboveTop, h, drainNearest]
  | succ f => simp [beamSearch, beamLoop, aboveTop, h, drainNearest]

namespace HNSW_graph

variable {K : Type}

theorem search_layer_ok (g : HNSW_graph K) (i startNode : Nat) (q : Vec) (ef : Nat)
    (hadj : ∀ L n x, x ∈ g.adjacents L n → x < g.nodes.length)
    (hi : i < g.num_layers) (hs : startNode < g.nodes.length) :
    ∃ r, g.search_layer i startNode q ef = .ok r ∧ r ≠ [] ∧
      (∀ x ∈ r, x < g.nodes.length) ∧
      (∀ x ∈ r, x = startNode ∨ ∃ c, x ∈ g.adjacents i c) := by
  obtain ⟨r, hr⟩ := beamSearch_terminates (g.adjacents i)
    (fun n => g.distanceFunction (g.vecOf n) q) ef (fun size => decide (size > 0))
    g.nodes.length (g.nodes.length + 1) startNode (fun c x hx => hadj i c x hx) hs (by omega)
  refine ⟨r, ?_, ?_, ?_, ?_⟩
  · simp only [search_layer, hr]
    rw [if_neg (by omega)]
  · exact beamSearch_ne_nil _ _ _ _ _ _ _ hr
  · exact beamSearch_all _ _ _ _ _ _ (fun x => x < g.nodes.length)
      (fun c _ x hx => hadj i c x hx) hs r hr
  · exact beamSearch_all _ _ _ _ _ _ (fun x => x = startNode ∨ ∃ c, x ∈ g.adjacents i c)
      (fun c _ x hx => Or.inr ⟨c, hx⟩) (Or.inl rfl) r hr

theorem search_layer_isolated (g : HNSW_graph K) (i startNode : Nat) (q : Vec) (ef : Nat)
    (hi : i < g.num_layers) (h : g.adjacents i startNode = []) :
    g.search_layer i startNode q ef = .ok [startNode] := by
  simp only [search_layer]
  rw [if_neg (by omega), beamSearch_isolated _ _ _ _ _ h (by omega)]

/-- The search reads the adjacency lists, the vectors and the parameters only. -/
theorem search_layer_congr (g g' : HNSW_graph K) (i startNode : Nat) (q : Vec) (ef : Nat)
    (hadj : g'.adjacents i = g.adjacents i) (hd : SameData g g') :
    g'.search_layer i startNode q ef = g.search_layer i startNode q ef := by
  have hv : g'.vecOf = g.vecOf := funext (fun n => hd.vecOf n)
  simp only [search_layer, hadj, hv, hd.length, hd.2.2.1, hd.2.2.2.2.1]

theorem setEntry_adjacents (g : HNSW_graph K) (b : Nat) :
    (g.setEntry b).adjacents = g.adjacents := rfl

theorem setEntry_sameData (g : HNSW_graph K) (b : Nat) : SameData g (g.setEntry b) :=
  ⟨rfl, rfl, rfl, rfl, rfl, rfl⟩

theorem setEntry_layers_length (g : HNSW_graph K) (b : Nat) :
    (g.setEntry b).layers.length = g.layers.length := by
  unfold setEntry
  cases h : g.layers <;> simp [List.modifyHead]

theorem setEntry_head (g : HNSW_graph K) (b : Nat) :
    (g.setEntry b).layers.headD [] = (g.layers.headD []).modifyHead (fun _ => b) := by
  unfold setEntry
  cases h : g.layers <;> simp [List.modifyHead]

theorem setEntry_tail (g : HNSW_graph K) (b : Nat) :
    (g.setEntry b).layers.tail = g.layers.tail := by
  unfold setEntry
  cases h : g.layers <;> simp [List.modifyHead]

theorem setEntry_entry (g : HNSW_graph K) (b : Nat) (h : g.layers.headD [] ≠ []) :
    (g.setEntry b).entry = b := by
  unfold entry
  rw [setEntry_head]
  cases h' : g.layers.headD [] with
  | nil => exact absurd h' h
  | cons x xs => simp [List.modifyHead]

theorem setEntry_head_ne_nil (g : HNSW_graph K) (b : Nat) (h : g.layers.headD [] ≠ []) :
    (g.setEntry b).layers.headD [] ≠ [] := by
  rw [setEntry_head]
  cases h' : g.layers.headD [] with
  | nil => exact absurd h' h
  | cons x xs => simp [List.modifyHead]

theorem setEntry_valid (g : HNSW_graph K) (b : Nat) (hv : g.Valid) (hb : b < g.nodes.length) :
    (g.setEntry b).Valid := by
  obtain ⟨h1, h2, h3, h4, h5⟩ := hv
  refine ⟨by rw [setEntry_layers_length]; exact h1, h2, h3, ?_, ?_⟩
  · intro x hx
    rw [setEntry_head] at hx
    cases h' : g.layers.headD [] with
    | nil => rw [h'] at hx; simp [List.modifyHead] at hx
    | cons y ys =>
      rw [h'] at hx
      simp only [List.modifyHead, List.mem_cons] at hx
      rcases hx with rfl | hx
      · exact hb
      · exact h4 x (by rw [h']; exact List.mem_cons_of_mem _ hx)
  · intro h
    rw [setEntry_head] at h
    cases h' : g.layers.headD [] with
    | nil => exact h5 h'
    | cons y ys => rw [h'] at h; simp [List.modifyHead] at h

theorem entry_lt (g : HNSW_graph K) (hv : g.Valid) (hn : g.layers.headD [] ≠ []) :
    g.entry < g.nodes.length := by
  unfold entry
  cases h' : g.layers.headD [] with
  | nil => exact absurd h' hn
  | cons y ys => exact hv.2.2.2.1 y (by rw [h']; exact List.mem_cons_self _ _)

/-- The loop that links the new node: it returns, and the adjacency lists
afterwards are the former ones plus the edges between the new node and the
nodes of the list, at layer `i`. -/
theorem connectAll_ok (new_node i : Nat) (nn : List Nat) :
    ∀ (g : HNSW_graph K), i < g.num_layers → (∀ r ∈ nn, r < g.nodes.length) →
      new_node < g.nodes.length →
      ∃ g', connectAll new_node i nn g = .ok g' ∧ SameData g g' ∧ g'.layers = g.layers ∧
        ∀ L m x, x ∈ g'.adjacents L m ↔
          x ∈ g.adjacents L m ∨
            (L = i ∧ ((m ∈ nn ∧ x = new_node) ∨ (m = new_node ∧ x ∈ nn))) := by
  induction nn with
  | nil =>
    intro g _ _ _
    exact ⟨g, rfl, SameData.refl g, rfl, by simp⟩
  | cons r rest ih =>
    intro g hi hnn hnew
    have hr : r < g.nodes.length := hnn r (List.mem_cons_self _ _)
    let g1 := (g.addEdge r i new_node).addEdge new_node i r
    have hsd : SameData g g1 :=
      (addEdge_sameData g r i new_node).trans (addEdge_sameData _ new_node i r)
    have hlay : g1.layers = g.layers := by
      simp only [g1, addEdge_layers]
    obtain ⟨g', hg', hsd', hlay', hadj'⟩ := ih g1 (by rw [hsd.2.2.1]; exact hi)
      (fun x hx => by rw [hsd.length]; exact hnn x (List.mem_cons_of_mem _ hx))
      (by rw [hsd.length]; exact hnew)
    refine ⟨g', ?_, hsd.trans hsd', hlay'.trans hlay, ?_⟩
    · simp only [connectAll, connectNodesInLayer]
      rw [if_neg (by omega)]
      exact hg'
    · intro L m x
      rw [hadj', mem_adjacents_connect g r new_node i L m x hr hnew]
      simp only [List.mem_cons]
      constructor
      · rintro ((h | ⟨hL, (h | h)⟩) | ⟨hL, (h | h)⟩)
        · exact Or.inl h
        · exact Or.inr ⟨hL, Or.inl ⟨Or.inl h.1, h.2⟩⟩
        · exact Or.inr ⟨hL, Or.inr ⟨h.1, Or.inl h.2⟩⟩
        · exact Or.inr ⟨hL, Or.inl ⟨Or.inr h.1, h.2⟩⟩
        · exact Or.inr ⟨hL, Or.inr ⟨h.1, Or.inr h.2⟩⟩
      · rintro (h | ⟨hL, (⟨(h | h), hx⟩ | ⟨hm, (h | h)⟩)⟩)
        · exact Or.inl (Or.inl h)
        · exact Or.inl (Or.inr ⟨hL, Or.inl ⟨h, hx⟩⟩)
        · exact Or.inr ⟨hL, Or.inl ⟨h, hx⟩⟩
        · exact Or.inl (Or.inr ⟨hL, Or.inr ⟨hm, h⟩⟩)
        · exact Or.inr ⟨hL, Or.inr ⟨hm, h⟩⟩

end HNSW_graph

/-! ## HNSW: the loop of `insert` -/

namespace HNSW_graph

variable {K : Type}

/-- A proof rule for the loop of `insert`: the loop returns, and a property
`J` indexed by the layer reached holds at the end when it is kept by both
branches of the body. -/
theorem insertLoop_rule (value : Record K) (new_node : Nat) (l : Int)
    (J : Nat → HNSW_graph K → Prop)
    (hJ : ∀ i g, J i g → g.Valid ∧ new_node < g.nodes.length ∧ g.layers.headD [] ≠ [])
    (hlow : ∀ i g r best rest, J i g → i < g.num_layers → (i : Int) < l →
      g.search_layer i g.entry value.2 1 = .ok r → r = best :: rest →
      J (i + 1) (g.setEntry best))
    (hhigh : ∀ i g r g1 best rest, J i g → i < g.num_layers → ¬ (i : Int) < l →
      g.search_layer i g.entry value.2 (toSizeT g.efc) = .ok r →
      connectAll new_node i r g = .ok g1 → r = best :: rest →
      J (i + 1) (g1.setEntry best)) :
    ∀ k i g, J i g → i + k = g.num_layers →
      ∃ g', insertLoop value new_node l k i g = .ok g' ∧ J (i + k) g' := by
  intro k
  induction k with
  | zero => intro i g hj _; exact ⟨g, rfl, hj⟩
  | succ k ih =>
    intro i g hj hik
    obtain ⟨hv, hnew, hhead⟩ := hJ i g hj
    have hi : i < g.num_layers := by omega
    have he := entry_lt g hv hhead
    simp only [insertLoop]
    by_cases hl : (i : Int) < l
    · rw [if_pos hl]
      obtain ⟨r, hr, hne, _, _⟩ := search_layer_ok g i g.entry value.2 1 hv.2.2.1 hi he
      rw [hr]
      cases r with
      | nil => exact absurd rfl hne
      | cons best rest =>
        simp only
        have hj' := hlow i g _ best rest hj hi hl hr rfl
        obtain ⟨g', hg', hJ'⟩ := ih (i + 1) (g.setEntry best) hj'
          (by show i + 1 + k = g.num_layers; omega)
        exact ⟨g', hg', by rw [show i + (k + 1) = i + 1 + k by omega]; exact hJ'⟩
    · rw [if_neg hl]
      obtain ⟨r, hr, hne, hval, _⟩ :=
        search_layer_ok g i g.entry value.2 (toSizeT g.efc) hv.2.2.1 hi he
      rw [hr]
      simp only
      obtain ⟨g1, hg1, hsd, _, _⟩ := connectAll_ok new_node i r g hi hval hnew
      rw [hg1]
      cases r with
      | nil => exact absurd rfl hne
      | cons best rest =>
        simp only
        have hj' := hhigh i g _ g1 best rest hj hi hl hr hg1 rfl
        obtain ⟨g', hg', hJ'⟩ := ih (i + 1) (g1.setEntry best) hj'
          (by show i + 1 + k = g1.num_layers; rw [hsd.2.2.1]; omega)
        exact ⟨g', hg', by rw [show i + (k + 1) = i + 1 + k by omega]; exact hJ'⟩

/-- What `connectAll` returned, read off its result. -/
theorem connectAll_spec (new_node i : Nat) (nn : List Nat) (g g1 : HNSW_graph K)
    (hi : i < g.num_layers) (hnn : ∀ r ∈ nn, r < g.nodes.length)
    (hnew : new_node < g.nodes.length) (h : connectAll new_node i nn g = .ok g1) :
    SameData g g1 ∧ g1.layers = g.layers ∧
      ∀ L m x, x ∈ g1.adjacents L m ↔
        x ∈ g.adjacents L m ∨
          (L = i ∧ ((m ∈ nn ∧ x = new_node) ∨ (m = new_node ∧ x ∈ nn))) := by
  obtain ⟨g', hg', h1, h2, h3⟩ := connectAll_ok new_node i nn g hi hnn hnew
  rw [h] at hg'
  cases hg'
  exact ⟨h1, h2, h3⟩

/-- What `search_layer` returned, read off its result. -/
theorem search_layer_spec (g : HNSW_graph K) (i startNode : Nat) (q : Vec) (ef : Nat)
    (r : List Nat) (hv : g.Valid) (hi : i < g.num_layers) (hs : startNode < g.nodes.length)
    (h : g.search_layer i startNode q ef = .ok r) :
    r ≠ [] ∧ (∀ x ∈ r, x < g.nodes.length) ∧
      (∀ x ∈ r, x = startNode ∨ ∃ c, x ∈ g.adjacents i c) := by
  obtain ⟨r', hr', h1, h2, h3⟩ := search_layer_ok g i startNode q ef hv.2.2.1 hi hs
  rw [h] at hr'
  cases hr'
  exact ⟨h1, h2, h3⟩

/-- The state kept by every iteration of the loop of `insert`. -/
theorem loopBase_low (g : HNSW_graph K) (i new_node : Nat) (q : Vec) (r : List Nat)
    (best : Nat) (rest : List Nat)
    (hb : g.Valid ∧ new_node < g.nodes.length ∧ g.layers.headD [] ≠ [])
    (hi : i < g.num_layers) (hr : g.search_layer i g.entry q 1 = .ok r)
    (hbest : r = best :: rest) :
    (g.setEntry best).Valid ∧ new_node < (g.setEntry best).nodes.length ∧
      (g.setEntry best).layers.headD [] ≠ [] := by
  obtain ⟨hv, hnew, hhead⟩ := hb
  have hs := search_layer_spec g i g.entry q 1 r hv hi (entry_lt g hv hhead) hr
  have hbl : best < g.nodes.length := hs.2.1 best (by rw [hbest]; exact List.mem_cons_self _ _)
  exact ⟨setEntry_valid g best hv hbl, hnew, setEntry_head_ne_nil g best hhead⟩

theorem connect_valid (g g1 : HNSW_graph K) (i new_node : Nat) (r : List Nat)
    (hv : g.Valid) (hi : i < g.num_layers) (hnn : ∀ x ∈ r, x < g.nodes.length)
    (hnew : new_node < g.nodes.length) (hg1 : connectAll new_node i r g = .ok g1) :
    g1.Valid := by
  obtain ⟨hsd, hlay, hadj⟩ := connectAll_spec new_node i r g g1 hi hnn hnew hg1
  obtain ⟨h1, h2, h3, h4, h5⟩ := hv
  refine ⟨by rw [hlay, hsd.2.2.1]; exact h1, by rw [hsd.2.2.1]; exact h2, ?_, ?_, ?_⟩
  · intro L n x hx
    rw [hsd.length]
    rcases (hadj L n x).mp hx with h | ⟨_, (h | h)⟩
    · exact h3 L n x h
    · rw [h.2]; exact hnew
    · exact hnn x h.2
  · intro x hx
    rw [hlay] at hx
    rw [hsd.length]
    exact h4 x hx
  · intro h
    rw [hlay] at h
    have := h5 h
    have hl := hsd.length
    rw [this] at hl
    exact List.length_eq_zero.mp (by simpa using hl)

theorem loopBase_high (g g1 : HNSW_graph K) (i new_node : Nat) (q : Vec) (ef : Nat)
    (r : List Nat) (best : Nat) (rest : List Nat)
    (hb : g.Valid ∧ new_node < g.nodes.length ∧ g.layers.headD [] ≠ [])
    (hi : i < g.num_layers) (hr : g.search_layer i g.entry q ef = .ok r)
    (hg1 : connectAll new_node i r g = .ok g1) (hbest : r = best :: rest) :
    (g1.setEntry best).Valid ∧ new_node < (g1.setEntry best).nodes.length ∧
      (g1.setEntry best).layers.headD [] ≠ [] := by
  obtain ⟨hv, hnew, hhead⟩ := hb
  have hs := search_layer_spec g i g.entry q ef r hv hi (entry_lt g hv hhead) hr
  obtain ⟨hsd, hlay, _⟩ := connectAll_spec new_node i r g g1 hi hs.2.1 hnew hg1
  have hv1 := connect_valid g g1 i new_node r hv hi hs.2.1 hnew hg1
  have hbl : best < g1.nodes.length := by
    rw [hsd.length]; exact hs.2.1 best (by rw [hbest]; exact List.mem_cons_self _ _)
  refine ⟨setEntry_valid g1 best hv1 hbl, ?_, ?_⟩
  · show new_node < g1.nodes.length
    rw [hsd.length]; exact hnew
  · exact setEntry_head_ne_nil g1 best (by rw [hlay]; exact hhead)

end HNSW_graph

/-! ## HNSW: a proof rule for `insert` -/

namespace HNSW_graph

variable {K : Type}

theorem adjacents_pushNode (g : HNSW_graph K) (value : Record K) :
    (g.pushNode value).adjacents = g.adjacents := by
  funext L m
  simp only [adjacents, pushNode]
  rw [List.getElem?_append]
  by_cases h : m < g.nodes.length
  · rw [if_pos h]
  · rw [if_neg h]
    have hn : g.nodes[m]? = none := List.getElem?_eq_none_iff.mpr (by omega)
    rw [hn]
    by_cases h0 : m - g.nodes.length = 0
    · rw [h0]; rfl
    · have : ([({ value := value, adjacentsByGraph := fun _ => [] } : GraphNode K)])[m - g.nodes.length]?
          = none := List.getElem?_eq_none_iff.mpr (by simp; omega)
      rw [this]

theorem pushNode_valid (g : HNSW_graph K) (value : Record K) (hv : g.Valid)
    (hn : g.nodes ≠ []) : (g.pushNode value).Valid := by
  obtain ⟨h1, h2, h3, h4, h5⟩ := hv
  refine ⟨h1, h2, ?_, ?_, ?_⟩
  · intro L n x hx
    rw [adjacents_pushNode] at hx
    have := h3 L n x hx
    simp only [pushNode, List.length_append, List.length_singleton]
    omega
  · intro x hx
    have := h4 x hx
    simp only [pushNode, List.length_append, List.length_singleton]
    omega
  · intro h
    exact absurd (h5 h) hn

theorem layers_cons_of_valid (g : HNSW_graph K) (hv : g.Valid) :
    ∃ layer0 rest, g.layers = layer0 :: rest := by
  cases h : g.layers with
  | nil =>
    have := hv.1
    rw [h] at this
    have h2 := hv.2.1
    simp at this
    omega
  | cons a b => exact ⟨a, b, rfl⟩

theorem head_nil_iff_of_valid (g : HNSW_graph K) (hv : g.Valid) :
    g.layers.headD [] = [] ↔ g.nodes = [] := by
  constructor
  · exact hv.2.2.2.2
  · intro hn
    cases h : g.layers.headD [] with
    | nil => rfl
    | cons x xs =>
      have := hv.2.2.2.1 x (by rw [h]; exact List.mem_cons_self _ _)
      rw [hn] at this
      simp at this

theorem loopBase_step_low (g0 g : HNSW_graph K) (i new_node : Nat) (q : Vec)
    (r : List Nat) (best : Nat) (rest : List Nat) (hb : LoopBase g0 new_node g)
    (hi : i < g.num_layers) (hr : g.search_layer i g.entry q 1 = .ok r)
    (hbest : r = best :: rest) : LoopBase g0 new_node (g.setEntry best) := by
  obtain ⟨h1, h2, h3⟩ := loopBase_low g i new_node q r best rest ⟨hb.1, hb.2.1, hb.2.2.1⟩ hi hr hbest
  exact ⟨h1, h2, h3, hb.2.2.2.trans (setEntry_sameData g best)⟩

theorem loopBase_step_high (g0 g g1 : HNSW_graph K) (i new_node : Nat) (q : Vec) (ef : Nat)
    (r : List Nat) (best : Nat) (rest : List Nat) (hb : LoopBase g0 new_node g)
    (hi : i < g.num_layers) (hr : g.search_layer i g.entry q ef = .ok r)
    (hg1 : connectAll new_node i r g = .ok g1) (hbest : r = best :: rest) :
    LoopBase g0 new_node (g1.setEntry best) := by
  obtain ⟨h1, h2, h3⟩ :=
    loopBase_high g g1 i new_node q ef r best rest ⟨hb.1, hb.2.1, hb.2.2.1⟩ hi hr hg1 hbest
  have hs := search_layer_spec g i g.entry q ef r hb.1 hi (entry_lt g hb.1 hb.2.2.1) hr
  obtain ⟨hsd, _, _⟩ := connectAll_spec new_node i r g g1 hi hs.2.1 hb.2.1 hg1
  exact ⟨h1, h2, h3, (hb.2.2.2.trans hsd).trans (setEntry_sameData g1 best)⟩

/-- A proof rule for `insert` on a well-formed graph: the call returns, and
`Q` holds of the result when it holds after the first branch and when the
loop keeps a property `J` that implies it. -/
theorem insert_rule (g : HNSW_graph K) (value : Record K) (gen : Gen) (hv : g.Valid)
    (Q : HNSW_graph K → Prop) (J : Nat → HNSW_graph K → Prop)
    (hfirst : g.nodes = [] → Q ((g.pushNode value).pushToAllLayers g.nodes.length))
    (hinit : g.nodes ≠ [] → J 0 (g.pushNode value))
    (hlow : ∀ i g' r best rest, LoopBase (g.pushNode value) g.nodes.length g' → J i g' →
      i < g'.num_layers → (i : Int) < ((g.pushNode value).calculate_insertion_layer gen).1 →
      g'.search_layer i g'.entry value.2 1 = .ok r → r = best :: rest →
      J (i + 1) (g'.setEntry best))
    (hhigh : ∀ i g' r g1 best rest, LoopBase (g.pushNode value) g.nodes.length g' → J i g' →
      i < g'.num_layers → ¬ (i : Int) < ((g.pushNode value).calculate_insertion_layer gen).1 →
      g'.search_layer i g'.entry value.2 (toSizeT g'.efc) = .ok r →
      connectAll g.nodes.length i r g' = .ok g1 → r = best :: rest →
      J (i + 1) (g1.setEntry best))
    (hend : ∀ g', LoopBase (g.pushNode value) g.nodes.length g' → J g.num_layers g' → Q g') :
    ∃ g' gen', g.insert value gen = .ok (g', gen') ∧ Q g' := by
  obtain ⟨layer0, rest, hl⟩ := layers_cons_of_valid g hv
  have hl1 : (g.pushNode value).layers = layer0 :: rest := hl
  have hhd : g.layers.headD [] = layer0 := by rw [hl]; rfl
  by_cases hn : g.nodes = []
  · have h0 : layer0 = [] := by rw [← hhd]; exact (head_nil_iff_of_valid g hv).mpr hn
    refine ⟨_, gen, ?_, hfirst hn⟩
    simp only [insert, hl1, h0, List.isEmpty_nil, if_true]
  · have h0 : layer0 ≠ [] := by
      rw [← hhd]; exact fun h => hn ((head_nil_iff_of_valid g hv).mp h)
    have hemp : layer0.isEmpty = false := by
      cases layer0 with
      | nil => exact absurd rfl h0
      | cons a b => rfl
    have hbase : LoopBase (g.pushNode value) g.nodes.length (g.pushNode value) :=
      ⟨pushNode_valid g value hv hn, by simp [pushNode], by
        show (g.pushNode value).layers.headD [] ≠ []
        rw [hl1]; exact h0, SameData.refl _⟩
    obtain ⟨g2, hg2, hb2, hj2⟩ := insertLoop_rule value g.nodes.length
      ((g.pushNode value).calculate_insertion_layer gen).1
      (fun i g' => LoopBase (g.pushNode value) g.nodes.length g' ∧ J i g')
      (fun i g' h => ⟨h.1.1, h.1.2.1, h.1.2.2.1⟩)
      (fun i g' r best rest h hi hlt hr hbest =>
        ⟨loopBase_step_low _ g' i _ value.2 r best rest h.1 hi hr hbest,
          hlow i g' r best rest h.1 h.2 hi hlt hr hbest⟩)
      (fun i g' r g1 best rest h hi hlt hr hg1 hbest =>
        ⟨loopBase_step_high _ g' g1 i _ value.2 _ r best rest h.1 hi hr hg1 hbest,
          hhigh i g' r g1 best rest h.1 h.2 hi hlt hr hg1 hbest⟩)
      g.num_layers 0 (g.pushNode value) ⟨hbase, hinit hn⟩ (by simp [pushNode])
    refine ⟨g2, ((g.pushNode value).calculate_insertion_layer gen).2, ?_, ?_⟩
    · simp only [insert, hl1, hemp]
      have : (g.pushNode value).num_layers = g.num_layers := rfl
      rw [this, hg2]
      rfl
    · apply hend g2 hb2
      simpa using hj2

end HNSW_graph

/-! ## HNSW: well-formedness and edge symmetry are kept by `insert` -/

namespace HNSW_graph

variable {K : Type}

theorem empty_valid (mL : Flt) (vector_len : Int) (num_layers : Nat) (efc : Int)
    (dist : Vec → Vec → Flt) (h : 0 < num_layers) :
    (empty mL vector_len num_layers efc dist : HNSW_graph K).Valid := by
  refine ⟨by simp [empty], h, ?_, ?_, ?_⟩
  · intro L n x hx
    simp [empty, adjacents] at hx
  · intro x hx
    cases num_layers with
    | zero => omega
    | succ n => simp [empty, List.replicate] at hx
  · intro _; rfl

theorem empty_symmetric (mL : Flt) (vector_len : Int) (num_layers : Nat) (efc : Int)
    (dist : Vec → Vec → Flt) :
    (empty mL vector_len num_layers efc dist : HNSW_graph K).EdgeSymmetric := by
  intro L a b
  simp [empty, adjacents]

theorem first_insert_valid (g : HNSW_graph K) (value : Record K) (hv : g.Valid)
    (hn : g.nodes = []) :
    ((g.pushNode value).pushToAllLayers g.nodes.length).Valid := by
  obtain ⟨h1, h2, h3, h4, h5⟩ := hv
  obtain ⟨layer0, rest, hl⟩ := layers_cons_of_valid g ⟨h1, h2, h3, h4, h5⟩
  refine ⟨?_, h2, ?_, ?_, ?_⟩
  · simp only [pushToAllLayers, pushNode, List.length_map]; exact h1
  · intro L n x hx
    have hx' : x ∈ (g.pushNode value).adjacents L n := hx
    rw [adjacents_pushNode] at hx'
    have := h3 L n x hx'
    rw [hn] at this
    simp at this
  · intro x hx
    simp only [pushToAllLayers, pushNode, hl, List.map_cons, List.headD_cons,
      List.mem_append, List.mem_singleton] at hx
    simp only [pushToAllLayers, pushNode, List.length_append, List.length_singleton]
    rcases hx with hx | hx
    · have := h4 x (by rw [hl]; exact hx)
      omega
    · omega
  · intro h
    simp [pushToAllLayers, pushNode, hl] at h

/-- One `insert` on a well-formed graph with symmetric edges returns, and the
graph it leaves is well formed, has symmetric edges and holds one more record. -/
theorem insert_symmetric (g : HNSW_graph K) (value : Record K) (gen : Gen)
    (hv : g.Valid) (hs : g.EdgeSymmetric) :
    ∃ g' gen', g.insert value gen = .ok (g', gen') ∧ g'.Valid ∧ g'.EdgeSymmetric ∧
      SameData (g.pushNode value) g' := by
  apply insert_rule g value gen hv
    (fun g' => g'.Valid ∧ g'.EdgeSymmetric ∧ SameData (g.pushNode value) g')
    (fun _ g' => g'.EdgeSymmetric)
  · intro hn
    refine ⟨first_insert_valid g value hv hn, ?_, ⟨rfl, rfl, rfl, rfl, rfl, rfl⟩⟩
    intro L a b
    show b ∈ (g.pushNode value).adjacents L a ↔ a ∈ (g.pushNode value).adjacents L b
    rw [adjacents_pushNode]
    exact hs L a b
  · intro _ L a b
    rw [adjacents_pushNode]
    exact hs L a b
  · intro i g' r best rest _ hj _ _ _ _
    exact hj
  · intro i g' r g1 best rest hb hj hi _ hr hg1 _
    have hsr := search_layer_spec g' i g'.entry value.2 _ r hb.1 hi
      (entry_lt g' hb.1 hb.2.2.1) hr
    obtain ⟨_, _, hadj⟩ := connectAll_spec _ i r g' g1 hi hsr.2.1 hb.2.1 hg1
    intro L a b
    show b ∈ g1.adjacents L a ↔ a ∈ g1.adjacents L b
    rw [hadj, hadj, hj L a b]
    constructor
    · rintro (h | ⟨hL, (h | h)⟩)
      · exact Or.inl h
      · exact Or.inr ⟨hL, Or.inr ⟨h.2, h.1⟩⟩
      · exact Or.inr ⟨hL, Or.inl ⟨h.2, h.1⟩⟩
    · rintro (h | ⟨hL, (h | h)⟩)
      · exact Or.inl h
      · exact Or.inr ⟨hL, Or.inr ⟨h.2, h.1⟩⟩
      · exact Or.inr ⟨hL, Or.inl ⟨h.2, h.1⟩⟩
  · intro g' hb hj
    exact ⟨hb.1, hj, hb.2.2.2⟩

theorem insertAll_symmetric (values : List (Record K)) :
    ∀ (g : HNSW_graph K) (gen : Gen), g.Valid → g.EdgeSymmetric →
      ∃ g' gen', insertAll values g gen = .ok (g', gen') ∧ g'.Valid ∧ g'.EdgeSymmetric ∧
        g'.num_layers = g.num_layers ∧
        g'.nodes.map (fun x => x.value) = g.nodes.map (fun x => x.value) ++ values := by
  induction values with
  | nil => intro g gen hv hs; exact ⟨g, gen, rfl, hv, hs, rfl, by simp⟩
  | cons value rest ih =>
    intro g gen hv hs
    obtain ⟨g1, gen1, h1, hv1, hs1, hsd⟩ := insert_symmetric g value gen hv hs
    obtain ⟨g2, gen2, h2, hv2, hs2, hnl, hrec⟩ := ih g1 gen1 hv1 hs1
    refine ⟨g2, gen2, ?_, hv2, hs2, ?_, ?_⟩
    · simp only [insertAll, h1]; exact h2
    · rw [hnl, hsd.2.2.1]; rfl
    · rw [hrec, hsd.2.2.2.2.2]
      simp [pushNode]

end HNSW_graph

/-- C3. HNSW edge symmetry: every sequence of insert calls on a graph with at
least one layer returns, whatever the insertion layers drawn, and in the graph
it produces `b` is in the layer-`L` neighbour list of `a` if and only if `a`
is in the layer-`L` neighbour list of `b`. -/
theorem hnsw_edge_symmetry {K : Type} (mL : Flt) (vector_len : Int) (num_layers : Nat)
    (efc : Int) (dist : Vec → Vec → Flt) (values : List (Record K)) (gen : Gen)
    (h : 0 < num_layers) :
    ∃ g gen', HNSW_graph.insertAll values
        (HNSW_graph.empty mL vector_len num_layers efc dist) gen = .ok (g, gen') ∧
      ∀ L a b, b ∈ g.adjacents L a ↔ a ∈ g.adjacents L b := by
  obtain ⟨g, gen', hg, _, hs, _, _⟩ := HNSW_graph.insertAll_symmetric values
    (HNSW_graph.empty mL vector_len num_layers efc dist) gen
    (HNSW_graph.empty_valid mL vector_len num_layers efc dist h)
    (HNSW_graph.empty_symmetric mL vector_len num_layers efc dist)
  exact ⟨g, gen', hg, hs⟩

/-- C3, at an instance: three records inserted into a graph of five layers. -/
theorem hnsw_edge_symmetry_witness :
    0 < 5 ∧ ∃ g gen', HNSW_graph.insertAll
        [("a", [0, 0]), ("b", [1, 0]), ("c", [2, 0])]
        (HNSW_graph.empty (9 / 10) 128 5 6 defaultDistance) ⟨fun _ => 1, 0⟩ = .ok (g, gen') ∧
      ∀ L a b, b ∈ g.adjacents L a ↔ a ∈ g.adjacents L b :=
  ⟨by decide, hnsw_edge_symmetry (9 / 10) 128 5 6 defaultDistance
    [("a", [0, 0]), ("b", [1, 0]), ("c", [2, 0])] ⟨fun _ => 1, 0⟩ (by decide)⟩

/-! ## Request framing: round trip -/

theorem getD_append_offset (pre l : List Byte) (k : Nat) :
    (pre ++ l).getD (pre.length + k) 0 = l.getD k 0 := by
  simp only [List.getD_eq_getElem?_getD]
  rw [List.getElem?_append_right (by omega)]
  simp

theorem readU32_append (pre l : List Byte) :
    readU32 (pre ++ l) pre.length = readU32 l 0 := by
  have h0 := getD_append_offset pre l 0
  have h1 := getD_append_offset pre l 1
  have h2 := getD_append_offset pre l 2
  have h3 := getD_append_offset pre l 3
  simp only [Nat.add_zero] at h0
  simp only [readU32, h0, h1, h2, h3, Nat.zero_add]

theorem readU32_u32le_head (post : List Byte) (x : Nat) (hx : x < 2 ^ 32) :
    readU32 (u32le x ++ post) 0 = x := by
  simp only [readU32, u32le, byteOf, List.cons_append, List.nil_append, List.getD_cons_zero,
    List.getD_cons_succ, Nat.zero_add]
  omega

theorem readU32_u32le (pre post : List Byte) (x : Nat) (hx : x < 2 ^ 32) :
    readU32 (pre ++ u32le x ++ post) pre.length = x := by
  rw [List.append_assoc, readU32_append, readU32_u32le_head post x hx]

theorem bodyLength_ge (cmd : List (List Byte)) : 4 ≤ bodyLength cmd := by
  cases cmd with
  | nil => simp [bodyLength]
  | cons s rest => simp only [bodyLength]; omega

theorem sendLen_eq (cmd : List (List Byte)) :
    ∀ len, len + (bodyLength cmd - 4) < 2 ^ 32 →
      sendLen cmd len = len + (bodyLength cmd - 4) := by
  induction cmd with
  | nil => intro len _; simp [sendLen, bodyLength]
  | cons s rest ih =>
    intro len h
    have hb := bodyLength_ge rest
    simp only [bodyLength] at h ⊢
    simp only [sendLen]
    rw [Nat.mod_eq_of_lt (by omega), ih _ (by omega)]
    omega

theorem sendArgs_length (cmd : List (List Byte)) :
    (sendArgs cmd).length + 4 = bodyLength cmd := by
  induction cmd with
  | nil => simp [sendArgs, bodyLength]
  | cons s rest ih =>
    simp only [sendArgs, bodyLength, List.length_append, u32le, List.length_cons,
      List.length_nil]
    omega

theorem parseLoop_sendArgs (cmd : List (List Byte)) :
    ∀ (pre : List Byte) (out : List (List Byte)), bodyLength cmd < 2 ^ 32 →
      parseLoop (pre ++ sendArgs cmd) cmd.length pre.length out = some (out ++ cmd) := by
  induction cmd with
  | nil => intro pre out _; simp [parseLoop, sendArgs]
  | cons s rest ih =>
    intro pre out h
    have hb := bodyLength_ge rest
    simp only [bodyLength] at h
    have hs : s.length % 2 ^ 32 = s.length := Nat.mod_eq_of_lt (by omega)
    simp only [List.length_cons, parseLoop, sendArgs, hs]
    have hread : readU32 (pre ++ (u32le s.length ++ s ++ sendArgs rest)) pre.length
        = s.length := by
      have := readU32_u32le pre (s ++ sendArgs rest) s.length (by omega)
      simpa [List.append_assoc] using this
    rw [hread]
    have h4 : (u32le s.length).length = 4 := rfl
    rw [if_neg (by simp only [List.length_append, h4]; omega),
      if_neg (by simp only [List.length_append, h4]; omega)]
    have hdrop : List.take s.length
        (List.drop (pre.length + 4) (pre ++ (u32le s.length ++ s ++ sendArgs rest))) = s := by
      have e : pre ++ (u32le s.length ++ s ++ sendArgs rest)
          = (pre ++ u32le s.length) ++ (s ++ sendArgs rest) := by simp [List.append_assoc]
      rw [e, List.drop_append_of_le_length (by simp [h4]),
        List.drop_of_length_le (by simp [h4])]
      simp
    rw [hdrop]
    have e2 : pre ++ (u32le s.length ++ s ++ sendArgs rest)
        = (pre ++ u32le s.length ++ s) ++ sendArgs rest := by simp [List.append_assoc]
    have e3 : pre.length + 4 + s.length = (pre ++ u32le s.length ++ s).length := by
      simp only [List.length_append, h4]
    rw [e2, e3, ih _ _ (by omega)]
    simp

/-- C8, as amended. For every argument list whose frame body
`4 + Σ (4 + |arg|)` has at most `k_max_msg = 4096` bytes, `send_req` produces a
frame, the frame is the length field followed by the body, and `parse_req` on
the body succeeds with exactly the original arguments. -/
theorem wire_roundtrip (cmd : List (List Byte)) (h : bodyLength cmd ≤ k_max_msg) :
    ∃ frame, send_req cmd = some frame ∧ frame.length = 4 + bodyLength cmd ∧
      readU32 frame 0 = bodyLength cmd ∧ parse_req (frameBody frame) = some cmd := by
  have hk : k_max_msg = 4096 := rfl
  have hb := bodyLength_ge cmd
  have hlen : sendLen cmd 4 = bodyLength cmd := by
    rw [sendLen_eq cmd 4 (by omega)]; omega
  have hargs := sendArgs_length cmd
  have hcount : cmd.length ≤ (sendArgs cmd).length / 4 := by
    clear hlen hargs h hb
    induction cmd with
    | nil => simp
    | cons s rest ih =>
      simp only [sendArgs, List.length_cons, List.length_append, u32le, List.length_nil]
      omega
  have hn : cmd.length % 2 ^ 32 = cmd.length := Nat.mod_eq_of_lt (by omega)
  have h4 : ∀ x, (u32le x).length = 4 := fun _ => rfl
  have htake : (u32le (bodyLength cmd) ++ u32le cmd.length ++ sendArgs cmd).take
      (bodyLength cmd + 4) = u32le (bodyLength cmd) ++ u32le cmd.length ++ sendArgs cmd := by
    apply List.take_of_length_le
    simp only [List.length_append, h4]
    omega
  refine ⟨u32le (bodyLength cmd) ++ u32le cmd.length ++ sendArgs cmd, ?_, ?_, ?_, ?_⟩
  · simp only [send_req, hlen, hn]
    rw [if_neg (by omega), htake]
  · simp only [List.length_append, h4]; omega
  · rw [List.append_assoc]
    exact readU32_u32le_head _ _ (by omega)
  · have hr : readU32 (u32le (bodyLength cmd) ++ u32le cmd.length ++ sendArgs cmd) 0
        = bodyLength cmd := by
      rw [List.append_assoc]
      exact readU32_u32le_head _ _ (by omega)
    have hbody : frameBody (u32le (bodyLength cmd) ++ u32le cmd.length ++ sendArgs cmd)
        = u32le cmd.length ++ sendArgs cmd := by
      unfold frameBody
      rw [hr, List.append_assoc]
      rw [List.drop_append_of_le_length (by simp [h4]), List.drop_of_length_le (by simp [h4])]
      simp only [List.nil_append]
      apply List.take_of_length_le
      simp only [List.length_append, h4]
      omega
    rw [hbody]
    have hrn : readU32 (u32le cmd.length ++ sendArgs cmd) 0 = cmd.length :=
      readU32_u32le_head _ _ (by omega)
    simp only [parse_req, hrn, List.length_append, h4]
    rw [if_neg (by omega), if_neg (by simp only [k_max_args]; omega)]
    have := parseLoop_sendArgs cmd (u32le cmd.length) [] (by omega)
    simpa [h4] using this

/-- C8, as amended, at an instance: the two arguments `[1, 2]` and `[3]`. -/
theorem wire_roundtrip_witness :
    bodyLength [[1, 2], [3]] ≤ k_max_msg ∧
      ∃ frame, send_req [[1, 2], [3]] = some frame ∧
        frame.length = 4 + bodyLength [[1, 2], [3]] ∧
        readU32 frame 0 = bodyLength [[1, 2], [3]] ∧
        parse_req (frameBody frame) = some [[1, 2], [3]] :=
  ⟨by decide, wire_roundtrip [[1, 2], [3]] (by decide)⟩

/-- C8 as stated fails: a single argument of 4092 bytes satisfies the bound of
the claim, yet `send_req` refuses it ("Message too long") since the frame body
would have 4100 bytes. -/
theorem wire_roundtrip_counterexample :
    (∀ s ∈ [List.replicate 4092 (0 : Byte)], s.length ≤ 4092) ∧
      send_req [List.replicate 4092 (0 : Byte)] = none := by
  refine ⟨?_, ?_⟩
  · intro s hs
    rw [List.mem_singleton.mp hs, List.length_replicate]
  · simp only [send_req, sendLen, List.length_replicate, k_max_msg]
    rfl

/-! ## The beam search with a beam as wide as the graph -/

theorem visitNeighbor_visited (dist : Nat → Flt) (ef : Nat) (s : BeamState) (n : Nat) :
    n ∈ (visitNeighbor dist ef s n).visited_nodes ∧
      ∀ x ∈ s.visited_nodes, x ∈ (visitNeighbor dist ef s n).visited_nodes := by
  rcases visitNeighbor_cases dist ef s n with ⟨hm, h⟩ | ⟨_, _, h⟩ | ⟨_, _, h⟩
  · rw [h]; exact ⟨hm, fun x hx => hx⟩
  · rw [h]; exact ⟨List.mem_cons_self _ _, fun x hx => List.mem_cons_of_mem _ hx⟩
  · rw [h]; exact ⟨List.mem_cons_self _ _, fun x hx => List.mem_cons_of_mem _ hx⟩

theorem foldl_visit_visited (dist : Nat → Flt) (ef : Nat) (l : List Nat) :
    ∀ s : BeamState,
      (∀ x ∈ s.visited_nodes, x ∈ (l.foldl (visitNeighbor dist ef) s).visited_nodes) ∧
      (∀ x ∈ l, x ∈ (l.foldl (visitNeighbor dist ef) s).visited_nodes) := by
  induction l with
  | nil => intro s; exact ⟨fun x hx => hx, fun x hx => absurd hx (List.not_mem_nil _)⟩
  | cons n rest ih =>
    intro s
    simp only [List.foldl_cons]
    obtain ⟨h1, h2⟩ := ih (visitNeighbor dist ef s n)
    obtain ⟨h3, h4⟩ := visitNeighbor_visited dist ef s n
    refine ⟨fun x hx => h1 x (h4 x hx), ?_⟩
    intro x hx
    rcases List.mem_cons.mp hx with rfl | hx
    · exact h1 _ h3
    · exact h2 x hx

theorem visitNeighbor_complete (adj : Nat → List Nat) (dist : Nat → Flt) (ef N startNode : Nat)
    (E : Nat → Prop) (s : BeamState) (n : Nat) (hef : N ≤ ef) (hn : n < N)
    (hreach : Relation.ReflTransGen (fun a b => b ∈ adj a) startNode n)
    (hs : BeamComplete adj dist N startNode E s) :
    BeamComplete adj dist N startNode E (visitNeighbor dist ef s n) := by
  obtain ⟨hnd, hb, hperm, hcn, hsort, hd, hexp, hst, hr⟩ := hs
  rcases visitNeighbor_cases dist ef s n with ⟨_, h⟩ | ⟨hmem, _, h⟩ | ⟨hmem, hc, _⟩
  · rw [h]; exact ⟨hnd, hb, hperm, hcn, hsort, hd, hexp, hst, hr⟩
  · have hnd' : (n :: s.visited_nodes).Nodup := List.nodup_cons.mpr ⟨hmem, hnd⟩
    have hb' : ∀ x ∈ n :: s.visited_nodes, x < N := by
      intro x hx
      rcases List.mem_cons.mp hx with rfl | hx
      · exact hn
      · exact hb x hx
    have hlen : s.nearest_neighbors.length + 1 ≤ N := by
      have h1 := nodup_bounded_length _ N hnd' hb'
      have h2 := hperm.length_eq
      simp only [List.length_map] at h2
      simp only [List.length_cons] at h1
      omega
    have hnt : ¬ (pqPush maxCompare (dist n, n) s.nearest_neighbors).length > ef := by
      rw [length_pqPush]; omega
    rw [h, if_neg hnt]
    refine ⟨hnd', hb', ?_, ?_, ?_, ?_, ?_, ?_, ?_⟩
    · exact ((pqPush_perm maxCompare (dist n, n) s.nearest_neighbors).map Prod.snd).trans
        (by simpa using hperm)
    · intro p hp
      rcases (mem_pqPush _ _ _ _).mp hp with rfl | hp
      · exact (mem_pqPush _ _ _ _).mpr (Or.inl rfl)
      · exact (mem_pqPush _ _ _ _).mpr (Or.inr (hcn p hp))
    · exact pqPush_max_sorted _ _ hsort
    · intro p hp
      rcases (mem_pqPush _ _ _ _).mp hp with rfl | hp
      · rfl
      · exact hd p hp
    · intro v hv
      rcases List.mem_cons.mp hv with rfl | hv
      · exact Or.inl ⟨(dist v, v), (mem_pqPush _ _ _ _).mpr (Or.inl rfl), rfl⟩
      · rcases hexp v hv with ⟨p, hp, hpv⟩ | he | hall
        · exact Or.inl ⟨p, (mem_pqPush _ _ _ _).mpr (Or.inr hp), hpv⟩
        · exact Or.inr (Or.inl he)
        · exact Or.inr (Or.inr (fun x hx => List.mem_cons_of_mem _ (hall x hx)))
    · exact List.mem_cons_of_mem _ hst
    · intro x hx
      rcases List.mem_cons.mp hx with rfl | hx
      · exact hreach
      · exact hr x hx
  · exfalso
    have hnd' : (n :: s.visited_nodes).Nodup := List.nodup_cons.mpr ⟨hmem, hnd⟩
    have hb' : ∀ x ∈ n :: s.visited_nodes, x < N := by
      intro x hx
      rcases List.mem_cons.mp hx with rfl | hx
      · exact hn
      · exact hb x hx
    have h1 := nodup_bounded_length _ N hnd' hb'
    have h2 := hperm.length_eq
    simp only [List.length_map] at h2
    simp only [List.length_cons] at h1
    have : decide (s.nearest_neighbors.length < ef) = true := by
      rw [decide_eq_true_eq]; omega
    rw [this, Bool.or_true] at hc
    exact Bool.noConfusion hc

theorem aboveTop_false_of_mem (current : Flt × Nat) (nearest : List (Flt × Nat))
    (hsort : nearest.Pairwise (fun a b => b.1 ≤ a.1)) (hm : current ∈ nearest) :
    aboveTop current.1 nearest = false := by
  cases nearest with
  | nil => rfl
  | cons t rest =>
    simp only [aboveTop, decide_eq_false_iff_not, not_lt, ge_iff_le, gt_iff_lt]
    rcases List.mem_cons.mp hm with rfl | hm
    · exact le_refl _
    · exact (List.pairwise_cons.mp hsort).1 current hm

/-- With a beam at least as wide as the number of nodes, the beam search
returns, and it returns every node reachable from the start node exactly
once, in non-decreasing order of distance. -/
theorem beamSearch_complete (adj : Nat → List Nat) (dist : Nat → Flt) (ef : Nat)
    (full : Nat → Bool) (N fuel startNode : Nat) (hadj : ∀ c x, x ∈ adj c → x < N)
    (hs : startNode < N) (hef : N ≤ ef) (hf : N ≤ fuel) :
    ∃ r, beamSearch adj dist ef full fuel startNode = some r ∧ r.Nodup ∧
      (∀ x, x ∈ r ↔ Relation.ReflTransGen (fun a b => b ∈ adj a) startNode x) ∧
      (r.map dist).Pairwise (fun a b => a ≤ b) := by
  obtain ⟨r, hr⟩ := beamSearch_terminates adj dist ef full N fuel startNode hadj hs hf
  refine ⟨r, hr, ?_⟩
  simp only [beamSearch] at hr
  split at hr
  · cases hr
  · rename_i s' hs'
    cases hr
    have hinit : BeamComplete adj dist N startNode (fun _ => False)
        { visited_nodes := [startNode]
          candidates := [(dist startNode, startNode)]
          nearest_neighbors := [(dist startNode, startNode)] } := by
      refine ⟨by simp, by simpa using hs, by simp, by simp, by simp, by simp, ?_, by simp, ?_⟩
      · intro v hv
        simp only [List.mem_singleton] at hv
        exact Or.inl ⟨(dist startNode, startNode), by simp, hv.symm⟩
      · intro x hx
        simp only [List.mem_singleton] at hx
        rw [hx]
    have hstep : ∀ s current rest, BeamComplete adj dist N startNode (fun _ => False) s →
        s.candidates = current :: rest →
        (full s.nearest_neighbors.length && aboveTop current.1 s.nearest_neighbors) = false ∧
        BeamComplete adj dist N startNode (fun _ => False)
          ((adj current.2).foldl (visitNeighbor dist ef) { s with candidates := rest }) := by
      intro s current rest hI hc
      obtain ⟨hnd, hb, hperm, hcn, hsort, hd, hexp, hst, hreach⟩ := hI
      have hcur_mem : current ∈ s.candidates := by rw [hc]; exact List.mem_cons_self _ _
      have hcur_near : current ∈ s.nearest_neighbors := hcn current hcur_mem
      have hcur_vis : current.2 ∈ s.visited_nodes :=
        hperm.mem_iff.mp (List.mem_map_of_mem Prod.snd hcur_near)
      refine ⟨by rw [aboveTop_false_of_mem current _ hsort hcur_near, Bool.and_false], ?_⟩
      have hfold := foldl_visit_induct dist ef
        (BeamComplete adj dist N startNode (fun v => v = current.2)) (adj current.2)
        (fun t n hn ht => visitNeighbor_complete adj dist ef N startNode _ t n hef
          (hadj _ _ hn) (Relation.ReflTransGen.tail (hreach _ hcur_vis) hn) ht)
        { s with candidates := rest }
        ⟨hnd, hb, hperm, fun p hp => hcn p (by rw [hc]; exact List.mem_cons_of_mem _ hp),
          hsort, hd, by
            intro v hv
            rcases hexp v hv with ⟨p, hp, hpv⟩ | he | hall
            · rw [hc] at hp
              rcases List.mem_cons.mp hp with rfl | hp
              · exact Or.inr (Or.inl hpv.symm)
              · exact Or.inl ⟨p, hp, hpv⟩
            · exact absurd he id
            · exact Or.inr (Or.inr hall), hst, hreach⟩
      obtain ⟨h1, h2, h3, h4, h5, h6, h7, h8, h9⟩ := hfold
      refine ⟨h1, h2, h3, h4, h5, h6, ?_, h8, h9⟩
      intro v hv
      rcases h7 v hv with h | h | h
      · exact Or.inl h
      · right; right
        rw [h]
        exact (foldl_visit_visited dist ef (adj current.2) _).2
      · exact Or.inr (Or.inr h)
    obtain ⟨hI, hcand⟩ := beamLoop_exhaustive adj dist ef full
      (BeamComplete adj dist N startNode (fun _ => False)) hstep fuel _ s' hinit hs'
    obtain ⟨hnd, hb, hperm, _, hsort, hd, hexp, hst, hreach⟩ := hI
    rw [drainNearest_eq, List.append_nil]
    have hclosed : ∀ v ∈ s'.visited_nodes, ∀ x ∈ adj v, x ∈ s'.visited_nodes := by
      intro v hv
      rcases hexp v hv with ⟨p, hp, _⟩ | he | hall
      · rw [hcand] at hp; exact absurd hp (List.not_mem_nil _)
      · exact absurd he id
      · exact hall
    refine ⟨?_, ?_, ?_⟩
    · rw [List.nodup_reverse]
      exact hperm.nodup_iff.mpr hnd
    · intro x
      rw [List.mem_reverse, hperm.mem_iff]
      constructor
      · exact hreach x
      · intro hx
        induction hx with
        | refl => exact hst
        | tail _ hstep ih => exact hclosed _ ih _ hstep
    · rw [← List.map_reverse, List.pairwise_map, List.pairwise_map,
        List.pairwise_reverse]
      refine hsort.imp_of_mem ?_
      intro a b ha hb' hab
      have hab' : b.1 ≤ a.1 := hab
      rw [hd a ha, hd b hb'] at hab'
      exact hab'

/-! ## HNSW: the top layer links every node -/

namespace HNSW_graph

variable {K : Type}

theorem search_layer_all (g : HNSW_graph K) (i startNode : Nat) (q : Vec) (ef : Nat)
    (r : List Nat) (P : Nat → Prop) (hadj : ∀ c, P c → ∀ x ∈ g.adjacents i c, P x)
    (hs : P startNode) (h : g.search_layer i startNode q ef = .ok r) : ∀ x ∈ r, P x := by
  simp only [search_layer] at h
  split at h
  · cases h
  · split at h
    · cases h
    · rename_i r' hr'
      cases h
      exact beamSearch_all _ _ _ _ _ _ P hadj hs _ hr'

theorem calculate_insertion_layer_le (g : HNSW_graph K) (gen : Gen) :
    (g.calculate_insertion_layer gen).1 ≤ (g.num_layers : Int) - 1 := by
  simp only [calculate_insertion_layer, Gen.raw]
  exact min_le_right _ _

/-- One `insert` keeps the top layer connected. -/
theorem insert_connected (g : HNSW_graph K) (value : Record K) (gen : Gen)
    (hv : g.Valid) (hc : g.TopConnected) :
    ∃ g' gen', g.insert value gen = .ok (g', gen') ∧ g'.TopConnected := by
  have hnl : (g.pushNode value).num_layers = g.num_layers := rfl
  apply insert_rule g value gen hv (fun g' => g'.TopConnected)
    (fun i g' => g'.entry < g.nodes.length ∧
      (∀ L m x, i ≤ L → x ∈ g'.adjacents L m → x < g.nodes.length) ∧
      (∀ L m x, x ∈ g.adjacents L m → x ∈ g'.adjacents L m) ∧
      (g.num_layers ≤ i → ∃ r, r < g.nodes.length ∧
        g.nodes.length ∈ g'.adjacents (g.num_layers - 1) r))
  · intro hn x hx
    have hx1 : x < 1 := by
      simpa [pushToAllLayers, pushNode, hn] using hx
    have : x = 0 := by omega
    rw [this]
  · intro hn
    have hhead : g.layers.headD [] ≠ [] := fun h => hn ((head_nil_iff_of_valid g hv).mp h)
    refine ⟨entry_lt g hv hhead, ?_, ?_, ?_⟩
    · intro L m x _ hx
      rw [adjacents_pushNode] at hx
      exact hv.2.2.1 L m x hx
    · intro L m x hx
      rw [adjacents_pushNode]; exact hx
    · intro h
      have := hv.2.1
      omega
  · intro i g' r best rest hb hj hi hlt hr hbest
    obtain ⟨ha, hbnd, hmono, _⟩ := hj
    have hall := search_layer_all g' i g'.entry value.2 1 r (fun x => x < g.nodes.length)
      (fun c _ x hx => hbnd i c x (le_refl _) hx) ha hr
    have hbl : best < g.nodes.length := hall best (by rw [hbest]; exact List.mem_cons_self _ _)
    refine ⟨by rw [setEntry_entry g' best hb.2.2.1]; exact hbl, ?_, hmono, ?_⟩
    · intro L m x hL hx
      exact hbnd L m x (by omega) hx
    · intro h
      exfalso
      have h1 := calculate_insertion_layer_le (g.pushNode value) gen
      have h2 : g'.num_layers = g.num_layers := hb.2.2.2.2.2.1.trans hnl
      rw [hnl] at h1
      omega
  · intro i g' r g1 best rest hb hj hi _ hr hg1 hbest
    obtain ⟨ha, hbnd, hmono, _⟩ := hj
    have hall := search_layer_all g' i g'.entry value.2 _ r (fun x => x < g.nodes.length)
      (fun c _ x hx => hbnd i c x (le_refl _) hx) ha hr
    have hbl : best < g.nodes.length := hall best (by rw [hbest]; exact List.mem_cons_self _ _)
    have hsr := search_layer_spec g' i g'.entry value.2 _ r hb.1 hi
      (entry_lt g' hb.1 hb.2.2.1) hr
    obtain ⟨_, hlay, hadj⟩ := connectAll_spec _ i r g' g1 hi hsr.2.1 hb.2.1 hg1
    have hhead1 : g1.layers.headD [] ≠ [] := by rw [hlay]; exact hb.2.2.1
    refine ⟨by rw [setEntry_entry g1 best hhead1]; exact hbl, ?_, ?_, ?_⟩
    · intro L m x hL hx
      have hx' : x ∈ g1.adjacents L m := hx
      rcases (hadj L m x).mp hx' with h | ⟨hLi, _⟩
      · exact hbnd L m x (by omega) h
      · omega
    · intro L m x hx
      show x ∈ g1.adjacents L m
      exact (hadj L m x).mpr (Or.inl (hmono L m x hx))
    · intro h
      have h2 : g'.num_layers = g.num_layers := hb.2.2.2.2.2.1.trans hnl
      have hi' : g.num_layers - 1 = i := by omega
      refine ⟨best, hbl, ?_⟩
      show g.nodes.length ∈ g1.adjacents (g.num_layers - 1) best
      rw [hi']
      exact (hadj i best _).mpr
        (Or.inr ⟨rfl, Or.inl ⟨by rw [hbest]; exact List.mem_cons_self _ _, rfl⟩⟩)
  · intro g' hb hj x hx
    obtain ⟨_, _, hmono, hlast⟩ := hj
    have h2 : g'.num_layers = g.num_layers := hb.2.2.2.2.2.1.trans hnl
    have hlen : g'.nodes.length = g.nodes.length + 1 := by
      rw [hb.2.2.2.length]; simp [pushNode]
    rw [h2]
    have lift : ∀ y, Relation.ReflTransGen
        (fun a b => b ∈ g.adjacents (g.num_layers - 1) a) 0 y →
        Relation.ReflTransGen (fun a b => b ∈ g'.adjacents (g.num_layers - 1) a) 0 y := by
      intro y hy
      exact Relation.ReflTransGen.mono (fun a b hab => hmono _ a b hab) hy
    by_cases hxN : x < g.nodes.length
    · exact lift x (hc x hxN)
    · have hxe : x = g.nodes.length := by omega
      obtain ⟨r, hr, hedge⟩ := hlast (le_refl _)
      rw [hxe]
      exact Relation.ReflTransGen.tail (lift r (hc r hr)) hedge

end HNSW_graph

/-! ## HNSW: `search` with a beam as wide as the graph -/

theorem filterMap_range_getElem? {α β : Type} (f : α → β) (l : List α) :
    (List.range l.length).filterMap (fun n => (l[n]?).map f) = l.map f := by
  induction l using List.reverseRecOn with
  | nil => simp
  | append_singleton l a ih =>
    simp only [List.length_append, List.length_singleton, List.range_succ,
      List.filterMap_append, List.map_append, List.map_cons, List.map_nil]
    congr 1
    · rw [← ih]
      apply List.filterMap_congr
      intro n hn
      rw [List.mem_range] at hn
      rw [List.getElem?_append_left hn]
    · simp

theorem perm_range_of_nodup (r : List Nat) (N : Nat) (hnd : r.Nodup)
    (hmem : ∀ x, x ∈ r ↔ x < N) : List.Perm r (List.range N) := by
  rw [List.perm_ext_iff_of_nodup hnd (List.nodup_range N)]
  intro a
  rw [hmem a, List.mem_range]

namespace HNSW_graph

variable {K : Type}

theorem descend_ok (g : HNSW_graph K) (q : Vec) (hv : g.Valid) :
    ∀ k i bestNode, bestNode < g.nodes.length → i + k = g.num_layers →
      ∃ b, descend g q k i bestNode = .ok b ∧ b < g.nodes.length := by
  intro k
  induction k with
  | zero => intro i b hb _; exact ⟨b, rfl, hb⟩
  | succ k ih =>
    intro i b hb hik
    obtain ⟨r, hr, hne, hval, _⟩ := search_layer_ok g i b q 1 hv.2.2.1 (by omega) hb
    simp only [descend, hr]
    cases r with
    | nil => exact absurd rfl hne
    | cons best rest =>
      simp only
      exact ih (i + 1) best (hval best (List.mem_cons_self _ _)) (by omega)

end HNSW_graph

/-! ## The catalog: maps, and the raw query -/

namespace StdMap

variable {V : Type}

theorem find_nil (k : String) : find ([] : StdMap V) k = none := rfl

theorem find_cons (k k' : String) (v' : V) (rest : StdMap V) :
    find ((k', v') :: rest) k = if k = k' then some v' else find rest k := by
  simp only [find, List.lookup_cons]
  by_cases h : k = k'
  · subst h; simp
  · have : (k == k') = false := by simpa using h
    rw [this, if_neg h]

theorem find_append_none (m : StdMap V) (k : String) (v : V) (h : m.find k = none) :
    find (m ++ [(k, v)]) k = some v := by
  induction m with
  | nil => rw [List.nil_append, find_cons, if_pos rfl]
  | cons b rest ih =>
    obtain ⟨k', v'⟩ := b
    rw [find_cons] at h
    rw [List.cons_append, find_cons]
    by_cases hk : k = k'
    · rw [if_pos hk] at h; cases h
    · rw [if_neg hk] at h ⊢
      exact ih h

theorem find_append_ne (m : StdMap V) (k k' : String) (v : V) (h : k' ≠ k) :
    find (m ++ [(k, v)]) k' = m.find k' := by
  induction m with
  | nil => rw [List.nil_append, find_cons, if_neg h]
  | cons b rest ih =>
    obtain ⟨k2, v2⟩ := b
    rw [List.cons_append, find_cons, find_cons, ih]

theorem find_map_some (m : StdMap V) (k : String) (v v0 : V) (h : m.find k = some v0) :
    find (m.map (fun b => if b.1 = k then (k, v) else b)) k = some v := by
  induction m with
  | nil => rw [find_nil] at h; cases h
  | cons b rest ih =>
    obtain ⟨k', v'⟩ := b
    rw [find_cons] at h
    rw [List.map_cons]
    by_cases hk : k' = k
    · simp only [hk, if_true]
      rw [find_cons, if_pos rfl]
    · have hk' : ¬ k = k' := fun h' => hk h'.symm
      rw [if_neg hk'] at h
      simp only [hk, if_false]
      rw [find_cons, if_neg hk']
      exact ih h

theorem find_map_ne (m : StdMap V) (k k' : String) (v : V) (h : k' ≠ k) :
    find (m.map (fun b => if b.1 = k then (k, v) else b)) k' = m.find k' := by
  induction m with
  | nil => rfl
  | cons b rest ih =>
    obtain ⟨k2, v2⟩ := b
    rw [List.map_cons]
    by_cases hk : k2 = k
    · simp only [hk, if_true]
      rw [find_cons, find_cons, if_neg h, if_neg h]
      exact ih
    · simp only [hk, if_false]
      rw [find_cons, find_cons, ih]

theorem find_assign_self (m : StdMap V) (k : String) (v : V) :
    (m.assign k v).find k = some v := by
  unfold assign
  split
  · rename_i v0 h; exact find_map_some m k v v0 h
  · rename_i h; exact find_append_none m k v h

theorem find_assign_ne (m : StdMap V) (k k' : String) (v : V) (h : k' ≠ k) :
    (m.assign k v).find k' = m.find k' := by
  unfold assign
  split
  · exact find_map_ne m k k' v h
  · exact find_append_ne m k k' v h

end StdMap

namespace VectorSearchEngine

variable {K : Type}

theorem newCollection_synced :
    (⟨[], newCollectionGraph⟩ : Collection K).Synced := by
  refine ⟨HNSW_graph.empty_valid _ _ _ _ _ (by decide), HNSW_graph.empty_symmetric _ _ _ _ _,
    ?_, rfl, rfl⟩
  intro x hx
  simp [newCollectionGraph, HNSW_graph.empty] at hx

end VectorSearchEngine

namespace StdMap

variable {V : Type}

theorem find_erase (m : StdMap V) (k k' : String) :
    (m.erase k).find k' = if k' = k then none else m.find k' := by
  induction m with
  | nil => simp [erase, find_nil]
  | cons b rest ih =>
    obtain ⟨k2, v2⟩ := b
    simp only [erase, List.filter_cons] at ih ⊢
    by_cases hk : k2 = k
    · subst hk
      simp only [ne_eq, not_true_eq_false, decide_False, Bool.false_eq_true, if_false]
      rw [ih, find_cons]
      by_cases h2 : k' = k2
      · simp [h2]
      · simp [h2]
    · simp only [ne_eq, hk, not_false_eq_true, decide_True, if_true]
      rw [find_cons, find_cons, ih]
      by_cases h2 : k' = k2
      · simp [h2, hk]
      · simp [h2]

end StdMap

namespace HNSW_graph

variable {K : Type}

/-- One `insert` on a well-formed graph returns a well-formed graph. -/
theorem insert_total (g : HNSW_graph K) (value : Record K) (gen : Gen) (hv : g.Valid) :
    ∃ g' gen', g.insert value gen = .ok (g', gen') ∧ g'.Valid := by
  apply insert_rule g value gen hv (fun g' => g'.Valid) (fun _ _ => True)
  · intro hn; exact first_insert_valid g value hv hn
  · intro _; trivial
  · intros; trivial
  · intros; trivial
  · intro g' hb _; exact hb.1

end HNSW_graph

namespace VectorSearchEngine

variable {K : Type}

theorem addToExisting_valid (e : VectorSearchEngine K) (name : String) (c : Collection K)
    (key : K) (values : Vec) (gen : Gen) (hc : c.hnswGraph.Valid) :
    ∃ g' gen', c.hnswGraph.Valid ∧ g'.Valid ∧
      addToExisting e name c key values gen = .ok (true,
        { e with collections := e.collections.assign name ⟨c.data ++ [(key, values)], g'⟩ },
        gen') := by
  obtain ⟨g', gen', hg, hv'⟩ := HNSW_graph.insert_total c.hnswGraph (key, values) gen hc
  exact ⟨g', gen', hc, hv', by simp only [addToExisting, hg]⟩

/-- The function `addToCollection` returns `true` whenever the graph of the
collection, if there is one, is well formed; the collection then holds one
more record and a well-formed graph, and nothing else changes. -/
theorem addToCollection_total (e : VectorSearchEngine K) (name : String) (key : K)
    (values : Vec) (gen : Gen)
    (h : ∀ c, e.collections.find name = some c → c.hnswGraph.Valid) :
    ∃ e' gen' g', e.addToCollection name key values gen = .ok (true, e', gen') ∧ g'.Valid ∧
      e'.algorithms = e.algorithms ∧
      e'.collections.find name = some ⟨(match e.collections.find name with
        | some c => c.data
        | none => []) ++ [(key, values)], g'⟩ ∧
      ∀ other, other ≠ name → e'.collections.find other = e.collections.find other := by
  cases hf : e.collections.find name with
  | some c =>
    obtain ⟨g', gen', _, hv', hadd⟩ := addToExisting_valid e name c key values gen (h c hf)
    refine ⟨{ e with collections :=
        e.collections.assign name ⟨c.data ++ [(key, values)], g'⟩ }, gen', g',
      by simp only [addToCollection, hf]; exact hadd, hv', rfl, ?_, ?_⟩
    · exact StdMap.find_assign_self _ _ _
    · intro other ho; exact StdMap.find_assign_ne _ _ _ _ ho
  | none =>
    have hcreate : (e.createCollection name).collections.find name
        = some ⟨[], newCollectionGraph⟩ := by
      simp only [createCollection, hf]
      exact StdMap.find_assign_self _ _ _
    obtain ⟨g', gen', _, hv', hadd⟩ := addToExisting_valid (e.createCollection name) name
      ⟨[], newCollectionGraph⟩ key values gen newCollection_synced.1
    refine ⟨{ e.createCollection name with collections :=
        (e.createCollection name).collections.assign name ⟨[] ++ [(key, values)], g'⟩ },
      gen', g', by simp only [addToCollection, hf, hcreate]; exact hadd, hv', ?_, ?_, ?_⟩
    · simp only [createCollection, hf]
    · exact StdMap.find_assign_self _ _ _
    · intro other ho
      show StdMap.find (StdMap.assign (e.createCollection name).collections name _) other = _
      rw [StdMap.find_assign_ne _ _ _ _ ho]
      simp only [createCollection, hf]
      exact StdMap.find_assign_ne _ _ _ _ ho

/-- In every reachable state the graph of every collection is well formed. -/
theorem reachable_valid [DecidableEq K] (e : VectorSearchEngine K) (hr : Reachable e) :
    ∀ name c, e.collections.find name = some c → c.hnswGraph.Valid := by
  induction hr with
  | init => intro name c h; simp [init, StdMap.find_nil] at h
  | createCollection e name _ ih =>
    intro n c h
    unfold createCollection at h
    split at h
    · by_cases hn : n = name
      · subst hn
        rw [StdMap.find_assign_self] at h
        cases h
        exact newCollection_synced.1
      · rw [StdMap.find_assign_ne _ _ _ _ hn] at h
        exact ih n c h
    · exact ih n c h
  | deleteCollection e name _ ih =>
    intro n c h
    unfold deleteCollection at h
    split at h
    · simp only at h
      rw [StdMap.find_erase] at h
      split at h
      · cases h
      · exact ih n c h
    · exact ih n c h
  | addToCollection e e' name key values gen gen' b _ hadd ih =>
    intro n c h
    obtain ⟨e2, gen2, g2, h1, hv2, _, hfind, hother⟩ :=
      addToCollection_total e name key values gen (ih name)
    rw [hadd] at h1
    cases h1
    by_cases hn : n = name
    · subst hn
      rw [hfind] at h
      cases h
      exact hv2
    · rw [hother n hn] at h
      exact ih n c h
  | deleteFromCollection e name key _ ih =>
    intro n c h
    unfold deleteFromCollection at h
    split at h
    · exact ih n c h
    · rename_i c0 hc0
      split at h
      · exact ih n c h
      · simp only at h
        by_cases hn : n = name
        · subst hn
          rw [StdMap.find_assign_self] at h
          cases h
          exact ih n c0 hc0
        · rw [StdMap.find_assign_ne _ _ _ _ hn] at h
          exact ih n c h
  | addAlgorithm e e' algName name returned mk _ hadd ih =>
    intro n c h
    unfold addAlgorithm at hadd
    split at hadd
    · cases hadd; exact ih n c h
    · split at hadd
      · cases hadd
      · split at hadd
        · cases hadd
        · cases hadd; exact ih n c h

end VectorSearchEngine

/-- C9, the code at a failing input.  A catalog holds the collection `"C"` and
no index.  The call `addAlgorithm("idx", "C", ...)` registers the index under
`"idx"` but returns `"C"`, the name of the collection.  A second call with the
same arguments, `"idx"` now being taken, returns `"C"` again and registers
nothing: the only registered name is still `"idx"`, there is no `"idx_1"`. -/
theorem addAlgorithm_name_divergence :
    (match ((VectorSearchEngine.init : VectorSearchEngine String).createCollection
        "C").addAlgorithm "idx" "C" (fun _ => .ok ⟨fun _ _ => .ok []⟩) with
      | .ok (returned, e1) =>
          (returned, e1.algorithms.map Prod.fst,
            match e1.addAlgorithm "idx" "C" (fun _ => .ok ⟨fun _ _ => .ok []⟩) with
            | .ok (returned2, e2) => (returned2, e2.algorithms.map Prod.fst)
            | .error _ => ("", []))
      | .error _ => ("", [], "", []))
      = ("C", ["idx"], "C", ["idx"]) := by
  rfl

/-! ## HNSW: which layers hold a node -/

namespace HNSW_graph

variable {K : Type}

theorem adjacents_out_of_range (g : HNSW_graph K) (L n : Nat) (h : g.nodes.length ≤ n) :
    g.adjacents L n = [] := by
  simp only [adjacents, List.getElem?_eq_none_iff.mpr h]

/-- One `insert` keeps the set of layers at which a node is linked closed
upwards. -/
theorem insert_upClosed (g : HNSW_graph K) (value : Record K) (gen : Gen)
    (hv : g.Valid) (hs : g.EdgeSymmetric) (hu : g.UpClosed) :
    ∃ g' gen', g.insert value gen = .ok (g', gen') ∧ g'.UpClosed := by
  have hnl : (g.pushNode value).num_layers = g.num_layers := rfl
  apply insert_rule g value gen hv (fun g' => g'.UpClosed)
    (fun i g' =>
      (∀ L m x, x ∈ g.adjacents L m → x ∈ g'.adjacents L m) ∧
      g'.EdgeSymmetric ∧
      (∀ L, g'.adjacents L g.nodes.length ≠ [] ↔
        (((g.pushNode value).calculate_insertion_layer gen).1 ≤ (L : Int) ∧ L < i)) ∧
      (∀ n L, n ≠ g.nodes.length → g'.adjacents L n ≠ [] → g.adjacents L n = [] →
        (((g.pushNode value).calculate_insertion_layer gen).1 ≤ (L : Int) ∧ L < i)) ∧
      (∀ n L L', n ≠ g.nodes.length → g'.adjacents L n ≠ [] → g.adjacents L n = [] →
        L ≤ L' → L' < g.num_layers →
        g'.adjacents L' n ≠ [] ∨ (i ≤ L' ∧ n = g'.entry)))
  · -- the first record: no edge at all
    intro hn n L L' h
    exfalso
    apply h
    show (g.pushNode value).adjacents L n = []
    rw [adjacents_pushNode]
    cases hx : g.adjacents L n with
    | nil => rfl
    | cons x xs =>
      have := hv.2.2.1 L n x (by rw [hx]; exact List.mem_cons_self _ _)
      rw [hn] at this
      simp at this
  · -- entering the loop
    intro _
    refine ⟨?_, ?_, ?_, ?_, ?_⟩
    · intro L m x hx; rw [adjacents_pushNode]; exact hx
    · intro L a b; rw [adjacents_pushNode]; exact hs L a b
    · intro L
      rw [adjacents_pushNode, adjacents_out_of_range g L _ (le_refl _)]
      constructor
      · intro h; exact absurd rfl h
      · intro h; omega
    · intro n L _ h1 h2
      rw [adjacents_pushNode] at h1
      exact absurd h2 h1
    · intro n L L' _ h1 h2
      rw [adjacents_pushNode] at h1
      exact absurd h2 h1
  · -- a layer below the insertion layer: nothing is linked
    intro i g' r best rest hb hj hi hlt hr hbest
    obtain ⟨hmono, hsym, hnew, hfresh, _⟩ := hj
    refine ⟨hmono, hsym, ?_, ?_, ?_⟩
    · intro L
      rw [show (g'.setEntry best).adjacents = g'.adjacents from rfl, hnew L]
      constructor
      · intro h; exact ⟨h.1, by omega⟩
      · intro h; omega
    · intro n L hn h1 h2
      have := hfresh n L hn h1 h2
      omega
    · intro n L L' hn h1 h2 _ _
      have := hfresh n L hn h1 h2
      omega
  · -- a layer from the insertion layer on: the new node is linked
    intro i g' r g1 best rest hb hj hi hlt hr hg1 hbest
    obtain ⟨hmono, hsym, hnew, hfresh, hup⟩ := hj
    have hle : ((g.pushNode value).calculate_insertion_layer gen).1 ≤ (i : Int) := by omega
    have hsr := search_layer_spec g' i g'.entry value.2 _ r hb.1 hi
      (entry_lt g' hb.1 hb.2.2.1) hr
    obtain ⟨hsd, hlay, hadj⟩ := connectAll_spec _ i r g' g1 hi hsr.2.1 hb.2.1 hg1
    have hhead1 : g1.layers.headD [] ≠ [] := by rw [hlay]; exact hb.2.2.1
    have hentry : (g1.setEntry best).entry = best := setEntry_entry g1 best hhead1
    have hbest_mem : best ∈ r := by rw [hbest]; exact List.mem_cons_self _ _
    -- linked in `g1` means linked in `g'` or freshly linked at layer `i`
    have hlinked : ∀ L n, g1.adjacents L n ≠ [] ↔
        (g'.adjacents L n ≠ [] ∨ (L = i ∧ (n ∈ r ∨ n = g.nodes.length))) := by
      intro L n
      constructor
      · intro h
        obtain ⟨x, hx⟩ := List.exists_mem_of_ne_nil _ h
        rcases (hadj L n x).mp hx with h' | ⟨hL, (h' | h')⟩
        · exact Or.inl (List.ne_nil_of_mem h')
        · exact Or.inr ⟨hL, Or.inl h'.1⟩
        · exact Or.inr ⟨hL, Or.inr h'.1⟩
      · rintro (h | ⟨hL, (h | h)⟩)
        · obtain ⟨x, hx⟩ := List.exists_mem_of_ne_nil _ h
          exact List.ne_nil_of_mem ((hadj L n x).mpr (Or.inl hx))
        · exact List.ne_nil_of_mem ((hadj L n g.nodes.length).mpr
            (Or.inr ⟨hL, Or.inl ⟨h, rfl⟩⟩))
        · exact List.ne_nil_of_mem ((hadj L n best).mpr
            (Or.inr ⟨hL, Or.inr ⟨h, hbest_mem⟩⟩))
    -- a node found by the search that had no edge at layer `i` is the start node,
    -- and then the search found nothing else
    have hstart : ∀ n, n ∈ r → g'.adjacents i n = [] → n = g'.entry ∧ best = g'.entry := by
      intro n hn h0
      have hne : n = g'.entry := by
        rcases hsr.2.2 n hn with h | ⟨c, hc⟩
        · exact h
        · have := (hsym i c n).mp hc
          rw [h0] at this
          exact absurd this (List.not_mem_nil _)
      refine ⟨hne, ?_⟩
      rw [hne] at h0
      have hiso := search_layer_isolated g' i g'.entry value.2 (toSizeT g'.efc) hi h0
      rw [hr] at hiso
      cases hiso
      cases hbest
      rfl
    refine ⟨?_, ?_, ?_, ?_, ?_⟩
    · intro L m x hx
      exact (hadj L m x).mpr (Or.inl (hmono L m x hx))
    · intro L a b
      show b ∈ g1.adjacents L a ↔ a ∈ g1.adjacents L b
      rw [hadj, hadj, hsym L a b]
      constructor
      · rintro (h | ⟨hL, (h | h)⟩)
        · exact Or.inl h
        · exact Or.inr ⟨hL, Or.inr ⟨h.2, h.1⟩⟩
        · exact Or.inr ⟨hL, Or.inl ⟨h.2, h.1⟩⟩
      · rintro (h | ⟨hL, (h | h)⟩)
        · exact Or.inl h
        · exact Or.inr ⟨hL, Or.inr ⟨h.2, h.1⟩⟩
        · exact Or.inr ⟨hL, Or.inl ⟨h.2, h.1⟩⟩
    · intro L
      show g1.adjacents L g.nodes.length ≠ [] ↔ _
      rw [hlinked L, hnew L]
      constructor
      · rintro (h | ⟨hL, _⟩)
        · exact ⟨h.1, by omega⟩
        · subst hL; exact ⟨hle, by omega⟩
      · intro h
        by_cases hLi : L = i
        · exact Or.inr ⟨hLi, Or.inr rfl⟩
        · exact Or.inl ⟨h.1, by omega⟩
    · intro n L hn h1 h2
      have h1' : g1.adjacents L n ≠ [] := h1
      rcases (hlinked L n).mp h1' with h | ⟨hL, _⟩
      · have := hfresh n L hn h h2
        exact ⟨this.1, by omega⟩
      · subst hL; exact ⟨hle, by omega⟩
    · intro n L L' hn h1 h2 hLL hL'
      rw [hentry]
      show g1.adjacents L' n ≠ [] ∨ _
      have h1' : g1.adjacents L n ≠ [] := h1
      have hnum : g'.num_layers = g.num_layers := hb.2.2.2.2.2.1.trans hnl
      -- the start node ends up linked at layer `i`, and stays the start node
      -- when it had no edge there
      have hs_case : n = g'.entry → i ≤ L' →
          g1.adjacents L' n ≠ [] ∨ (i + 1 ≤ L' ∧ n = best) := by
        intro hne hiL
        by_cases h0 : g'.adjacents i n = []
        · have hr1 : r = [n] := by
            rw [hne] at h0
            have hiso := search_layer_isolated g' i g'.entry value.2 (toSizeT g'.efc) hi h0
            rw [hr] at hiso
            cases hiso
            rw [hne]
          by_cases hLi : L' = i
          · left
            rw [hLi]
            exact (hlinked i n).mpr (Or.inr ⟨rfl, Or.inl (by rw [hr1]; exact List.mem_singleton.mpr rfl)⟩)
          · right
            refine ⟨by omega, ?_⟩
            rw [hr1] at hbest
            cases hbest
            rfl
        · left
          by_cases h0g : g.adjacents i n = []
          · have := hfresh n i hn h0 h0g
            omega
          · have hup0 := hu n i L' h0g hiL hL'
            obtain ⟨x, hx⟩ := List.exists_mem_of_ne_nil _ hup0
            exact List.ne_nil_of_mem ((hadj L' n x).mpr (Or.inl (hmono L' n x hx)))
      rcases (hlinked L n).mp h1' with h | ⟨hL, hmem⟩
      · rcases hup n L L' hn h h2 hLL hL' with h3 | ⟨hiL, hne⟩
        · exact Or.inl ((hlinked L' n).mpr (Or.inl h3))
        · exact hs_case hne hiL
      · subst hL
        rcases hmem with hmem | hmem
        · by_cases h0 : g'.adjacents L n = []
          · exact hs_case (hstart n hmem h0).1 hLL
          · by_cases h0g : g.adjacents L n = []
            · have := hfresh n L hn h0 h0g
              omega
            · exact absurd h2 h0g
        · exact absurd hmem hn
  · -- after the loop
    intro g' hb hj n L L' h1 hLL hL'
    obtain ⟨hmono, _, hnew, _, hup⟩ := hj
    have hnum : g'.num_layers = g.num_layers := hb.2.2.2.2.2.1.trans hnl
    rw [hnum] at hL'
    by_cases hn : n = g.nodes.length
    · subst hn
      have := (hnew L).mp h1
      exact (hnew L').mpr ⟨by omega, hL'⟩
    · by_cases h0g : g.adjacents L n = []
      · rcases hup n L L' hn h1 h0g hLL hL' with h3 | ⟨h3, _⟩
        · exact h3
        · omega
      · have hup0 := hu n L L' h0g hLL hL'
        obtain ⟨x, hx⟩ := List.exists_mem_of_ne_nil _ hup0
        exact List.ne_nil_of_mem (hmono L' n x hx)

theorem insertAll_upClosed (values : List (Record K)) :
    ∀ (g : HNSW_graph K) (gen : Gen), g.Valid → g.EdgeSymmetric → g.UpClosed →
      ∃ g' gen', insertAll values g gen = .ok (g', gen') ∧ g'.UpClosed ∧
        g'.num_layers = g.num_layers := by
  induction values with
  | nil => intro g gen _ _ hu; exact ⟨g, gen, rfl, hu, rfl⟩
  | cons value rest ih =>
    intro g gen hv hs hu
    obtain ⟨g1, gen1, h1, hv1, hs1, hsd⟩ := insert_symmetric g value gen hv hs
    obtain ⟨g1', gen1', h1', hu1⟩ := insert_upClosed g value gen hv hs hu
    rw [h1] at h1'
    cases h1'
    obtain ⟨g2, gen2, h2, hu2, hnl⟩ := ih g1 gen1 hv1 hs1 hu1
    refine ⟨g2, gen2, ?_, hu2, ?_⟩
    · simp only [insertAll, h1]; exact h2
    · rw [hnl, hsd.2.2.1]; rfl

end HNSW_graph

/-- C4, as amended. HNSW layers are closed upwards, not downwards: every
sequence of insert calls on a graph with at least one layer returns, and in
the graph it produces a node that is linked by an edge at layer `L` is linked
by an edge at every layer `L'` with `L ≤ L' < num_layers`. -/
theorem hnsw_upward_closure {K : Type} (mL : Flt) (vector_len : Int) (num_layers : Nat)
    (efc : Int) (dist : Vec → Vec → Flt) (values : List (Record K)) (gen : Gen)
    (h : 0 < num_layers) :
    ∃ g gen', HNSW_graph.insertAll values
        (HNSW_graph.empty mL vector_len num_layers efc dist) gen = .ok (g, gen') ∧
      ∀ n L L', g.adjacents L n ≠ [] → L ≤ L' → L' < num_layers → g.adjacents L' n ≠ [] := by
  obtain ⟨g, gen', hg, hu, hnl⟩ := HNSW_graph.insertAll_upClosed values
    (HNSW_graph.empty mL vector_len num_layers efc dist) gen
    (HNSW_graph.empty_valid mL vector_len num_layers efc dist h)
    (HNSW_graph.empty_symmetric mL vector_len num_layers efc dist)
    (by
      intro n L L' h1
      exfalso; apply h1
      simp [HNSW_graph.empty, HNSW_graph.adjacents])
  refine ⟨g, gen', hg, ?_⟩
  intro n L L' h1 h2 h3
  exact hu n L L' h1 h2 (by rw [hnl]; exact h3)

/-- C4, as amended, at an instance: three records inserted into a graph of five
layers. -/
theorem hnsw_upward_closure_witness :
    0 < 5 ∧ ∃ g gen', HNSW_graph.insertAll
        [("a", [0, 0]), ("b", [1, 0]), ("c", [2, 0])]
        (HNSW_graph.empty (9 / 10) 128 5 6 defaultDistance) ⟨fun i => i + 1, 0⟩
          = .ok (g, gen') ∧
      ∀ n L L', g.adjacents L n ≠ [] → L ≤ L' → L' < 5 → g.adjacents L' n ≠ [] :=
  ⟨by decide, hnsw_upward_closure (9 / 10) 128 5 6 defaultDistance
    [("a", [0, 0]), ("b", [1, 0]), ("c", [2, 0])] ⟨fun i => i + 1, 0⟩ (by decide)⟩

/-! ## Beam width and the set of results -/

/-- With two beam widths, the second at least the number of nodes, both beam
searches return and the second result contains the first. -/
theorem beamSearch_superset (adj : Nat → List Nat) (dist : Nat → Flt) (ef1 ef2 : Nat)
    (full1 full2 : Nat → Bool) (N fuel startNode : Nat) (hadj : ∀ c x, x ∈ adj c → x < N)
    (hs : startNode < N) (hef : N ≤ ef2) (hf : N ≤ fuel) :
    ∃ r1 r2, beamSearch adj dist ef1 full1 fuel startNode = some r1 ∧
      beamSearch adj dist ef2 full2 fuel startNode = some r2 ∧ ∀ x ∈ r1, x ∈ r2 := by
  obtain ⟨r1, h1⟩ := beamSearch_terminates adj dist ef1 full1 N fuel startNode hadj hs hf
  obtain ⟨r2, h2, _, hmem, _⟩ :=
    beamSearch_complete adj dist ef2 full2 N fuel startNode hadj hs hef hf
  refine ⟨r1, r2, h1, h2, ?_⟩
  intro x hx
  rw [hmem x]
  exact beamSearch_all adj dist ef1 full1 fuel startNode
    (fun y => Relation.ReflTransGen (fun a b => b ∈ adj a) startNode y)
    (fun c hc y hy => Relation.ReflTransGen.tail hc hy) Relation.ReflTransGen.refl r1 h1 x hx

namespace HNSW_graph

variable {K : Type}

theorem search_layer_superset (g : HNSW_graph K) (i s : Nat) (q : Vec) (ef1 ef2 : Nat)
    (hg : g.Valid) (hi : i < g.num_layers) (hs : s < g.nodes.length)
    (hN : g.nodes.length ≤ ef2) :
    ∃ r1 r2, g.search_layer i s q ef1 = .ok r1 ∧ g.search_layer i s q ef2 = .ok r2 ∧
      ∀ x ∈ r1, x ∈ r2 := by
  obtain ⟨r1, r2, h1, h2, h3⟩ := beamSearch_superset (g.adjacents i)
    (fun n => g.distanceFunction (g.vecOf n) q) ef1 ef2 (fun size => decide (size > 0))
    (fun size => decide (size > 0)) g.nodes.length (g.nodes.length + 1) s
    (fun c x hx => hg.2.2.1 i c x hx) hs hN (by omega)
  refine ⟨r1, r2, ?_, ?_, h3⟩
  · simp only [search_layer, h1]; rw [if_neg (by omega)]
  · simp only [search_layer, h2]; rw [if_neg (by omega)]

theorem search_superset (g : HNSW_graph K) (q : Vec) (ef1 ef2 : Nat)
    (hg : g.Valid) (hn : g.nodes ≠ []) (hN : g.nodes.length ≤ ef2) :
    ∃ r1 r2, g.search q ef1 = .ok r1 ∧ g.search q ef2 = .ok r2 ∧ ∀ x ∈ r1, x ∈ r2 := by
  obtain ⟨layer0, rest, hl⟩ := layers_cons_of_valid g hg
  have hhead : g.layers.headD [] ≠ [] := fun h => hn ((head_nil_iff_of_valid g hg).mp h)
  have hl0 : layer0 ≠ [] := by
    have : g.layers.headD [] = layer0 := by rw [hl]; rfl
    rw [← this]; exact hhead
  obtain ⟨bestNode, rest0, hl0'⟩ : ∃ b t, layer0 = b :: t := by
    cases layer0 with
    | nil => exact absurd rfl hl0
    | cons b t => exact ⟨b, t, rfl⟩
  have hbn : bestNode < g.nodes.length := by
    have := entry_lt g hg hhead
    simpa [entry, hl, hl0'] using this
  obtain ⟨best, hbest, hbl⟩ := descend_ok g q hg g.num_layers 0 bestNode hbn (by omega)
  have hnl := hg.2.1
  obtain ⟨r1, r2, h1, h2, h3⟩ :=
    search_layer_superset g (g.num_layers - 1) best q ef1 ef2 hg (by omega) hbl hN
  exact ⟨r1, r2, by simp only [search, hl, hl0', hbest]; exact h1,
    by simp only [search, hl, hl0', hbest]; exact h2, h3⟩

end HNSW_graph

theorem vamana_search_superset {K : Type} (v : Vamana K) (s : Nat) (q : Vec) (ef1 ef2 : Nat)
    (hv : v.Valid) (hstart : v.startNode = some s) (hs : s < v.arena.length)
    (hN : v.arena.length ≤ ef2) :
    ∃ r1 r2, v.search q ef1 = .ok r1 ∧ v.search q ef2 = .ok r2 ∧ ∀ x ∈ r1, x ∈ r2 := by
  obtain ⟨r1, r2, h1, h2, h3⟩ := beamSearch_superset v.outgoing
    (fun n => defaultDistance (v.vecOf n) q) ef1 ef2
    (fun size => decide (size > Vamana.efMinusOne ef1))
    (fun size => decide (size > Vamana.efMinusOne ef2)) v.arena.length (v.arena.length + 1) s
    (fun c x hx => hv c x hx) hs hN (by omega)
  exact ⟨r1, r2, by simp only [Vamana.search, hstart, h1],
    by simp only [Vamana.search, hstart, h2], h3⟩

/-- C7, as amended. For every well-formed graph, start node and query, every
`ef1` and every `ef2` that is at least the number of nodes of the graph, the
searches with `ef1` and with `ef2` both return and every node returned with
`ef1` is returned with `ef2`; this holds for HNSW `search_layer`, for HNSW
`search` and for Vamana `search`, whose `defaultDistance` reads the query
inside its bounds when no stored vector is longer than the query. -/
theorem beam_superset_when_wide {K : Type} (g : HNSW_graph K) (v : Vamana K)
    (i s sv : Nat) (q : Vec) (ef1 ef2 : Nat)
    (hg : g.Valid) (hi : i < g.num_layers) (hs : s < g.nodes.length)
    (hN : g.nodes.length ≤ ef2)
    (hv : v.Valid) (hstart : v.startNode = some sv) (hsv : sv < v.arena.length)
    (hNv : v.arena.length ≤ ef2) (hq : v.QueryFits q) :
    (∃ r1 r2, g.search_layer i s q ef1 = .ok r1 ∧ g.search_layer i s q ef2 = .ok r2 ∧
      ∀ x ∈ r1, x ∈ r2) ∧
    (∃ r1 r2, g.search q ef1 = .ok r1 ∧ g.search q ef2 = .ok r2 ∧ ∀ x ∈ r1, x ∈ r2) ∧
    (∃ r1 r2, v.search q ef1 = .ok r1 ∧ v.search q ef2 = .ok r2 ∧ ∀ x ∈ r1, x ∈ r2) := by
  refine ⟨HNSW_graph.search_layer_superset g i s q ef1 ef2 hg hi hs hN, ?_,
    vamana_search_superset v sv q ef1 ef2 hv hstart hsv hNv⟩
  apply HNSW_graph.search_superset g q ef1 ef2 hg _ hN
  intro h0
  rw [h0] at hs
  simp at hs

/-- C7 as stated fails.  HNSW: the records with vectors `[0]`, `[1]`, `[22]`,
`[15]`, `[9]` are inserted in this order into a graph with one layer and
`efc = 1`; for the query `[1/3]`, `search` with `ef = 2` returns the nodes
`4, 3` and with `ef = 3` the nodes `0, 1, 4`: node `3` is lost.  Vamana: the
graph built over `[9]`, `[1]`, `[0]`, `[4]` with `R = 1`, `alpha = 1` and
shuffles that leave the order unchanged returns node `3` for `ef = 1` and the
nodes `2, 1` for `ef = 2`.  All distances to the query are distinct. -/
theorem beam_monotonicity_counterexample :
    (match HNSW_graph.insertAll
        [(0, [0]), (1, [1]), (2, [22]), (3, [15]), (4, ([9] : Vec))]
        (HNSW_graph.empty (9 / 10) 1 1 1 defaultDistance : HNSW_graph Nat) ⟨fun _ => 0, 0⟩ with
      | .ok (g, _) => ((g.search [1 / 3] 2).toOption, (g.search [1 / 3] 3).toOption)
      | .error _ => (none, none)) = (some [4, 3], some [0, 1, 4]) ∧
    (match Vamana.build [(0, [9]), (1, [1]), (2, [0]), (3, ([4] : Vec))] 1 1 1 1
        ⟨fun _ => 11, 0⟩ with
      | .ok (v, _) => ((v.search [1 / 3] 1).toOption, (v.search [1 / 3] 2).toOption)
      | .error _ => (none, none)) = (some [3], some [2, 1]) := by
  constructor <;> decide!

/-- C4 as stated fails.  Two records are inserted into a graph with two
layers, the second with insertion layer `1`: node `1` is linked at layer `1`
(to node `0`) but has no edge at layer `0` and is not listed in `layers[0]`. -/
theorem hnsw_downward_closure_counterexample :
    (match HNSW_graph.insertAll [("a", [0]), ("b", [1])]
        (HNSW_graph.empty (9 / 10) 1 2 1 defaultDistance) ⟨fun _ => 1, 0⟩ with
      | .ok (g, _) => some (g.adjacents 1 1, g.adjacents 0 1, g.layers)
      | .error _ => none) = some ([0], [], [[0], [0]]) := by
  decide!

/-- C5, the code at a failing input.  Vamana is built over the two records
`("a", [0])` and `("b", [1])` with `R = 1` and `alpha = 1`, the shuffles
leaving the order unchanged: afterwards the outgoing lists are `[1, 1, 1]` and
`[0, 0]`, of lengths `3` and `2`, both above `R = 1`. -/
theorem vamana_degree_exceeds_R :
    (match Vamana.build [("a", [0]), ("b", ([1] : Vec))] 1 1 1 1 ⟨fun _ => 1, 0⟩ with
      | .ok (v, _) => some (v.arena.map (fun n => n.outgoingAdjList))
      | .error _ => none) = some [[1, 1, 1], [0, 0]] := by
  decide!

/-! ## Vamana: what construction leaves untouched -/

namespace Vamana

variable {K : Type}

theorem SameCore.same (v : Vamana K) : SameCore v v := ⟨rfl, rfl, rfl, rfl, rfl, rfl⟩

theorem SameCore.chain {v1 v2 v3 : Vamana K} (h12 : SameCore v1 v2) (h23 : SameCore v2 v3) :
    SameCore v1 v3 := by
  obtain ⟨a1, a2, a3, a4, a5, a6⟩ := h12
  obtain ⟨b1, b2, b3, b4, b5, b6⟩ := h23
  exact ⟨b1.trans a1, b2.trans a2, b3.trans a3, b4.trans a4, b5.trans a5, b6.trans a6⟩

theorem map_value_set (arena : List (DirectedGraphNode K)) (node : Nat)
    (x y : DirectedGraphNode K) (hx : arena[node]? = some x) (hy : y.value = x.value) :
    (arena.set node y).map (fun n => n.value) = arena.map (fun n => n.value) := by
  obtain ⟨hlt, hget⟩ := List.getElem?_eq_some_iff.mp hx
  rw [List.map_set]
  apply List.ext_getElem?
  intro i
  rw [List.getElem?_set]
  split
  · rename_i hi
    subst hi
    simp [hlt, hy, ← hget]
  · rfl

theorem addOutgoingEdge_sameCore (v : Vamana K) (node other : Nat) :
    SameCore v (v.addOutgoingEdge node other) := by
  unfold addOutgoingEdge
  split
  · rename_i x hx
    exact ⟨rfl, map_value_set _ _ x _ hx rfl, rfl, rfl, rfl, rfl⟩
  · exact SameCore.same v

theorem addIncomingEdge_sameCore (v : Vamana K) (node other : Nat) :
    SameCore v (v.addIncomingEdge node other) := by
  unfold addIncomingEdge
  split
  · rename_i x hx
    exact ⟨rfl, map_value_set _ _ x _ hx rfl, rfl, rfl, rfl, rfl⟩
  · exact SameCore.same v

theorem setOutgoing_sameCore (v : Vamana K) (node : Nat) (out : List Nat) :
    SameCore v (v.setOutgoing node out) := by
  unfold setOutgoing
  split
  · rename_i x hx
    exact ⟨rfl, map_value_set _ _ x _ hx rfl, rfl, rfl, rfl, rfl⟩
  · exact SameCore.same v

theorem connectNodes_sameCore (v : Vamana K) (node1 node2 : Nat) :
    SameCore v (v.connectNodes node1 node2) :=
  (addOutgoingEdge_sameCore v node1 node2).chain (addIncomingEdge_sameCore _ node2 node1)

theorem robust_prune_sameCore (v : Vamana K) (node : Nat) (V : List Nat) :
    SameCore v (v.robust_prune node V) :=
  setOutgoing_sameCore v node _

theorem wireNode_sameCore (node : Nat) (l : List Nat) :
    ∀ (count : Int) (v : Vamana K), SameCore v (wireNode node l count v) := by
  induction l with
  | nil => intro count v; exact SameCore.same v
  | cons it rest ih =>
    intro count v
    simp only [wireNode]
    split
    · split
      · exact (connectNodes_sameCore v node it).chain (ih _ _)
      · exact ih _ _
    · exact SameCore.same v

theorem swapAt_length (l : List Nat) (i j : Nat) : (swapAt l i j).length = l.length := by
  simp [swapAt]

theorem shuffleLoop_length (k : Nat) :
    ∀ (l : List Nat) (g : Gen), (shuffleLoop k l g).1.length = l.length := by
  induction k with
  | zero => intro l g; rfl
  | succ k ih =>
    intro l g
    simp only [shuffleLoop]
    rw [ih, swapAt_length]

theorem shuffle_length (l : List Nat) (g : Gen) : (shuffle l g).1.length = l.length :=
  shuffleLoop_length _ l g

theorem wireLoop_sameCore (k : Nat) :
    ∀ (i : Nat) (v : Vamana K) (g : Gen), SameCore v (wireLoop k i v g).1 := by
  induction k with
  | zero => intro i v g; exact SameCore.same v
  | succ k ih =>
    intro i v g
    simp only [wireLoop]
    have h1 : SameCore v { v with nodes := (shuffle v.nodes g).1 } :=
      ⟨rfl, rfl, rfl, rfl, rfl, shuffle_length v.nodes g⟩
    exact (h1.chain (wireNode_sameCore _ _ _ _)).chain (ih _ _ _)

theorem refineInbound_sameCore (node : Nat) (l : List Nat) :
    ∀ (v : Vamana K), SameCore v (refineInbound node l v) := by
  induction l with
  | nil => intro v; exact SameCore.same v
  | cons inbound rest ih =>
    intro v
    simp only [refineInbound]
    split
    · exact (robust_prune_sameCore v _ _).chain (ih _)
    · exact (addIncomingEdge_sameCore v _ _).chain (ih _)

/-- The refinement pass returns only if every search it starts has a start
node to read. -/
theorem refineLoop_sameCore (l : List Nat) :
    ∀ (v v' : Vamana K), refineLoop l v = .ok v' →
      SameCore v v' ∧ (l ≠ [] → v.startNode ≠ none) := by
  induction l with
  | nil =>
    intro v v' h
    cases h
    exact ⟨SameCore.same v, fun h => absurd rfl h⟩
  | cons node rest ih =>
    intro v v' h
    simp only [refineLoop] at h
    split at h
    · cases h
    · rename_i V hV
      obtain ⟨h1, _⟩ := ih _ _ h
      refine ⟨((robust_prune_sameCore v node V).chain
        (refineInbound_sameCore node _ _)).chain h1, ?_⟩
      intro _ hnone
      simp only [search, hnone] at hV
      cases hV

/-- The second loop of `find_start_node` returns a node of the list that is
below the initial bound and that no node of the list beats, or it returns what
it was given when no node is below the bound. -/
theorem closestLoop_spec (dist : Nat → Flt) (l : List Nat) :
    ∀ (m : Flt) (c : Option Nat),
      (closestLoop dist l m c = c ∧ ∀ n ∈ l, ¬ dist n < m) ∨
      (∃ s, closestLoop dist l m c = some s ∧ s ∈ l ∧ dist s < m ∧
        ∀ n ∈ l, ¬ dist n < dist s) := by
  induction l with
  | nil => intro m c; exact Or.inl ⟨rfl, fun n hn => absurd hn (List.not_mem_nil _)⟩
  | cons node rest ih =>
    intro m c
    simp only [closestLoop]
    split
    · rename_i hlt
      right
      rcases ih (dist node) (some node) with ⟨h1, h2⟩ | ⟨s, h1, h2, h3, h4⟩
      · refine ⟨node, h1, List.mem_cons_self _ _, hlt, ?_⟩
        intro n hn
        rcases List.mem_cons.mp hn with rfl | hn
        · exact lt_irrefl _
        · exact h2 n hn
      · refine ⟨s, h1, List.mem_cons_of_mem _ h2, lt_trans h3 hlt, ?_⟩
        intro n hn
        rcases List.mem_cons.mp hn with rfl | hn
        · exact not_lt.mpr (le_of_lt h3)
        · exact h4 n hn
    · rename_i hnlt
      rcases ih m c with ⟨h1, h2⟩ | ⟨s, h1, h2, h3, h4⟩
      · left
        refine ⟨h1, ?_⟩
        intro n hn
        rcases List.mem_cons.mp hn with rfl | hn
        · exact hnlt
        · exact h2 n hn
      · right
        refine ⟨s, h1, List.mem_cons_of_mem _ h2, h3, ?_⟩
        intro n hn
        rcases List.mem_cons.mp hn with rfl | hn
        · exact not_lt.mpr (le_trans (le_of_lt h3) (not_lt.mp hnlt))
        · exact h4 n hn

end Vamana

/-! ## Vamana: the start node -/

namespace Vamana

variable {K : Type}

theorem foldl_addNode (S : List (Record K)) :
    ∀ v0 : Vamana K,
      (S.foldl addNode v0).arena = v0.arena ++ S.map (fun r => ⟨r, [], []⟩) ∧
      (S.foldl addNode v0).nodes = v0.nodes ++ List.range' v0.arena.length S.length ∧
      (S.foldl addNode v0).startNode = v0.startNode ∧
      (S.foldl addNode v0).vector_len = v0.vector_len := by
  induction S with
  | nil => intro v0; simp
  | cons r rest ih =>
    intro v0
    obtain ⟨h1, h2, h3, h4⟩ := ih (v0.addNode r)
    simp only [List.foldl_cons]
    refine ⟨?_, ?_, ?_, ?_⟩
    · rw [h1]; simp [addNode]
    · rw [h2]; simp [addNode, List.range'_succ]
    · rw [h3]; rfl
    · rw [h4]; rfl

theorem build_nodes (S : List (Record K)) (alpha : Flt) (vector_len R nq : Int) :
    (S.foldl addNode (empty alpha vector_len R nq)).arena = S.map (fun r => ⟨r, [], []⟩) ∧
    (S.foldl addNode (empty alpha vector_len R nq)).nodes = List.range S.length ∧
    (S.foldl addNode (empty alpha vector_len R nq)).startNode = none ∧
    (S.foldl addNode (empty alpha vector_len R nq)).vector_len = vector_len := by
  obtain ⟨h1, h2, h3, h4⟩ := foldl_addNode S (empty alpha vector_len R nq)
  refine ⟨by rw [h1]; simp [empty], ?_, by rw [h3]; rfl, by rw [h4]; rfl⟩
  rw [h2, List.range_eq_range']
  simp [empty]

end Vamana

/-! ## Vamana: construction returns -/

theorem setUnionAux_mem (fuel : Nat) :
    ∀ (l1 l2 : List Nat) (x : Nat), x ∈ setUnionAux fuel l1 l2 → x ∈ l1 ∨ x ∈ l2 := by
  induction fuel with
  | zero =>
    intro l1 l2 x h
    simpa [setUnionAux] using h
  | succ fuel ih =>
    intro l1 l2 x h
    cases l1 with
    | nil => simp only [setUnionAux] at h; exact Or.inr h
    | cons a as =>
      cases l2 with
      | nil => simp only [setUnionAux] at h; exact Or.inl h
      | cons b bs =>
        simp only [setUnionAux] at h
        split at h
        · rcases List.mem_cons.mp h with rfl | h
          · simp
          · rcases ih _ _ _ h with h | h
            · exact Or.inl (List.mem_cons_of_mem _ h)
            · exact Or.inr h
        · split at h
          · rcases List.mem_cons.mp h with rfl | h
            · simp
            · rcases ih _ _ _ h with h | h
              · exact Or.inl h
              · exact Or.inr (List.mem_cons_of_mem _ h)
          · rcases List.mem_cons.mp h with rfl | h
            · simp
            · rcases ih _ _ _ h with h | h
              · exact Or.inl (List.mem_cons_of_mem _ h)
              · exact Or.inr (List.mem_cons_of_mem _ h)

theorem setInsert_mem (key : Nat → Flt) (a : Nat) :
    ∀ (heap : List Nat) (x : Nat), x ∈ setInsert key a heap → x = a ∨ x ∈ heap := by
  intro heap
  induction heap with
  | nil => intro x h; simpa [setInsert] using h
  | cons y ys ih =>
    intro x h
    simp only [setInsert] at h
    split at h
    · rcases List.mem_cons.mp h with rfl | h
      · simp
      · rcases ih _ h with h | h
        · exact Or.inl h
        · exact Or.inr (List.mem_cons_of_mem _ h)
    · split at h
      · rcases List.mem_cons.mp h with rfl | h
        · simp
        · exact Or.inr h
      · exact Or.inr h

theorem foldl_setInsert_mem (key : Nat → Flt) (l : List Nat) :
    ∀ (heap : List Nat) (x : Nat),
      x ∈ l.foldl (fun heap n => setInsert key n heap) heap → x ∈ l ∨ x ∈ heap := by
  induction l with
  | nil => intro heap x h; exact Or.inr h
  | cons a as ih =>
    intro heap x h
    simp only [List.foldl_cons] at h
    rcases ih _ _ h with h | h
    · exact Or.inl (List.mem_cons_of_mem _ h)
    · rcases setInsert_mem key a heap x h with rfl | h
      · simp
      · exact Or.inr h

theorem swapAt_bounded (l : List Nat) (i j N : Nat) (hN : 0 < N) (h : ∀ x ∈ l, x < N) :
    ∀ x ∈ swapAt l i j, x < N := by
  have hget : ∀ k, l.getD k 0 < N := by
    intro k
    rw [List.getD_eq_getElem?_getD]
    cases hk : l[k]? with
    | none => simpa using hN
    | some y => simpa using h y (List.getElem?_mem hk)
  intro x hx
  unfold swapAt at hx
  rcases List.mem_or_eq_of_mem_set hx with hx | rfl
  · rcases List.mem_or_eq_of_mem_set hx with hx | rfl
    · exact h x hx
    · exact hget j
  · exact hget i

theorem shuffleLoop_bounded (N : Nat) (hN : 0 < N) (k : Nat) :
    ∀ (l : List Nat) (g : Gen), (∀ x ∈ l, x < N) → ∀ x ∈ (shuffleLoop k l g).1, x < N := by
  induction k with
  | zero => intro l g h; exact h
  | succ k ih =>
    intro l g h
    simp only [shuffleLoop]
    exact ih _ _ (swapAt_bounded l _ _ N hN h)

theorem shuffle_bounded (N : Nat) (hN : 0 < N) (l : List Nat) (g : Gen)
    (h : ∀ x ∈ l, x < N) : ∀ x ∈ (shuffle l g).1, x < N :=
  shuffleLoop_bounded N hN _ l g h

namespace Vamana

variable {K : Type}

theorem pruneDominated_mem (alpha : Flt) (key : Nat → Flt) (topNode : Nat) (l : List Nat) :
    ∀ (minHeap : List Nat) (x : Nat),
      x ∈ pruneDominated alpha key topNode l minHeap → x ∈ minHeap := by
  induction l with
  | nil => intro minHeap x h; exact h
  | cons e rest ih =>
    intro minHeap x h
    simp only [pruneDominated] at h
    split at h
    · exact List.mem_of_mem_filter (ih _ _ h)
    · exact ih _ _ h

theorem pruneLoop_mem (alpha : Flt) (R : Int) (key : Nat → Flt) (fuel : Nat) :
    ∀ (heap out : List Nat) (x : Nat),
      x ∈ pruneLoop alpha R key fuel heap out → x ∈ heap ∨ x ∈ out := by
  induction fuel with
  | zero => intro heap out x h; simp only [pruneLoop] at h; exact Or.inr h
  | succ fuel ih =>
    intro heap out x h
    cases heap with
    | nil => simp only [pruneLoop] at h; exact Or.inr h
    | cons t rest =>
      simp only [pruneLoop] at h
      split at h
      · rcases List.mem_append.mp h with h | h
        · exact Or.inr h
        · simp only [List.mem_singleton] at h; subst h; simp
      · rcases ih _ _ _ h with h | h
        · exact Or.inl (List.mem_cons_of_mem _ (pruneDominated_mem _ _ _ _ _ _ h))
        · rcases List.mem_append.mp h with h | h
          · exact Or.inr h
          · simp only [List.mem_singleton] at h; subst h; simp

theorem outgoing_bounded (v : Vamana K) (N : Nat) (hb : v.Bounded N) (n x : Nat)
    (hx : x ∈ v.outgoing n) : x < N := by
  unfold outgoing at hx
  split at hx
  · rename_i d hd
    exact (hb.2.1 d (List.getElem?_mem hd)).1 x hx
  · simp at hx

theorem incoming_bounded (v : Vamana K) (N : Nat) (hb : v.Bounded N) (n x : Nat)
    (hx : x ∈ v.incoming n) : x < N := by
  unfold incoming at hx
  split at hx
  · rename_i d hd
    exact (hb.2.1 d (List.getElem?_mem hd)).2 x hx
  · simp at hx

theorem set_bounded (v : Vamana K) (N node : Nat) (d' : DirectedGraphNode K)
    (hb : v.Bounded N)
    (ho : ∀ x ∈ d'.outgoingAdjList, x < N) (hi : ∀ x ∈ d'.incomingAdjList, x < N) :
    Bounded { v with arena := v.arena.set node d' } N := by
  refine ⟨by simp only [List.length_set]; exact hb.1, ?_, hb.2.2⟩
  intro e he
  rcases List.mem_or_eq_of_mem_set he with he | rfl
  · exact hb.2.1 e he
  · exact ⟨ho, hi⟩

theorem addOutgoingEdge_bounded (v : Vamana K) (N node other : Nat) (hb : v.Bounded N)
    (ho : other < N) : (v.addOutgoingEdge node other).Bounded N := by
  unfold addOutgoingEdge
  split
  · rename_i d hd
    have hd' := hb.2.1 d (List.getElem?_mem hd)
    refine set_bounded v N node _ hb ?_ hd'.2
    intro x hx
    rcases List.mem_append.mp hx with hx | hx
    · exact hd'.1 x hx
    · simp only [List.mem_singleton] at hx; subst hx; exact ho
  · exact hb

theorem addIncomingEdge_bounded (v : Vamana K) (N node other : Nat) (hb : v.Bounded N)
    (ho : other < N) : (v.addIncomingEdge node other).Bounded N := by
  unfold addIncomingEdge
  split
  · rename_i d hd
    have hd' := hb.2.1 d (List.getElem?_mem hd)
    refine set_bounded v N node _ hb hd'.1 ?_
    intro x hx
    rcases List.mem_append.mp hx with hx | hx
    · exact hd'.2 x hx
    · simp only [List.mem_singleton] at hx; subst hx; exact ho
  · exact hb

theorem setOutgoing_bounded (v : Vamana K) (N node : Nat) (out : List Nat) (hb : v.Bounded N)
    (ho : ∀ x ∈ out, x < N) : (v.setOutgoing node out).Bounded N := by
  unfold setOutgoing
  split
  · rename_i d hd
    have hd' := hb.2.1 d (List.getElem?_mem hd)
    exact set_bounded v N node _ hb ho hd'.2
  · exact hb

theorem connectNodes_bounded (v : Vamana K) (N node1 node2 : Nat) (hb : v.Bounded N)
    (h1 : node1 < N) (h2 : node2 < N) : (v.connectNodes node1 node2).Bounded N :=
  addIncomingEdge_bounded _ N node2 node1 (addOutgoingEdge_bounded v N node1 node2 hb h2) h1

theorem robust_prune_bounded (v : Vamana K) (N node : Nat) (V : List Nat) (hb : v.Bounded N)
    (hV : ∀ x ∈ V, x < N) : (v.robust_prune node V).Bounded N := by
  unfold robust_prune
  apply setOutgoing_bounded v N node _ hb
  intro x hx
  rcases pruneLoop_mem _ _ _ _ _ _ _ hx with hx | hx
  · rcases foldl_setInsert_mem _ _ _ _ hx with hx | hx
    · have hx := List.mem_of_mem_filter hx
      rcases setUnionAux_mem _ _ _ _ hx with hx | hx
      · exact hV x hx
      · exact outgoing_bounded v N hb node x hx
    · simp at hx
  · exact outgoing_bounded v N hb node x (List.mem_of_mem_filter hx)

end Vamana

namespace Vamana

variable {K : Type}

theorem wireNode_bounded (N node : Nat) (hnode : node < N) (l : List Nat) :
    ∀ (count : Int) (v : Vamana K), v.Bounded N → (∀ x ∈ l, x < N) →
      (wireNode node l count v).Bounded N := by
  induction l with
  | nil => intro count v hb _; exact hb
  | cons it rest ih =>
    intro count v hb hl
    have hit : it < N := hl it (List.mem_cons_self _ _)
    have hrest : ∀ x ∈ rest, x < N := fun x hx => hl x (List.mem_cons_of_mem _ hx)
    simp only [wireNode]
    split
    · split
      · exact ih _ _ (connectNodes_bounded v N node it hb hnode hit) hrest
      · exact ih _ _ hb hrest
    · exact hb

theorem wireLoop_bounded (N : Nat) (hN : 0 < N) (k : Nat) :
    ∀ (i : Nat) (v : Vamana K) (g : Gen), v.Bounded N → (wireLoop k i v g).1.Bounded N := by
  induction k with
  | zero => intro i v g hb; exact hb
  | succ k ih =>
    intro i v g hb
    simp only [wireLoop]
    have hsh := shuffle_bounded N hN v.nodes g hb.2.2
    have hnode : (shuffle v.nodes g).1.getD i 0 < N := by
      rw [List.getD_eq_getElem?_getD]
      cases hk : (shuffle v.nodes g).1[i]? with
      | none => simpa using hN
      | some y => simpa using hsh y (List.getElem?_mem hk)
    exact ih _ _ _ (wireNode_bounded N _ hnode _ _ _ ⟨hb.1, hb.2.1, hsh⟩ hsh)

theorem refineInbound_bounded (N node : Nat) (hnode : node < N) (l : List Nat) :
    ∀ (v : Vamana K), v.Bounded N → (refineInbound node l v).Bounded N := by
  induction l with
  | nil => intro v hb; exact hb
  | cons inbound rest ih =>
    intro v hb
    simp only [refineInbound]
    split
    · apply ih
      apply robust_prune_bounded v N inbound _ hb
      intro x hx
      rcases List.mem_append.mp hx with hx | hx
      · exact incoming_bounded v N hb inbound x hx
      · simp only [List.mem_singleton] at hx; subst hx; exact hnode
    · exact ih _ (addIncomingEdge_bounded v N inbound node hb hnode)

/-- The search of a graph whose edges stay inside the arena returns when the
start node is set, and returns nodes of the arena. -/
theorem search_ok (v : Vamana K) (N s : Nat) (q : Vec) (ef : Nat) (hb : v.Bounded N)
    (hs : v.startNode = some s) (hsN : s < N) :
    ∃ r, v.search q ef = .ok r ∧ ∀ x ∈ r, x < N := by
  obtain ⟨r, hr⟩ := beamSearch_terminates v.outgoing
    (fun n => defaultDistance (v.vecOf n) q) ef
    (fun size => decide (size > efMinusOne ef)) N (v.arena.length + 1) s
    (fun c x hx => outgoing_bounded v N hb c x hx) hsN (by rw [hb.1]; omega)
  refine ⟨r, by simp only [search, hs, hr], ?_⟩
  exact beamSearch_all v.outgoing _ ef _ _ s (fun x => x < N)
    (fun c _ x hx => outgoing_bounded v N hb c x hx) hsN r hr

/-- The refinement pass over nodes of the arena returns when the start node is
set. -/
theorem refineLoop_ok (N s : Nat) (hsN : s < N) (l : List Nat) :
    ∀ (v : Vamana K), v.Bounded N → v.startNode = some s → (∀ x ∈ l, x < N) →
      ∃ v', refineLoop l v = .ok v' := by
  induction l with
  | nil => intro v _ _ _; exact ⟨v, rfl⟩
  | cons node rest ih =>
    intro v hb hs hl
    have hnode : node < N := hl node (List.mem_cons_self _ _)
    obtain ⟨V, hV, hVb⟩ := search_ok v N s (v.vecOf node) 1 hb hs hsN
    simp only [refineLoop, hV]
    have hb1 := robust_prune_bounded v N node V hb hVb
    have hb2 := refineInbound_bounded N node hnode ((v.robust_prune node V).incoming node) _ hb1
    have hc := (robust_prune_sameCore v node V).chain
      (refineInbound_sameCore node ((v.robust_prune node V).incoming node) _)
    exact ih _ hb2 (by rw [hc.1]; exact hs) (fun x hx => hl x (List.mem_cons_of_mem _ hx))

/-- The nodes added to an empty object have empty adjacency lists. -/
theorem foldl_addNode_bounded (S : List (Record K)) (alpha : Flt) (vector_len R nq : Int) :
    (S.foldl addNode (empty alpha vector_len R nq)).Bounded S.length := by
  obtain ⟨harena, hnodes, _, _⟩ := build_nodes S alpha vector_len R nq
  refine ⟨by rw [harena]; simp, ?_, ?_⟩
  · intro d hd
    rw [harena] at hd
    obtain ⟨r, _, rfl⟩ := List.mem_map.mp hd
    simp
  · intro x hx
    rw [hnodes] at hx
    exact List.mem_range.mp hx

end Vamana

/-! ## Annoy forest: the query -/

theorem castInt_of_lt (n : Nat) (h : n < 2 ^ 31) : castInt n = n := by
  unfold castInt
  have h1 : (n + 2 ^ 31) % 2 ^ 32 = n + 2 ^ 31 := Nat.mod_eq_of_lt (by omega)
  rw [h1]
  push_cast
  ring

theorem TreeNode.size_pos {K : Type} (t : TreeNode K) : 0 < t.size := by
  cases t <;> simp [TreeNode.size]

/-- The loop of `findContainingList` ends within the iterations it is given:
it never stops for lack of them. -/
theorem findLoop_fuel {K : Type} (vec : Vec) (threshold : WithTop Flt) :
    ∀ (fuel : Nat) (queue : List (TreeNode K)) (results : List (Record K)),
      (queue.map TreeNode.size).sum ≤ fuel →
        findLoop vec threshold fuel queue results ≠ .error .no_fuel := by
  intro fuel
  induction fuel with
  | zero =>
    intro queue results h
    cases queue with
    | nil => simp [findLoop]
    | cons t rest =>
      have := TreeNode.size_pos t
      simp only [List.map_cons, List.sum_cons] at h
      omega
  | succ fuel ih =>
    intro queue results h
    cases queue with
    | nil => simp [findLoop]
    | cons t rest =>
      simp only [List.map_cons, List.sum_cons] at h
      cases t with
      | null => simp [findLoop]
      | node vec1 vec2 pairList left right =>
        have hl := TreeNode.size_pos left
        have hr := TreeNode.size_pos right
        simp only [TreeNode.size] at h
        by_cases hleaf : left = .null ∧ right = .null
        · obtain ⟨rfl, rfl⟩ := hleaf
          simp only [findLoop]
          exact ih _ _ (by omega)
        · have hstep : findLoop vec threshold (fuel + 1)
              (.node vec1 vec2 pairList left right :: rest) results
              = if ((|calculateSquaredDistance vec vec1 - calculateSquaredDistance vec vec2| : Flt) :
                    WithTop Flt) < threshold then
                  findLoop vec threshold fuel (rest ++ [left, right]) results
                else if calculateSquaredDistance vec vec1 < calculateSquaredDistance vec vec2 then
                  findLoop vec threshold fuel (rest ++ [left]) results
                else findLoop vec threshold fuel (rest ++ [right]) results := by
            cases left with
            | null =>
              cases right with
              | null => exact absurd ⟨rfl, rfl⟩ hleaf
              | node _ _ _ _ _ => simp only [findLoop]
            | node _ _ _ _ _ => simp only [findLoop]
          rw [hstep]
          split
          · apply ih
            simp only [List.map_append, List.sum_append, List.map_cons, List.sum_cons,
              List.map_nil, List.sum_nil]
            omega
          · split
            · apply ih
              simp only [List.map_append, List.sum_append, List.map_cons, List.sum_cons,
                List.map_nil, List.sum_nil]
              omega
            · apply ih
              simp only [List.map_append, List.sum_append, List.map_cons, List.sum_cons,
                List.map_nil, List.sum_nil]
              omega

/-- The function `findContainingList` never stops for lack of iterations. -/
theorem findContainingList_fuel {K : Type} (t : AnnoyTree K) (vec : Vec) :
    t.findContainingList vec ≠ .error .no_fuel :=
  findLoop_fuel vec t.threshold _ _ _ (by simp)

namespace AnnoyTreeForest

variable {K : Type}

/-- The vector `tempResults` is the concatenation of the candidate lists of the
trees, each candidate with its squared distance to the query. -/
theorem collect_eq (q : Vec) (trees : List (AnnoyTree K)) (lists : List (List (Record K)))
    (hl : List.Forall₂ (fun t l => t.findContainingList q = .ok l) trees lists) :
    collect q trees
      = .ok (lists.flatten.map (fun item => (item.1, calculateSquaredDistance q item.2, item.2))) := by
  induction hl with
  | nil => rfl
  | cons h _ ih =>
    simp only [collect, treeTask, h, ih, List.flatten_cons, List.map_append]

end AnnoyTreeForest

/-- C11. Forest query: when every tree of the forest returns its candidate
list for `q`, the pivots of every node with a child and the vectors of all
candidates holding at least as many coordinates as `q` (which keeps every read
of `calculateSquaredDistance` inside its vector), `query(q, k)` with `k ≥ 0`
returns exactly `min(k, m)` tuples, `m` being the total number of candidates
(duplicates across trees counted, and `m < 2^31`); the tuples are in
non-decreasing order of squared distance, each carries the squared distance
between `q` and its own vector, and together with the candidates left out they
are the candidates, none of those left out being strictly closer to `q` than a
returned one. -/
theorem annoy_forest_query_topk {K : Type} (f : AnnoyTreeForest K) (q : Vec) (k : Int)
    (lists : List (List (Record K))) (hk : 0 ≤ k)
    (hl : List.Forall₂ (fun t l => t.findContainingList q = .ok l) f.trees lists)
    (hm : lists.flatten.length < 2 ^ 31)
    (hpiv : ∀ t ∈ f.trees, t.root.PivotsCover q.length)
    (hitems : ∀ l ∈ lists, ∀ item ∈ l, q.length ≤ item.2.length) :
    ∃ r rest, f.query q k = .ok r ∧ r.length = min k.toNat lists.flatten.length ∧
      List.Sorted (fun a b => a.2.1 ≤ b.2.1) r ∧
      (∀ x ∈ r, x.2.1 = calculateSquaredDistance q x.2.2) ∧
      List.Perm (r ++ rest)
        (lists.flatten.map (fun item => (item.1, calculateSquaredDistance q item.2, item.2))) ∧
      ∀ x ∈ r, ∀ y ∈ rest, x.2.1 ≤ y.2.1 := by
  haveI : IsTotal (K × Flt × Vec) (fun a b => a.2.1 ≤ b.2.1) :=
    ⟨fun a b => le_total a.2.1 b.2.1⟩
  haveI : IsTrans (K × Flt × Vec) (fun a b => a.2.1 ≤ b.2.1) :=
    ⟨fun a b c hab hbc => le_trans hab hbc⟩
  have hc := AnnoyTreeForest.collect_eq q f.trees lists hl
  have hlen : (lists.flatten.map
      (fun item => (item.1, calculateSquaredDistance q item.2, item.2))).length
        = lists.flatten.length := List.length_map _ _
  have hsorted := List.sorted_insertionSort (fun a b : K × Flt × Vec => a.2.1 ≤ b.2.1)
    (lists.flatten.map (fun item => (item.1, calculateSquaredDistance q item.2, item.2)))
  have hperm := List.perm_insertionSort (fun a b : K × Flt × Vec => a.2.1 ≤ b.2.1)
    (lists.flatten.map (fun item => (item.1, calculateSquaredDistance q item.2, item.2)))
  have hn : (min k (castInt (lists.flatten.map
      (fun item => (item.1, calculateSquaredDistance q item.2, item.2))).length)).toNat
        = min k.toNat lists.flatten.length := by
    rw [hlen, castInt_of_lt _ hm]
    omega
  refine ⟨(List.insertionSort (fun a b : K × Flt × Vec => a.2.1 ≤ b.2.1)
      (lists.flatten.map (fun item => (item.1, calculateSquaredDistance q item.2, item.2)))).take
        (min k.toNat lists.flatten.length),
    (List.insertionSort (fun a b : K × Flt × Vec => a.2.1 ≤ b.2.1)
      (lists.flatten.map (fun item => (item.1, calculateSquaredDistance q item.2, item.2)))).drop
        (min k.toNat lists.flatten.length), ?_, ?_, ?_, ?_, ?_, ?_⟩
  · simp only [AnnoyTreeForest.query, hc]
    rw [if_neg (by omega), hn]
  · rw [List.length_take, List.Perm.length_eq hperm, hlen]
    omega
  · exact hsorted.sublist (List.take_sublist _ _)
  · intro x hx
    have hx1 := hperm.subset (List.mem_of_mem_take hx)
    obtain ⟨item, _, rfl⟩ := List.mem_map.mp hx1
    rfl
  · rw [List.take_append_drop]
    exact hperm
  · have hs := hsorted
    rw [← List.take_append_drop (min k.toNat lists.flatten.length)
      (List.insertionSort (fun a b : K × Flt × Vec => a.2.1 ≤ b.2.1)
        (lists.flatten.map (fun item => (item.1, calculateSquaredDistance q item.2, item.2))))]
      at hs
    exact (List.pairwise_append.mp hs).2.2

/-- C12, the code at a failing input.  A tree is built over the two records
`("a", [0])` and `("b", [0])` with `threshold = +infinity`, bucket threshold
`1` and `max_depth = 0`, the random split sending both records to the left:
the root has a left child and a null right child.  `findContainingList`
pushes both child pointers and dereferences the null one, and so does the
query of the one-tree forest. -/
theorem annoy_infinite_threshold_null_child :
    (AnnoyTree.build [("a", ([0] : Vec)), ("b", [0])] ⊤ 1 0 ⟨fun _ => 0, 0⟩).1.root
        = .node [0] [0] [] (TreeNode.leaf [("a", [0]), ("b", [0])]) .null ∧
      (AnnoyTree.build [("a", ([0] : Vec)), ("b", [0])] ⊤ 1 0
        ⟨fun _ => 0, 0⟩).1.findContainingList [0] = .error .undefined ∧
      (match AnnoyTreeForest.build [("a", ([0] : Vec)), ("b", [0])] 1 ⊤ 1 0 1 true
          ⟨fun _ => 0, 0⟩ with
        | .ok (f, _) => faultOf (f.searchClosest [0] 2)
        | .error e => some e) = some .undefined := by
  refine ⟨?_, ?_, ?_⟩ <;> decide!

/-- C13, the code at a failing input.  A tree is built over `("a", [0])` and
`("b", [10])` with bucket threshold `1`, the pivots drawn being `[0]` and
`[10]`: `"a"` goes left and `"b"` right, but the root keeps the default
`vec1 = vec2 = [0]`.  For the query `[1]`, nearer the first pivot by `80`, the
tree with `threshold = 0` returns the right child alone and the tree with
`threshold = 1/2` returns both children. -/
theorem annoy_pivots_not_stored :
    (selectRandomVectors [("a", ([0] : Vec)), ("b", [10])] ⟨fun i => i, 0⟩).1 = ([0], [10]) ∧
      (AnnoyTree.build [("a", ([0] : Vec)), ("b", [10])] 0 1 5 ⟨fun i => i, 0⟩).1.root
        = .node [0] [0] [] (TreeNode.leaf [("a", [0])]) (TreeNode.leaf [("b", [10])]) ∧
      (AnnoyTree.build [("a", ([0] : Vec)), ("b", [10])] 0 1 5
        ⟨fun i => i, 0⟩).1.findContainingList [1] = .ok [("b", [10])] ∧
      (AnnoyTree.build [("a", ([0] : Vec)), ("b", [10])] ((1 / 2 : Flt) : WithTop Flt) 1 5
        ⟨fun i => i, 0⟩).1.findContainingList [1] = .ok [("a", [0]), ("b", [10])] := by
  refine ⟨?_, ?_, ?_, ?_⟩ <;> decide!

/-! ## Inverted file index: distances and the nearest centroid -/

theorem euclideanDistanceSq_nonneg (vector_len : Int) (a b : Vec) :
    0 ≤ euclideanDistanceSq vector_len a b := by
  unfold euclideanDistanceSq
  apply List.sum_nonneg
  intro x hx
  obtain ⟨i, _, rfl⟩ := List.mem_map.mp hx
  exact mul_self_nonneg _

theorem euclideanDistanceSq_bound (vector_len : Int) (B : Flt) (a b : Vec)
    (ha : VecBounded vector_len B a) (hb : VecBounded vector_len B b) :
    euclideanDistanceSq vector_len a b ≤ (vector_len.toNat : Flt) * ((2 * B) * (2 * B)) := by
  unfold euclideanDistanceSq
  have h := List.sum_le_card_nsmul ((List.range vector_len.toNat).map
    (fun i => (a.getD i 0 - b.getD i 0) * (a.getD i 0 - b.getD i 0))) ((2 * B) * (2 * B))
    (by
      intro x hx
      obtain ⟨i, hi, rfl⟩ := List.mem_map.mp hx
      have hi' := List.mem_range.mp hi
      have h1 := abs_le.mp (ha i hi')
      have h2 := abs_le.mp (hb i hi')
      have h3 : |a.getD i 0 - b.getD i 0| ≤ 2 * B := by
        rw [abs_le]; constructor <;> linarith [h1.1, h1.2, h2.1, h2.2]
      have h4 := mul_self_le_mul_self (abs_nonneg _) h3
      rwa [abs_mul_abs_self] at h4)
  simpa [nsmul_eq_mul] using h

/-- The loop of `findNearestCentroid` returns an index of the list that is
below the initial bound and that no index of the list beats, or it returns
what it was given when no index is below the bound. -/
theorem nearestLoop_spec (dist : Nat → Flt) (l : List Nat) :
    ∀ (m : Flt) (c : Int),
      (nearestLoop dist l m c = c ∧ ∀ n ∈ l, ¬ dist n < m) ∨
      (∃ s : Nat, nearestLoop dist l m c = (s : Int) ∧ s ∈ l ∧ dist s < m ∧
        ∀ n ∈ l, ¬ dist n < dist s) := by
  induction l with
  | nil => intro m c; exact Or.inl ⟨rfl, fun n hn => absurd hn (List.not_mem_nil _)⟩
  | cons node rest ih =>
    intro m c
    simp only [nearestLoop]
    split
    · rename_i hlt
      right
      rcases ih (dist node) (node : Int) with ⟨h1, h2⟩ | ⟨s, h1, h2, h3, h4⟩
      · refine ⟨node, h1, List.mem_cons_self _ _, hlt, ?_⟩
        intro n hn
        rcases List.mem_cons.mp hn with rfl | hn
        · exact lt_irrefl _
        · exact h2 n hn
      · refine ⟨s, h1, List.mem_cons_of_mem _ h2, lt_trans h3 hlt, ?_⟩
        intro n hn
        rcases List.mem_cons.mp hn with rfl | hn
        · exact not_lt.mpr (le_of_lt h3)
        · exact h4 n hn
    · rename_i hnlt
      rcases ih m c with ⟨h1, h2⟩ | ⟨s, h1, h2, h3, h4⟩
      · left
        refine ⟨h1, ?_⟩
        intro n hn
        rcases List.mem_cons.mp hn with rfl | hn
        · exact hnlt
        · exact h2 n hn
      · right
        refine ⟨s, h1, List.mem_cons_of_mem _ h2, h3, ?_⟩
        intro n hn
        rcases List.mem_cons.mp hn with rfl | hn
        · exact not_lt.mpr (le_trans (le_of_lt h3) (not_lt.mp hnlt))
        · exact h4 n hn

theorem FLT_MAX_lt_sq : FLT_MAX < FLT_MAX * FLT_MAX := by
  unfold FLT_MAX
  norm_num

/-- A sum within `FLT_MAX` is the square of the `float` returned for it. -/
theorem rootSq_of_le (sum : Flt) (h : sum ≤ FLT_MAX) : rootSq sum = sum := by
  unfold rootSq
  rw [if_pos h]

/-- When there is a centroid and every sum is within `FLT_MAX`,
`findNearestCentroid` returns the index of a centroid at the least distance. -/
theorem nearestCentroid_spec (vector_len : Int) (k : Nat) (c : List Vec) (x : Vec)
    (hk : 0 < k)
    (h : ∀ i, i < k → euclideanDistanceSq vector_len x (c.getD i []) ≤ FLT_MAX) :
    ∃ j : Nat, j < k ∧ nearestCentroid vector_len k c x = (j : Int) ∧
      ∀ i, i < k → euclideanDistanceSq vector_len x (c.getD j [])
        ≤ euclideanDistanceSq vector_len x (c.getD i []) := by
  rcases nearestLoop_spec (fun i => rootSq (euclideanDistanceSq vector_len x (c.getD i [])))
      (List.range k) (FLT_MAX * FLT_MAX) (-1) with ⟨_, h2⟩ | ⟨s, h1, h2, _, h4⟩
  · have h0 := h2 0 (List.mem_range.mpr hk)
    simp only [rootSq_of_le _ (h 0 hk)] at h0
    exact absurd (lt_of_le_of_lt (h 0 hk) FLT_MAX_lt_sq) h0
  · refine ⟨s, List.mem_range.mp h2, h1, ?_⟩
    intro i hi
    have := not_lt.mp (h4 i (List.mem_range.mpr hi))
    simp only [rootSq_of_le _ (h i hi), rootSq_of_le _ (h s (List.mem_range.mp h2))] at this
    exact this

/-- C14, the code at a failing input.  The index is built over the snapshot
`(7, [10])`, `(7, [0])`, two records with the same key.  For the query `[0]`,
`findClosest` with `k = 1` returns the record `(7, [10])`, at distance `10`,
and not `(7, [0])`, at distance `0`; with `k = 2` it returns `(7, [10])` twice,
which is not the snapshot. -/
theorem ifi_findClosest_repeated_key :
    (match InvertedFileIndex.build [((7 : Nat), ([10] : Vec)), (7, [0])] 1 1 1
        ⟨fun _ => 0, 0⟩ with
      | .ok (s, _) => some s.data
      | .error _ => none) = some [(7, [10]), (7, [0])] ∧
    (match InvertedFileIndex.build [((7 : Nat), ([10] : Vec)), (7, [0])] 1 1 1
        ⟨fun _ => 0, 0⟩ with
      | .ok (s, _) => some (s.findClosest [0] 1, s.findClosest [0] 2)
      | .error _ => none) = some (.ok [(7, [10])], .ok [(7, [10]), (7, [10])]) := by
  constructor <;> decide!

/-! ## Inverted file index: the two halves of a pass -/

theorem getD_modify_append {α : Type} (R : List (List α)) (j i : Nat) (x : α)
    (hj : j < R.length) :
    (R.modify (fun cluster => cluster ++ [x]) j).getD i []
      = if j = i then R.getD i [] ++ [x] else R.getD i [] := by
  rw [List.getD_eq_getElem?_getD, List.getD_eq_getElem?_getD, List.getElem?_modify]
  by_cases hji : j = i
  · subst hji
    rw [if_pos rfl, List.getElem?_eq_getElem hj]
    simp
  · rw [if_neg hji]
    cases R[i]? <;> simp [hji]

/-- The first loop of `assignToNearestCentroids` returns when every record
has a nearest centroid, and appends to cluster `i` the records whose nearest
centroid is `i`, in their order. -/
theorem assignLoop_spec {K : Type} (nearest : Vec → Int) (k : Nat) (data : List (Record K)) :
    ∀ (R : List (List (Record K))), R.length = k →
      (∀ x ∈ data, ∃ j : Nat, j < k ∧ nearest x.2 = (j : Int)) →
      ∃ R', assignLoop nearest data R = .ok R' ∧ R'.length = k ∧
        ∀ i, R'.getD i [] = R.getD i []
          ++ data.filter (fun item => decide (nearest item.2 = (i : Int))) := by
  induction data with
  | nil =>
    intro R hR _
    exact ⟨R, rfl, hR, fun i => by simp⟩
  | cons item rest ih =>
    intro R hR hn
    obtain ⟨j, hj, hnj⟩ := hn item (List.mem_cons_self _ _)
    have hcond : 0 ≤ nearest item.2 ∧ (nearest item.2).toNat < R.length := by
      rw [hnj, hR]; exact ⟨Int.natCast_nonneg j, by simpa using hj⟩
    obtain ⟨R', hR', hlen, hget⟩ := ih (R.modify (fun cluster => cluster ++ [item]) j)
      (by rw [List.length_modify]; exact hR)
      (fun x hx => hn x (List.mem_cons_of_mem _ hx))
    refine ⟨R', ?_, hlen, ?_⟩
    · simp only [assignLoop]
      rw [if_pos hcond, hnj]
      simpa using hR'
    · intro i
      rw [hget i, getD_modify_append R j i item (by rw [hR]; exact hj), List.filter_cons]
      by_cases hji : j = i
      · subst hji
        simp [hnj]
      · have : ¬ nearest item.2 = (i : Int) := by
          rw [hnj]; intro h; exact hji (by exact_mod_cast h)
        simp [hji, this]

theorem clustersOf_length {K : Type} (vector_len : Int) (k : Nat) (c : List Vec)
    (data : List (Record K)) : (clustersOf vector_len k c data).length = k := by
  unfold clustersOf
  rw [List.length_map, List.length_range]

theorem clustersOf_getElem {K : Type} (vector_len : Int) (k : Nat) (c : List Vec)
    (data : List (Record K)) (i : Nat) (hi : i < (clustersOf vector_len k c data).length) :
    (clustersOf vector_len k c data)[i]
      = data.filter (fun item => decide (nearestCentroid vector_len k c item.2 = (i : Int))) := by
  unfold clustersOf
  rw [List.getElem_map, List.getElem_range]

theorem clustersOf_getD {K : Type} (vector_len : Int) (k : Nat) (c : List Vec)
    (data : List (Record K)) (i : Nat) (hi : i < k) :
    (clustersOf vector_len k c data).getD i []
      = data.filter (fun item => decide (nearestCentroid vector_len k c item.2 = (i : Int))) := by
  rw [List.getD_eq_getElem _ _ (by rw [clustersOf_length]; exact hi)]
  exact clustersOf_getElem vector_len k c data i _

/-- The first loop of `assignToNearestCentroids`, started from empty clusters,
returns the clusters `clustersOf`. -/
theorem assignLoop_clustersOf {K : Type} (vector_len : Int) (k : Nat) (c : List Vec)
    (data : List (Record K))
    (hn : ∀ x ∈ data, ∃ j : Nat, j < k ∧ nearestCentroid vector_len k c x.2 = (j : Int)) :
    assignLoop (nearestCentroid vector_len k c) data (List.replicate k [])
      = .ok (clustersOf vector_len k c data) := by
  obtain ⟨R', hR', hlen, hget⟩ := assignLoop_spec (nearestCentroid vector_len k c) k data
    (List.replicate k []) (List.length_replicate _ _) hn
  rw [hR']
  congr 1
  apply List.ext_getElem
  · rw [hlen, clustersOf_length]
  · intro i h1 h2
    have hi : i < k := by rw [hlen] at h1; exact h1
    have h3 := hget i
    rw [List.getD_eq_getElem _ _ h1] at h3
    rw [h3]
    have h4 : (List.replicate k ([] : List (Record K))).getD i [] = [] := by
      rw [List.getD_eq_getElem?_getD, List.getElem?_replicate]
      split <;> rfl
    rw [h4, clustersOf_getElem]
    rfl

theorem updateStep_moves {K : Type} (vector_len : Int) (clusters : List (List (Record K)))
    (st : Bool × List Vec) (i : Nat)
    (h : euclideanDistanceSq vector_len (st.2.getD i [])
      (meanVector vector_len (clusters.getD i [])) ≥ convergenceThreshold * convergenceThreshold) :
    updateStep vector_len clusters st i
      = (true, st.2.set i (meanVector vector_len (clusters.getD i []))) := by
  unfold updateStep
  rw [if_pos h]

theorem updateStep_stays {K : Type} (vector_len : Int) (clusters : List (List (Record K)))
    (st : Bool × List Vec) (i : Nat)
    (h : ¬ euclideanDistanceSq vector_len (st.2.getD i [])
      (meanVector vector_len (clusters.getD i [])) ≥ convergenceThreshold * convergenceThreshold) :
    updateStep vector_len clusters st i = st := by
  unfold updateStep
  rw [if_neg h]

/-- The loop of `updateCentroids` over the first `n` centroids: centroid `i`
becomes the mean of cluster `i` when its test holds and is kept otherwise, and
the flag tells whether some test held. -/
theorem updateFold_spec {K : Type} (vector_len : Int) (clusters : List (List (Record K)))
    (c : List Vec) (n : Nat) (hn : n ≤ c.length) :
    ((List.range n).foldl (updateStep vector_len clusters) (false, c)).2.length = c.length ∧
    (∀ i, ((List.range n).foldl (updateStep vector_len clusters) (false, c)).2.getD i []
      = if i < n ∧ centroidMoves vector_len clusters c i
        then meanVector vector_len (clusters.getD i []) else c.getD i []) ∧
    (((List.range n).foldl (updateStep vector_len clusters) (false, c)).1 = true ↔
      ∃ i, i < n ∧ centroidMoves vector_len clusters c i) := by
  induction n with
  | zero => simp
  | succ n ih =>
    obtain ⟨h1, h2, h3⟩ := ih (by omega)
    rw [List.range_succ, List.foldl_append]
    simp only [List.foldl_cons, List.foldl_nil]
    have hself : ((List.range n).foldl (updateStep vector_len clusters) (false, c)).2.getD n []
        = c.getD n [] := by
      rw [h2 n, if_neg (by omega)]
    by_cases hm : centroidMoves vector_len clusters c n
    · have hstep : updateStep vector_len clusters
          ((List.range n).foldl (updateStep vector_len clusters) (false, c)) n
          = (true, ((List.range n).foldl (updateStep vector_len clusters) (false, c)).2.set n
              (meanVector vector_len (clusters.getD n []))) := by
        apply updateStep_moves
        rw [hself]
        exact hm
      rw [hstep]
      refine ⟨by simp only [List.length_set]; exact h1, ?_, ?_⟩
      · intro i
        simp only
        rw [List.getD_eq_getElem?_getD, List.getElem?_set]
        by_cases hni : n = i
        · subst hni
          rw [if_pos rfl, if_pos (by rw [h1]; omega), if_pos ⟨by omega, hm⟩]
          rfl
        · rw [if_neg hni, ← List.getD_eq_getElem?_getD, h2 i]
          by_cases hi : i < n
          · by_cases hmi : centroidMoves vector_len clusters c i
            · rw [if_pos ⟨hi, hmi⟩, if_pos ⟨by omega, hmi⟩]
            · rw [if_neg (fun h => hmi h.2), if_neg (fun h => hmi h.2)]
          · rw [if_neg (fun h => hi h.1), if_neg (fun h => by omega)]
      · simp only [true_iff]
        exact ⟨n, by omega, hm⟩
    · have hstep : updateStep vector_len clusters
          ((List.range n).foldl (updateStep vector_len clusters) (false, c)) n
          = (List.range n).foldl (updateStep vector_len clusters) (false, c) := by
        apply updateStep_stays
        rw [hself]
        exact hm
      rw [hstep]
      refine ⟨h1, ?_, ?_⟩
      · intro i
        rw [h2 i]
        by_cases hi : i < n
        · by_cases hmi : centroidMoves vector_len clusters c i
          · rw [if_pos ⟨hi, hmi⟩, if_pos ⟨by omega, hmi⟩]
          · rw [if_neg (fun h => hmi h.2), if_neg (fun h => hmi h.2)]
        · by_cases hin : i = n
          · subst hin
            rw [if_neg (fun h => hi h.1), if_neg (fun h => hm h.2)]
          · rw [if_neg (fun h => hi h.1), if_neg (fun h => by omega)]
      · rw [h3]
        constructor
        · rintro ⟨i, hi, hmi⟩
          exact ⟨i, by omega, hmi⟩
        · rintro ⟨i, hi, hmi⟩
          by_cases hin : i = n
          · subst hin; exact absurd hmi hm
          · exact ⟨i, by omega, hmi⟩

/-! ## Inverted file index: sums of squared distances -/

theorem sum_map_sum_comm {α β : Type} (L : List α) (J : List β) (f : α → β → Flt) :
    (L.map (fun x => (J.map (fun j => f x j)).sum)).sum
      = (J.map (fun j => (L.map (fun x => f x j)).sum)).sum := by
  induction L with
  | nil => simp
  | cons a L ih =>
    simp only [List.map_cons, List.sum_cons]
    rw [ih, ← List.sum_map_add]

theorem sum_sq_sub (xs : List Flt) (c : Flt) :
    (xs.map (fun x => (x - c) * (x - c))).sum
      = (xs.map (fun x => x * x)).sum - 2 * c * xs.sum + (xs.length : Flt) * (c * c) := by
  induction xs with
  | nil => simp
  | cons a xs ih =>
    simp only [List.map_cons, List.sum_cons, List.length_cons]
    rw [ih]
    push_cast
    ring

/-- The sum of the squared differences to `c` is the sum of the squared
differences to the mean plus the squared difference of `c` to the mean, once
for every element. -/
theorem sum_sq_mean (xs : List Flt) (c : Flt) (hne : xs ≠ []) :
    (xs.map (fun x => (x - c) * (x - c))).sum
      = (xs.map (fun x => (x - xs.sum / (xs.length : Flt)) * (x - xs.sum / (xs.length : Flt)))).sum
        + (xs.length : Flt) * ((c - xs.sum / (xs.length : Flt)) * (c - xs.sum / (xs.length : Flt))) := by
  have hn : (xs.length : Flt) ≠ 0 := by
    have : 0 < xs.length := List.length_pos.mpr hne
    exact_mod_cast (Nat.pos_iff_ne_zero.mp this)
  rw [sum_sq_sub xs c, sum_sq_sub xs (xs.sum / (xs.length : Flt))]
  field_simp
  ring

theorem getD_map_range (n : Nat) (f : Nat → Flt) (j : Nat) (hj : j < n) :
    ((List.range n).map f).getD j 0 = f j := by
  rw [List.getD_eq_getElem _ _ (by simpa using hj)]
  simp

theorem getD_replicate_zero (n j : Nat) : (List.replicate n (0 : Flt)).getD j 0 = 0 := by
  rw [List.getD_eq_getElem?_getD, List.getElem?_replicate]
  split <;> rfl

/-- Coordinate `j` of the mean of a non-empty cluster. -/
theorem meanVector_getD {K : Type} (vector_len : Int) (cluster : List (Record K))
    (hne : cluster ≠ []) (j : Nat) (hj : j < vector_len.toNat) :
    (meanVector vector_len cluster).getD j 0
      = (cluster.map (fun pair => pair.2.getD j 0)).sum / (cluster.length : Flt) := by
  unfold meanVector
  have : cluster.isEmpty = false := by
    cases cluster with
    | nil => exact absurd rfl hne
    | cons _ _ => rfl
  rw [this]
  simp only [Bool.false_eq_true, if_false]
  exact getD_map_range _ _ j hj

theorem meanVector_nil {K : Type} (vector_len : Int) :
    meanVector vector_len ([] : List (Record K)) = List.replicate vector_len.toNat 0 := by
  simp [meanVector]

/-- Within one cluster, moving the centroid to the mean lowers the sum of the
squared distances by the squared distance of the move, once for every
record. -/
theorem cluster_cost_mean {K : Type} (vector_len : Int) (cluster : List (Record K))
    (c : Vec) (hne : cluster ≠ []) :
    (cluster.map (fun x => euclideanDistanceSq vector_len x.2 c)).sum
      = (cluster.map (fun x => euclideanDistanceSq vector_len x.2
          (meanVector vector_len cluster))).sum
        + (cluster.length : Flt)
          * euclideanDistanceSq vector_len c (meanVector vector_len cluster) := by
  unfold euclideanDistanceSq
  have e1 : (cluster.map (fun x => ((List.range vector_len.toNat).map
      (fun i => (x.2.getD i 0 - c.getD i 0) * (x.2.getD i 0 - c.getD i 0))).sum)).sum
      = ((List.range vector_len.toNat).map (fun i => (cluster.map
          (fun x => (x.2.getD i 0 - c.getD i 0) * (x.2.getD i 0 - c.getD i 0))).sum)).sum :=
    sum_map_sum_comm cluster (List.range vector_len.toNat)
      (fun x i => (x.2.getD i 0 - c.getD i 0) * (x.2.getD i 0 - c.getD i 0))
  have e2 : (cluster.map (fun x => ((List.range vector_len.toNat).map
      (fun i => (x.2.getD i 0 - (meanVector vector_len cluster).getD i 0)
        * (x.2.getD i 0 - (meanVector vector_len cluster).getD i 0))).sum)).sum
      = ((List.range vector_len.toNat).map (fun i => (cluster.map
          (fun x => (x.2.getD i 0 - (meanVector vector_len cluster).getD i 0)
            * (x.2.getD i 0 - (meanVector vector_len cluster).getD i 0))).sum)).sum :=
    sum_map_sum_comm cluster (List.range vector_len.toNat)
      (fun x i => (x.2.getD i 0 - (meanVector vector_len cluster).getD i 0)
        * (x.2.getD i 0 - (meanVector vector_len cluster).getD i 0))
  rw [e1, e2, ← List.sum_map_mul_left, ← List.sum_map_add]
  apply congrArg
  apply List.map_congr_left
  intro j hj
  have hj' := List.mem_range.mp hj
  rw [meanVector_getD vector_len cluster hne j hj']
  have h := sum_sq_mean (cluster.map (fun pair => pair.2.getD j 0)) (c.getD j 0)
    (by simpa using hne)
  simp only [List.map_map, List.length_map, Function.comp_def] at h
  exact h

theorem sum_range_ite (k j : Nat) (a : Flt) (hj : j < k) :
    ((List.range k).map (fun i => if j = i then a else 0)).sum = a := by
  induction k with
  | zero => omega
  | succ k ih =>
    rw [List.sum_range_succ]
    by_cases hjk : j = k
    · subst hjk
      have : ((List.range j).map (fun i => if j = i then a else 0)).sum = 0 := by
        apply List.sum_eq_zero
        intro x hx
        obtain ⟨i, hi, rfl⟩ := List.mem_map.mp hx
        have := List.mem_range.mp hi
        rw [if_neg (by omega)]
      rw [this]; simp
    · rw [ih (by omega), if_neg hjk]; simp

/-- A sum over the records, each taken with its cluster index, is the sum
over the clusters of the sums over their records. -/
theorem sum_regroup {K : Type} (idx : Record K → Int) (k : Nat) (g : Nat → Record K → Flt)
    (data : List (Record K)) (h : ∀ x ∈ data, ∃ j : Nat, j < k ∧ idx x = (j : Int)) :
    (data.map (fun x => g (idx x).toNat x)).sum
      = ((List.range k).map (fun (i : Nat) =>
          ((data.filter (fun x => decide (idx x = (i : Int)))).map (g i)).sum)).sum := by
  induction data with
  | nil => simp
  | cons x data ih =>
    obtain ⟨j, hj, hx⟩ := h x (List.mem_cons_self _ _)
    rw [List.map_cons, List.sum_cons, ih (fun y hy => h y (List.mem_cons_of_mem _ hy))]
    have hstep : ∀ i : Nat,
        (((x :: data).filter (fun y => decide (idx y = (i : Int)))).map (g i)).sum
          = (if j = i then g (idx x).toNat x else 0)
            + ((data.filter (fun y => decide (idx y = (i : Int)))).map (g i)).sum := by
      intro i
      rw [List.filter_cons]
      by_cases hji : j = i
      · subst hji
        simp [hx]
      · have : ¬ idx x = (i : Int) := by
          rw [hx]; intro h; exact hji (by exact_mod_cast h)
        simp [hji, this]
    simp only [hstep]
    rw [List.sum_map_add, sum_range_ite k j _ hj]

/-! ## Inverted file index: a pass does not raise the cost -/

theorem convergenceThreshold_sq_pos : 0 < convergenceThreshold * convergenceThreshold := by
  unfold convergenceThreshold
  norm_num

/-- The cost in terms of the clusters: the sum over the clusters of the squared
distances of their records to the centroid of the cluster. -/
theorem costOf_regroup {K : Type} (vector_len : Int) (k : Nat) (c c' : List Vec)
    (data : List (Record K))
    (hgood : ∀ x ∈ data, ∃ j : Nat, j < k ∧ nearestCentroid vector_len k c x.2 = (j : Int)) :
    (data.map (fun x => euclideanDistanceSq vector_len x.2
        (c'.getD (nearestCentroid vector_len k c x.2).toNat []))).sum
      = ((List.range k).map (fun (i : Nat) =>
          (((clustersOf vector_len k c data).getD i []).map
            (fun x => euclideanDistanceSq vector_len x.2 (c'.getD i []))).sum)).sum := by
  rw [sum_regroup (fun x => nearestCentroid vector_len k c x.2) k
    (fun i x => euclideanDistanceSq vector_len x.2 (c'.getD i [])) data hgood]
  apply congrArg
  apply List.map_congr_left
  intro i hi
  rw [clustersOf_getD vector_len k c data i (List.mem_range.mp hi)]

/-- One pass, from the centroids `c` to the centroids `c'`: the cost does not
rise, and it falls by the square of `convergenceThreshold` at least when the
centroid of a non-empty cluster moves. -/
theorem cost_step {K : Type} (vector_len : Int) (k : Nat) (c c' : List Vec)
    (data : List (Record K))
    (hgood : ∀ x ∈ data, ∃ j : Nat, j < k ∧ nearestCentroid vector_len k c x.2 = (j : Int))
    (hgood' : ∀ x ∈ data, ∃ j : Nat, j < k ∧ nearestCentroid vector_len k c' x.2 = (j : Int) ∧
      ∀ i, i < k → euclideanDistanceSq vector_len x.2 (c'.getD j [])
        ≤ euclideanDistanceSq vector_len x.2 (c'.getD i []))
    (hc' : ∀ i, c'.getD i [] = if i < k ∧ centroidMoves vector_len
        (clustersOf vector_len k c data) c i
      then meanVector vector_len ((clustersOf vector_len k c data).getD i []) else c.getD i []) :
    costOf vector_len k c' data ≤ costOf vector_len k c data ∧
    ((∃ i, i < k ∧ centroidMoves vector_len (clustersOf vector_len k c data) c i ∧
        (clustersOf vector_len k c data).getD i [] ≠ []) →
      costOf vector_len k c' data + convergenceThreshold * convergenceThreshold
        ≤ costOf vector_len k c data) := by
  have h1 : costOf vector_len k c' data
      ≤ (data.map (fun x => euclideanDistanceSq vector_len x.2
          (c'.getD (nearestCentroid vector_len k c x.2).toNat []))).sum := by
    unfold costOf
    apply List.sum_le_sum
    intro x hx
    obtain ⟨j, hj, hnj⟩ := hgood x hx
    obtain ⟨j', _, hnj', hmin⟩ := hgood' x hx
    rw [hnj, hnj']
    simpa using hmin j hj
  rw [costOf_regroup vector_len k c c' data hgood] at h1
  have h2 : costOf vector_len k c data
      = ((List.range k).map (fun (i : Nat) =>
          (((clustersOf vector_len k c data).getD i []).map
            (fun x => euclideanDistanceSq vector_len x.2 (c.getD i []))).sum)).sum :=
    costOf_regroup vector_len k c c data hgood
  have hi : ∀ i, i < k →
      (((clustersOf vector_len k c data).getD i []).map
          (fun x => euclideanDistanceSq vector_len x.2 (c'.getD i []))).sum
        ≤ (((clustersOf vector_len k c data).getD i []).map
          (fun x => euclideanDistanceSq vector_len x.2 (c.getD i []))).sum ∧
      (centroidMoves vector_len (clustersOf vector_len k c data) c i →
        (clustersOf vector_len k c data).getD i [] ≠ [] →
        (((clustersOf vector_len k c data).getD i []).map
            (fun x => euclideanDistanceSq vector_len x.2 (c'.getD i []))).sum
          + convergenceThreshold * convergenceThreshold
          ≤ (((clustersOf vector_len k c data).getD i []).map
            (fun x => euclideanDistanceSq vector_len x.2 (c.getD i []))).sum) := by
    intro i hik
    by_cases hm : centroidMoves vector_len (clustersOf vector_len k c data) c i
    · rw [hc' i, if_pos ⟨hik, hm⟩]
      by_cases hne : (clustersOf vector_len k c data).getD i [] = []
      · rw [hne]
        exact ⟨le_refl _, fun _ h => absurd rfl h⟩
      · have hid := cluster_cost_mean vector_len ((clustersOf vector_len k c data).getD i [])
          (c.getD i []) hne
        have hlen : (1 : Flt) ≤ (((clustersOf vector_len k c data).getD i []).length : Flt) := by
          have : 0 < ((clustersOf vector_len k c data).getD i []).length :=
            List.length_pos.mpr hne
          exact_mod_cast this
        have hd : convergenceThreshold * convergenceThreshold
            ≤ euclideanDistanceSq vector_len (c.getD i [])
              (meanVector vector_len ((clustersOf vector_len k c data).getD i [])) := hm
        have hprod : convergenceThreshold * convergenceThreshold
            ≤ (((clustersOf vector_len k c data).getD i []).length : Flt)
              * euclideanDistanceSq vector_len (c.getD i [])
                (meanVector vector_len ((clustersOf vector_len k c data).getD i [])) := by
          have hpos := convergenceThreshold_sq_pos
          nlinarith [euclideanDistanceSq_nonneg vector_len (c.getD i [])
            (meanVector vector_len ((clustersOf vector_len k c data).getD i []))]
        have hpos := convergenceThreshold_sq_pos
        constructor
        · linarith
        · intro _ _; linarith
    · rw [hc' i, if_neg (fun h => hm h.2)]
      exact ⟨le_refl _, fun h => absurd h hm⟩
  have hsum : ((List.range k).map (fun (i : Nat) =>
        (((clustersOf vector_len k c data).getD i []).map
          (fun x => euclideanDistanceSq vector_len x.2 (c'.getD i []))).sum)).sum
      ≤ ((List.range k).map (fun (i : Nat) =>
        (((clustersOf vector_len k c data).getD i []).map
          (fun x => euclideanDistanceSq vector_len x.2 (c.getD i []))).sum)).sum := by
    apply List.sum_le_sum
    intro i hi'
    exact (hi i (List.mem_range.mp hi')).1
  refine ⟨by rw [h2]; exact le_trans h1 hsum, ?_⟩
  rintro ⟨i0, hi0, hm0, hne0⟩
  have hsplit : ((List.range k).map (fun (i : Nat) =>
        (((clustersOf vector_len k c data).getD i []).map
          (fun x => euclideanDistanceSq vector_len x.2 (c.getD i []))).sum)).sum
      = ((List.range k).map (fun (i : Nat) =>
        (((clustersOf vector_len k c data).getD i []).map
          (fun x => euclideanDistanceSq vector_len x.2 (c'.getD i []))).sum)).sum
        + ((List.range k).map (fun (i : Nat) =>
          (((clustersOf vector_len k c data).getD i []).map
            (fun x => euclideanDistanceSq vector_len x.2 (c.getD i []))).sum
          - (((clustersOf vector_len k c data).getD i []).map
            (fun x => euclideanDistanceSq vector_len x.2 (c'.getD i []))).sum)).sum := by
    rw [← List.sum_map_add]
    apply congrArg
    apply List.map_congr_left
    intro i _
    ring
  have hdiff := @List.single_le_sum Flt _ ((List.range k).map (fun (i : Nat) =>
        (((clustersOf vector_len k c data).getD i []).map
          (fun x => euclideanDistanceSq vector_len x.2 (c.getD i []))).sum
        - (((clustersOf vector_len k c data).getD i []).map
          (fun x => euclideanDistanceSq vector_len x.2 (c'.getD i []))).sum))
    (by
      intro y hy
      obtain ⟨i, hi', rfl⟩ := List.mem_map.mp hy
      have := (hi i (List.mem_range.mp hi')).1
      linarith)
    _ (List.mem_map.mpr ⟨i0, List.mem_range.mpr hi0, rfl⟩)
  have h0 := (hi i0 hi0).2 hm0 hne0
  rw [h2, hsplit]
  linarith

/-! ## Inverted file index: one pass of `retrain` -/

theorem filter_length_mono (l : List Nat) (p q : Nat → Bool)
    (hsub : ∀ i ∈ l, q i = true → p i = true) :
    (l.filter q).length ≤ (l.filter p).length ∧
    ((∃ i, i ∈ l ∧ p i = true ∧ q i = false) → (l.filter q).length < (l.filter p).length) := by
  induction l with
  | nil => exact ⟨le_refl _, fun ⟨i, hi, _⟩ => absurd hi (List.not_mem_nil _)⟩
  | cons a l ih =>
    obtain ⟨ih1, ih2⟩ := ih (fun i hi => hsub i (List.mem_cons_of_mem _ hi))
    have ha := hsub a (List.mem_cons_self _ _)
    rw [List.filter_cons, List.filter_cons]
    cases hq : q a with
    | true =>
      rw [ha hq]
      simp only [if_true, List.length_cons]
      refine ⟨by omega, ?_⟩
      rintro ⟨i, hi, hp, hqi⟩
      rcases List.mem_cons.mp hi with rfl | hi
      · rw [hq] at hqi; cases hqi
      · have := ih2 ⟨i, hi, hp, hqi⟩
        omega
    | false =>
      cases hp : p a with
      | true =>
        simp only [if_true, Bool.false_eq_true, if_false, List.length_cons]
        exact ⟨by omega, fun _ => by omega⟩
      | false =>
        simp only [Bool.false_eq_true, if_false]
        refine ⟨ih1, ?_⟩
        rintro ⟨i, hi, hpi, hqi⟩
        rcases List.mem_cons.mp hi with rfl | hi
        · rw [hp] at hpi; cases hpi
        · exact ih2 ⟨i, hi, hpi, hqi⟩

theorem nonZeroCount_le (vector_len : Int) (k : Nat) (c : List Vec) :
    nonZeroCount vector_len k c ≤ k := by
  unfold nonZeroCount
  have := List.length_filter_le
    (fun i => decide (c.getD i [] ≠ List.replicate vector_len.toNat 0)) (List.range k)
  rw [List.length_range] at this
  exact this

theorem euclideanDistanceSq_self (vector_len : Int) (a : Vec) :
    euclideanDistanceSq vector_len a a = 0 := by
  unfold euclideanDistanceSq
  apply List.sum_eq_zero
  intro x hx
  obtain ⟨i, _, rfl⟩ := List.mem_map.mp hx
  simp

theorem costOf_nonneg {K : Type} (vector_len : Int) (k : Nat) (c : List Vec)
    (data : List (Record K)) : 0 ≤ costOf vector_len k c data := by
  unfold costOf
  apply List.sum_nonneg
  intro x hx
  obtain ⟨i, _, rfl⟩ := List.mem_map.mp hx
  exact euclideanDistanceSq_nonneg _ _ _

theorem abs_sum_le_length_mul (xs : List Flt) (B : Flt) (h : ∀ x ∈ xs, |x| ≤ B) :
    |xs.sum| ≤ (xs.length : Flt) * B := by
  induction xs with
  | nil => simp
  | cons a xs ih =>
    have h1 := h a (List.mem_cons_self _ _)
    have h2 := ih (fun x hx => h x (List.mem_cons_of_mem _ hx))
    simp only [List.sum_cons, List.length_cons]
    have h3 := abs_add a xs.sum
    push_cast
    linarith

/-- The vector `newCentroids[i]` has `vector_len` coordinates. -/
theorem meanVector_length {K : Type} (vector_len : Int) (cluster : List (Record K)) :
    (meanVector vector_len cluster).length = vector_len.toNat := by
  unfold meanVector
  split <;> simp

/-- The mean of records within the bound is within the bound. -/
theorem meanVector_bounded {K : Type} (vector_len : Int) (B : Flt) (cluster : List (Record K))
    (hB : 0 ≤ B) (h : ∀ x ∈ cluster, VecBounded vector_len B x.2) :
    VecBounded vector_len B (meanVector vector_len cluster) := by
  intro j hj
  by_cases hne : cluster = []
  · subst hne
    rw [meanVector_nil, getD_replicate_zero]
    simpa using hB
  · rw [meanVector_getD vector_len cluster hne j hj]
    have hpos : (0 : Flt) < (cluster.length : Flt) := by
      have : 0 < cluster.length := List.length_pos.mpr hne
      exact_mod_cast this
    have hs := abs_sum_le_length_mul (cluster.map (fun pair => pair.2.getD j 0)) B
      (by
        intro x hx
        obtain ⟨r, hr, rfl⟩ := List.mem_map.mp hx
        exact h r hr j hj)
    rw [List.length_map] at hs
    rw [abs_div, abs_of_pos hpos, div_le_iff₀ hpos]
    linarith

theorem toNat_pos_of_one_le (n : Int) (h : 1 ≤ n) : 0 < n.toNat := by omega

/-- In an object that is ready for `retrain`, every record has a nearest
centroid, at the least distance among the centroids. -/
theorem ready_good {K : Type} (s : InvertedFileIndex K) (B : Flt) (h : RetrainReady s B) :
    ∀ x ∈ s.data, ∃ j : Nat, j < s.num_centroids.toNat ∧
      nearestCentroid s.vector_len s.num_centroids.toNat s.centroids x.2 = (j : Int) ∧
      ∀ i, i < s.num_centroids.toNat →
        euclideanDistanceSq s.vector_len x.2 (s.centroids.getD j [])
          ≤ euclideanDistanceSq s.vector_len x.2 (s.centroids.getD i []) := by
  obtain ⟨_, hk, hlen, _, hdata, hcent, hmax, _, _, _⟩ := h
  intro x hx
  apply nearestCentroid_spec _ _ _ _ (toNat_pos_of_one_le _ hk)
  intro i hi
  have hmem : s.centroids.getD i [] ∈ s.centroids := by
    rw [List.getD_eq_getElem _ _ (by rw [hlen]; exact hi)]
    exact List.getElem_mem _
  exact le_trans
    (euclideanDistanceSq_bound s.vector_len B x.2 _ (hdata x hx) (hcent _ hmem)) hmax

theorem sizesDiffer_self {K : Type} (cl : List (List (Record K))) (n : Nat) :
    sizesDiffer cl cl n = false := by
  unfold sizesDiffer
  rw [List.any_eq_false]
  intro i _
  simp

theorem sizesDiffer_false {K : Type} (cl cl' : List (List (Record K))) (n : Nat)
    (h : sizesDiffer cl cl' n = false) :
    ∀ i, i < n → (cl.getD i []).length = (cl'.getD i []).length := by
  unfold sizesDiffer at h
  rw [List.any_eq_false] at h
  intro i hi
  have := h i (List.mem_range.mpr hi)
  simpa using this

/-- One pass of the loop of `retrain` on an object that is ready for it: both
halves return, the clusters become those of the centroids, each centroid whose
test holds becomes the mean of its cluster, and the object is again ready. -/
theorem pass_spec {K : Type} (s : InvertedFileIndex K) (B : Flt) (h : RetrainReady s B) :
    ∃ s1 s2 flag,
      s.assignToNearestCentroids
        = .ok (sizesDiffer (clustersOf s.vector_len s.num_centroids.toNat s.centroids s.data)
            s.clusters s.num_centroids.toNat, s1) ∧
      s1.updateCentroids = .ok (flag, s2) ∧
      (flag = true ↔ ∃ i, i < s.num_centroids.toNat ∧ centroidMoves s.vector_len
        (clustersOf s.vector_len s.num_centroids.toNat s.centroids s.data) s.centroids i) ∧
      s2.data = s.data ∧ s2.vector_len = s.vector_len ∧ s2.num_centroids = s.num_centroids ∧
      s2.clusters = clustersOf s.vector_len s.num_centroids.toNat s.centroids s.data ∧
      s2.centroids.length = s.centroids.length ∧
      (∀ i, s2.centroids.getD i [] = if i < s.num_centroids.toNat ∧ centroidMoves s.vector_len
          (clustersOf s.vector_len s.num_centroids.toNat s.centroids s.data) s.centroids i
        then meanVector s.vector_len
          ((clustersOf s.vector_len s.num_centroids.toNat s.centroids s.data).getD i [])
        else s.centroids.getD i []) ∧
      RetrainReady s2 B := by
  have hgood := ready_good s B h
  obtain ⟨hvl, hk, hlen, hB, hdata, hcent, hmax, hsum, hdl, hcl⟩ := h
  have hassign := assignLoop_clustersOf s.vector_len s.num_centroids.toNat s.centroids s.data
    (fun x hx => by
      obtain ⟨j, hj, hnj, _⟩ := hgood x hx
      exact ⟨j, hj, hnj⟩)
  obtain ⟨f1, f2, f3⟩ := updateFold_spec s.vector_len
    (clustersOf s.vector_len s.num_centroids.toNat s.centroids s.data) s.centroids
    s.num_centroids.toNat (by rw [hlen])
  refine ⟨⟨s.vector_len, s.num_centroids, s.retrain_threshold, s.data, s.centroids,
      clustersOf s.vector_len s.num_centroids.toNat s.centroids s.data,
      s.nodesAddedSinceLastRetrain⟩,
    ⟨s.vector_len, s.num_centroids, s.retrain_threshold, s.data,
      ((List.range s.num_centroids.toNat).foldl (updateStep s.vector_len
        (clustersOf s.vector_len s.num_centroids.toNat s.centroids s.data))
        (false, s.centroids)).2,
      clustersOf s.vector_len s.num_centroids.toNat s.centroids s.data,
      s.nodesAddedSinceLastRetrain⟩,
    ((List.range s.num_centroids.toNat).foldl (updateStep s.vector_len
        (clustersOf s.vector_len s.num_centroids.toNat s.centroids s.data))
        (false, s.centroids)).1, ?_, ?_, f3, rfl, rfl, rfl, rfl, f1, f2, ?_⟩
  · unfold InvertedFileIndex.assignToNearestCentroids
    rw [if_neg (by omega)]
    have hfn : s.findNearestCentroid
        = nearestCentroid s.vector_len s.num_centroids.toNat s.centroids := rfl
    rw [hfn, hassign]
  · unfold InvertedFileIndex.updateCentroids
    rw [if_neg (by simp only [not_or, not_lt]; exact ⟨by omega, hvl⟩)]
  · refine ⟨hvl, hk, by rw [f1]; exact hlen, hB, hdata, ?_, hmax, hsum, hdl, ?_⟩
    · intro v hv
      obtain ⟨i, hi, rfl⟩ := List.getElem_of_mem hv
      have hgi := f2 i
      rw [List.getD_eq_getElem _ _ hi] at hgi
      show VecBounded s.vector_len B _
      rw [hgi]
      split
      · apply meanVector_bounded _ _ _ hB
        intro x hx
        rename_i hcond
        rw [clustersOf_getD _ _ _ _ i hcond.1] at hx
        exact hdata x (List.mem_of_mem_filter hx)
      · have hi' : i < s.centroids.length := by rw [← f1]; exact hi
        rw [List.getD_eq_getElem _ _ hi']
        exact hcent _ (List.getElem_mem _)
    · intro v hv
      obtain ⟨i, hi, rfl⟩ := List.getElem_of_mem hv
      have hgi := f2 i
      rw [List.getD_eq_getElem _ _ hi] at hgi
      show s.vector_len.toNat ≤ List.length _
      rw [hgi]
      split
      · rw [meanVector_length]
      · have hi' : i < s.centroids.length := by rw [← f1]; exact hi
        rw [List.getD_eq_getElem _ _ hi']
        exact hcl _ (List.getElem_mem _)

/-! ## Inverted file index: `retrain` returns -/

/-- A pass that moves a centroid lowers the measure. -/
theorem measure_step {K : Type} (vector_len : Int) (k : Nat) (c c' : List Vec)
    (data : List (Record K))
    (hgood : ∀ x ∈ data, ∃ j : Nat, j < k ∧ nearestCentroid vector_len k c x.2 = (j : Int))
    (hgood' : ∀ x ∈ data, ∃ j : Nat, j < k ∧ nearestCentroid vector_len k c' x.2 = (j : Int) ∧
      ∀ i, i < k → euclideanDistanceSq vector_len x.2 (c'.getD j [])
        ≤ euclideanDistanceSq vector_len x.2 (c'.getD i []))
    (hc' : ∀ i, c'.getD i [] = if i < k ∧ centroidMoves vector_len
        (clustersOf vector_len k c data) c i
      then meanVector vector_len ((clustersOf vector_len k c data).getD i []) else c.getD i [])
    (hmove : ∃ i, i < k ∧ centroidMoves vector_len (clustersOf vector_len k c data) c i) :
    passMeasure vector_len k c' data + 1 ≤ passMeasure vector_len k c data := by
  obtain ⟨hle, hstrict⟩ := cost_step vector_len k c c' data hgood hgood' hc'
  have htpos := convergenceThreshold_sq_pos
  have hc0 := costOf_nonneg vector_len k c' data
  unfold passMeasure
  by_cases hN : ∃ i, i < k ∧ centroidMoves vector_len (clustersOf vector_len k c data) c i ∧
      (clustersOf vector_len k c data).getD i [] ≠ []
  · have hdec := hstrict hN
    have hfloor : Nat.floor (costOf vector_len k c' data
          / (convergenceThreshold * convergenceThreshold)) + 1
        ≤ Nat.floor (costOf vector_len k c data
          / (convergenceThreshold * convergenceThreshold)) := by
      rw [← Nat.floor_add_one (div_nonneg hc0 (le_of_lt htpos))]
      apply Nat.floor_mono
      rw [div_add_one (ne_of_gt htpos)]
      exact div_le_div_of_nonneg_right hdec (le_of_lt htpos)
    have h1 := nonZeroCount_le vector_len k c'
    have h2 := Nat.mul_le_mul_right (k + 1) hfloor
    rw [Nat.add_mul] at h2
    omega
  · have hfloor : Nat.floor (costOf vector_len k c' data
          / (convergenceThreshold * convergenceThreshold))
        ≤ Nat.floor (costOf vector_len k c data
          / (convergenceThreshold * convergenceThreshold)) := by
      apply Nat.floor_mono
      exact div_le_div_of_nonneg_right hle (le_of_lt htpos)
    have hempty : ∀ i, i < k → centroidMoves vector_len (clustersOf vector_len k c data) c i →
        (clustersOf vector_len k c data).getD i [] = [] := by
      intro i hi hm
      by_contra hne
      exact hN ⟨i, hi, hm, hne⟩
    have hcount : nonZeroCount vector_len k c' < nonZeroCount vector_len k c := by
      unfold nonZeroCount
      apply (filter_length_mono (List.range k) _ _ ?_).2
      · obtain ⟨i0, hi0, hm0⟩ := hmove
        refine ⟨i0, List.mem_range.mpr hi0, ?_, ?_⟩
        · simp only [decide_eq_true_eq]
          intro hz
          have : centroidMoves vector_len (clustersOf vector_len k c data) c i0 := hm0
          unfold centroidMoves at this
          rw [hempty i0 hi0 hm0, meanVector_nil, hz, euclideanDistanceSq_self] at this
          linarith
        · simp only [decide_eq_false_iff_not, not_not]
          rw [hc' i0, if_pos ⟨hi0, hm0⟩, hempty i0 hi0 hm0, meanVector_nil]
      · intro i hi hq
        have hi' := List.mem_range.mp hi
        simp only [decide_eq_true_eq] at hq ⊢
        by_cases hm : centroidMoves vector_len (clustersOf vector_len k c data) c i
        · exfalso
          apply hq
          rw [hc' i, if_pos ⟨hi', hm⟩, hempty i hi' hm, meanVector_nil]
        · rw [hc' i, if_neg (fun h => hm h.2)] at hq
          exact hq
    have h2 := Nat.mul_le_mul_right (k + 1) hfloor
    omega

/-- The loop of `retrain` on an object that is ready for it returns within
`2 * passMeasure + 2` passes (one pass fewer when the clusters are already
those of the centroids), through a last pass in which both halves return
`false`. -/
theorem retrainLoop_returns {K : Type} (B : Flt) :
    ∀ (fuel : Nat) (s : InvertedFileIndex K), RetrainReady s B →
      (2 * passMeasure s.vector_len s.num_centroids.toNat s.centroids s.data + 2 ≤ fuel ∨
        (s.clusters = clustersOf s.vector_len s.num_centroids.toNat s.centroids s.data ∧
          2 * passMeasure s.vector_len s.num_centroids.toNat s.centroids s.data + 1 ≤ fuel)) →
      ∃ s' t, InvertedFileIndex.retrainLoop fuel s = .ok s' ∧ FinalPass t s' ∧
        RetrainReady t B ∧ t.data = s.data ∧ t.vector_len = s.vector_len ∧
        t.num_centroids = s.num_centroids := by
  intro fuel
  induction fuel with
  | zero =>
    intro s _ h
    rcases h with h | ⟨_, h⟩ <;> omega
  | succ fuel ih =>
    intro s hready hfuel
    have hgood := ready_good s B hready
    obtain ⟨s1, s2, flag, ha, hu, hflag, hd, hv, hnk, hcl, hlen2, hget, hready2⟩ :=
      pass_spec s B hready
    have hgood2 := ready_good s2 B hready2
    rw [hd, hv, hnk] at hgood2
    cases flag with
    | true =>
      have hmove := hflag.mp rfl
      have hm := measure_step s.vector_len s.num_centroids.toNat s.centroids s2.centroids
        s.data
        (fun x hx => by
          obtain ⟨j, hj, hnj, _⟩ := hgood x hx
          exact ⟨j, hj, hnj⟩)
        hgood2 hget hmove
      obtain ⟨s', t, hs', hfin, htr, htd, htv, htk⟩ := ih s2 hready2
        (Or.inl (by
          rw [hd, hv, hnk]
          rcases hfuel with h | ⟨_, h⟩ <;> omega))
      refine ⟨s', t, ?_, hfin, htr, by rw [htd, hd], by rw [htv, hv], by rw [htk, hnk]⟩
      simp only [InvertedFileIndex.retrainLoop, ha, hu, Bool.true_or, if_true]
      exact hs'
    | false =>
      have hnomove : ¬ ∃ i, i < s.num_centroids.toNat ∧ centroidMoves s.vector_len
          (clustersOf s.vector_len s.num_centroids.toNat s.centroids s.data) s.centroids i := by
        intro h
        have := hflag.mpr h
        cases this
      have hsame : s2.centroids = s.centroids := by
        apply List.ext_getElem hlen2
        intro i h1 h2
        have := hget i
        rw [List.getD_eq_getElem _ _ h1, List.getD_eq_getElem _ _ h2,
          if_neg (fun h => hnomove ⟨i, h.1, h.2⟩)] at this
        exact this
      cases hch : sizesDiffer (clustersOf s.vector_len s.num_centroids.toNat s.centroids
          s.data) s.clusters s.num_centroids.toNat with
      | false =>
        rw [hch] at ha
        refine ⟨s2, s, ?_, ⟨s1, ha, hu⟩, hready, rfl, rfl, rfl⟩
        simp only [InvertedFileIndex.retrainLoop, ha, hu, Bool.or_self, Bool.false_eq_true,
          if_false]
      | true =>
        have hnotsync : s.clusters
            ≠ clustersOf s.vector_len s.num_centroids.toNat s.centroids s.data := by
          intro heq
          rw [← heq, sizesDiffer_self] at hch
          cases hch
        have hf : 2 * passMeasure s.vector_len s.num_centroids.toNat s.centroids s.data + 2
            ≤ fuel + 1 := by
          rcases hfuel with h | ⟨h, _⟩
          · exact h
          · exact absurd h hnotsync
        obtain ⟨s', t, hs', hfin, htr, htd, htv, htk⟩ := ih s2 hready2
          (Or.inr (by
            rw [hd, hv, hnk, hsame, hcl]
            exact ⟨rfl, by omega⟩))
        refine ⟨s', t, ?_, hfin, htr, by rw [htd, hd], by rw [htv, hv], by rw [htk, hnk]⟩
        rw [hch] at ha
        simp only [InvertedFileIndex.retrainLoop, ha, hu, Bool.or_true, if_true]
        exact hs'

/-! ## Inverted file index: termination of `retrain` -/

/-- The function `retrain` on an object that is ready for it returns, through
a last pass that leads from a state `t` to the result and in which no cluster
changes its size and no centroid moves. -/
theorem retrain_returns {K : Type} (s : InvertedFileIndex K) (B : Flt)
    (h : RetrainReady s B) :
    ∃ s' t, s.retrain = .ok s' ∧ FinalPass t s' ∧ s'.data = s.data ∧
      (∀ i, i < s.num_centroids.toNat →
        (s'.clusters.getD i []).length = (t.clusters.getD i []).length) ∧
      (∀ i, i < s.num_centroids.toNat →
        ¬ centroidMoves s.vector_len s'.clusters t.centroids i) ∧
      s'.centroids = t.centroids := by
  have hfuel : 2 * passMeasure s.vector_len s.num_centroids.toNat s.centroids s.data + 2
      ≤ s.retrainFuel := by
    have h1 := nonZeroCount_le s.vector_len s.num_centroids.toNat s.centroids
    have h2 : s.cost = costOf s.vector_len s.num_centroids.toNat s.centroids s.data := rfl
    unfold InvertedFileIndex.retrainFuel passMeasure
    rw [h2]
    omega
  obtain ⟨s', t, hs', hfin, htr, htd, htv, htk⟩ :=
    retrainLoop_returns B s.retrainFuel s h (Or.inl hfuel)
  obtain ⟨s1, s2, flag, ha, hu, hflag, hd, hv, hnk, hcl, hlen2, hget, _⟩ := pass_spec t B htr
  obtain ⟨t1, hfa, hfu⟩ := hfin
  rw [hfa] at ha
  have ha' := Except.ok.inj ha
  have hsize : sizesDiffer (clustersOf t.vector_len t.num_centroids.toNat t.centroids t.data)
      t.clusters t.num_centroids.toNat = false := (congrArg Prod.fst ha').symm
  have ht1 : t1 = s1 := congrArg Prod.snd ha'
  rw [ht1, hu] at hfu
  have hu' := Except.ok.inj hfu
  have hfl : flag = false := congrArg Prod.fst hu'
  have hs2 : s2 = s' := congrArg Prod.snd hu'
  subst hs2
  have hnomove : ¬ ∃ i, i < t.num_centroids.toNat ∧ centroidMoves t.vector_len
      (clustersOf t.vector_len t.num_centroids.toNat t.centroids t.data) t.centroids i := by
    intro hex
    have := hflag.mpr hex
    rw [hfl] at this
    cases this
  refine ⟨s2, t, hs', ⟨s1, by rw [← ht1]; exact hfa, by rw [hu, hfl]⟩, by rw [hd, htd], ?_, ?_, ?_⟩
  · intro i hi
    rw [hcl]
    exact sizesDiffer_false _ _ _ hsize i (by rw [htk]; exact hi)
  · intro i hi hm
    rw [hcl, ← htv] at hm
    exact hnomove ⟨i, by rw [htk]; exact hi, hm⟩
  · apply List.ext_getElem hlen2
    intro i h1 h2
    have := hget i
    rw [List.getD_eq_getElem _ _ h1, List.getD_eq_getElem _ _ h2,
      if_neg (fun h => hnomove ⟨i, h.1, h.2⟩)] at this
    exact this

/-- A sum above `FLT_MAX`: over the records `[0]` and `[10^20]` with the one
centroid `[0]`, the sum for the second record is `10^40`, which is `+infinity`
in the source; `findNearestCentroid` returns `-1`, and the assignment pass
writes before the start of `newClusters`. -/
theorem retrain_overflow_undefined :
    nearestCentroid 1 1 [[0]] [100000000000000000000] = -1 ∧
    faultOf (InvertedFileIndex.retrain
      (⟨1, 1, 1, [(1, [0]), (2, [100000000000000000000])], [[0]], [[]], 0⟩ :
        InvertedFileIndex Nat)) = some .undefined := by
  constructor <;> decide!

theorem toSizeT_le (n : Int) (h : 0 ≤ n) : (toSizeT n : Int) ≤ n := by
  unfold toSizeT
  have h64 : (2 : Int) ^ 64 = 18446744073709551616 := by norm_num
  rw [h64]
  omega

/-- The constructor of `InvertedFileIndex` returns, for every outcome of the
shuffle, over data with bounded coordinates that hold at least as many records
as there are centroids, each of at least `vector_len` coordinates. -/
theorem build_returns {K : Type} (data : List (Record K))
    (vector_len num_centroids retrain_threshold : Int) (B : Flt) (g : Gen)
    (hvl : 0 ≤ vector_len) (hk : 1 ≤ num_centroids) (hn : num_centroids ≤ (data.length : Int))
    (hB : 0 ≤ B) (hdata : ∀ x ∈ data, VecBounded vector_len B x.2)
    (hmax : (vector_len.toNat : Flt) * ((2 * B) * (2 * B)) ≤ FLT_MAX)
    (hsum : (data.length : Flt) * B ≤ FLT_MAX)
    (hdl : ∀ x ∈ data, vector_len.toNat ≤ x.2.length) :
    ∃ s' g', InvertedFileIndex.build data vector_len num_centroids retrain_threshold g
      = .ok (s', g') ∧ s'.data = data := by
  have hready : RetrainReady
      (InvertedFileIndex.initializeCentroids
        (⟨vector_len, num_centroids, retrain_threshold, data, [],
          List.replicate num_centroids.toNat [], 0⟩ : InvertedFileIndex K) g).1 B := by
    refine ⟨hvl, hk, ?_, hB, hdata, ?_, hmax, hsum, hdl, ?_⟩
    · simp [InvertedFileIndex.initializeCentroids]
    · intro v hv
      simp only [InvertedFileIndex.initializeCentroids, List.mem_map, List.mem_range] at hv
      obtain ⟨i, _, rfl⟩ := hv
      show VecBounded vector_len B ((data.map Prod.snd).getD _ [])
      rw [List.getD_eq_getElem?_getD]
      cases hget : (data.map Prod.snd)[(shuffle (List.range data.length) g).1.getD i 0]? with
      | none =>
        intro j _
        simpa using hB
      | some w =>
        have hw := List.getElem?_mem hget
        obtain ⟨x, hx, rfl⟩ := List.mem_map.mp hw
        intro j hj
        exact hdata x hx j hj
    · intro v hv
      simp only [InvertedFileIndex.initializeCentroids, List.mem_map, List.mem_range] at hv
      obtain ⟨i, _, rfl⟩ := hv
      show vector_len.toNat ≤ List.length ((data.map Prod.snd).getD _ [])
      have hpos : 0 < data.length := by omega
      have hidx : (shuffle (List.range data.length) g).1.getD i 0 < data.length := by
        rw [List.getD_eq_getElem?_getD]
        cases hget : (shuffle (List.range data.length) g).1[i]? with
        | none => exact hpos
        | some w =>
          exact shuffle_bounded data.length hpos _ g
            (fun x hx => List.mem_range.mp hx) w (List.getElem?_mem hget)
      rw [List.getD_eq_getElem _ _ (by rw [List.length_map]; exact hidx), List.getElem_map]
      exact hdl _ (List.getElem_mem _)
  obtain ⟨s', t, hs', _, hd, _⟩ := retrain_returns _ B hready
  refine ⟨s', (InvertedFileIndex.initializeCentroids
      (⟨vector_len, num_centroids, retrain_threshold, data, [],
        List.replicate num_centroids.toNat [], 0⟩ : InvertedFileIndex K) g).2, ?_, ?_⟩
  · unfold InvertedFileIndex.build
    rw [if_neg (by omega), if_neg (by
      have := toSizeT_le num_centroids (by omega)
      omega)]
    simp only [hs']
  · rw [hd]
    rfl

/-! ## The catalog and the command handlers -/

/-- C18, the code at a failing input.  The collection `"C"` holds the record
`("a", [1, 0])` of dimension `2`; `addToCollection("C", "b", [1, 0, 0])`, with
a vector of dimension `3`, returns `true` and the collection then holds both
records. -/
theorem addToCollection_accepts_other_dimension :
    (match (VectorSearchEngine.init : VectorSearchEngine String).addToCollection
        "C" "a" [1, 0] ⟨fun _ => 0, 0⟩ with
      | .ok (_, e, gen) =>
          (match e.addToCollection "C" "b" [1, 0, 0] gen with
            | .ok (b, e2, _) => some (b, (e2.collections.find "C").map (fun c => c.data))
            | .error _ => none)
      | .error _ => none)
      = some (true, some [("a", [1, 0]), ("b", [1, 0, 0])]) := by
  decide!

/-- The handler `addIFI` on a collection with fewer records than centroids:
the exception of the constructor leaves the handler. -/
theorem addIFI_throws (stoi : String → Except Fault Int) (e : VectorSearchEngine String)
    (gen : Gen) (verb coll alg a3 a4 a5 : String) (vl nc rt : Int) (c : Collection String)
    (h3 : stoi a3 = .ok vl) (h4 : stoi a4 = .ok nc) (h5 : stoi a5 = .ok rt)
    (hfind : e.collections.find coll = some c) (hnc : 0 ≤ nc) (hnc2 : nc < 2 ^ 64)
    (hfew : (c.data.length : Int) < nc) :
    e.addIFI stoi [verb, coll, alg, a3, a4, a5] gen = .error .invalid_argument := by
  have hsz : toSizeT nc = nc.toNat := by
    unfold toSizeT
    rw [Int.emod_eq_of_lt hnc hnc2]
  have hb : InvertedFileIndex.build c.data vl nc rt gen = .error .invalid_argument := by
    unfold InvertedFileIndex.build
    rw [if_neg (by omega), if_pos (by rw [hsz]; omega)]
  simp [VectorSearchEngine.addIFI, h3, h4, h5, VectorSearchEngine.addAlgorithm, hfind, hb]

/-- C15, the code at a failing input.  The collection `"C"` holds one record
and the command `IFI C idx 2 2 1` asks for two centroids: the handler does not
return a response code, the `std::invalid_argument` of the constructor leaves
it uncaught. -/
theorem addIFI_too_few_records_uncaught :
    (match (VectorSearchEngine.init : VectorSearchEngine String).addToCollection
        "C" "a" [1, 0] ⟨fun _ => 0, 0⟩ with
      | .ok (_, e, gen) =>
          some ((e.collections.find "C").map (fun c => c.data),
            faultOf (e.addIFI exampleStoi ["IFI", "C", "idx", "2", "2", "1"] gen))
      | .error _ => none)
      = some (some [("a", [1, 0])], some .invalid_argument) := by
  decide!

/-- C19, as amended. The handler `add_to_collection` with at least four
arguments: when the collection named does not exist it returns the code `1`
and leaves the catalog as it is; when the collection exists in a reachable
catalog and the list of floats parses to a vector at least as long as every
vector stored in the graph of the collection (which keeps every read of
`defaultDistance` inside its vector), it appends the record to the collection
and returns `RES_OK`. -/
theorem add_to_collection_missing_collection (stof : String → Option Flt)
    (e : VectorSearchEngine String) (cmd : List String) (gen : Gen)
    (hlen : 4 ≤ cmd.length) :
    (e.collections.find (cmd.getD 1 "") = none →
      e.add_to_collection stof cmd gen = .ok ⟨RES_ERR, "", e, gen⟩) ∧
    (∀ c floats, e.collections.find (cmd.getD 1 "") = some c →
      parseFloats stof (getlineItems (cmd.getD 3 "").toList []) = some floats →
      VectorSearchEngine.Reachable e → c.hnswGraph.QueryFits floats →
      ∃ e' gen', e.add_to_collection stof cmd gen = .ok ⟨RES_OK, "", e', gen'⟩ ∧
        (e'.collections.find (cmd.getD 1 "")).map (fun c => c.data)
          = some (c.data ++ [(cmd.getD 2 "", floats)])) := by
  constructor
  · intro hfind
    unfold VectorSearchEngine.add_to_collection
    rw [if_neg (by omega), hfind]
    rfl
  · intro c floats hfind hparse hr _
    obtain ⟨e', gen', _, h1, _, _, h2, _⟩ :=
      VectorSearchEngine.addToCollection_total e (cmd.getD 1 "") (cmd.getD 2 "") floats gen
        (VectorSearchEngine.reachable_valid e hr (cmd.getD 1 ""))
    refine ⟨e', gen', ?_, ?_⟩
    · unfold VectorSearchEngine.add_to_collection
      rw [if_neg (by omega), hfind]
      simp only [hparse, h1]
    · rw [h2, hfind]
      rfl

/-- C19 as stated fails: on the catalog right after its construction the
command `add_to_collection C a 1,0` returns the code `1` and the catalog still
has no collection. -/
theorem add_to_collection_counterexample :
    (match (VectorSearchEngine.init : VectorSearchEngine String).add_to_collection
        exampleStof ["add_to_collection", "C", "a", "1,0"] ⟨fun _ => 0, 0⟩ with
      | .ok rep => some (rep.rescode, rep.engine.collections.map Prod.fst)
      | .error _ => none) = some (1, []) := by
  decide

/-- C20, the code at a failing input.  On the catalog right after its
construction, which has no collection and no index, the commands
`query C 1,0 1` and `queryAlg idx 1,0 1` both return the code `RES_OK = 0`,
with an empty payload. -/
theorem query_missing_name_answers_ok :
    (match (VectorSearchEngine.init : VectorSearchEngine String).query_collection
        exampleStof exampleStoi ["query", "C", "1,0", "1"] ⟨fun _ => 0, 0⟩ with
      | .ok rep => some (rep.rescode, rep.payload)
      | .error _ => none) = some (0, "") ∧
    (match (VectorSearchEngine.init : VectorSearchEngine String).queryAlg
        exampleStof exampleStoi ["queryAlg", "idx", "1,0", "1"] ⟨fun _ => 0, 0⟩ with
      | .ok rep => some (rep.rescode, rep.payload)
      | .error _ => none) = some (0, "") := by
  constructor <;> decide

/-! ## The response code for a list of floats that does not parse -/

/-- The loop over the items stops with the exception of `std::stof` as soon as
one item is rejected. -/
theorem parseFloats_none_of_mem (stof : String → Option Flt) (item : String) :
    ∀ items : List String, item ∈ items → stof item = none → parseFloats stof items = none := by
  intro items
  induction items with
  | nil => intro h; cases h
  | cons a rest ih =>
      intro hmem hbad
      unfold parseFloats
      rcases List.mem_cons.1 hmem with h | h
      · rw [← h, hbad]
      · cases hsa : stof a with
        | none => rfl
        | some x => simp only [ih h hbad]

/-- C21, as amended. When an element of the csv-floats argument is rejected by
`std::stof`, the handlers `query_collection` and `queryAlg` (given at least
three arguments) and the handler `add_to_collection` (given at least four
arguments and the name of an existing collection) return the code `3`, which
is none of `RES_OK = 0`, `RES_ERR = 1`, `RES_NX = 2`; the payload is empty and
the catalog is what it was. -/
theorem unparsable_float_answers_code_3 (stof : String → Option Flt)
    (stoi : String → Except Fault Int) (e : VectorSearchEngine String) (gen : Gen)
    (verb name key csv item : String) (rest : List String)
    (hitem : item ∈ getlineItems csv.toList []) (hbad : stof item = none) :
    e.query_collection stof stoi (verb :: name :: csv :: rest) gen = .ok ⟨3, "", e, gen⟩ ∧
    e.queryAlg stof stoi (verb :: name :: csv :: rest) gen = .ok ⟨3, "", e, gen⟩ ∧
    (e.collections.find name ≠ none →
      e.add_to_collection stof (verb :: name :: key :: csv :: rest) gen
        = .ok ⟨3, "", e, gen⟩) ∧
    3 ≠ RES_OK ∧ 3 ≠ RES_ERR ∧ 3 ≠ RES_NX := by
  have hp := parseFloats_none_of_mem stof item _ hitem hbad
  refine ⟨?_, ?_, ?_, by decide, by decide, by decide⟩
  · unfold VectorSearchEngine.query_collection
    rw [if_neg (by simp)]
    simp only [List.getD_cons_succ, List.getD_cons_zero, hp]
  · unfold VectorSearchEngine.queryAlg
    rw [if_neg (by simp)]
    simp only [List.getD_cons_succ, List.getD_cons_zero, hp]
  · intro hfind
    unfold VectorSearchEngine.add_to_collection
    rw [if_neg (by simp)]
    simp only [List.getD_cons_succ, List.getD_cons_zero]
    cases hf : e.collections.find name with
    | none => exact absurd hf hfind
    | some c => simp only [hp]

/-- C21, as amended, at an instance: the csv argument `1,x`, whose second
element is rejected, in the commands `query C 1,x 1`, `queryAlg C 1,x 1` and
`add_to_collection C a 1,x` on a catalog that holds the collection `C`. -/
theorem unparsable_float_answers_code_3_witness :
    "x" ∈ getlineItems "1,x".toList [] ∧ exampleStof "x" = none ∧
    ((VectorSearchEngine.init : VectorSearchEngine String).createCollection "C").query_collection
      exampleStof exampleStoi ["query", "C", "1,x", "1"] ⟨fun _ => 0, 0⟩
      = .ok ⟨3, "", (VectorSearchEngine.init : VectorSearchEngine String).createCollection "C",
          ⟨fun _ => 0, 0⟩⟩ :=
  ⟨by decide, by decide,
    (unparsable_float_answers_code_3 exampleStof exampleStoi
      ((VectorSearchEngine.init : VectorSearchEngine String).createCollection "C")
      ⟨fun _ => 0, 0⟩ "query" "C" "a" "1,x" "x" ["1"] (by decide) (by decide)).1⟩

/-- C21 as stated fails: on a catalog that holds the collection `C`, the
commands `query C 1,x 1`, `queryAlg C 1,x 1` and `add_to_collection C a 1,x`,
whose csv argument has the element `x` that does not parse, are answered with
the code `3`, not with `RES_ERR = 1`. -/
theorem unparsable_float_counterexample :
    exampleStof "x" = none ∧
    (match ((VectorSearchEngine.init : VectorSearchEngine String).createCollection
          "C").query_collection exampleStof exampleStoi ["query", "C", "1,x", "1"]
          ⟨fun _ => 0, 0⟩ with
      | .ok rep => some rep.rescode
      | .error _ => none) = some 3 ∧
    (match ((VectorSearchEngine.init : VectorSearchEngine String).createCollection
          "C").queryAlg exampleStof exampleStoi ["queryAlg", "C", "1,x", "1"]
          ⟨fun _ => 0, 0⟩ with
      | .ok rep => some rep.rescode
      | .error _ => none) = some 3 ∧
    (match ((VectorSearchEngine.init : VectorSearchEngine String).createCollection
          "C").add_to_collection exampleStof ["add_to_collection", "C", "a", "1,x"]
          ⟨fun _ => 0, 0⟩ with
      | .ok rep => some rep.rescode
      | .error _ => none) = some 3 ∧
    RES_ERR = 1 := by
  refine ⟨by decide, by decide, by decide, by decide, rfl⟩

/-! ## Deleting a record from a collection -/

/-- When no record has the key, `std::find_if` ends at `data.end()`. -/
theorem eraseFirstKey_none {K : Type} [DecidableEq K] (key : K) :
    ∀ l : List (Record K),
      VectorSearchEngine.eraseFirstKey key l = none ↔ ∀ r ∈ l, r.1 ≠ key := by
  intro l
  induction l with
  | nil => simp [VectorSearchEngine.eraseFirstKey]
  | cons item rest ih =>
      unfold VectorSearchEngine.eraseFirstKey
      by_cases h : item.1 = key
      · rw [if_pos h]
        simp [h]
      · rw [if_neg h]
        simp only [Option.map_eq_none', ih, List.mem_cons, forall_eq_or_imp]
        exact ⟨fun hr => ⟨h, hr⟩, fun hr => hr.2⟩

/-- The erasure removes the first record with the key and keeps the others in
their order. -/
theorem eraseFirstKey_some {K : Type} [DecidableEq K] (key : K) :
    ∀ (l l' : List (Record K)), VectorSearchEngine.eraseFirstKey key l = some l' →
      ∃ pre r post, l = pre ++ r :: post ∧ r.1 = key ∧ (∀ x ∈ pre, x.1 ≠ key) ∧
        l' = pre ++ post := by
  intro l
  induction l with
  | nil => intro l' h; simp [VectorSearchEngine.eraseFirstKey] at h
  | cons item rest ih =>
      intro l' h
      unfold VectorSearchEngine.eraseFirstKey at h
      by_cases hk : item.1 = key
      · rw [if_pos hk] at h
        exact ⟨[], item, rest, rfl, hk, by simp, by simpa using h.symm⟩
      · rw [if_neg hk] at h
        cases hr : VectorSearchEngine.eraseFirstKey key rest with
        | none => rw [hr] at h; cases h
        | some rest1 =>
            rw [hr] at h
            obtain ⟨pre, r, post, h1, h2, h3, h4⟩ := ih rest1 hr
            refine ⟨item :: pre, r, post, by rw [h1]; rfl, h2, ?_, ?_⟩
            · intro x hx
              rcases List.mem_cons.1 hx with hx | hx
              · rw [hx]; exact hk
              · exact h3 x hx
            · simp only [Option.map_some', Option.some.injEq] at h
              rw [← h, h4]
              rfl

/-- C24. `deleteFromCollection(name, key)` returns `true` if and only if the
collection exists and holds a record with that key; in that case the record
list is split as `pre ++ r :: post` at the first record `r` with the key and
becomes `pre ++ post`, while every other collection and every registered index
is what it was; when it returns `false` the whole catalog is unchanged. -/
theorem deleteFromCollection_removes_first {K : Type} [DecidableEq K]
    (e : VectorSearchEngine K) (name : String) (key : K) :
    ((e.deleteFromCollection name key).1 = true ↔
      ∃ c, e.collections.find name = some c ∧ ∃ r ∈ c.data, r.1 = key) ∧
    ((e.deleteFromCollection name key).1 = true →
      ∃ c pre r post, e.collections.find name = some c ∧ c.data = pre ++ r :: post ∧
        r.1 = key ∧ (∀ x ∈ pre, x.1 ≠ key) ∧
        ((e.deleteFromCollection name key).2.collections.find name).map (fun c => c.data)
          = some (pre ++ post) ∧
        (∀ other, other ≠ name →
          (e.deleteFromCollection name key).2.collections.find other
            = e.collections.find other) ∧
        (e.deleteFromCollection name key).2.algorithms = e.algorithms) ∧
    ((e.deleteFromCollection name key).1 = false →
      (e.deleteFromCollection name key).2 = e) := by
  unfold VectorSearchEngine.deleteFromCollection
  cases hf : e.collections.find name with
  | none => simp
  | some c =>
      cases he : VectorSearchEngine.eraseFirstKey key c.data with
      | none =>
          have hno := (eraseFirstKey_none key c.data).1 he
          simp only [he]
          refine ⟨?_, by simp, by simp⟩
          simp only [Bool.false_eq_true, false_iff, not_exists, not_and]
          intro c' hc' r hr
          simp only [Option.some.injEq] at hc'
          rw [← hc'] at hr
          exact hno r hr
      | some data1 =>
          obtain ⟨pre, r, post, h1, h2, h3, h4⟩ := eraseFirstKey_some key c.data data1 he
          simp only [he]
          refine ⟨?_, ?_, by simp⟩
          · simp only [true_iff]
            exact ⟨c, rfl, r, by rw [h1]; simp, h2⟩
          · intro _
            refine ⟨c, pre, r, post, by simp, h1, h2, h3, ?_, ?_, ?_⟩
            rotate_right
            · trivial
            · show Option.map _ (StdMap.find (StdMap.assign e.collections name _) name) = _
              rw [StdMap.find_assign_self, h4]
              rfl
            · intro other hne
              show StdMap.find (StdMap.assign e.collections name _) other = _
              exact StdMap.find_assign_ne _ _ _ _ hne

/-- C24, at an instance: the collection `C` holds the keys `a`, `b`, `a`, and
the key `a` is deleted. -/
theorem deleteFromCollection_removes_first_witness :
    ((((⟨[("C", ⟨[("a", [1]), ("b", [2]), ("a", [3])], VectorSearchEngine.newCollectionGraph⟩)],
        []⟩ : VectorSearchEngine String).deleteFromCollection "C" "a").1 = true ↔
      ∃ c, (⟨[("C", ⟨[("a", [1]), ("b", [2]), ("a", [3])],
          VectorSearchEngine.newCollectionGraph⟩)], []⟩ :
            VectorSearchEngine String).collections.find "C" = some c ∧
        ∃ r ∈ c.data, r.1 = "a")) ∧
    (((⟨[("C", ⟨[("a", [1]), ("b", [2]), ("a", [3])], VectorSearchEngine.newCollectionGraph⟩)],
        []⟩ : VectorSearchEngine String).deleteFromCollection "C" "a").2.collections.find
          "C").map (fun c => c.data) = some [("b", [2]), ("a", [3])] :=
  ⟨(deleteFromCollection_removes_first _ "C" "a").1, by decide!⟩

/-! ## The raw query after a deletion -/

/-- C25, the code at a failing input.  The record `("a", [1, 0])` is added to
the collection `C` and then deleted by `deleteFromCollection`, which returns
`true` and leaves the record list of `C` empty; the graph of the collection is
not touched by the deletion, and `queryCollection("C", [1, 0], 1)` still
returns the record. -/
theorem query_returns_deleted_record :
    (match (VectorSearchEngine.init : VectorSearchEngine String).addToCollection
        "C" "a" [1, 0] ⟨fun _ => 0, 0⟩ with
      | .ok (_, e, _) =>
          some ((e.deleteFromCollection "C" "a").1,
            ((e.deleteFromCollection "C" "a").2.collections.find "C").map (fun c => c.data))
      | .error _ => none) = some (true, some []) ∧
    (match (VectorSearchEngine.init : VectorSearchEngine String).addToCollection
        "C" "a" [1, 0] ⟨fun _ => 0, 0⟩ with
      | .ok (_, e, _) => (e.deleteFromCollection "C" "a").2.queryCollection "C" [1, 0] 1
      | .error err => .error err) = .ok [("a", [1, 0])] := by
  constructor <;> decide!

/-! ## Request dispatch and response framing -/

/-- C22, the code at failing inputs.  On the empty argv `do_request` reads
`cmd[0]` in the test for `Collections`; `query_collection` on
`query C 1,0` (a name and a vector) reads `cmd[3]`; `addHNSW` on `HNSW` with
five parameters reads `cmd[6]`; `addVamana` and `addIFI` on four parameters
read `cmd[5]`; and `create_collection` on the name of an existing collection
reaches the end of the function without returning a code.  None of these
requests is reduced to a pair of a response code and a payload. -/
theorem do_request_reads_past_argv (e : VectorSearchEngine String) (gen : Gen) :
    (∀ (stof : String → Option Flt) (stoi : String → Except Fault Int),
      VectorSearchEngine.do_request stof stoi e [] gen = .error .undefined) ∧
    VectorSearchEngine.do_request exampleStof exampleStoi e ["query", "C", "1,0"] gen
      = .error .undefined ∧
    VectorSearchEngine.do_request exampleStof exampleStoi e
      ["HNSW", "C", "idx", "1", "2", "2"] gen = .error .undefined ∧
    VectorSearchEngine.do_request exampleStof exampleStoi e
      ["Vamana", "C", "idx", "1", "2"] gen = .error .undefined ∧
    VectorSearchEngine.do_request exampleStof exampleStoi e
      ["IFI", "C", "idx", "1", "2"] gen = .error .undefined ∧
    VectorSearchEngine.do_request exampleStof exampleStoi
      ((VectorSearchEngine.init : VectorSearchEngine String).createCollection "C")
      ["create_collection", "C"] gen = .error .undefined :=
  ⟨fun _ _ => rfl, rfl, rfl, rfl, rfl, rfl⟩

/-- C23, the code at a failing input.  Two collections whose names have 2047
bytes each are created, each by a request of 2076 bytes; the request
`Collections` is then answered with the code `RES_OK` and a payload of
`2047 + 1 + 2047 = 4095` bytes, which passes `assert(val.size() <= k_max_msg)`.
The length field of the response is `4 + 4095 = 4099 > 4096`, and the payload,
copied to `wbuf + 8`, ends past the `4 + 4096` bytes of `wbuf`. -/
theorem response_frame_exceeds_write_buffer :
    (match VectorSearchEngine.do_request exampleStof exampleStoi VectorSearchEngine.init
        ["create_collection", String.mk (List.replicate 2047 'a')] ⟨fun _ => 0, 0⟩ with
      | .ok r1 =>
          (match VectorSearchEngine.do_request exampleStof exampleStoi r1.engine
              ["create_collection", String.mk (List.replicate 2047 'b')] r1.gen with
            | .ok r2 =>
                (match VectorSearchEngine.do_request exampleStof exampleStoi r2.engine
                    ["Collections"] r2.gen with
                  | .ok r3 =>
                      some (r3.rescode, r3.payload.utf8ByteSize,
                        decide (4 + r3.payload.utf8ByteSize ≤ k_max_msg),
                        decide (4 + (4 + r3.payload.utf8ByteSize) ≤ VectorSearchEngine.wbufSize))
                  | .error _ => none)
            | .error _ => none)
      | .error _ => none) = some (0, 4095, false, false) ∧
    (match VectorSearchEngine.do_request exampleStof exampleStoi VectorSearchEngine.init
        ["create_collection", String.mk (List.replicate 2047 'a')] ⟨fun _ => 0, 0⟩ with
      | .ok r1 =>
          (match VectorSearchEngine.do_request exampleStof exampleStoi r1.engine
              ["create_collection", String.mk (List.replicate 2047 'b')] r1.gen with
            | .ok r2 =>
                faultOf (VectorSearchEngine.try_one_request exampleStof exampleStoi r2.engine
                  ["Collections"] r2.gen)
            | .error _ => none)
      | .error _ => none) = some .undefined := by
  constructor <;> decide!

/-! ## Indexes built over no record -/

/-- C26, the code at failing inputs.  Over the empty record list the
constructor of `HNSW_graph` builds a graph whose `searchClosest` returns the
empty list for every query.  The constructor of `Vamana` leaves `startNode`
null and `searchClosest` reads through it; the constructor of
`AnnoyTreeForest` with one tree leaves the root of the tree null and
`searchClosest` reads through it: neither returns a list. -/
theorem empty_index_search (q : Vec) (ef : Int) (gen : Gen) :
    (match HNSW_graph.build ([] : List (Record String)) (9 / 10) 2 5 6 gen with
      | .ok (g, _) => g.searchClosest q ef
      | .error err => .error err) = .ok [] ∧
    (match Vamana.build ([] : List (Record String)) 1 2 2 1 gen with
      | .ok (v, _) => v.searchClosest q ef
      | .error err => .error err) = .error .undefined ∧
    (match AnnoyTreeForest.build ([] : List (Record String)) 2 1 1 1 1 false gen with
      | .ok (f, _) => f.searchClosest q ef
      | .error err => .error err) = .error .undefined :=
  ⟨rfl, rfl, rfl⟩

/-! ## The order in which `robust_prune` takes the candidates -/

/-- C30, the code at a failing input.  The node `x` holds the vector `[0]` and
has no edge; the candidates are the node `1` with the vector `[1]`, at squared
distance `1` from `x`, and the node `2` with the vector `[2]`, at squared
distance `4`.  The `std::set` of `robust_prune` is ordered by
`distanceA > distanceB`, so its first element is the candidate that is
farthest from `x`: with `alpha = 1` (and with `alpha = 5`, which prunes
nothing) the first node added to `x.outgoing` is the node `2`, not the nearest
candidate `1`. -/
theorem robust_prune_takes_farthest_first :
    ((((((Vamana.empty 1 1 2 1 : Vamana String).addNode ("x", [0])).addNode
      ("b", [1])).addNode ("c", [2])).robust_prune 0 [1, 2]).outgoing 0 = [2]) ∧
    ((((((Vamana.empty 5 1 3 1 : Vamana String).addNode ("x", [0])).addNode
      ("b", [1])).addNode ("c", [2])).robust_prune 0 [1, 2]).outgoing 0 = [2, 1]) ∧
    defaultDistance [1] [0] = 1 ∧ defaultDistance [2] [0] = 4 := by
  refine ⟨by decide!, by decide!, by decide!, by decide!⟩

/-! ## Registration of an index -/

/-- The value of a decimal digit character. -/
theorem digitChar_toNat : ∀ m, m < 10 → (Nat.digitChar m).toNat - 48 = m := by
  decide

/-- Reading the digits that `Nat.toDigitsCore` produces gives the number
back. -/
theorem toDigitsCore_foldl (fuel : Nat) :
    ∀ (n : Nat) (ds : List Char), n < fuel →
      (Nat.toDigitsCore 10 fuel n ds).foldl (fun a c => a * 10 + (c.toNat - 48)) 0
        = ds.foldl (fun a c => a * 10 + (c.toNat - 48)) n := by
  induction fuel with
  | zero => intro n ds h; omega
  | succ fuel ih =>
      intro n ds h
      unfold Nat.toDigitsCore
      simp only
      by_cases h0 : n / 10 = 0
      · rw [if_pos h0]
        have hlt : n < 10 := by omega
        simp only [List.foldl_cons, Nat.zero_mul, Nat.zero_add]
        rw [digitChar_toNat _ (Nat.mod_lt n (by decide)), Nat.mod_eq_of_lt hlt]
      · rw [if_neg h0]
        rw [ih (n / 10) _ (by omega)]
        simp only [List.foldl_cons]
        rw [digitChar_toNat _ (Nat.mod_lt n (by decide))]
        congr 1
        omega

/-- The decimal text of a number, `std::to_string(counter)`, determines the
number. -/
theorem toString_nat_inj (a b : Nat) (h : toString a = toString b) : a = b := by
  have h1 : Nat.toDigits 10 a = Nat.toDigits 10 b := by
    have := congrArg String.data h
    exact this
  have ha := toDigitsCore_foldl (a + 1) a [] (by omega)
  have hb := toDigitsCore_foldl (b + 1) b [] (by omega)
  unfold Nat.toDigits at h1
  rw [h1, hb] at ha
  simpa using ha.symm

namespace VectorSearchEngine

variable {K : Type}

/-- The names `name_1`, `name_2`, ... that the loop of `addAlgorithm` tries are
all different. -/
theorem candidate_inj (name : String) (i j : Nat)
    (h : name ++ "_" ++ toString i = name ++ "_" ++ toString j) : i = j := by
  apply toString_nat_inj
  have h1 := congrArg String.data h
  simp only [String.data_append] at h1
  exact String.ext (List.append_cancel_left h1)

/-- A name that `find` finds is the key of a binding. -/
theorem find_ne_none_mem {V : Type} (k : String) :
    ∀ m : StdMap V, m.find k ≠ none → k ∈ m.map Prod.fst := by
  intro m
  induction m with
  | nil => intro h; exact absurd rfl h
  | cons b rest ih =>
      intro h
      by_cases hk : k = b.1
      · rw [hk]; simp
      · have : StdMap.find (b :: rest) k = StdMap.find rest k := by
          obtain ⟨k', v'⟩ := b
          rw [StdMap.find_cons]
          exact if_neg hk
        rw [this] at h
        exact List.mem_cons_of_mem _ (ih h)

/-- When the loop of `addAlgorithm` runs out of iterations, every name it has
tried is registered. -/
theorem uniqueNameLoop_none (algorithms : StdMap (VectorSearchAlgorithm K)) (name : String) :
    ∀ (fuel : Nat) (uniqueName : String) (counter : Nat),
      uniqueNameLoop algorithms name fuel uniqueName counter = none →
      algorithms.find uniqueName ≠ none ∧
      ∀ i, counter ≤ i → i < counter + fuel →
        algorithms.find (name ++ "_" ++ toString i) ≠ none := by
  intro fuel
  induction fuel with
  | zero =>
      intro uniqueName counter h
      unfold uniqueNameLoop at h
      refine ⟨?_, fun i h1 h2 => by omega⟩
      intro hf
      rw [hf] at h
      cases h
  | succ fuel ih =>
      intro uniqueName counter h
      unfold uniqueNameLoop at h
      cases hf : algorithms.find uniqueName with
      | none => rw [hf] at h; cases h
      | some x =>
          rw [hf] at h
          obtain ⟨h1, h2⟩ := ih _ _ h
          refine ⟨by simp, ?_⟩
          intro i hi1 hi2
          by_cases hic : i = counter
          · rw [hic]; exact h1
          · exact h2 i (by omega) (by omega)

/-- The loop of `addAlgorithm` finds a free name within the iterations it is
given: the names it tries are different and only `algorithms.size()` of them
can be registered. -/
theorem uniqueNameLoop_returns (algorithms : StdMap (VectorSearchAlgorithm K)) (name : String) :
    ∃ uniqueName,
      uniqueNameLoop algorithms name (algorithms.length + 1) name 1 = some uniqueName := by
  cases h : uniqueNameLoop algorithms name (algorithms.length + 1) name 1 with
  | some u => exact ⟨u, rfl⟩
  | none =>
      exfalso
      obtain ⟨_, h2⟩ := uniqueNameLoop_none algorithms name _ _ _ h
      have hsub : (Finset.Icc 1 (algorithms.length + 1)).image
            (fun i => name ++ "_" ++ toString i) ⊆ (algorithms.map Prod.fst).toFinset := by
        intro k hk
        obtain ⟨i, hi, rfl⟩ := Finset.mem_image.1 hk
        rw [Finset.mem_Icc] at hi
        exact List.mem_toFinset.2 (find_ne_none_mem _ _ (h2 i hi.1 (by omega)))
      have hcard := Finset.card_le_card hsub
      rw [Finset.card_image_of_injective _ (fun i j hij => candidate_inj name i j hij)] at hcard
      have hle := List.toFinset_card_le (algorithms.map Prod.fst)
      rw [List.length_map] at hle
      simp only [Nat.card_Icc] at hcard
      omega

/-- The call `emplace` with a key that is not bound binds it. -/
theorem find_emplace_self {V : Type} (m : StdMap V) (k : String) (v : V)
    (h : m.find k = none) : (m.emplace k v).find k = some v := by
  unfold StdMap.emplace
  rw [h]
  exact StdMap.find_append_none m k v h

/-- The keys of a map, in the order of an iteration, are the keys of its
bindings. -/
theorem mem_keys {V : Type} (m : StdMap V) (k : String) :
    k ∈ m.keys ↔ k ∈ m.map Prod.fst := by
  unfold StdMap.keys
  exact (List.perm_insertionSort _ _).mem_iff

end VectorSearchEngine

/-- C29. In a catalog with the collection `name` in which the algorithm name
`a` is not registered, `addAlgorithm(a, name, params)` whose constructor
builds the index `alg` returns, and afterwards `listAlgorithmNames` contains
`a` and `queryAlgorithm(a, q, ef)` is what `alg.searchClosest(q, ef)` returns,
for every `q` and `ef`; `queryAlgorithm` on a name that is not registered
returns the empty list. -/
theorem addAlgorithm_registers {K : Type} (e : VectorSearchEngine K) (a name : String)
    (mk : List (Record K) → Except Fault (VectorSearchAlgorithm K)) (c : Collection K)
    (alg : VectorSearchAlgorithm K)
    (hC : e.collections.find name = some c) (ha : e.algorithms.find a = none)
    (hmk : mk c.data = .ok alg) :
    ∃ returned e', e.addAlgorithm a name mk = .ok (returned, e') ∧
      a ∈ e'.listAlgorithmNames ∧
      (∀ q ef, e'.queryAlgorithm a q ef = alg.searchClosest q ef) ∧
      (∀ b q ef, e'.algorithms.find b = none → e'.queryAlgorithm b q ef = .ok []) := by
  obtain ⟨u, hu⟩ := VectorSearchEngine.uniqueNameLoop_returns e.algorithms name
  have hfind : (e.algorithms.emplace a alg).find a = some alg :=
    VectorSearchEngine.find_emplace_self _ _ _ ha
  refine ⟨u, { e with algorithms := e.algorithms.emplace a alg }, ?_, ?_, ?_, ?_⟩
  · unfold VectorSearchEngine.addAlgorithm
    rw [hC]
    simp only [hmk, hu]
  · show a ∈ StdMap.keys (e.algorithms.emplace a alg)
    rw [VectorSearchEngine.mem_keys]
    apply VectorSearchEngine.find_ne_none_mem
    rw [hfind]
    simp
  · intro q ef
    unfold VectorSearchEngine.queryAlgorithm
    show (match (e.algorithms.emplace a alg).find a with
      | some algorithm => algorithm.searchClosest q ef
      | none => .ok []) = _
    rw [hfind]
  · intro b q ef hb
    unfold VectorSearchEngine.queryAlgorithm
    rw [hb]


/-! ## Vamana: searching with a beam as wide as the graph -/

namespace Vamana

variable {K : Type}

/-- The refinement pass leaves every edge inside the arena. -/
theorem refineLoop_bounded (N s : Nat) (hsN : s < N) (l : List Nat) :
    ∀ (v v' : Vamana K), v.Bounded N → v.startNode = some s → (∀ x ∈ l, x < N) →
      refineLoop l v = .ok v' → v'.Bounded N := by
  induction l with
  | nil => intro v v' hb _ _ h; cases h; exact hb
  | cons node rest ih =>
    intro v v' hb hs hl h
    have hnode : node < N := hl node (List.mem_cons_self _ _)
    obtain ⟨V, hV, hVb⟩ := search_ok v N s (v.vecOf node) 1 hb hs hsN
    simp only [refineLoop, hV] at h
    have hb1 := robust_prune_bounded v N node V hb hVb
    have hb2 := refineInbound_bounded N node hnode ((v.robust_prune node V).incoming node) _ hb1
    have hc := (robust_prune_sameCore v node V).chain
      (refineInbound_sameCore node ((v.robust_prune node V).incoming node) _)
    exact ih _ _ hb2 (by rw [hc.1]; exact hs) (fun x hx => hl x (List.mem_cons_of_mem _ hx)) h

/-- What a construction over a non-empty snapshot that returns has built: the
start node is a node of the arena, every edge stays inside the arena, and the
arena holds the records of the snapshot in their order. -/
theorem build_shape (S : List (Record K)) (alpha : Flt) (vector_len R nq : Int) (gen gen' : Gen)
    (v : Vamana K) (hne : S ≠ []) (hb : build S alpha vector_len R nq gen = .ok (v, gen')) :
    ∃ s, v.startNode = some s ∧ s < S.length ∧ v.Bounded S.length ∧
      v.arena.map (fun x => x.value) = S := by
  obtain ⟨harena, hnodes, _, _⟩ := build_nodes S alpha vector_len R nq
  have hpos : 0 < S.length := List.length_pos.mpr hne
  have hb1 := foldl_addNode_bounded S alpha vector_len R nq
  simp only [build, build_rng] at hb
  cases hfs : (S.foldl addNode (empty alpha vector_len R nq)).find_start_node with
  | error err => rw [hfs] at hb; cases hb
  | ok v2 =>
    rw [hfs] at hb
    simp only at hb
    have hv2 : v2.arena = (S.foldl addNode (empty alpha vector_len R nq)).arena ∧
        v2.nodes = (S.foldl addNode (empty alpha vector_len R nq)).nodes ∧
        ∀ s, v2.startNode = some s → s < S.length := by
      unfold find_start_node at hfs
      split at hfs
      · rename_i he
        rw [hnodes] at he
        simp only [List.isEmpty_eq_true, List.range_eq_nil] at he
        omega
      · split at hfs
        · cases hfs
        · split at hfs
          · cases hfs
          · cases hfs
            refine ⟨rfl, rfl, ?_⟩
            intro s hs
            simp only at hs
            rcases closestLoop_spec
              (fun node => defaultDistance
                ((S.foldl addNode (empty alpha vector_len R nq)).vecOf node)
                (S.foldl addNode (empty alpha vector_len R nq)).averageVector)
              (S.foldl addNode (empty alpha vector_len R nq)).nodes FLT_MAX none
              with ⟨h1, _⟩ | ⟨s', h1, h2, _, _⟩
            · rw [h1] at hs; cases hs
            · rw [h1] at hs
              cases hs
              rw [hnodes] at h2
              exact List.mem_range.mp h2
    have hb2 : v2.Bounded S.length :=
      ⟨by rw [hv2.1]; exact hb1.1, by rw [hv2.1]; exact hb1.2.1, by rw [hv2.2.1]; exact hb1.2.2⟩
    have hb3 := wireLoop_bounded S.length hpos v2.nodes.length 0 v2 gen hb2
    have hw := wireLoop_sameCore v2.nodes.length 0 v2 gen
    split at hb
    · cases hb
    · rename_i v4 h4
      cases hb
      obtain ⟨hcore, hstart⟩ := refineLoop_sameCore _ _ _ h4
      have hnonempty : (wireLoop v2.nodes.length 0 v2 gen).1.nodes ≠ [] := by
        intro h0
        have := hw.2.2.2.2.2
        rw [h0, hv2.2.1, hnodes] at this
        simp at this
        omega
      have hs3 := hstart hnonempty
      rw [hw.1] at hs3
      cases hst : v2.startNode with
      | none => exact absurd hst hs3
      | some s =>
        have hsN := hv2.2.2 s hst
        refine ⟨s, ?_, hsN, ?_, ?_⟩
        · rw [hcore.1, hw.1]; exact hst
        · exact refineLoop_bounded S.length s hsN _ _ _ hb3 (by rw [hw.1]; exact hst) hb3.2.2 h4
        · rw [hcore.2.1, hw.2.1, hv2.1, harena, List.map_map]
          exact List.map_id _

/-- The distances of the records that `searchClosest` lists are those of the
nodes that `search` returns. -/
theorem map_dist_records (v : Vamana K) (q : Vec) :
    ∀ r : List Nat, (∀ n ∈ r, n < v.arena.length) →
      (r.filterMap (fun n => (v.arena[n]?).map (fun x => x.value))).map
          (fun rec => defaultDistance rec.2 q)
        = r.map (fun n => defaultDistance (v.vecOf n) q) := by
  intro r
  induction r with
  | nil => intro _; rfl
  | cons n rest ih =>
    intro hval
    have hn' := hval n (List.mem_cons_self _ _)
    have hsome : v.arena[n]? = some v.arena[n] := List.getElem?_eq_getElem hn'
    have hvec : v.vecOf n = v.arena[n].value.2 := by
      simp only [vecOf, hsome]
    simp only [List.filterMap_cons, hsome, Option.map_some', List.map_cons, hvec]
    rw [ih (fun m hm => hval m (List.mem_cons_of_mem _ hm))]

/-- On a graph whose edges stay inside the arena and in which every node can
be reached from the start node, `searchClosest` with `ef` at least the number
of nodes returns every record once, in non-decreasing order of distance. -/
theorem searchClosest_all (v : Vamana K) (N s : Nat) (q : Vec) (ef : Int) (hb : v.Bounded N)
    (hs : v.startNode = some s) (hsN : s < N)
    (hreach : ∀ x, x < N → Relation.ReflTransGen (fun a b => b ∈ v.outgoing a) s x)
    (hef : N ≤ toSizeT ef) :
    ∃ result, v.searchClosest q ef = .ok result ∧
      List.Perm result (v.arena.map (fun x => x.value)) ∧
      (result.map (fun rec => defaultDistance rec.2 q)).Pairwise (fun a b => a ≤ b) := by
  obtain ⟨r, hr, hnd, hmem, hsorted⟩ := beamSearch_complete v.outgoing
    (fun n => defaultDistance (v.vecOf n) q) (toSizeT ef)
    (fun size => decide (size > efMinusOne (toSizeT ef))) N (v.arena.length + 1) s
    (fun c x hx => outgoing_bounded v N hb c x hx) hsN hef (by rw [hb.1]; omega)
  have hperm : List.Perm r (List.range v.arena.length) := by
    apply perm_range_of_nodup r _ hnd
    intro x
    rw [hmem x, hb.1]
    constructor
    · intro hx
      have hP : ∀ y, Relation.ReflTransGen (fun a b => b ∈ v.outgoing a) s y → y < N := by
        intro y hy
        induction hy with
        | refl => exact hsN
        | tail _ hstep _ => exact outgoing_bounded v N hb _ _ hstep
      exact hP x hx
    · exact hreach x
  refine ⟨r.filterMap (fun n => (v.arena[n]?).map (fun x => x.value)), ?_, ?_, ?_⟩
  · simp only [searchClosest, search, hs, hr]
  · rw [← filterMap_range_getElem? (fun x => x.value) v.arena]
    exact hperm.filterMap _
  · rw [map_dist_records v q r (fun n hn => List.mem_range.mp (hperm.mem_iff.mp hn))]
    exact hsorted

end Vamana

/-- C27, as amended. For every Vamana graph built over a non-empty snapshot
`C` (any `R`, any `alpha`, any outcome of the random wiring) in which every
node can be reached from the start node along outgoing edges, every query `q`
and every `ef ≥ |C|`, the records and the query having `vector_len`
coordinates (which keeps every read of `defaultDistance` inside its vector):
`searchClosest(q, ef)` returns all records of `C`, each once, in
non-decreasing squared distance to `q`. -/
theorem vamana_exact_recall_when_reachable {K : Type} (C : List (Record K)) (alpha : Flt)
    (vector_len R nq : Int) (gen gen' : Gen) (v : Vamana K) (q : Vec) (ef : Int)
    (hne : C ≠ []) (hb : Vamana.build C alpha vector_len R nq gen = .ok (v, gen'))
    (hreach : ∀ s, v.startNode = some s → ∀ x, x < C.length →
      Relation.ReflTransGen (fun a b => b ∈ v.outgoing a) s x)
    (hef : C.length ≤ toSizeT ef)
    (hlen : ∀ r ∈ C, (r.2.length : Int) = vector_len) (hq : (q.length : Int) = vector_len) :
    ∃ result, v.searchClosest q ef = .ok result ∧ List.Perm result C ∧
      (result.map (fun rec => defaultDistance rec.2 q)).Pairwise (fun a b => a ≤ b) := by
  obtain ⟨s, hs, hsN, hbd, harena⟩ := Vamana.build_shape C alpha vector_len R nq gen gen' v hne hb
  obtain ⟨result, h1, h2, h3⟩ :=
    Vamana.searchClosest_all v C.length s q ef hbd hs hsN (hreach s hs) hef
  exact ⟨result, h1, by rw [← harena]; exact h2, h3⟩

/-- C27 as stated fails.  Vamana is built over the records `[0]`, `[20]`,
`[5]`, `[7]` with `R = 1` and `alpha = 1`, the shuffles being such that the
wiring loop meets every node once.  The wiring phase gives every node one
outgoing neighbour, as intended: `0 → 3`, `1 → 2`, `2 → 3`, `3 → 0`.  No edge
leads to the node `1`, and the node `2`, the only one it points to, has one
incoming edge, which is not more than `R`: the refinement pass never takes the
node `1` as a candidate.  The start node is the node `3`; after the refinement
pass the outgoing lists are `[3, 3]`, `[2, 2]`, `[3, 3]`, `[0, 0, 0, 0, 0]`, so
that only the nodes `3` and `0` can be reached, and `searchClosest([0], 4)`
with `ef = 4 = |C|` returns two of the four records. -/
theorem vamana_recall_counterexample :
    (match (([((0 : Nat), ([0] : Vec)), (1, [20]), (2, [5]), (3, [7])].foldl Vamana.addNode
        (Vamana.empty 1 1 1 1)).find_start_node) with
      | .ok v2 =>
          some ((List.range 4).map (Vamana.wireLoop v2.nodes.length 0 v2
            ⟨fun p => [0, 0, 0, 0, 0, 1, 1, 0, 1, 0, 0, 1].getD p 0, 0⟩).1.outgoing)
      | .error _ => none) = some [[3], [2], [3], [0]] ∧
    (match Vamana.build [((0 : Nat), ([0] : Vec)), (1, [20]), (2, [5]), (3, [7])] 1 1 1 1
        ⟨fun p => [0, 0, 0, 0, 0, 1, 1, 0, 1, 0, 0, 1].getD p 0, 0⟩ with
      | .ok (v, _) => some (v.startNode, (List.range 4).map v.outgoing)
      | .error _ => none) = some (some 3, [[3, 3], [2, 2], [3, 3], [0, 0, 0, 0, 0]]) ∧
    (match Vamana.build [((0 : Nat), ([0] : Vec)), (1, [20]), (2, [5]), (3, [7])] 1 1 1 1
        ⟨fun p => [0, 0, 0, 0, 0, 1, 1, 0, 1, 0, 0, 1].getD p 0, 0⟩ with
      | .ok (v, _) => v.searchClosest [0] 4
      | .error err => .error err) = .ok [(0, [0]), (3, [7])] := by
  refine ⟨?_, ?_, ?_⟩ <;> decide!

/-! ## HNSW: the layer that holds every record -/

namespace HNSW_graph

variable {K : Type}

/-- A run of `insert` calls on a well-formed, symmetric graph whose top layer
is connected returns and leaves such a graph, with one more node for every
record. -/
theorem insertAll_connected (values : List (Record K)) :
    ∀ (g : HNSW_graph K) (gen : Gen), g.Valid → g.EdgeSymmetric → g.TopConnected →
      ∃ g' gen', insertAll values g gen = .ok (g', gen') ∧ g'.Valid ∧ g'.EdgeSymmetric ∧
        g'.TopConnected ∧ g'.num_layers = g.num_layers ∧
        g'.nodes.map (fun x => x.value) = g.nodes.map (fun x => x.value) ++ values := by
  induction values with
  | nil => intro g gen hv hs hc; exact ⟨g, gen, rfl, hv, hs, hc, rfl, by simp⟩
  | cons value rest ih =>
    intro g gen hv hs hc
    obtain ⟨g1, gen1, h1, hv1, hs1, hsd⟩ := insert_symmetric g value gen hv hs
    obtain ⟨g1', gen1', h1', hc1⟩ := insert_connected g value gen hv hc
    rw [h1] at h1'
    cases h1'
    obtain ⟨g2, gen2, h2, hv2, hs2, hc2, hnl, hrec⟩ := ih g1 gen1 hv1 hs1 hc1
    refine ⟨g2, gen2, ?_, hv2, hs2, hc2, ?_, ?_⟩
    · simp only [insertAll, h1]; exact h2
    · rw [hnl, hsd.2.2.1]; rfl
    · rw [hrec, hsd.2.2.2.2.2]
      simp [pushNode]

/-- In a symmetric graph with at least two nodes whose top layer is connected,
every node has an edge in the top layer. -/
theorem top_edge_of_connected (g : HNSW_graph K) (hs : g.EdgeSymmetric) (hc : g.TopConnected)
    (h2 : 2 ≤ g.nodes.length) (n : Nat) (hn : n < g.nodes.length) :
    g.adjacents (g.num_layers - 1) n ≠ [] := by
  by_cases h0 : n = 0
  · have h1 := hc 1 (by omega)
    rcases Relation.ReflTransGen.cases_head h1 with h | ⟨c, hc1, _⟩
    · omega
    · rw [h0]
      exact List.ne_nil_of_mem hc1
  · have hr := hc n hn
    rcases Relation.ReflTransGen.cases_tail hr with h | ⟨c, _, hc1⟩
    · omega
    · exact List.ne_nil_of_mem ((hs _ c n).mp hc1)

end HNSW_graph

/-- C28, as amended. After any sequence of insert calls on an HNSW graph with
at least one layer, the layer `num_layers - 1` contains every inserted record:
each inserted node can be reached from the first node along edges of that
layer and, once the graph holds at least two nodes, is linked by an edge of
that layer. -/
theorem hnsw_top_layer_holds_every_record {K : Type} (mL : Flt) (vector_len : Int)
    (num_layers : Nat) (efc : Int) (dist : Vec → Vec → Flt) (values : List (Record K))
    (gen : Gen) (h : 0 < num_layers) :
    ∃ g gen', HNSW_graph.insertAll values
        (HNSW_graph.empty mL vector_len num_layers efc dist) gen = .ok (g, gen') ∧
      g.nodes.map (fun x => x.value) = values ∧
      ∀ n, n < values.length →
        Relation.ReflTransGen (fun a b => b ∈ g.adjacents (num_layers - 1) a) 0 n ∧
        (2 ≤ values.length → g.adjacents (num_layers - 1) n ≠ []) := by
  obtain ⟨g, gen', hg, _, hs, hc, hnl, hrec⟩ := HNSW_graph.insertAll_connected values
    (HNSW_graph.empty mL vector_len num_layers efc dist) gen
    (HNSW_graph.empty_valid mL vector_len num_layers efc dist h)
    (HNSW_graph.empty_symmetric mL vector_len num_layers efc dist)
    (by intro x hx; simp [HNSW_graph.empty] at hx)
  have hrec' : g.nodes.map (fun x => x.value) = values := by
    rw [hrec]; simp [HNSW_graph.empty]
  have hlen : g.nodes.length = values.length := by
    rw [← hrec', List.length_map]
  have hnl' : g.num_layers = num_layers := by rw [hnl]; rfl
  refine ⟨g, gen', hg, hrec', ?_⟩
  intro n hn
  constructor
  · have := hc n (by omega)
    rw [hnl'] at this
    exact this
  · intro h2
    have := HNSW_graph.top_edge_of_connected g hs hc (by omega) n (by omega)
    rw [hnl'] at this
    exact this

/-- C28, as amended, at an instance: three records inserted into a graph of
two layers. -/
theorem hnsw_top_layer_holds_every_record_witness :
    0 < 2 ∧ ∃ g gen', HNSW_graph.insertAll
        [("a", [0]), ("b", [1]), ("c", [2])]
        (HNSW_graph.empty (9 / 10) 1 2 1 defaultDistance) ⟨fun _ => 1, 0⟩ = .ok (g, gen') ∧
      g.nodes.map (fun x => x.value) = [("a", [0]), ("b", [1]), ("c", [2])] ∧
      ∀ n, n < [("a", ([0] : Vec)), ("b", [1]), ("c", [2])].length →
        Relation.ReflTransGen (fun a b => b ∈ g.adjacents (2 - 1) a) 0 n ∧
        (2 ≤ [("a", ([0] : Vec)), ("b", [1]), ("c", [2])].length →
          g.adjacents (2 - 1) n ≠ []) :=
  ⟨by decide, hnsw_top_layer_holds_every_record (9 / 10) 1 2 1 defaultDistance
    [("a", [0]), ("b", [1]), ("c", [2])] ⟨fun _ => 1, 0⟩ (by decide)⟩

/-- C28 as stated fails.  Three records are inserted into a graph with two
layers, the second and the third with insertion layer `1`.  Afterwards
`layers[0]` lists one node, the node `1` that the last insert has written to
`layers[0][0]`, and no node has an edge at layer `0`: the nodes `0` and `2`
are neither listed in `layers[0]` nor linked by a layer-0 edge.  All three
nodes are linked at layer `1`. -/
theorem hnsw_layer0_misses_records :
    (match HNSW_graph.insertAll [("a", [0]), ("b", [1]), ("c", [2])]
        (HNSW_graph.empty (9 / 10) 1 2 1 defaultDistance) ⟨fun _ => 1, 0⟩ with
      | .ok (g, _) => some (g.layers, g.adjacents 0 0, g.adjacents 0 1, g.adjacents 0 2)
      | .error _ => none) = some ([[1], [0]], [], [], []) ∧
    (match HNSW_graph.insertAll [("a", [0]), ("b", [1]), ("c", [2])]
        (HNSW_graph.empty (9 / 10) 1 2 1 defaultDistance) ⟨fun _ => 1, 0⟩ with
      | .ok (g, _) => some (g.adjacents 1 0, g.adjacents 1 1, g.adjacents 1 2)
      | .error _ => none) = some ([1], [0, 2], [1]) := by
  constructor <;> decide!

/-! ## Vamana: the random wiring; HNSW: the entry node -/

/-- C31, the code at a failing input.  Vamana over the three records `[0]`,
`[1]`, `[5]` with `R = 1`; every shuffle of the wiring loop puts the node `2`
at the position the loop is at, so the reference `node` names the node `2` in
all three iterations.  After the wiring phase the nodes `0` and `1` have no
outgoing neighbour instead of `min(R, n - 1) = 1`, the node `2` has the three
outgoing neighbours `0, 1, 0`, which are not pairwise distinct, and the
incoming list of the node `0` holds the node `2` twice. -/
theorem vamana_wiring_degrees :
    (match ([("a", [0]), ("b", [1]), ("c", ([5] : Vec))].foldl Vamana.addNode
        (Vamana.empty 1 1 1 1 : Vamana String)).find_start_node with
      | .ok v2 =>
          some (((Vamana.wireLoop v2.nodes.length 0 v2 ⟨fun _ => 4, 0⟩).1.arena.map
            (fun x => x.outgoingAdjList)),
            ((Vamana.wireLoop v2.nodes.length 0 v2 ⟨fun _ => 4, 0⟩).1.arena.map
            (fun x => x.incomingAdjList)))
      | .error _ => none) = some ([[], [], [0, 1, 0]], [[2, 2], [2], []]) := by
  decide!

/-- C37, the code at a failing input.  The graph has two layers and holds the
records `[0]` and `[1]`; its layer lists are `[[0], [0]]`.  The insert of the
record `[2]` with insertion layer `1` assigns to `curr_node`, a reference to
`layers[0][0]`, the nearest node found: afterwards the layer lists are
`[[1], [0]]` and the entry node `layers[0][0]` is the node `1`. -/
theorem hnsw_insert_overwrites_entry :
    (match HNSW_graph.insertAll [("a", [0]), ("b", [1])]
        (HNSW_graph.empty (9 / 10) 1 2 1 defaultDistance) ⟨fun _ => 1, 0⟩ with
      | .ok (g, gen) =>
          (match g.insert ("c", [2]) gen with
            | .ok (g2, _) => some (g.layers, g2.layers)
            | .error _ => none)
      | .error _ => none) = some ([[0], [0]], [[1], [0]]) := by
  decide!

/-! ## Annoy: the split by distance; HNSW: the top-level search -/

/-- The distance branch of `splitData` keeps the order of the records on both
sides. -/
theorem splitByDistance_filter {K : Type} (v1 v2 : Vec) (data : List (Record K)) :
    (splitByDistance v1 v2 data).1
      = data.filter (fun item => decide (defaultDistance item.2 v1 < defaultDistance item.2 v2)) ∧
    (splitByDistance v1 v2 data).2
      = data.filter (fun item =>
          decide (¬ defaultDistance item.2 v1 < defaultDistance item.2 v2)) := by
  induction data with
  | nil => exact ⟨rfl, rfl⟩
  | cons item rest ih =>
    simp only [splitByDistance]
    by_cases h : defaultDistance item.2 v1 < defaultDistance item.2 v2
    · rw [if_pos h]
      simp only [List.filter_cons, h, decide_True, not_true_eq_false, decide_False, if_true]
      exact ⟨by rw [ih.1], by simpa using ih.2⟩
    · rw [if_neg h]
      simp only [List.filter_cons, h, decide_False, not_false_eq_true, decide_True, if_true]
      exact ⟨by simpa using ih.1, by rw [ih.2]⟩

/-- C35, as amended. When the two pivots differ, `splitData` sends every
record strictly nearer (by squared distance) to `p1` to the left side and
every other record to the right side: the records strictly nearer to `p2` and
also the records equidistant from the two pivots.  Both sides keep the order
of the records, and no random draw is consumed. -/
theorem splitData_ties_go_right {K : Type} (data : List (Record K)) (p1 p2 : Vec) (g : Gen)
    (hne : p1 ≠ p2) :
    (splitData data (p1, p2) g).1.1
      = data.filter (fun item => decide (defaultDistance item.2 p1 < defaultDistance item.2 p2)) ∧
    (splitData data (p1, p2) g).1.2
      = data.filter (fun item =>
          decide (defaultDistance item.2 p2 < defaultDistance item.2 p1
            ∨ defaultDistance item.2 p1 = defaultDistance item.2 p2)) ∧
    (splitData data (p1, p2) g).2 = g := by
  unfold splitData
  rw [if_neg hne]
  refine ⟨(splitByDistance_filter p1 p2 data).1, ?_, rfl⟩
  rw [(splitByDistance_filter p1 p2 data).2]
  apply List.filter_congr
  intro item _
  simp only [decide_eq_decide, not_lt]
  exact ⟨fun h => (lt_or_eq_of_le h).imp id Eq.symm,
    fun h => h.elim le_of_lt (fun e => le_of_eq e.symm)⟩

/-- C35, as amended, at an instance: the pivots `[0]` and `[2]` and the records
`[0]`, `[1]`, `[2]`, of which `[1]` is equidistant. -/
theorem splitData_ties_go_right_witness :
    ([0] : Vec) ≠ [2] ∧
    (splitData [("a", [0]), ("b", [1]), ("c", [2])] ([0], [2]) ⟨fun _ => 0, 0⟩).1.1
      = [("a", [0]), ("b", [1]), ("c", ([2] : Vec))].filter
          (fun item => decide (defaultDistance item.2 [0] < defaultDistance item.2 [2])) :=
  ⟨by decide!,
    (splitData_ties_go_right [("a", [0]), ("b", [1]), ("c", [2])] [0] [2] ⟨fun _ => 0, 0⟩
      (by decide!)).1⟩

/-- C35 as stated fails.  The pivots are `[0]` and `[2]`; the record `[1]` is at
squared distance `1` from both and is sent to the right side. -/
theorem splitData_tie_counterexample :
    ([0] : Vec) ≠ [2] ∧ defaultDistance [1] [0] = defaultDistance [1] [2] ∧
    (splitData [("b", ([1] : Vec))] ([0], [2]) ⟨fun _ => 0, 0⟩).1 = ([], [("b", [1])]) := by
  refine ⟨by decide!, by decide!, by decide!⟩

namespace HNSW_graph

variable {K : Type}

/-- The loop of `search` over the layers `i .. i + k - 1`, started at the node
that the specification's descent reaches through the layers `0 .. i - 1`, ends
where the specification's descent through the layers `0 .. i + k - 1` ends. -/
theorem descend_specDescent (g : HNSW_graph K) (q : Vec) (start : Nat) (k : Nat) :
    ∀ i : Nat,
      (match specDescent g q i start with
        | .error e => .error e
        | .ok b => descend g q k i b) = specDescent g q (i + k) start := by
  induction k with
  | zero =>
    intro i
    cases h : specDescent g q i start with
    | error e => simp [h]
    | ok b => simp [descend, h]
  | succ k ih =>
    intro i
    have hstep := ih (i + 1)
    rw [show i + (k + 1) = i + 1 + k by omega, ← hstep]
    cases h : specDescent g q i start with
    | error e => simp [specDescent, h]
    | ok b =>
      simp only [descend, specDescent, h]
      cases hs : g.search_layer i b q 1 with
      | error e => rfl
      | ok r =>
        cases r with
        | nil => rfl
        | cons best rest => rfl

end HNSW_graph

/-- C33, as amended. For every HNSW graph, query `q` and `ef`, `search(q, ef)`
equals `search_layer(num_layers - 1, s, q, ef)`, where `s` is the node reached
from the entry node by greedy `ef = 1` `search_layer` descents through all the
layers `0 .. num_layers - 1`: the top layer is searched twice, first with beam
width `1` and then with beam width `ef`. -/
theorem hnsw_search_descends_all_layers {K : Type} (g : HNSW_graph K) (q : Vec) (ef : Nat) :
    g.search q ef = specSearch g q ef g.num_layers := by
  unfold HNSW_graph.search specSearch
  cases g.layers with
  | nil => rfl
  | cons layer0 rest =>
    cases layer0 with
    | nil => rfl
    | cons entry rest0 =>
      have h := HNSW_graph.descend_specDescent g q entry g.num_layers 0
      simp only [specDescent, Nat.zero_add] at h
      simp only [h]

/-- C33 as stated fails.  The graph has one layer and holds the records
`[3, 0]`, `[2, 4]`, `[0, 3]`, `[4, 2]`, with the edges `0 - 1`, `1 - 2`,
`0 - 3` and the entry node `0`.  For the query `[3, 4]` the squared distances
are `16`, `1`, `10`, `5`.  The search of the specification, which starts the
beam of width `2` at the entry node, returns the nodes `1, 3`; `search`
first moves to the node `1` with a beam of width `1` and returns the nodes
`1, 2`. -/
theorem hnsw_search_counterexample :
    (match HNSW_graph.insertAll [("a", [3, 0]), ("b", [2, 4]), ("c", [0, 3]), ("d", [4, 2])]
        (HNSW_graph.empty (9 / 10) 2 1 1 defaultDistance) ⟨fun _ => 0, 0⟩ with
      | .ok (g, _) =>
          some (g.layers, g.adjacents 0 0, g.adjacents 0 1, g.adjacents 0 2, g.adjacents 0 3)
      | .error _ => none) = some ([[0]], [1, 3], [0, 2], [1], [0]) ∧
    (match HNSW_graph.insertAll [("a", [3, 0]), ("b", [2, 4]), ("c", [0, 3]), ("d", [4, 2])]
        (HNSW_graph.empty (9 / 10) 2 1 1 defaultDistance) ⟨fun _ => 0, 0⟩ with
      | .ok (g, _) => some (g.search [3, 4] 2, specSearch g [3, 4] 2 (g.num_layers - 1))
      | .error _ => none) = some (.ok [1, 2], .ok [1, 3]) := by
  constructor <;> decide!

/-! ## The beam search for any beam width -/

/-- The visit of one neighbour keeps the invariant `BeamSound`. -/
theorem visitNeighbor_sound (dist : Nat → Flt) (ef : Nat) (s : BeamState) (n : Nat)
    (h : BeamSound dist ef s) : BeamSound dist ef (visitNeighbor dist ef s n) := by
  obtain ⟨hsort, hd, hnd, hvis, hlen, hcand⟩ := h
  unfold visitNeighbor
  by_cases hn : n ∈ s.visited_nodes
  · rw [if_pos hn]; exact ⟨hsort, hd, hnd, hvis, hlen, hcand⟩
  · rw [if_neg hn]
    simp only
    split
    · have hsort0 := pqPush_max_sorted (dist n, n) s.nearest_neighbors hsort
      have hlen0 := length_pqPush maxCompare (dist n, n) s.nearest_neighbors
      have hd0 : ∀ p ∈ pqPush maxCompare (dist n, n) s.nearest_neighbors, p.1 = dist p.2 := by
        intro p hp
        rcases (mem_pqPush _ _ _ _).mp hp with rfl | hp
        · rfl
        · exact hd p hp
      have hnd0 : ((pqPush maxCompare (dist n, n) s.nearest_neighbors).map Prod.snd).Nodup := by
        have hperm := (pqPush_perm maxCompare (dist n, n) s.nearest_neighbors).map Prod.snd
        rw [hperm.nodup_iff]
        simp only [List.map_cons, List.nodup_cons]
        refine ⟨?_, hnd⟩
        intro hmem
        obtain ⟨p, hp, hpn⟩ := List.mem_map.mp hmem
        exact hn (hpn ▸ hvis p hp)
      have hvis0 : ∀ p ∈ pqPush maxCompare (dist n, n) s.nearest_neighbors,
          p.2 ∈ n :: s.visited_nodes := by
        intro p hp
        rcases (mem_pqPush _ _ _ _).mp hp with rfl | hp
        · exact List.mem_cons_self _ _
        · exact List.mem_cons_of_mem _ (hvis p hp)
      by_cases hbig : (pqPush maxCompare (dist n, n) s.nearest_neighbors).length > ef
      · simp only [hbig, if_true]
        refine ⟨hsort0.sublist (List.tail_sublist _), ?_, ?_, ?_, ?_, ?_⟩
        · intro p hp; exact hd0 p (List.mem_of_mem_tail hp)
        · exact hnd0.sublist ((List.tail_sublist _).map _)
        · intro p hp; exact hvis0 p (List.mem_of_mem_tail hp)
        · rw [List.length_tail]; omega
        · intro hlt
          rw [List.length_tail] at hlt
          omega
      · simp only [hbig, if_false]
        have hle : (pqPush maxCompare (dist n, n) s.nearest_neighbors).length ≤ ef := by omega
        refine ⟨hsort0, hd0, hnd0, hvis0, hle, ?_⟩
        intro hlt p hp
        have hlt' : (pqPush maxCompare (dist n, n) s.nearest_neighbors).length < ef := hlt
        rcases (mem_pqPush _ _ _ _).mp hp with rfl | hp
        · exact (mem_pqPush _ _ _ _).mpr (Or.inl rfl)
        · exact (mem_pqPush _ _ _ _).mpr (Or.inr (hcand (by omega) p hp))
    · exact ⟨hsort, hd, hnd, fun p hp => List.mem_cons_of_mem _ (hvis p hp), hlen, hcand⟩

/-- The visit of a list of neighbours keeps the invariant `BeamSound`. -/
theorem foldl_visit_sound (dist : Nat → Flt) (ef : Nat) (l : List Nat) :
    ∀ s, BeamSound dist ef s → BeamSound dist ef (l.foldl (visitNeighbor dist ef) s) := by
  induction l with
  | nil => intro s h; exact h
  | cons n rest ih => intro s h; exact ih _ (visitNeighbor_sound dist ef s n h)

/-- The `pop()` of a candidate keeps the invariant `BeamSound`. -/
theorem pop_sound (dist : Nat → Flt) (ef : Nat) (s : BeamState) (current : Flt × Nat)
    (rest : List (Flt × Nat)) (h : BeamSound dist ef s) (hc : s.candidates = current :: rest) :
    BeamSound dist ef { s with candidates := rest } := by
  obtain ⟨hsort, hd, hnd, hvis, hlen, hcand⟩ := h
  refine ⟨hsort, hd, hnd, hvis, hlen, ?_⟩
  intro hlt p hp
  exact hcand hlt p (by rw [hc]; exact List.mem_cons_of_mem _ hp)

/-- The initial state of the beam search satisfies `BeamSound`. -/
theorem initial_sound (dist : Nat → Flt) (ef startNode : Nat) (hef : 1 ≤ ef) :
    BeamSound dist ef
      { visited_nodes := [startNode]
        candidates := [(dist startNode, startNode)]
        nearest_neighbors := [(dist startNode, startNode)] } := by
  refine ⟨by simp, by simp, by simp, by simp, by simpa using hef, ?_⟩
  intro _ p hp
  exact hp

/-- What the beam search returns for a beam width `ef ≥ 1`: at most `ef`
nodes, pairwise distinct, in non-decreasing order of distance. -/
theorem beamSearch_sound (adj : Nat → List Nat) (dist : Nat → Flt) (ef : Nat)
    (full : Nat → Bool) (fuel startNode : Nat) (r : List Nat) (hef : 1 ≤ ef)
    (h : beamSearch adj dist ef full fuel startNode = some r) :
    r.length ≤ ef ∧ r.Nodup ∧ (r.map dist).Pairwise (fun a b => a ≤ b) := by
  simp only [beamSearch] at h
  split at h
  · cases h
  · rename_i s' hs'
    cases h
    obtain ⟨hsort, hd, hnd, _, hlen, _⟩ := beamLoop_invariant adj dist ef full (BeamSound dist ef)
      (fun s current rest hI hc => pop_sound dist ef s current rest hI hc)
      (fun s current rest hI hc =>
        foldl_visit_sound dist ef _ _ (pop_sound dist ef s current rest hI hc))
      fuel _ s' (initial_sound dist ef startNode hef) hs'
    rw [drainNearest_eq]
    simp only [List.append_nil, List.length_reverse, List.length_map, List.nodup_reverse,
      List.map_reverse, List.map_map, List.pairwise_reverse]
    refine ⟨hlen, hnd, ?_⟩
    rw [List.pairwise_map]
    refine hsort.imp_of_mem ?_
    intro a b ha hb hab
    simp only [Function.comp]
    rw [← hd a ha, ← hd b hb]
    exact hab

/-- The loop of the beam search takes the same course with the stop test of
HNSW, `size > 0`, as with the stop test of the specification, `size ≥ ef`:
while `nearest_neighbors` holds fewer than `ef` entries the popped candidate is
one of them and is not farther than the worst. -/
theorem beamLoop_stop_test (adj : Nat → List Nat) (dist : Nat → Flt) (ef : Nat) (hef : 1 ≤ ef) :
    ∀ fuel s, BeamSound dist ef s →
      beamLoop adj dist ef (fun size => decide (size > 0)) fuel s
        = beamLoop adj dist ef (fun size => decide (size ≥ ef)) fuel s := by
  intro fuel
  induction fuel with
  | zero => intro s _; rfl
  | succ fuel ih =>
    intro s hI
    simp only [beamLoop]
    cases hc : s.candidates with
    | nil => rfl
    | cons current rest =>
      simp only
      have htest : (decide (s.nearest_neighbors.length > 0)
            && aboveTop current.1 s.nearest_neighbors)
          = (decide (s.nearest_neighbors.length ≥ ef)
            && aboveTop current.1 s.nearest_neighbors) := by
        by_cases hlen : s.nearest_neighbors.length ≥ ef
        · have : s.nearest_neighbors.length > 0 := by omega
          simp [hlen, this]
        · have hmem : current ∈ s.nearest_neighbors :=
            hI.2.2.2.2.2 (by omega) current (by rw [hc]; exact List.mem_cons_self _ _)
          rw [aboveTop_false_of_mem current s.nearest_neighbors hI.1 hmem]
          simp
      rw [htest]
      split
      · rfl
      · exact ih _ (foldl_visit_sound dist ef (adj current.2) _
          (pop_sound dist ef s current rest hI hc))

/-- The beam search of HNSW returns what the beam search of the specification
returns. -/
theorem beamSearch_stop_test (adj : Nat → List Nat) (dist : Nat → Flt) (ef fuel startNode : Nat)
    (hef : 1 ≤ ef) :
    beamSearch adj dist ef (fun size => decide (size > 0)) fuel startNode
      = specBeamSearch adj dist ef fuel startNode := by
  unfold specBeamSearch beamSearch
  simp only
  rw [beamLoop_stop_test adj dist ef hef fuel _ (initial_sound dist ef startNode hef)]

/-- The stop test of Vamana, `size > ef - 1`, is the stop test of the
specification when `ef ≥ 1`. -/
theorem vamana_stop_test (ef : Nat) (hef : 1 ≤ ef) :
    (fun size : Nat => decide (size > Vamana.efMinusOne ef))
      = (fun size : Nat => decide (size ≥ ef)) := by
  funext size
  have h : Vamana.efMinusOne ef = ef - 1 := by
    unfold Vamana.efMinusOne
    rw [if_neg (by omega)]
  rw [h]
  apply decide_eq_decide.mpr
  omega

/-- C32. For every layer `i` of a well-formed HNSW graph, every start node `s`
of the graph, every query `q` and every `ef ≥ 1`, `search_layer(i, s, q, ef)`
returns at least one and at most `ef` nodes, pairwise distinct, each reachable
from `s` through layer-`i` edges, listed in non-decreasing distance to `q`. -/
theorem search_layer_sound {K : Type} (g : HNSW_graph K) (i s : Nat) (q : Vec) (ef : Nat)
    (hg : g.Valid) (hi : i < g.num_layers) (hs : s < g.nodes.length) (hef : 1 ≤ ef) :
    ∃ r, g.search_layer i s q ef = .ok r ∧ 1 ≤ r.length ∧ r.length ≤ ef ∧ r.Nodup ∧
      (∀ x ∈ r, Relation.ReflTransGen (fun a b => b ∈ g.adjacents i a) s x) ∧
      (r.map (fun n => g.distanceFunction (g.vecOf n) q)).Pairwise (fun a b => a ≤ b) := by
  obtain ⟨r, hr⟩ := beamSearch_terminates (g.adjacents i)
    (fun n => g.distanceFunction (g.vecOf n) q) ef (fun size => decide (size > 0))
    g.nodes.length (g.nodes.length + 1) s (fun c x hx => hg.2.2.1 i c x hx) hs (by omega)
  obtain ⟨h1, h2, h3⟩ := beamSearch_sound _ _ ef _ _ s r hef hr
  refine ⟨r, ?_, ?_, h1, h2, ?_, h3⟩
  · simp only [HNSW_graph.search_layer, hr]
    rw [if_neg (by omega)]
  · exact List.length_pos.mpr (beamSearch_ne_nil _ _ _ _ _ _ _ hr)
  · exact beamSearch_all _ _ _ _ _ _
      (fun x => Relation.ReflTransGen (fun a b => b ∈ g.adjacents i a) s x)
      (fun c hc x hx => hc.tail hx) Relation.ReflTransGen.refl r hr

/-- C34. For every well-formed graph, start node, query and `ef ≥ 1`, HNSW
`search_layer` and Vamana `search` (whose `defaultDistance` reads the query
inside its bounds when no stored vector is longer than the query) each return,
and each returns the list that the reference beam search returns, whose loop
stops when `nearest` holds at least `ef` entries and the popped candidate is
farther than the worst entry of `nearest`. -/
theorem beam_stop_condition_matches_spec {K : Type} (g : HNSW_graph K) (v : Vamana K)
    (i s sv : Nat) (q : Vec) (ef : Nat) (hef : 1 ≤ ef)
    (hg : g.Valid) (hi : i < g.num_layers) (hs : s < g.nodes.length)
    (hv : v.Valid) (hstart : v.startNode = some sv) (hsv : sv < v.arena.length)
    (hq : v.QueryFits q) :
    (∃ r, g.search_layer i s q ef = .ok r ∧
      specBeamSearch (g.adjacents i) (fun n => g.distanceFunction (g.vecOf n) q) ef
        (g.nodes.length + 1) s = some r) ∧
    (∃ r, v.search q ef = .ok r ∧
      specBeamSearch v.outgoing (fun n => defaultDistance (v.vecOf n) q) ef
        (v.arena.length + 1) sv = some r) := by
  constructor
  · obtain ⟨r, hr⟩ := beamSearch_terminates (g.adjacents i)
      (fun n => g.distanceFunction (g.vecOf n) q) ef (fun size => decide (size > 0))
      g.nodes.length (g.nodes.length + 1) s (fun c x hx => hg.2.2.1 i c x hx) hs (by omega)
    refine ⟨r, ?_, ?_⟩
    · simp only [HNSW_graph.search_layer, hr]
      rw [if_neg (by omega)]
    · rw [← beamSearch_stop_test _ _ ef _ s hef]
      exact hr
  · obtain ⟨r, hr⟩ := beamSearch_terminates v.outgoing
      (fun n => defaultDistance (v.vecOf n) q) ef
      (fun size => decide (size > Vamana.efMinusOne ef)) v.arena.length (v.arena.length + 1) sv
      (fun c x hx => hv c x hx) hsv (by omega)
    refine ⟨r, by simp only [Vamana.search, hstart, hr], ?_⟩
    unfold specBeamSearch
    rw [← vamana_stop_test ef hef]
    exact hr

/-! ## Annoy: the shape of the tree -/

/-- A leaf made by `from_data` has the shape of a leaf. -/
theorem leaf_wellShaped {K : Type} (b m depth : Int) (data : List (Record K))
    (hne : data ≠ []) (hd : depth ≤ m + 1) (hlen : depth ≤ m → (data.length : Int) ≤ b) :
    (TreeNode.leaf data).WellShaped b m depth := by
  unfold TreeNode.leaf TreeNode.WellShaped
  refine ⟨hd, fun _ => ⟨hne, hlen⟩, fun h => absurd ⟨rfl, rfl⟩ h, ?_, ?_⟩ <;>
    simp [TreeNode.WellShaped]

/-- Every task of `from_data` on a non-empty list at a depth of at most
`max_depth + 1` builds a node, and the tree below it has the shape
`WellShaped`. -/
theorem buildNode_wellShaped {K : Type} (b m : Int) (hb : 1 ≤ b) (fuel : Nat) :
    ∀ (data : List (Record K)) (depth : Int) (g : Gen), data ≠ [] → depth ≤ m + 1 →
      m + 2 - depth ≤ (fuel : Int) →
      (buildNode b m fuel data depth g).1 ≠ .null ∧
      (buildNode b m fuel data depth g).1.WellShaped b m depth := by
  induction fuel with
  | zero => intro data depth g _ hd hf; simp at hf; omega
  | succ fuel ih =>
    intro data depth g hne hd hf
    simp only [buildNode]
    split
    · rename_i hleaf
      refine ⟨by simp [TreeNode.leaf], leaf_wellShaped b m depth data hne hd ?_⟩
      intro hdm
      rcases hleaf with h | h
      · have h64 : (2 : Int) ^ 64 = 18446744073709551616 := by norm_num
        have hts : (toSizeT b : Int) ≤ b := by
          unfold toSizeT
          rw [h64]
          omega
        have : (data.length : Int) ≤ (toSizeT b : Int) := by exact_mod_cast h
        omega
      · omega
    · rename_i hsplit
      have hdm : depth ≤ m := by
        by_contra hc
        exact hsplit (Or.inr (by omega))
      have hs := splitData_perm data (selectRandomVectors data g).1 (selectRandomVectors data g).2
      have hone : ¬ ((splitData data (selectRandomVectors data g).1
            (selectRandomVectors data g).2).1.1 = [] ∧
          (splitData data (selectRandomVectors data g).1
            (selectRandomVectors data g).2).1.2 = []) := by
        rintro ⟨h1, h2⟩
        rw [h1, h2] at hs
        exact hne (List.Perm.nil_eq hs).symm
      refine ⟨by simp, ?_⟩
      unfold TreeNode.WellShaped
      refine ⟨hd, ?_, fun _ => rfl, ?_, ?_⟩
      · rintro ⟨hl, hr⟩
        exfalso
        apply hone
        constructor
        · by_contra hx
          have hx' : ¬ (splitData data (selectRandomVectors data g).1
              (selectRandomVectors data g).2).1.1.isEmpty = true := by
            simpa [List.isEmpty_iff] using hx
          rw [if_neg hx'] at hl
          exact (ih _ (depth + 1) _ hx (by omega) (by push_cast at hf ⊢; omega)).1 hl
        · by_contra hx
          have hx' : ¬ (splitData data (selectRandomVectors data g).1
              (selectRandomVectors data g).2).1.2.isEmpty = true := by
            simpa [List.isEmpty_iff] using hx
          rw [if_neg hx'] at hr
          exact (ih _ (depth + 1) _ hx (by omega) (by push_cast at hf ⊢; omega)).1 hr
      · split
        · simp [TreeNode.WellShaped]
        · rename_i hx
          exact (ih _ (depth + 1) _ (by simpa [List.isEmpty_iff] using hx) (by omega)
            (by push_cast at hf ⊢; omega)).2
      · split
        · simp [TreeNode.WellShaped]
        · rename_i hx
          exact (ih _ (depth + 1) _ (by simpa [List.isEmpty_iff] using hx) (by omega)
            (by push_cast at hf ⊢; omega)).2

/-- C36. In every AnnoyTree built from a non-empty snapshot with bucket
threshold `b ≥ 1` and `max_depth = m ≥ 0`, for any random draws, the root is a
node and the tree has the shape `WellShaped`: no node lies deeper than
`m + 1`, every leaf at depth at most `m` holds at most `b` records, every leaf
holds at least one record, and every internal node has at least one child and
an empty record list. -/
theorem annoy_tree_shape {K : Type} (S : List (Record K)) (threshold : WithTop Flt)
    (b m : Int) (g : Gen) (hne : S ≠ []) (hb : 1 ≤ b) (hm : 0 ≤ m) :
    (AnnoyTree.build S threshold b m g).1.root ≠ .null ∧
    (AnnoyTree.build S threshold b m g).1.root.WellShaped b m 0 := by
  unfold AnnoyTree.build
  have he : S.isEmpty = false := by
    cases S with
    | nil => exact absurd rfl hne
    | cons a rest => rfl
  rw [he]
  simp only [Bool.false_eq_true, if_false, from_data]
  exact buildNode_wellShaped b m hb _ S 0 g hne (by omega) (by
    rw [Int.toNat_of_nonneg (by omega)]
    omega)

/-- C36, at an instance: three records, `b = 1`, `m = 1`. -/
theorem annoy_tree_shape_witness :
    [("a", [0]), ("b", [1]), ("c", ([2] : Vec))] ≠ [] ∧ (1 : Int) ≤ 1 ∧ (0 : Int) ≤ 1 ∧
    (AnnoyTree.build [("a", [0]), ("b", [1]), ("c", ([2] : Vec))] 1 1 1
      ⟨fun i => i, 0⟩).1.root ≠ .null ∧
    (AnnoyTree.build [("a", [0]), ("b", [1]), ("c", ([2] : Vec))] 1 1 1
      ⟨fun i => i, 0⟩).1.root.WellShaped 1 1 0 :=
  ⟨by simp, by decide, by decide,
    annoy_tree_shape [("a", [0]), ("b", [1]), ("c", ([2] : Vec))] 1 1 1 ⟨fun i => i, 0⟩
      (by simp) (by decide) (by decide)⟩

/-! ## `parse_req` accepts exactly the canonical encodings -/

/-- Reading a `u32` at a position is reading it at the start of the rest. -/
theorem readU32_drop (data : List Byte) (pos : Nat) :
    readU32 data pos = readU32 (data.drop pos) 0 := by
  simp only [readU32, List.getD_eq_getElem?_getD, List.getElem?_drop, Nat.add_zero, Nat.zero_add]

/-- Writing back the `u32` read from four bytes gives the four bytes. -/
theorem u32le_readU32_cons (a b c d : Byte) (rest : List Byte) :
    u32le (readU32 (a :: b :: c :: d :: rest) 0) = [a, b, c, d] := by
  have ha := a.isLt
  have hb := b.isLt
  have hc := c.isLt
  have hd := d.isLt
  simp only [readU32, u32le, byteOf, List.getD_cons_zero, List.getD_cons_succ, Nat.zero_add,
    List.cons.injEq, and_true]
  refine ⟨Fin.ext ?_, Fin.ext ?_, Fin.ext ?_, Fin.ext ?_⟩ <;> simp only <;> omega

/-- A `u32` read from four bytes is below `2^32`. -/
theorem readU32_lt (data : List Byte) (pos : Nat) : readU32 data pos < 2 ^ 32 := by
  have h0 := (data.getD pos 0).isLt
  have h1 := (data.getD (pos + 1) 0).isLt
  have h2 := (data.getD (pos + 2) 0).isLt
  have h3 := (data.getD (pos + 3) 0).isLt
  simp only [readU32]
  omega

/-- The bytes from a position on start with the `u32` read there. -/
theorem drop_eq_u32le_append (data : List Byte) (pos : Nat) (h : pos + 4 ≤ data.length) :
    data.drop pos = u32le (readU32 data pos) ++ data.drop (pos + 4) := by
  rw [readU32_drop, ← List.drop_drop 4 pos data]
  have hl : 4 ≤ (data.drop pos).length := by rw [List.length_drop]; omega
  generalize data.drop pos = l at hl
  match l, hl with
  | a :: b :: c :: d :: rest, _ =>
    rw [u32le_readU32_cons]
    rfl

/-- The loop of `parse_req` on the encoding of an argument list whose
arguments have lengths below `2^32` returns the arguments. -/
theorem parseLoop_encoded (args : List (List Byte)) :
    ∀ (pre : List Byte) (out : List (List Byte)), (∀ a ∈ args, a.length < 2 ^ 32) →
      parseLoop (pre ++ (args.map (fun arg => u32le arg.length ++ arg)).flatten)
        args.length pre.length out = some (out ++ args) := by
  induction args with
  | nil => intro pre out _; simp [parseLoop]
  | cons s rest ih =>
    intro pre out h
    have hs : s.length < 2 ^ 32 := h s (List.mem_cons_self _ _)
    simp only [List.length_cons, parseLoop, List.map_cons, List.flatten_cons]
    have hread : readU32 (pre ++ (u32le s.length ++ s
          ++ (rest.map (fun arg => u32le arg.length ++ arg)).flatten)) pre.length
        = s.length := by
      have := readU32_u32le pre (s ++ (rest.map (fun arg => u32le arg.length ++ arg)).flatten)
        s.length hs
      simpa [List.append_assoc] using this
    rw [hread]
    have h4 : (u32le s.length).length = 4 := rfl
    rw [if_neg (by simp only [List.length_append, h4]; omega),
      if_neg (by simp only [List.length_append, h4]; omega)]
    have hdrop : List.take s.length
        (List.drop (pre.length + 4) (pre ++ (u32le s.length ++ s
          ++ (rest.map (fun arg => u32le arg.length ++ arg)).flatten))) = s := by
      have e : pre ++ (u32le s.length ++ s
            ++ (rest.map (fun arg => u32le arg.length ++ arg)).flatten)
          = (pre ++ u32le s.length)
            ++ (s ++ (rest.map (fun arg => u32le arg.length ++ arg)).flatten) := by
        simp [List.append_assoc]
      rw [e, List.drop_append_of_le_length (by simp [h4]),
        List.drop_of_length_le (by simp [h4])]
      simp
    rw [hdrop]
    have e2 : pre ++ (u32le s.length ++ s
          ++ (rest.map (fun arg => u32le arg.length ++ arg)).flatten)
        = (pre ++ u32le s.length ++ s)
          ++ (rest.map (fun arg => u32le arg.length ++ arg)).flatten := by
      simp [List.append_assoc]
    have e3 : pre.length + 4 + s.length = (pre ++ u32le s.length ++ s).length := by
      simp only [List.length_append, h4]
    rw [e2, e3, ih _ _ (fun a ha => h a (List.mem_cons_of_mem _ ha))]
    simp

/-- When the loop of `parse_req` returns, the bytes from its position on are
the encoding of the arguments it has added. -/
theorem parseLoop_decode (data : List Byte) (n : Nat) :
    ∀ (pos : Nat) (out res : List (List Byte)), parseLoop data n pos out = some res →
      ∃ args, res = out ++ args ∧ args.length = n ∧ (∀ a ∈ args, a.length < 2 ^ 32) ∧
        data.drop pos = (args.map (fun arg => u32le arg.length ++ arg)).flatten := by
  induction n with
  | zero =>
    intro pos out res h
    simp only [parseLoop] at h
    split at h
    · cases h
    · rename_i hp
      cases h
      refine ⟨[], by simp, rfl, by simp, ?_⟩
      have : pos = data.length := by
        by_contra hc
        exact hp hc
      rw [this]
      simp
  | succ n ih =>
    intro pos out res h
    simp only [parseLoop] at h
    split at h
    · cases h
    · rename_i h1
      split at h
      · cases h
      · rename_i h2
        obtain ⟨args, hres, hlen, hall, hdrop⟩ := ih _ _ _ h
        have hal : ((data.drop (pos + 4)).take (readU32 data pos)).length = readU32 data pos := by
          rw [List.length_take, List.length_drop]
          omega
        refine ⟨(data.drop (pos + 4)).take (readU32 data pos) :: args, ?_, ?_, ?_, ?_⟩
        · rw [hres]; simp
        · simp [hlen]
        · intro a ha
          rcases List.mem_cons.mp ha with rfl | ha
          · rw [hal]; exact readU32_lt data pos
          · exact hall a ha
        · simp only [List.map_cons, List.flatten_cons, hal]
          have e1 := drop_eq_u32le_append data pos (by omega)
          have e2 := (List.take_append_drop (readU32 data pos) (data.drop (pos + 4))).symm
          rw [List.drop_drop, hdrop] at e2
          rw [e1, List.append_assoc]
          congr 1

/-- C38. `parse_req(data, len, out)` called with an empty `out` returns `0`
with `out = args` if and only if `args` has at most `k_max_args = 1024`
arguments, each of a length that fits a `u32`, and `data` is exactly the
canonical encoding of `args` (the number of arguments, then for each argument
its length followed by its bytes, with no missing and no trailing byte); it
returns `-1` exactly for the inputs that are no such encoding. -/
theorem parse_req_canonical (data : List Byte) (args : List (List Byte)) :
    (parse_req data = some args ↔
      args.length ≤ k_max_args ∧ (∀ a ∈ args, a.length < 2 ^ 32) ∧
        data = canonicalEncoding args) ∧
    (parse_req data = none ↔
      ¬ ∃ args' : List (List Byte), args'.length ≤ k_max_args ∧
        (∀ a ∈ args', a.length < 2 ^ 32) ∧ data = canonicalEncoding args') := by
  have hfwd : ∀ args' : List (List Byte), parse_req data = some args' →
      args'.length ≤ k_max_args ∧ (∀ a ∈ args', a.length < 2 ^ 32) ∧
        data = canonicalEncoding args' := by
    intro args' h
    unfold parse_req at h
    split at h
    · cases h
    · rename_i h4
      simp only at h
      split at h
      · cases h
      · rename_i hn
        obtain ⟨l, hres, hlen, hall, hdrop⟩ := parseLoop_decode data _ 4 [] args' h
        simp only [List.nil_append] at hres
        subst hres
        refine ⟨by omega, hall, ?_⟩
        unfold canonicalEncoding
        rw [hlen, ← hdrop]
        have := drop_eq_u32le_append data 0 (by omega)
        simpa using this
  have hbwd : ∀ args' : List (List Byte), args'.length ≤ k_max_args →
      (∀ a ∈ args', a.length < 2 ^ 32) → parse_req (canonicalEncoding args') = some args' := by
    intro args' hlen hall
    have hk : k_max_args = 1024 := rfl
    have hread : readU32 (canonicalEncoding args') 0 = args'.length :=
      readU32_u32le_head _ args'.length (by omega)
    have h4 : (u32le args'.length).length = 4 := rfl
    unfold parse_req
    rw [if_neg (by unfold canonicalEncoding; simp only [List.length_append, h4]; omega)]
    simp only [hread]
    rw [if_neg (by omega)]
    have := parseLoop_encoded args' (u32le args'.length) [] hall
    simpa [canonicalEncoding, h4] using this
  refine ⟨⟨hfwd args, ?_⟩, ?_, ?_⟩
  · rintro ⟨h1, h2, h3⟩
    rw [h3]
    exact hbwd args h1 h2
  · intro hnone
    rintro ⟨args', h1, h2, h3⟩
    rw [h3, hbwd args' h1 h2] at hnone
    cases hnone
  · intro hno
    cases h : parse_req data with
    | none => rfl
    | some args' => exact absurd ⟨args', hfwd args' h⟩ hno

/-! ## Binary tree: the in-order traversal -/

/-- The loop of `predict` over the indices `a .. a + k - 1`: it keeps what it
was given when no index is below the bound, and otherwise returns the first
index at the least distance. -/
theorem nearestLoop_first (dist : Nat → Flt) (k : Nat) :
    ∀ (a : Nat) (m : Flt) (c : Int),
      (nearestLoop dist (List.range' a k) m c = c ∧ ∀ n, a ≤ n → n < a + k → ¬ dist n < m) ∨
      (∃ s : Nat, nearestLoop dist (List.range' a k) m c = (s : Int) ∧ a ≤ s ∧ s < a + k ∧
        dist s < m ∧ (∀ n, a ≤ n → n < a + k → dist s ≤ dist n) ∧
        (∀ n, a ≤ n → n < s → dist s < dist n)) := by
  induction k with
  | zero => intro a m c; exact Or.inl ⟨rfl, fun n h1 h2 => by omega⟩
  | succ k ih =>
    intro a m c
    simp only [List.range'_succ, nearestLoop]
    by_cases hlt : dist a < m
    · rw [if_pos hlt]
      right
      rcases ih (a + 1) (dist a) (a : Int) with ⟨h1, h2⟩ | ⟨s, h1, h2, h3, h4, h5, h6⟩
      · refine ⟨a, h1, le_refl _, by omega, hlt, ?_, fun n h7 h8 => by omega⟩
        intro n hn1 hn2
        by_cases hna : n = a
        · rw [hna]
        · exact not_lt.mp (h2 n (by omega) (by omega))
      · refine ⟨s, h1, by omega, by omega, lt_trans h4 hlt, ?_, ?_⟩
        · intro n hn1 hn2
          by_cases hna : n = a
          · rw [hna]; exact le_of_lt h4
          · exact h5 n (by omega) (by omega)
        · intro n hn1 hn2
          by_cases hna : n = a
          · rw [hna]; exact h4
          · exact h6 n (by omega) hn2
    · rw [if_neg hlt]
      rcases ih (a + 1) m c with ⟨h1, h2⟩ | ⟨s, h1, h2, h3, h4, h5, h6⟩
      · left
        refine ⟨h1, ?_⟩
        intro n hn1 hn2
        by_cases hna : n = a
        · rw [hna]; exact hlt
        · exact h2 n (by omega) (by omega)
      · right
        have hsa : dist s < dist a := lt_of_lt_of_le h4 (not_lt.mp hlt)
        refine ⟨s, h1, by omega, by omega, h4, ?_, ?_⟩
        · intro n hn1 hn2
          by_cases hna : n = a
          · rw [hna]; exact le_of_lt hsa
          · exact h5 n (by omega) (by omega)
        · intro n hn1 hn2
          by_cases hna : n = a
          · rw [hna]; exact hsa
          · exact h6 n (by omega) hn2

namespace KNN

/-- The function `predict` with at least one centroid returns an index of a
centroid; when some centroid is within `FLT_MAX` of the vector, it is the
first index at the least distance. -/
theorem predict_spec (k : KNN) (vec : Vec) (hc : 1 ≤ k.num_centroids) :
    0 ≤ k.predict vec ∧ k.predict vec ≤ k.num_centroids - 1 ∧
    ((∃ j, j < k.num_centroids.toNat ∧
        k.distanceFunction vec (k.centroids.getD j []) < FLT_MAX) →
      ∀ j, j < k.num_centroids.toNat →
        k.distanceFunction vec (k.centroids.getD (k.predict vec).toNat [])
            ≤ k.distanceFunction vec (k.centroids.getD j []) ∧
        (j < (k.predict vec).toNat →
          k.distanceFunction vec (k.centroids.getD (k.predict vec).toNat [])
            < k.distanceFunction vec (k.centroids.getD j []))) ∧
    ((¬ ∃ j, j < k.num_centroids.toNat ∧
        k.distanceFunction vec (k.centroids.getD j []) < FLT_MAX) → k.predict vec = 0) := by
  have hn : (k.num_centroids.toNat : Int) = k.num_centroids := Int.toNat_of_nonneg (by omega)
  unfold predict
  rw [List.range_eq_range']
  rcases nearestLoop_first (fun i => k.distanceFunction vec (k.centroids.getD i []))
      k.num_centroids.toNat 0 FLT_MAX 0 with ⟨h1, h2⟩ | ⟨s, h1, _, h3, h4s, h5, h6⟩
  · rw [h1]
    refine ⟨le_refl _, by omega, ?_, fun _ => rfl⟩
    rintro ⟨j, hj, hlt⟩
    exact absurd hlt (h2 j (by omega) (by omega))
  · rw [h1]
    refine ⟨by omega, by omega, ?_, ?_⟩
    · intro _ j hj
      simp only [Int.toNat_ofNat]
      exact ⟨h5 j (by omega) (by omega), fun hjs => h6 j (by omega) hjs⟩
    · intro hno
      exact absurd ⟨s, by omega, h4s⟩ hno

/-- The loop of `initializeCentroids` keeps the number of centroids. -/
theorem foldl_set_length {α : Type} (f : Nat → α) (l : List Nat) :
    ∀ cs : List α, (l.foldl (fun centroids i => centroids.set i (f i)) cs).length = cs.length := by
  induction l with
  | nil => intro cs; rfl
  | cons i rest ih => intro cs; simp only [List.foldl_cons]; rw [ih]; simp

/-- The loop of `updateCentroids` keeps the number of centroids. -/
theorem foldl_updateStep_length (k : KNN) (l : List Nat) :
    ∀ st : Bool × List Vec, (l.foldl (updateStep k) st).2.length = st.2.length := by
  induction l with
  | nil => intro st; rfl
  | cons i rest ih =>
    intro st
    simp only [List.foldl_cons]
    rw [ih]
    unfold updateStep
    split
    · rfl
    · split
      · simp
      · rfl

/-- The loop of `train` keeps the parameters and the number of centroids. -/
theorem trainLoop_shape (data : List Vec) (fuel : Nat) :
    ∀ k k' : KNN, trainLoop fuel k data = .ok k' →
      k'.num_centroids = k.num_centroids ∧ k'.centroids.length = k.centroids.length := by
  induction fuel with
  | zero => intro k k' h; cases h
  | succ fuel ih =>
    intro k k' h
    simp only [trainLoop] at h
    cases ha : k.assignToNearestCentroids data with
    | error e => rw [ha] at h; cases h
    | ok p =>
      obtain ⟨changed, k1⟩ := p
      rw [ha] at h
      simp only at h
      have hk1 : k1.num_centroids = k.num_centroids ∧ k1.centroids = k.centroids := by
        unfold assignToNearestCentroids at ha
        split at ha
        · cases ha
        · cases ha; exact ⟨rfl, rfl⟩
      have hu : k1.updateCentroids.2.num_centroids = k1.num_centroids ∧
          k1.updateCentroids.2.centroids.length = k1.centroids.length :=
        ⟨rfl, foldl_updateStep_length k1 _ _⟩
      split at h
      · obtain ⟨h1, h2⟩ := ih _ _ h
        exact ⟨by rw [h1, hu.1, hk1.1], by rw [h2, hu.2, hk1.2]⟩
      · cases h
        exact ⟨by rw [hu.1, hk1.1], by rw [hu.2, hk1.2]⟩

/-- The function `train` keeps the parameters and the number of centroids. -/
theorem train_shape (k k' : KNN) (data : List Vec) (fuel : Nat) (g g' : Gen)
    (h : k.train data fuel g = .ok (k', g')) :
    k'.num_centroids = k.num_centroids ∧ k'.centroids.length = k.centroids.length := by
  unfold train at h
  cases hi : k.initializeCentroids data g with
  | error e => rw [hi] at h; cases h
  | ok p =>
    obtain ⟨k1, g1⟩ := p
    rw [hi] at h
    simp only at h
    have hk1 : k1.num_centroids = k.num_centroids ∧ k1.centroids.length = k.centroids.length := by
      unfold initializeCentroids at hi
      split at hi
      · cases hi
      · cases hi
        exact ⟨rfl, foldl_set_length _ _ _⟩
    cases ht : trainLoop fuel k1 data with
    | error e => rw [ht] at h; cases h
    | ok k2 =>
      rw [ht] at h
      cases h
      obtain ⟨h1, h2⟩ := trainLoop_shape data fuel k1 k' ht
      exact ⟨by rw [h1, hk1.1], by rw [h2, hk1.2]⟩

end KNN

namespace ProductQuantizer

/-- The models that the constructor makes: as many as asked for, each with
`num_centroids` centroids. -/
theorem makeModels_spec (vector_len num_centroids num_subspaces : Int) (n : Nat) :
    ∀ models, makeModels vector_len num_centroids num_subspaces n = .ok models →
      models.length = n ∧ ∀ knn ∈ models, knn.num_centroids = num_centroids ∧
        knn.centroids.length = num_centroids.toNat := by
  induction n with
  | zero => intro models h; cases h; exact ⟨rfl, fun knn hk => absurd hk (List.not_mem_nil _)⟩
  | succ n ih =>
    intro models h
    simp only [makeModels] at h
    cases hk : KNN.init (Int.tdiv vector_len num_subspaces) num_centroids
        defaultSquaredDistance with
    | error e => rw [hk] at h; cases h
    | ok knn =>
      rw [hk] at h
      simp only at h
      cases hm : makeModels vector_len num_centroids num_subspaces n with
      | error e => rw [hm] at h; cases h
      | ok rest =>
        rw [hm] at h
        cases h
        obtain ⟨h1, h2⟩ := ih rest hm
        refine ⟨by simp [h1], ?_⟩
        intro x hx
        rcases List.mem_cons.mp hx with rfl | hx
        · unfold KNN.init at hk
          split at hk
          · cases hk
          · cases hk
            exact ⟨rfl, by simp⟩
        · exact h2 x hx

/-- The constructor makes a well-formed object. -/
theorem create_wellFormed (vector_len num_centroids num_subspaces : Int)
    (projections : List (Vec → Vec)) (pq : ProductQuantizer)
    (h : create vector_len num_centroids num_subspaces projections = .ok pq) : pq.WellFormed := by
  unfold create at h
  split at h
  · cases h
  · rename_i h0
    split at h
    · cases h
    · rename_i hp
      split at h
      · cases h
      · rename_i hneg
        cases hm : makeModels vector_len num_centroids num_subspaces (toSizeT num_subspaces) with
        | error e => rw [hm] at h; cases h
        | ok models =>
          rw [hm] at h
          cases h
          obtain ⟨h1, h2⟩ := makeModels_spec _ _ _ _ models hm
          have hp' : projections.length = toSizeT num_subspaces := by
            by_contra hc
            exact hp hc
          have hpos : 0 < num_subspaces := by omega
          exact ⟨hpos, hp', h1, h2⟩

/-- The loop of `train` over the projections keeps the number of models and the
number of centroids of each. -/
theorem trainModels_shape (projections : List (Vec → Vec)) (data : List Vec) (fuel : Nat)
    (nc : Int) (n : Nat) :
    ∀ (i : Nat) (models models' : List KNN) (g g' : Gen),
      trainModels projections data fuel n i models g = .ok (models', g') →
      (∀ knn ∈ models, knn.num_centroids = nc ∧ knn.centroids.length = nc.toNat) →
      models'.length = models.length ∧
      ∀ knn ∈ models', knn.num_centroids = nc ∧ knn.centroids.length = nc.toNat := by
  induction n with
  | zero => intro i models models' g g' h hall; cases h; exact ⟨rfl, hall⟩
  | succ n ih =>
    intro i models models' g g' h hall
    simp only [trainModels] at h
    split at h
    · rename_i projection knn hp hk
      cases ht : knn.train (data.map projection) fuel g with
      | error e => rw [ht] at h; cases h
      | ok p =>
        obtain ⟨knn1, g1⟩ := p
        rw [ht] at h
        simp only at h
        have hsh := KNN.train_shape knn knn1 _ fuel g g1 ht
        have hknn := hall knn (List.getElem?_mem hk)
        obtain ⟨h1, h2⟩ := ih (i + 1) (models.set i knn1) models' g1 g' h (by
          intro x hx
          rcases List.mem_or_eq_of_mem_set hx with hx | rfl
          · exact hall x hx
          · exact ⟨by rw [hsh.1, hknn.1], by rw [hsh.2, hknn.2]⟩)
        exact ⟨by rw [h1]; simp, h2⟩
    · cases h

/-- Every object that the constructor and `train` produce is well formed. -/
theorem reachable_wellFormed (pq : ProductQuantizer) (h : pq.Reachable) : pq.WellFormed := by
  induction h with
  | create vector_len num_centroids num_subspaces projections pq h =>
    exact create_wellFormed _ _ _ _ pq h
  | train pq pq' data fuel g g' _ _ h ih =>
    unfold train at h
    cases ht : trainModels pq.projections data fuel pq.projections.length 0 pq.knnModels g with
    | error e => rw [ht] at h; cases h
    | ok p =>
      obtain ⟨models, g1⟩ := p
      rw [ht] at h
      cases h
      obtain ⟨h1, h2⟩ := trainModels_shape _ _ _ pq.num_centroids _ _ _ _ _ _ ht ih.2.2.2
      exact ⟨ih.1, ih.2.1, by show models.length = _; rw [h1]; exact ih.2.2.1, h2⟩

/-- The loop of `quantize` from the position `i` on: it returns, keeps the
entries before `i` and writes the prediction of every later subspace. -/
theorem quantizeLoop_spec (pq : ProductQuantizer) (vec : Vec) (n : Nat) :
    ∀ (i : Nat) (indices : List Int), i + n = pq.projections.length →
      pq.knnModels.length = pq.projections.length → indices.length = pq.projections.length →
      ∃ result, quantizeLoop pq vec n i indices = .ok result ∧
        result.length = pq.projections.length ∧
        (∀ j, j < i → result[j]? = indices[j]?) ∧
        ∀ j, i ≤ j → j < pq.projections.length →
          ∃ projection knn, pq.projections[j]? = some projection ∧
            pq.knnModels[j]? = some knn ∧ result[j]? = some (knn.predict (projection vec)) := by
  induction n with
  | zero =>
    intro i indices hi _ hl
    exact ⟨indices, rfl, hl, fun j _ => rfl, fun j h1 h2 => by omega⟩
  | succ n ih =>
    intro i indices hi hk hl
    have hip : i < pq.projections.length := by omega
    have hik : i < pq.knnModels.length := by omega
    simp only [quantizeLoop, List.getElem?_eq_getElem hip, List.getElem?_eq_getElem hik]
    rw [if_pos (by omega)]
    obtain ⟨result, h1, h2, h3, h4⟩ := ih (i + 1)
      (indices.set i (pq.knnModels[i].predict (pq.projections[i] vec))) (by omega) hk
      (by simp [hl])
    refine ⟨result, h1, h2, ?_, ?_⟩
    · intro j hj
      rw [h3 j (by omega), List.getElem?_set_ne (by omega)]
    · intro j hj1 hj2
      by_cases hji : j = i
      · subst hji
        refine ⟨pq.projections[j], pq.knnModels[j], List.getElem?_eq_getElem hip,
          List.getElem?_eq_getElem hik, ?_⟩
        rw [h3 j (by omega), List.getElem?_set_self (by omega)]
      · exact h4 j (by omega) hj2

end ProductQuantizer

/-- C40. For every ProductQuantizer that the constructor and `train` produce,
with `num_centroids ≥ 1`, and every input vector `v` whose projections are no
longer than the centroids of their models (which keeps every read of the
distance inside its vector), `quantize(v)` returns exactly `num_subspaces`
indices, each in `[0, num_centroids - 1]`, the `i`-th being `predict` of the
`i`-th model on the `i`-th projection of `v`: the index of the first centroid
of subspace `i` at minimum distance from that projection.  The distances
meant are those below `FLT_MAX`, the bound that `predict` starts from and the
range in which the exact arithmetic of the model stands for `float`; when no
centroid is within `FLT_MAX` the index is `0`. -/
theorem quantize_first_nearest (pq : ProductQuantizer) (v : Vec) (hr : pq.Reachable)
    (hc : 1 ≤ pq.num_centroids) (hint : pq.num_subspaces < 2 ^ 31)
    (hfit : ∀ (i : Nat) (projection : Vec → Vec) (knn : KNN),
      pq.projections[i]? = some projection → pq.knnModels[i]? = some knn →
      ∀ c ∈ knn.centroids, (projection v).length ≤ c.length) :
    ∃ indices, pq.quantize v = .ok indices ∧ (indices.length : Int) = pq.num_subspaces ∧
      ∀ i : Nat, (i : Int) < pq.num_subspaces →
        ∃ (projection : Vec → Vec) (knn : KNN),
          pq.projections[i]? = some projection ∧ pq.knnModels[i]? = some knn ∧
          indices[i]? = some (knn.predict (projection v)) ∧
          0 ≤ knn.predict (projection v) ∧ knn.predict (projection v) ≤ pq.num_centroids - 1 ∧
          ((∃ j, j < pq.num_centroids.toNat ∧
              knn.distanceFunction (projection v) (knn.centroids.getD j []) < FLT_MAX) →
            ∀ j, j < pq.num_centroids.toNat →
              knn.distanceFunction (projection v)
                  (knn.centroids.getD (knn.predict (projection v)).toNat [])
                ≤ knn.distanceFunction (projection v) (knn.centroids.getD j []) ∧
              (j < (knn.predict (projection v)).toNat →
                knn.distanceFunction (projection v)
                    (knn.centroids.getD (knn.predict (projection v)).toNat [])
                  < knn.distanceFunction (projection v) (knn.centroids.getD j []))) ∧
          ((¬ ∃ j, j < pq.num_centroids.toNat ∧
              knn.distanceFunction (projection v) (knn.centroids.getD j []) < FLT_MAX) →
            knn.predict (projection v) = 0) := by
  obtain ⟨hpos, hp, hk, hall⟩ := ProductQuantizer.reachable_wellFormed pq hr
  have h64 : (2 : Int) ^ 64 = 18446744073709551616 := by norm_num
  have h31 : (2 : Int) ^ 31 = 2147483648 := by norm_num
  have hts : (toSizeT pq.num_subspaces : Int) = pq.num_subspaces := by
    unfold toSizeT
    rw [h64]
    omega
  obtain ⟨result, h1, h2, _, h4⟩ := ProductQuantizer.quantizeLoop_spec pq v pq.projections.length
    0 (List.replicate (toSizeT pq.num_subspaces) 0) (by omega) (by rw [hk, hp])
    (by rw [List.length_replicate, hp])
  refine ⟨result, ?_, ?_, ?_⟩
  · unfold ProductQuantizer.quantize
    rw [if_neg (by omega)]
    exact h1
  · rw [h2, hp]; exact hts
  · intro i hi
    obtain ⟨projection, knn, hpi, hki, hri⟩ := h4 i (by omega) (by rw [hp]; omega)
    have hknn := hall knn (List.getElem?_mem hki)
    have hspec := KNN.predict_spec knn (projection v) (by rw [hknn.1]; exact hc)
    rw [hknn.1] at hspec
    exact ⟨projection, knn, hpi, hki, hri, hspec.1, hspec.2.1, hspec.2.2.1, hspec.2.2.2⟩


/-! ## The objects used as instances -/

/-- The graph `exampleLayerGraph` is well formed. -/
theorem exampleLayerGraph_valid : exampleLayerGraph.Valid := by
  obtain ⟨g, gen', hg, hv, _⟩ := HNSW_graph.insertAll_connected
    [(0, [0]), (1, [1]), (2, [22]), (3, [15]), (4, ([9] : Vec))]
    (HNSW_graph.empty (9 / 10) 1 1 1 defaultDistance : HNSW_graph Nat) ⟨fun _ => 0, 0⟩
    (HNSW_graph.empty_valid (9 / 10) 1 1 1 defaultDistance (by decide))
    (HNSW_graph.empty_symmetric (9 / 10) 1 1 1 defaultDistance)
    (by intro x hx; simp [HNSW_graph.empty] at hx)
  have h : exampleLayerGraph = g := by
    unfold exampleLayerGraph HNSW_graph.afterInserts
    rw [hg]
  rw [h]
  exact hv

/-- The construction of `exampleVamanaGraph` returns, and every edge of the
graph stays inside its arena. -/
theorem exampleVamanaGraph_valid : exampleVamanaGraph.Valid := by
  have hev : (match Vamana.build [(0, [9]), (1, [1]), (2, [0]), (3, ([4] : Vec))] 1 1 1 1
        ⟨fun _ => 11, 0⟩ with
      | .ok (v, _) => some v.startNode
      | .error _ => none) = some (some 3) := by decide!
  cases hb : Vamana.build [((0 : Nat), [9]), (1, [1]), (2, [0]), (3, ([4] : Vec))] 1 1 1 1
      ⟨fun _ => 11, 0⟩ with
  | error err => rw [hb] at hev; cases hev
  | ok p =>
    obtain ⟨v, gen'⟩ := p
    have h : exampleVamanaGraph = v := by
      unfold exampleVamanaGraph
      rw [hb]
    obtain ⟨s, _, _, hbd, _⟩ := Vamana.build_shape _ _ _ _ _ _ gen' v (by simp) hb
    rw [h]
    intro n x hx
    rw [hbd.1]
    exact Vamana.outgoing_bounded v _ hbd n x hx

/-- The construction of `exampleVamanaWide` returns, and every edge of the
graph stays inside its arena. -/
theorem exampleVamanaWide_valid : exampleVamanaWide.Valid := by
  have hev : (match Vamana.build [(0, [8]), (1, [0]), (2, [20]), (3, [5]), (4, ([7] : Vec))]
        1 1 2 1 ⟨fun _ => 59, 0⟩ with
      | .ok (v, _) => some v.startNode
      | .error _ => none) = some (some 0) := by decide!
  cases hb : Vamana.build [((0 : Nat), [8]), (1, [0]), (2, [20]), (3, [5]), (4, ([7] : Vec))]
      1 1 2 1 ⟨fun _ => 59, 0⟩ with
  | error err => rw [hb] at hev; cases hev
  | ok p =>
    obtain ⟨v, gen'⟩ := p
    have h : exampleVamanaWide = v := by
      unfold exampleVamanaWide
      rw [hb]
    obtain ⟨s, _, _, hbd, _⟩ := Vamana.build_shape _ _ _ _ _ _ gen' v (by simp) hb
    rw [h]
    intro n x hx
    rw [hbd.1]
    exact Vamana.outgoing_bounded v _ hbd n x hx

/-! ## Beam search: the statements at instances -/

/-- C7, as amended, at an instance: the HNSW graph `exampleLayerGraph` of five
nodes, searched from the node `4`, and the Vamana graph `exampleVamanaGraph`
of four nodes with the start node `3`, the query `[3]`, `ef1 = 2` and
`ef2 = 5`.  With `ef1` the searches return the nodes `4, 3` (HNSW) and `3, 1`
(Vamana); with `ef2` they return every node. -/
theorem beam_superset_when_wide_witness :
    (exampleLayerGraph.Valid ∧ 0 < exampleLayerGraph.num_layers ∧
      4 < exampleLayerGraph.nodes.length ∧ exampleLayerGraph.nodes.length ≤ 5 ∧
      exampleVamanaGraph.Valid ∧ exampleVamanaGraph.startNode = some 3 ∧
      3 < exampleVamanaGraph.arena.length ∧ exampleVamanaGraph.arena.length ≤ 5 ∧
      exampleVamanaGraph.QueryFits [3]) ∧
    (exampleLayerGraph.search_layer 0 4 [3] 2 = .ok [4, 3] ∧
      exampleLayerGraph.search_layer 0 4 [3] 5 = .ok [1, 0, 4, 3, 2] ∧
      exampleLayerGraph.search [3] 2 = .ok [4, 3] ∧
      exampleLayerGraph.search [3] 5 = .ok [1, 0, 4, 3, 2] ∧
      exampleVamanaGraph.search [3] 2 = .ok [3, 1] ∧
      exampleVamanaGraph.search [3] 5 = .ok [3, 1, 2, 0]) ∧
    ((∃ r1 r2, exampleLayerGraph.search_layer 0 4 [3] 2 = .ok r1 ∧
        exampleLayerGraph.search_layer 0 4 [3] 5 = .ok r2 ∧ ∀ x ∈ r1, x ∈ r2) ∧
      (∃ r1 r2, exampleLayerGraph.search [3] 2 = .ok r1 ∧
        exampleLayerGraph.search [3] 5 = .ok r2 ∧ ∀ x ∈ r1, x ∈ r2) ∧
      (∃ r1 r2, exampleVamanaGraph.search [3] 2 = .ok r1 ∧
        exampleVamanaGraph.search [3] 5 = .ok r2 ∧ ∀ x ∈ r1, x ∈ r2)) :=
  ⟨⟨exampleLayerGraph_valid, by decide!, by decide!, by decide!, exampleVamanaGraph_valid,
      by decide!, by decide!, by decide!, by decide!⟩,
    ⟨by decide!, by decide!, by decide!, by decide!, by decide!, by decide!⟩,
    beam_superset_when_wide exampleLayerGraph exampleVamanaGraph 0 4 3 [3] 2 5
      exampleLayerGraph_valid (by decide!) (by decide!) (by decide!) exampleVamanaGraph_valid
      (by decide!) (by decide!) (by decide!) (by decide!)⟩

/-- C32, at an instance: the graph `exampleLayerGraph`, whose edges form the
chain `0 - 1 - 2 - 3 - 4` over the vectors `[0]`, `[1]`, `[22]`, `[15]`, `[9]`,
searched from the node `4` for the query `[3]` with `ef = 2`.  The search
returns the nodes `4` and `3`, at the squared distances `36` and `144`; the
node `2` is visited and not kept, the nodes `1` and `0` are never visited. -/
theorem search_layer_sound_witness :
    (exampleLayerGraph.Valid ∧ 0 < exampleLayerGraph.num_layers ∧
      4 < exampleLayerGraph.nodes.length ∧ 1 ≤ 2) ∧
    ((List.range 5).map (exampleLayerGraph.adjacents 0) = [[1], [0, 2], [1, 3], [2, 4], [3]] ∧
      exampleLayerGraph.search_layer 0 4 [3] 2 = .ok [4, 3]) ∧
    ∃ r, exampleLayerGraph.search_layer 0 4 [3] 2 = .ok r ∧ 1 ≤ r.length ∧ r.length ≤ 2 ∧
      r.Nodup ∧
      (∀ x ∈ r, Relation.ReflTransGen (fun a b => b ∈ exampleLayerGraph.adjacents 0 a) 4 x) ∧
      (r.map (fun n => exampleLayerGraph.distanceFunction (exampleLayerGraph.vecOf n) [3])).Pairwise
        (fun a b => a ≤ b) :=
  ⟨⟨exampleLayerGraph_valid, by decide!, by decide!, by decide⟩, ⟨by decide!, by decide!⟩,
    search_layer_sound exampleLayerGraph 0 4 [3] 2 exampleLayerGraph_valid (by decide!)
      (by decide!) (by decide)⟩

/-- C34, at an instance: the HNSW graph `exampleLayerGraph` searched from the
node `2` and the Vamana graph `exampleVamanaWide` with the start node `0`, the
query `[13]` and `ef = 2`.  Both searches end by the stop test.  In the HNSW
graph the candidate `1`, at the squared distance `144`, is popped when the
list of the nearest holds the nodes `3` and `4`, at `4` and `16`, and the
node `0` is never visited.  In the Vamana graph the candidate `1`, at `169`,
is popped when the list holds the nodes `0` and `2`, at `25` and `49`, and the
nodes `3` and `4` are never visited.  The reference beam search returns the
same lists. -/
theorem beam_stop_condition_matches_spec_witness :
    (1 ≤ 2 ∧ exampleLayerGraph.Valid ∧ 0 < exampleLayerGraph.num_layers ∧
      2 < exampleLayerGraph.nodes.length ∧ exampleVamanaWide.Valid ∧
      exampleVamanaWide.startNode = some 0 ∧ 0 < exampleVamanaWide.arena.length ∧
      exampleVamanaWide.QueryFits [13]) ∧
    ((List.range 5).map (exampleLayerGraph.adjacents 0) = [[1], [0, 2], [1, 3], [2, 4], [3]] ∧
      (List.range 5).map exampleVamanaWide.outgoing =
        [[1, 2, 2, 2, 2, 2, 2, 2], [0, 2, 2, 2, 2, 2, 2], [0, 1, 1, 1], [0, 1, 1], [0, 1, 1]] ∧
      exampleLayerGraph.search_layer 0 2 [13] 2 = .ok [3, 4] ∧
      exampleVamanaWide.search [13] 2 = .ok [0, 2]) ∧
    (∃ r, exampleLayerGraph.search_layer 0 2 [13] 2 = .ok r ∧
      specBeamSearch (exampleLayerGraph.adjacents 0)
        (fun n => exampleLayerGraph.distanceFunction (exampleLayerGraph.vecOf n) [13]) 2
        (exampleLayerGraph.nodes.length + 1) 2 = some r) ∧
    (∃ r, exampleVamanaWide.search [13] 2 = .ok r ∧
      specBeamSearch exampleVamanaWide.outgoing
        (fun n => defaultDistance (exampleVamanaWide.vecOf n) [13]) 2
        (exampleVamanaWide.arena.length + 1) 0 = some r) :=
  ⟨⟨by decide, exampleLayerGraph_valid, by decide!, by decide!, exampleVamanaWide_valid,
      by decide!, by decide!, by decide!⟩,
    ⟨by decide!, by decide!, by decide!, by decide!⟩,
    beam_stop_condition_matches_spec exampleLayerGraph exampleVamanaWide 0 2 0 [13] 2
      (by decide) exampleLayerGraph_valid (by decide!) (by decide!) exampleVamanaWide_valid
      (by decide!) (by decide!) (by decide!)⟩

/-! ## The catalog: the statements at instances -/

namespace VectorSearchEngine

variable {K : Type}

/-- A call of `addToCollection` leads from a reachable catalog to a reachable
catalog. -/
theorem reachable_added [DecidableEq K] (e : VectorSearchEngine K) (name : String) (key : K)
    (values : Vec) (gen : Gen) (hr : Reachable e) :
    Reachable (e.added name key values gen).1 := by
  unfold added
  cases h : e.addToCollection name key values gen with
  | error err => exact hr
  | ok p =>
    obtain ⟨b, e1, gen1⟩ := p
    exact Reachable.addToCollection e e1 name key values gen gen1 b hr h

/-- A call of `addAlgorithm` leads from a reachable catalog to a reachable
catalog. -/
theorem reachable_registered [DecidableEq K] (e : VectorSearchEngine K) (algName name : String)
    (mk : List (Record K) → Except Fault (VectorSearchAlgorithm K)) (hr : Reachable e) :
    Reachable (e.registered algName name mk) := by
  unfold registered
  cases h : e.addAlgorithm algName name mk with
  | error err => exact hr
  | ok p =>
    obtain ⟨returned, e1⟩ := p
    exact Reachable.addAlgorithm e e1 algName name returned mk hr h

end VectorSearchEngine

theorem exampleCollections_reachable : VectorSearchEngine.Reachable exampleCollections.1 :=
  VectorSearchEngine.reachable_added _ _ _ _ _
    (VectorSearchEngine.reachable_added _ _ _ _ _
      (VectorSearchEngine.reachable_added _ _ _ _ _ VectorSearchEngine.Reachable.init))

theorem exampleCatalog_reachable : VectorSearchEngine.Reachable exampleCatalog :=
  VectorSearchEngine.reachable_registered _ _ _ _ exampleCollections_reachable

/-- The vectors stored in the graph of the collection `"C"` of `exampleCatalog`
have two coordinates. -/
theorem exampleCatalog_fits (vec : Vec) (h : 2 ≤ vec.length) :
    ∀ c, exampleCatalog.collections.find "C" = some c → c.hnswGraph.QueryFits vec := by
  have hev : (exampleCatalog.collections.find "C").map
      (fun c => c.hnswGraph.nodes.map (fun x => x.value.2.length)) = some [2, 2] := by decide!
  intro c hc x hx
  rw [hc] at hev
  simp only [Option.map_some', Option.some.injEq] at hev
  have hm : x.value.2.length ∈ c.hnswGraph.nodes.map (fun x => x.value.2.length) :=
    List.mem_map_of_mem _ hx
  rw [hev] at hm
  simp only [List.mem_cons, List.mem_singleton, List.not_mem_nil, or_false, or_self] at hm
  omega

/-- C19, as amended, at two instances.  On the catalog right after its
construction the command `add_to_collection C a 1,0` returns the code `1` and
leaves the catalog as it is.  On the catalog `exampleCatalog`, whose collection
`"C"` holds two records of two coordinates, the command
`add_to_collection C c 1,0` returns `RES_OK` and the collection then holds the
record `("c", [1, 0])` as its third. -/
theorem add_to_collection_missing_collection_witness :
    (4 ≤ ["add_to_collection", "C", "a", "1,0"].length ∧
      (VectorSearchEngine.init : VectorSearchEngine String).collections.find
        (["add_to_collection", "C", "a", "1,0"].getD 1 "") = none ∧
      (VectorSearchEngine.init : VectorSearchEngine String).add_to_collection exampleStof
        ["add_to_collection", "C", "a", "1,0"] ⟨fun _ => 0, 0⟩
        = .ok ⟨RES_ERR, "", VectorSearchEngine.init, ⟨fun _ => 0, 0⟩⟩) ∧
    (4 ≤ ["add_to_collection", "C", "c", "1,0"].length ∧
      ∃ c, exampleCatalog.collections.find (["add_to_collection", "C", "c", "1,0"].getD 1 "")
          = some c ∧
        c.data = [("a", [1, 0]), ("b", [0, 0])] ∧
        parseFloats exampleStof
          (getlineItems (["add_to_collection", "C", "c", "1,0"].getD 3 "").toList [])
          = some [1, 0] ∧
        VectorSearchEngine.Reachable exampleCatalog ∧ c.hnswGraph.QueryFits [1, 0] ∧
        ∃ e' gen', exampleCatalog.add_to_collection exampleStof
            ["add_to_collection", "C", "c", "1,0"] ⟨fun _ => 0, 0⟩
            = .ok ⟨RES_OK, "", e', gen'⟩ ∧
          (e'.collections.find (["add_to_collection", "C", "c", "1,0"].getD 1 "")).map
              (fun c => c.data)
            = some (c.data ++ [(["add_to_collection", "C", "c", "1,0"].getD 2 "", [1, 0])])) := by
  have hev : (exampleCatalog.collections.find "C").map (fun c => c.data)
      = some [("a", [1, 0]), ("b", [0, 0])] := by decide!
  refine ⟨⟨by decide, rfl,
    (add_to_collection_missing_collection exampleStof VectorSearchEngine.init
      ["add_to_collection", "C", "a", "1,0"] ⟨fun _ => 0, 0⟩ (by decide)).1 rfl⟩, by decide, ?_⟩
  cases hc : exampleCatalog.collections.find "C" with
  | none => rw [hc] at hev; cases hev
  | some c =>
    rw [hc] at hev
    have hdata : c.data = [("a", [1, 0]), ("b", [0, 0])] := by
      simpa using hev
    have hparse : parseFloats exampleStof
        (getlineItems (["add_to_collection", "C", "c", "1,0"].getD 3 "").toList [])
        = some [1, 0] := by decide!
    have hfit : c.hnswGraph.QueryFits [1, 0] := exampleCatalog_fits [1, 0] (by decide) c hc
    exact ⟨c, hc, hdata, hparse, exampleCatalog_reachable, hfit,
      (add_to_collection_missing_collection exampleStof exampleCatalog
        ["add_to_collection", "C", "c", "1,0"] ⟨fun _ => 0, 0⟩ (by decide)).2 c [1, 0] hc hparse
        exampleCatalog_reachable hfit⟩

/-- C29, at an instance: in the catalog `exampleCollections`, whose collection
`"C"` holds the records `("a", [1, 0])` and `("b", [0, 0])`, an HNSW index is
registered as `"idx"`.  The index answers the query `[0, 0]` with `ef = 1` by
the record `"b"` and with `ef = 2` by both records, and so does
`queryAlgorithm("idx", ·, ·)` afterwards; the name `"other"` is not registered
and is answered by the empty list. -/
theorem addAlgorithm_registers_witness :
    ∃ c alg, (exampleCollections.1.collections.find "C" = some c ∧
        exampleCollections.1.algorithms.find "idx" = none ∧
        exampleMk exampleCollections.2 c.data = .ok alg) ∧
      (c.data = [("a", [1, 0]), ("b", [0, 0])] ∧
        alg.searchClosest [0, 0] 1 = .ok [("b", [0, 0])] ∧
        alg.searchClosest [0, 0] 2 = .ok [("b", [0, 0]), ("a", [1, 0])]) ∧
      ∃ returned e',
        exampleCollections.1.addAlgorithm "idx" "C" (exampleMk exampleCollections.2)
          = .ok (returned, e') ∧
        "idx" ∈ e'.listAlgorithmNames ∧
        (∀ q ef, e'.queryAlgorithm "idx" q ef = alg.searchClosest q ef) ∧
        (∀ b q ef, e'.algorithms.find b = none → e'.queryAlgorithm b q ef = .ok []) := by
  have hev0 : (exampleCollections.1.collections.find "C").map (fun c => c.data)
      = some [("a", [1, 0]), ("b", [0, 0])] := by decide!
  have hev1 : (match exampleCollections.1.collections.find "C" with
      | some c =>
          (match exampleMk exampleCollections.2 c.data with
            | .ok alg => some (alg.searchClosest [0, 0] 1)
            | .error _ => none)
      | none => none) = some (.ok [("b", [0, 0])]) := by decide!
  have hev2 : (match exampleCollections.1.collections.find "C" with
      | some c =>
          (match exampleMk exampleCollections.2 c.data with
            | .ok alg => some (alg.searchClosest [0, 0] 2)
            | .error _ => none)
      | none => none) = some (.ok [("b", [0, 0]), ("a", [1, 0])]) := by decide!
  have hnone : (exampleCollections.1.algorithms.find "idx").isNone = true := by decide!
  cases hc : exampleCollections.1.collections.find "C" with
  | none => rw [hc] at hev0; cases hev0
  | some c =>
    rw [hc] at hev0 hev1 hev2
    simp only at hev1 hev2
    cases hmk : exampleMk exampleCollections.2 c.data with
    | error err => rw [hmk] at hev1; cases hev1
    | ok alg =>
      rw [hmk] at hev1 hev2
      simp only [Option.some.injEq] at hev1 hev2
      have ha : exampleCollections.1.algorithms.find "idx" = none :=
        Option.isNone_iff_eq_none.mp hnone
      exact ⟨c, alg, ⟨rfl, ha, hmk⟩, ⟨by simpa using hev0, hev1, hev2⟩,
        addAlgorithm_registers exampleCollections.1 "idx" "C"
          (exampleMk exampleCollections.2) c alg hc ha hmk⟩

/-! ## Annoy, Vamana, product quantizer: the statements at instances -/

/-- C11, at an instance: a forest of two trees with `threshold = +infinity`,
the first a node with the default pivots and two leaf children, the second a
single leaf, queried for `[1]` with `k = 2`.  The first tree is searched
through both children; there are four candidates, and the two returned are
the records `("c", [1])` and `("a", [0])`, at the squared distances `0` and
`1`. -/
theorem annoy_forest_query_topk_witness :
    ((0 : Int) ≤ 2 ∧
      List.Forall₂ (fun t l => AnnoyTree.findContainingList t [1] = .ok l)
        [(⟨.node defaultPivot defaultPivot [] (TreeNode.leaf [("a", [0]), ("b", [3])])
            (TreeNode.leaf [("c", [1])]), ⊤, 2, 5⟩ : AnnoyTree String),
          ⟨TreeNode.leaf [("a", [0])], ⊤, 2, 5⟩]
        [[("a", [0]), ("b", [3]), ("c", [1])], [("a", [0])]] ∧
      [[("a", ([0] : Vec)), ("b", [3]), ("c", [1])], [("a", [0])]].flatten.length < 2 ^ 31 ∧
      (∀ t ∈ [(⟨.node defaultPivot defaultPivot [] (TreeNode.leaf [("a", [0]), ("b", [3])])
            (TreeNode.leaf [("c", [1])]), ⊤, 2, 5⟩ : AnnoyTree String),
          ⟨TreeNode.leaf [("a", [0])], ⊤, 2, 5⟩], t.root.PivotsCover ([1] : Vec).length) ∧
      (∀ l ∈ [[("a", ([0] : Vec)), ("b", [3]), ("c", [1])], [("a", [0])]], ∀ item ∈ l,
        ([1] : Vec).length ≤ item.2.length)) ∧
    AnnoyTreeForest.query
      (⟨[⟨.node defaultPivot defaultPivot [] (TreeNode.leaf [("a", [0]), ("b", [3])])
            (TreeNode.leaf [("c", [1])]), ⊤, 2, 5⟩,
          ⟨TreeNode.leaf [("a", [0])], ⊤, 2, 5⟩], ⊤, 2, 5, 2, true, 1⟩ :
        AnnoyTreeForest String) [1] 2 = .ok [("c", 0, [1]), ("a", 1, [0])] ∧
    ∃ r rest,
      AnnoyTreeForest.query
        (⟨[⟨.node defaultPivot defaultPivot [] (TreeNode.leaf [("a", [0]), ("b", [3])])
              (TreeNode.leaf [("c", [1])]), ⊤, 2, 5⟩,
            ⟨TreeNode.leaf [("a", [0])], ⊤, 2, 5⟩], ⊤, 2, 5, 2, true, 1⟩ :
          AnnoyTreeForest String) [1] 2 = .ok r ∧
      r.length = min (2 : Int).toNat
        [[("a", ([0] : Vec)), ("b", [3]), ("c", [1])], [("a", [0])]].flatten.length ∧
      List.Sorted (fun a b => a.2.1 ≤ b.2.1) r ∧
      (∀ x ∈ r, x.2.1 = calculateSquaredDistance [1] x.2.2) ∧
      List.Perm (r ++ rest)
        ([[("a", ([0] : Vec)), ("b", [3]), ("c", [1])], [("a", [0])]].flatten.map
          (fun item => (item.1, calculateSquaredDistance [1] item.2, item.2))) ∧
      ∀ x ∈ r, ∀ y ∈ rest, x.2.1 ≤ y.2.1 :=
  have hl : List.Forall₂ (fun t l => AnnoyTree.findContainingList t [1] = .ok l)
      [(⟨.node defaultPivot defaultPivot [] (TreeNode.leaf [("a", [0]), ("b", [3])])
          (TreeNode.leaf [("c", [1])]), ⊤, 2, 5⟩ : AnnoyTree String),
        ⟨TreeNode.leaf [("a", [0])], ⊤, 2, 5⟩]
      [[("a", [0]), ("b", [3]), ("c", [1])], [("a", [0])]] :=
    List.Forall₂.cons (by decide!) (List.Forall₂.cons (by decide!) List.Forall₂.nil)
  have hpiv : ∀ t ∈ [(⟨.node defaultPivot defaultPivot [] (TreeNode.leaf [("a", [0]), ("b", [3])])
          (TreeNode.leaf [("c", [1])]), ⊤, 2, 5⟩ : AnnoyTree String),
        ⟨TreeNode.leaf [("a", [0])], ⊤, 2, 5⟩], t.root.PivotsCover ([1] : Vec).length := by
    intro t ht
    simp only [List.mem_cons, List.mem_singleton, List.not_mem_nil, or_false] at ht
    rcases ht with rfl | rfl <;>
      simp [TreeNode.PivotsCover, TreeNode.leaf, defaultPivot]
  have hitems : ∀ l ∈ [[("a", ([0] : Vec)), ("b", [3]), ("c", [1])], [("a", [0])]],
      ∀ item ∈ l, ([1] : Vec).length ≤ item.2.length := by decide
  ⟨⟨by decide, hl, by decide, hpiv, hitems⟩, by decide!,
    annoy_forest_query_topk _ [1] 2 [[("a", [0]), ("b", [3]), ("c", [1])], [("a", [0])]]
      (by decide) hl (by decide) hpiv hitems⟩

/-- C27, as amended, at an instance: the graph built over the records `[9]`,
`[1]`, `[0]`, `[4]` with `R = 1`, `alpha = 1` and shuffles that keep the order
has the start node `3`, with an edge to the node `0`, which has edges to the
nodes `1` and `2`: every node can be reached.  For the query `[3]` and
`ef = 4`, `searchClosest` returns the four records, nearest first. -/
theorem vamana_exact_recall_when_reachable_witness :
    ([((0 : Nat), ([9] : Vec)), (1, [1]), (2, [0]), (3, [4])] ≠ [] ∧
      [((0 : Nat), ([9] : Vec)), (1, [1]), (2, [0]), (3, [4])].length ≤ toSizeT 4 ∧
      (∀ r ∈ [((0 : Nat), ([9] : Vec)), (1, [1]), (2, [0]), (3, [4])],
        (r.2.length : Int) = 1) ∧
      ((([3] : Vec).length : Int) = 1)) ∧
    ∃ v gen', Vamana.build [((0 : Nat), ([9] : Vec)), (1, [1]), (2, [0]), (3, [4])] 1 1 1 1
        ⟨fun _ => 11, 0⟩ = .ok (v, gen') ∧
      (∀ s, v.startNode = some s →
        ∀ x, x < [((0 : Nat), ([9] : Vec)), (1, [1]), (2, [0]), (3, [4])].length →
        Relation.ReflTransGen (fun a b => b ∈ v.outgoing a) s x) ∧
      v.searchClosest [3] 4 = .ok [(3, [4]), (1, [1]), (2, [0]), (0, [9])] ∧
      ∃ result, v.searchClosest [3] 4 = .ok result ∧
        List.Perm result [((0 : Nat), ([9] : Vec)), (1, [1]), (2, [0]), (3, [4])] ∧
        (result.map (fun rec => defaultDistance rec.2 [3])).Pairwise (fun a b => a ≤ b) := by
  have hev : (match Vamana.build [((0 : Nat), ([9] : Vec)), (1, [1]), (2, [0]), (3, [4])]
        1 1 1 1 ⟨fun _ => 11, 0⟩ with
      | .ok (v, _) => some (v.startNode, v.outgoing 3, v.outgoing 0)
      | .error _ => none) = some (some 3, [0, 0], [1, 1, 2, 2, 2, 2]) := by decide!
  have hev2 : (match Vamana.build [((0 : Nat), ([9] : Vec)), (1, [1]), (2, [0]), (3, [4])]
        1 1 1 1 ⟨fun _ => 11, 0⟩ with
      | .ok (v, _) => v.searchClosest [3] 4
      | .error err => .error err) = .ok [(3, [4]), (1, [1]), (2, [0]), (0, [9])] := by decide!
  cases hb : Vamana.build [((0 : Nat), ([9] : Vec)), (1, [1]), (2, [0]), (3, [4])] 1 1 1 1
      ⟨fun _ => 11, 0⟩ with
  | error err => rw [hb] at hev; cases hev
  | ok p =>
    obtain ⟨v, gen'⟩ := p
    rw [hb] at hev hev2
    simp only [Option.some.injEq, Prod.mk.injEq] at hev
    have hreach : ∀ s, v.startNode = some s →
        ∀ x, x < [((0 : Nat), ([9] : Vec)), (1, [1]), (2, [0]), (3, [4])].length →
        Relation.ReflTransGen (fun a b => b ∈ v.outgoing a) s x := by
      intro s hs x hx
      rw [hev.1] at hs
      cases hs
      have h30 : Relation.ReflTransGen (fun a b => b ∈ v.outgoing a) 3 0 :=
        Relation.ReflTransGen.single (by rw [hev.2.1]; simp)
      have hx4 : x < 4 := hx
      interval_cases x
      · exact h30
      · exact h30.tail (by rw [hev.2.2]; simp)
      · exact h30.tail (by rw [hev.2.2]; simp)
      · exact Relation.ReflTransGen.refl
    exact ⟨⟨by simp, by decide, by decide, by decide⟩, v, gen', rfl, hreach, hev2,
      vamana_exact_recall_when_reachable
        [((0 : Nat), ([9] : Vec)), (1, [1]), (2, [0]), (3, [4])] 1 1 1 1
        ⟨fun _ => 11, 0⟩ gen' v [3] 4 (by simp) hb hreach (by decide) (by decide) (by decide)⟩

/-- The quantizer `trainedPQ` is what `train` returns on `examplePQ`. -/
theorem trainedPQ_reachable : trainedPQ.Reachable := by
  have hr : examplePQ.Reachable :=
    ProductQuantizer.Reachable.create 2 2 2 [projectFirstHalf, projectSecondHalf] examplePQ rfl
  have hfits : examplePQ.TrainFits [[0, 10], [4, 20], [6, 20]] := by
    intro i projection knn hp hk vec hvec
    simp only [List.mem_cons, List.mem_singleton, List.not_mem_nil, or_false] at hvec
    match i with
    | 0 =>
      simp only [examplePQ, List.getElem?_cons_zero, Option.some.injEq] at hp hk
      subst hp hk
      rcases hvec with rfl | rfl | rfl <;> rfl
    | 1 =>
      simp only [examplePQ, List.getElem?_cons_succ, List.getElem?_cons_zero,
        Option.some.injEq] at hp hk
      subst hp hk
      rcases hvec with rfl | rfl | rfl <;> rfl
    | n + 2 => simp [examplePQ] at hp
  unfold trainedPQ
  cases h : examplePQ.train [[0, 10], [4, 20], [6, 20]] 5 ⟨fun _ => 0, 0⟩ with
  | error err => exact hr
  | ok p =>
    obtain ⟨pq, g'⟩ := p
    exact ProductQuantizer.Reachable.train examplePQ pq _ 5 _ g' hr hfits h

/-- The projections of `trainedPQ` are those of `examplePQ`. -/
theorem trainedPQ_projections :
    trainedPQ.projections = [projectFirstHalf, projectSecondHalf] := by
  unfold trainedPQ
  cases h : examplePQ.train [[0, 10], [4, 20], [6, 20]] 5 ⟨fun _ => 0, 0⟩ with
  | error err => rfl
  | ok p =>
    obtain ⟨pq, g'⟩ := p
    unfold ProductQuantizer.train at h
    split at h
    · cases h
    · cases h
      rfl

/-- C40, at an instance: the quantizer `trainedPQ`, trained on `[0, 10]`,
`[4, 20]`, `[6, 20]`, whose centroids are `[2]`, `[6]` for the first half and
`[10]`, `[20]` for the second half, and the vector `[5, 11]`: its indices are
`1, 0`, since `5` is nearer `6` than `2` and `11` is nearer `10` than `20`. -/
theorem quantize_first_nearest_witness :
    (trainedPQ.Reachable ∧ 1 ≤ trainedPQ.num_centroids ∧ trainedPQ.num_subspaces < 2 ^ 31 ∧
      ∀ (i : Nat) (projection : Vec → Vec) (knn : KNN),
        trainedPQ.projections[i]? = some projection → trainedPQ.knnModels[i]? = some knn →
        ∀ c ∈ knn.centroids, (projection [5, 11]).length ≤ c.length) ∧
    (trainedPQ.knnModels.map (fun knn => knn.centroids) = [[[2], [6]], [[10], [20]]] ∧
      trainedPQ.quantize [5, 11] = .ok [1, 0]) ∧
    ∃ indices, trainedPQ.quantize [5, 11] = .ok indices ∧
      (indices.length : Int) = trainedPQ.num_subspaces := by
  have hcent : trainedPQ.knnModels.map (fun knn => knn.centroids)
      = [[[2], [6]], [[10], [20]]] := by decide!
  have hfit : ∀ (i : Nat) (projection : Vec → Vec) (knn : KNN),
      trainedPQ.projections[i]? = some projection → trainedPQ.knnModels[i]? = some knn →
      ∀ c ∈ knn.centroids, (projection [5, 11]).length ≤ c.length := by
    intro i projection knn hp hk c hc
    rw [trainedPQ_projections] at hp
    have hk' : (trainedPQ.knnModels.map (fun knn => knn.centroids))[i]? = some knn.centroids := by
      rw [List.getElem?_map, hk]; rfl
    rw [hcent] at hk'
    match i with
    | 0 =>
      simp only [List.getElem?_cons_zero, Option.some.injEq] at hp hk'
      subst hp
      rw [← hk'] at hc
      simp only [List.mem_cons, List.mem_singleton, List.not_mem_nil, or_false] at hc
      rcases hc with rfl | rfl <;> decide
    | 1 =>
      simp only [List.getElem?_cons_succ, List.getElem?_cons_zero, Option.some.injEq] at hp hk'
      subst hp
      rw [← hk'] at hc
      simp only [List.mem_cons, List.mem_singleton, List.not_mem_nil, or_false] at hc
      rcases hc with rfl | rfl <;> decide
    | n + 2 => simp at hp
  exact ⟨⟨trainedPQ_reachable, by decide!, by decide!, hfit⟩, ⟨hcent, by decide!⟩,
    (quantize_first_nearest trainedPQ [5, 11] trainedPQ_reachable (by decide!) (by decide!)
      hfit).imp (fun _ h => ⟨h.1, h.2.1⟩)⟩

end VectorDB
